import Mathlib

/-!
# Resource resolution engine: `libs/androidfw/AssetManager2.cpp`

A shallow embedding of the entry resolver (`FindEntry`, `FindEntryInternal`), the filter
rebuild, the bag resolver (`GetBag`) and the cache invalidation of `AssetManager2`.

Conventions of the embedding

* 32-bit identifiers, masks and offsets are natural numbers; the source never relies on
  wrap-around for them in the functions embedded here.
* `kInvalidCookie` / `nullptr` results are `Option.none`; a cookie is an index into `apk_assets_`.
* Recursive member functions (`FindEntry` through overlay links, `GetBag` through parent bags)
  take a `fuel` argument bounding the call depth; the outer `Option` of their result is `none`
  exactly when the budget is exhausted.
* `ResTable_config`, `DynamicRefTable` and the chunk accessors of `LoadedPackage` are declared
  outside this source file.  The configuration type is a type parameter `κ` and the member
  functions the engine calls on it are the fields of `ResTable_configOps`; the rewriting functions
  of the dynamic reference table are the fields of `DynamicRefTableOps`.
-/

namespace android

/-! ## Values and resource identifiers -/

/-- A typed resource value (`Res_value`): a data type tag and 32 bits of data. -/
structure Res_value where
  dataType : Nat
  data : Nat
deriving DecidableEq, Repr

/-- Tag `Res_value::TYPE_NULL`. -/
def TYPE_NULL : Nat := 0
/-- Tag `Res_value::TYPE_REFERENCE`. -/
def TYPE_REFERENCE : Nat := 1
/-- Tag `Res_value::TYPE_ATTRIBUTE`. -/
def TYPE_ATTRIBUTE : Nat := 2
/-- Tag `Res_value::TYPE_STRING`. -/
def TYPE_STRING : Nat := 3
/-- Tag `Res_value::TYPE_DYNAMIC_REFERENCE`. -/
def TYPE_DYNAMIC_REFERENCE : Nat := 7
/-- Tag `Res_value::TYPE_DYNAMIC_ATTRIBUTE`. -/
def TYPE_DYNAMIC_ATTRIBUTE : Nat := 8
/-- Data `Res_value::DATA_NULL_EMPTY`. -/
def DATA_NULL_EMPTY : Nat := 1

/-- Modelled from the spec: `get_package_id` of `ResourceUtils.h` (not in this source file), the
top 8 bits of a 32-bit resource identifier. -/
def get_package_id (resid : Nat) : Nat := resid / 2 ^ 24 % 256

/-- Modelled from the spec: `get_type_id` of `ResourceUtils.h`, bits 16..23 of an identifier. -/
def get_type_id (resid : Nat) : Nat := resid / 2 ^ 16 % 256

/-- Modelled from the spec: `get_entry_id` of `ResourceUtils.h`, the low 16 bits. -/
def get_entry_id (resid : Nat) : Nat := resid % 2 ^ 16

/-- Modelled from the spec: `is_valid_resid` of `ResourceUtils.h`: package-id 0 is invalid and
the type-id is 1-based, `(resid & 0x00ff0000) != 0 && (resid & 0xff000000) != 0`. -/
def is_valid_resid (resid : Nat) : Bool :=
  get_type_id resid != 0 && get_package_id resid != 0

/-- Modelled from the spec: `is_internal_resid` of `ResourceUtils.h`, an internal-key
pseudo-attribute, `(resid & 0xffff0000) != 0 && (resid & 0x00ff0000) == 0`. -/
def is_internal_resid (resid : Nat) : Bool :=
  resid / 2 ^ 16 % 2 ^ 16 != 0 && get_type_id resid == 0

/-- Modelled from the spec: `fix_package_id` of `ResourceUtils.h`, replaces the package-id
byte of an identifier. -/
def fix_package_id (resid package_id : Nat) : Nat :=
  resid % 2 ^ 24 + package_id % 256 * 2 ^ 24

/-- Modelled from the spec: `make_resid` of `ResourceUtils.h`. -/
def make_resid (package_id type_id entry_id : Nat) : Nat :=
  package_id % 256 * 2 ^ 24 + type_id % 256 * 2 ^ 16 + entry_id % 2 ^ 16

/-! ## Configurations -/

/-- The member functions of `ResTable_config` the engine calls.  `ResTable_config` is declared
outside this source file, so the configuration type and these functions are parameters.
`isMatch c d` is `c.match(d)`, `isBetterThan c o d` is `c.isBetterThan(o, &d)`, `compare c o` is
`c.compare(o)`, `diff c o` is `c.diff(o)`, `zero` is the value-initialised `ResTable_config{}`. -/
structure ResTable_configOps (κ : Type) where
  zero : κ
  isMatch : κ → κ → Bool
  isBetterThan : κ → κ → κ → Bool
  compare : κ → κ → Int
  diff : κ → κ → Nat
  density : κ → Nat
  setDensity : κ → Nat → κ

/-! ## Resource table chunks -/

/-- One key/value pair of a complex entry (`ResTable_map`). -/
structure ResTable_map where
  name : Nat
  value : Res_value
deriving DecidableEq, Repr

/-- A raw table entry (`ResTable_entry`, possibly the head of a `ResTable_map_entry`).
`value` is the `Res_value` stored `size` bytes after the start of a simple entry; `parent` and
`maps` are the parent identifier and the `count` pairs that follow a complex entry. -/
structure ResTable_entry where
  size : Nat
  flags : Nat
  key : Nat
  value : Res_value
  parent : Nat
  maps : List ResTable_map
deriving DecidableEq, Repr

/-- Flag `ResTable_entry::FLAG_COMPLEX`. -/
def FLAG_COMPLEX : Nat := 1
/-- The constant `sizeof(ResTable_map_entry)`. -/
def sizeof_ResTable_map_entry : Nat := 16
/-- Offset `ResTable_type::NO_ENTRY`. -/
def NO_ENTRY : Nat := 0xFFFFFFFF

/-- A configuration-qualified entry table (`ResTable_type`): its 1-based type id, its
configuration (already in host byte order), the entry-offset array and the entries that can be
decoded at an offset. -/
structure ResTable_type (κ : Type) where
  id : Nat
  config : κ
  entry_offsets : List Nat
  entries : List (Nat × ResTable_entry)
deriving DecidableEq

/-- Modelled from the spec: `LoadedPackage::GetEntryOffset` (defined outside this source file):
the offset stored for the entry index, `NO_ENTRY` when the index is past the offset array. -/
def GetEntryOffset {κ : Type} (type : ResTable_type κ) (entry_idx : Nat) : Nat :=
  type.entry_offsets.getD entry_idx NO_ENTRY

/-- Modelled from the spec: `LoadedPackage::GetEntryFromOffset` (defined outside this source
file): the entry decoded at the offset, `none` (`nullptr`) when the offset does not hold a
well-formed entry. -/
def GetEntryFromOffset {κ : Type} (type : ResTable_type κ) (offset : Nat) :
    Option ResTable_entry :=
  type.entries.lookup offset

/-- A resource type of a package (`TypeSpec`): its type configurations in table order and the
per-entry configuration-variance masks. -/
structure TypeSpec (κ : Type) where
  types : List (ResTable_type κ)
  flags : List Nat
deriving DecidableEq

/-- Modelled from the spec: `TypeSpec::GetFlagsForEntryIndex`, the variance mask of an entry,
zero past the end of the array. -/
def TypeSpec.GetFlagsForEntryIndex {κ : Type} (spec : TypeSpec κ) (entry_idx : Nat) : Nat :=
  spec.flags.getD entry_idx 0

/-- An entry of a package's dynamic package map (`DynamicPackageEntry`). -/
structure DynamicPackageEntry where
  package_name : String
  package_id : Nat
deriving DecidableEq, Repr

/-- A package of a loaded resource table (`LoadedPackage`). `type_specs` is indexed by the
0-based type index.  `addr` is the address of the object: it stands for the identity of the
package where the source compares `LoadedPackage` pointers. -/
structure LoadedPackage (κ : Type) where
  addr : Nat
  package_name : String
  package_id : Nat
  dynamic : Bool
  system : Bool
  custom_loader : Bool
  type_specs : List (Option (TypeSpec κ))
  type_string_pool : List String
  key_string_pool : List String
  dynamic_package_map : List DynamicPackageEntry
deriving DecidableEq

/-- Modelled from the spec: `LoadedPackage::GetTypeSpecByTypeIndex`, `none` for `nullptr`. -/
def LoadedPackage.GetTypeSpecByTypeIndex {κ : Type} (p : LoadedPackage κ) (type_idx : Nat) :
    Option (TypeSpec κ) :=
  (p.type_specs.get? type_idx).join

/-! ## Dynamic reference tables and id-maps -/

/-- The data of a `DynamicRefTable` that `AssetManager2.cpp` reads and writes.
`target_assigned_package_id` and `overlay_entries` are set for the `OverlayDynamicRefTable`
an id-map supplies. -/
structure DynamicRefTable where
  mAssignedPackageId : Nat
  mAppAsLib : Bool
  mLookupTable : List (Nat × Nat)
  mEntries : List (String × Nat)
  target_assigned_package_id : Option Nat
  overlay_entries : List (Nat × Nat)
deriving DecidableEq, Repr

/-- The member functions of `DynamicRefTable` the engine calls; they are defined outside this
source file and are parameters.  `none` is a status other than `NO_ERROR`. -/
structure DynamicRefTableOps where
  lookupResourceId : DynamicRefTable → Nat → Option Nat
  lookupResourceValue : DynamicRefTable → Res_value → Option Res_value
  addMapping : DynamicRefTable → String → Nat → DynamicRefTable

/-- The result of an id-map lookup that found a mapping: an inline value or the identifier of
the overlay resource. -/
inductive IdmapResult where
  | inline (value : Res_value)
  | resource (resid : Nat)
deriving DecidableEq, Repr

/-- The id-map of one overlay as attached to its target (`IdmapResMap`).  The member
`overlay_ref_table_` is a pointer to the dynamic reference table of the overlay's own package
group (the table is shared with that group and is written through the group after the id-map
has been attached), so it is the index of that group in `package_groups_`. -/
structure IdmapResMap where
  entries : List (Nat × IdmapResult)
  overlay_ref_table_ : Nat
deriving DecidableEq, Repr

/-- Modelled from the spec: `IdmapResMap::Lookup` (defined outside this source file): the
id-map is keyed by target resource id and yields nothing, an inline value or a substitute
resource id. -/
def IdmapResMap.Lookup (m : IdmapResMap) (resid : Nat) : Option IdmapResult :=
  m.entries.lookup resid

/-- An overlay link of a package group (`ConfiguredOverlay`). -/
structure ConfiguredOverlay where
  overlay_res_maps_ : IdmapResMap
  cookie : Nat
deriving DecidableEq, Repr

/-- The loaded id-map of an overlay bundle (`LoadedIdmap`). -/
structure LoadedIdmap where
  target_apk_path : String
  overlay_apk_path : String
  GetOverlayDynamicRefTable : Nat → DynamicRefTable
  GetTargetResourcesMap : Nat → List (Nat × IdmapResult)

/-- A loaded bundle (`ApkAssets`). `addr` stands for the address of the object, which the
engine uses as its identity when it computes cookies. -/
structure ApkAssets (κ : Type) where
  addr : Nat
  path : String
  is_loader : Bool
  loaded_idmap : Option LoadedIdmap
  packages : List (LoadedPackage κ)

/-- Modelled from the spec: `ApkAssets::IsOverlay`, a bundle is an overlay when it carries an
id-map. -/
def ApkAssets.IsOverlay {κ : Type} (a : ApkAssets κ) : Bool := a.loaded_idmap.isSome

/-! ## Engine state -/

/-- The pre-filtered candidates of one type of one package (`FilteredConfigGroup`): two
parallel vectors. -/
structure FilteredConfigGroup (κ : Type) where
  configurations : List κ
  types : List (ResTable_type κ)

/-- A package together with its filtered candidate lists, indexed by type index
(`ConfiguredPackage`). -/
structure ConfiguredPackage (κ : Type) where
  loaded_package_ : LoadedPackage κ
  filtered_configs_ : List (FilteredConfigGroup κ)

/-- The packages that share one runtime package id (`PackageGroup`). -/
structure PackageGroup (κ : Type) where
  packages_ : List (ConfiguredPackage κ)
  cookies_ : List Nat
  overlays_ : List ConfiguredOverlay
  dynamic_ref_table : DynamicRefTable

/-- A reference into a string pool (`StringPoolRef`). -/
structure StringPoolRef where
  pool : List String
  index : Nat
deriving DecidableEq, Repr

/-- The kinds of resolution steps recorded by the trace (`Resolution::Step::Type`). -/
inductive StepType where
  | INITIAL | BETTER_MATCH | BETTER_MATCH_LOADER | OVERLAID | OVERLAID_LOADER
  | SKIPPED | SKIPPED_LOADER | NO_ENTRY | NO_ENTRY_LOADER
deriving DecidableEq, Repr

/-- One recorded step of the trace; `config_name` stands for `config.toString()`. -/
structure Step (κ : Type) where
  type : StepType
  config_name : κ
  package_name : String

/-- The last recorded resolution (`Resolution`); `cookie = none` is `kInvalidCookie`. -/
structure Resolution (κ : Type) where
  cookie : Option Nat
  resid : Nat
  steps : List (Step κ)
  type_string_ref : Option StringPoolRef
  entry_string_ref : Option StringPoolRef

/-- The `entry` member of `FindEntryResult`, a
`std::variant<Res_value, const ResTable_map_entry*>`. -/
inductive EntryVariant where
  | value (v : Res_value)
  | map_entry (m : ResTable_entry)
deriving DecidableEq, Repr

/-- The result of a lookup (`FindEntryResult`). -/
structure FindEntryResult (κ : Type) where
  entry : EntryVariant
  config : κ
  type_flags : Nat
  dynamic_ref_table : DynamicRefTable
  package_name : String
  type_string_ref : StringPoolRef
  entry_string_ref : StringPoolRef

/-- One entry of a resolved bag (`ResolvedBag::Entry`); the two pool pointers are always
`nullptr` in this file and are left out. -/
structure BagEntry where
  key : Nat
  value : Res_value
  cookie : Nat
  style : Nat
deriving DecidableEq, Repr

/-- A resolved bag (`ResolvedBag`); `entry_count` is the length of `entries`. -/
structure ResolvedBag where
  type_spec_flags : Nat
  entries : List BagEntry
deriving DecidableEq, Repr

/-- The engine (`AssetManager2`). `package_ids_` maps a package id to the index of its group,
`0xff` when there is none; the two caches are association lists keyed by resource id. -/
structure AssetManager2 (κ : Type) where
  apk_assets_ : List (ApkAssets κ)
  package_groups_ : List (PackageGroup κ)
  package_ids_ : List Nat
  configuration_ : κ
  cached_bags_ : List (Nat × ResolvedBag)
  cached_bag_resid_stacks_ : List (Nat × List Nat)
  resource_resolution_logging_enabled_ : Bool
  last_resolution_ : Resolution κ

/-! ## Entry resolver -/

/-- The `desired_config` argument of `FindEntryInternal`, a reference: either the address of the
member `configuration_` or the address of another configuration object. -/
inductive ConfigRef (κ : Type) where
  | configuration_
  | other (config : κ)

/-- The configuration a `desired_config` reference points to. -/
def ConfigRef.deref {κ : Type} (am : AssetManager2 κ) : ConfigRef κ → κ
  | .configuration_ => am.configuration_
  | .other c => c

/-- The test `&desired_config == &configuration_`. -/
def ConfigRef.isConfiguration_ {κ : Type} : ConfigRef κ → Bool
  | .configuration_ => true
  | .other _ => false

/-- The incumbent of the candidate scan: the local variables `best_cookie`, `best_package`,
`best_type`, `best_config` and `best_offset` of `FindEntryInternal`, which are assigned
together.  Before the first assignment (`best_config == nullptr`, `best_cookie ==
kInvalidCookie`) the incumbent is `none`. -/
structure BestEntry (κ : Type) where
  cookie : Nat
  package : LoadedPackage κ
  type : ResTable_type κ
  config : κ
  offset : Nat

/-- The mutable state of the candidate scan of `FindEntryInternal`: the incumbent, the
accumulated `type_flags`, the local `resolution_type` and `resolution_steps`, and
`last_resolution_.steps`. -/
structure ScanState (κ : Type) where
  best : Option (BestEntry κ)
  type_flags : Nat
  resolution_type : StepType
  resolution_steps : List (Step κ)
  steps : List (Step κ)

/-- The chain of tests that decides whether a (matching) candidate is considered
(source lines 647-663 and 711-720): `none` is the final `else` branch. -/
def classifyCandidate {κ : Type} (ops : ResTable_configOps κ) (desired_config : κ)
    (package_is_loader : Bool) (this_config : κ) (best : Option (BestEntry κ)) :
    Option StepType :=
  match best with
  | none => some StepType.INITIAL
  | some b =>
    if ops.isBetterThan this_config b.config desired_config then
      some (if package_is_loader then StepType.BETTER_MATCH_LOADER else StepType.BETTER_MATCH)
    else if package_is_loader && ops.compare this_config b.config == 0 then
      some StepType.OVERLAID_LOADER
    else
      none

/-- The fast-path loop of `FindEntryInternal` over the filtered candidates of one package
(source lines 639-694). -/
def fastScan {κ : Type} (ops : ResTable_configOps κ) (logging : Bool) (desired_config : κ)
    (entry_idx : Nat) (loaded_package : LoadedPackage κ) (cookie : Nat) :
    List (κ × ResTable_type κ) → ScanState κ → ScanState κ
  | [], st => st
  | (this_config, type) :: rest, st =>
    let package_is_loader := loaded_package.custom_loader
    match classifyCandidate ops desired_config package_is_loader this_config st.best with
    | none =>
      let st1 :=
        if logging then
          let resolution_type :=
            if package_is_loader then StepType.SKIPPED_LOADER else StepType.SKIPPED
          { st with
            resolution_type := resolution_type
            resolution_steps := st.resolution_steps ++
              [⟨resolution_type, this_config, loaded_package.package_name⟩] }
        else st
      fastScan ops logging desired_config entry_idx loaded_package cookie rest st1
    | some resolution_type =>
      let st1 := { st with resolution_type := resolution_type }
      let offset := GetEntryOffset type entry_idx
      if offset == NO_ENTRY then
        let st2 :=
          if logging then
            let resolution_type :=
              if package_is_loader then StepType.NO_ENTRY_LOADER else StepType.NO_ENTRY
            { st1 with
              resolution_type := resolution_type
              resolution_steps := st1.resolution_steps ++
                [⟨resolution_type, this_config, loaded_package.package_name⟩] }
          else st1
        fastScan ops logging desired_config entry_idx loaded_package cookie rest st2
      else
        let st2 := { st1 with best := some ⟨cookie, loaded_package, type, this_config, offset⟩ }
        let st3 :=
          if logging then
            { st2 with steps := st2.steps ++
                [⟨st2.resolution_type, this_config, loaded_package.package_name⟩] }
          else st2
        fastScan ops logging desired_config entry_idx loaded_package cookie rest st3

/-- The slow-path loop of `FindEntryInternal` over the raw type configurations of one package
(source lines 701-747).  With `ignore_configuration` the loop stops at the first live entry
(`break`). -/
def slowScan {κ : Type} (ops : ResTable_configOps κ) (logging : Bool)
    (ignore_configuration : Bool) (desired_config : κ)
    (entry_idx : Nat) (loaded_package : LoadedPackage κ) (cookie : Nat) :
    List (ResTable_type κ) → ScanState κ → ScanState κ
  | [], st => st
  | type :: rest, st =>
    let package_is_loader := loaded_package.custom_loader
    let this_config := if ignore_configuration then ops.zero else type.config
    let considered : Option (ScanState κ) :=
      if !ignore_configuration then
        if !ops.isMatch this_config desired_config then none
        else
          match classifyCandidate ops desired_config package_is_loader this_config st.best with
          | none => none
          | some resolution_type => some { st with resolution_type := resolution_type }
      else some st
    match considered with
    | none =>
      slowScan ops logging ignore_configuration desired_config entry_idx loaded_package cookie
        rest st
    | some st1 =>
      let offset := GetEntryOffset type entry_idx
      if offset == NO_ENTRY then
        slowScan ops logging ignore_configuration desired_config entry_idx loaded_package cookie
          rest st1
      else
        let st2 := { st1 with best := some ⟨cookie, loaded_package, type, this_config, offset⟩ }
        if ignore_configuration then st2
        else
          let st3 :=
            if logging then
              { st2 with steps := st2.steps ++
                  [⟨st2.resolution_type, this_config, loaded_package.package_name⟩] }
            else st2
          slowScan ops logging ignore_configuration desired_config entry_idx loaded_package
            cookie rest st3

/-- The loop of `FindEntryInternal` over the packages of the group (source lines 620-749);
`packages_` and `cookies_` are walked in parallel. -/
def packageScan {κ : Type} (ops : ResTable_configOps κ) (logging : Bool)
    (ignore_configuration use_fast_path : Bool) (desired_config : κ)
    (type_idx entry_idx : Nat) :
    List (ConfiguredPackage κ × Nat) → ScanState κ → ScanState κ
  | [], st => st
  | (loaded_package_impl, cookie) :: rest, st =>
    let loaded_package := loaded_package_impl.loaded_package_
    match loaded_package.GetTypeSpecByTypeIndex type_idx with
    | none =>
      packageScan ops logging ignore_configuration use_fast_path desired_config type_idx
        entry_idx rest st
    | some type_spec =>
      let st1 :=
        { st with type_flags := st.type_flags ||| type_spec.GetFlagsForEntryIndex entry_idx }
      let st2 :=
        if use_fast_path then
          let filtered_group := loaded_package_impl.filtered_configs_.getD type_idx ⟨[], []⟩
          fastScan ops logging desired_config entry_idx loaded_package cookie
            (filtered_group.configurations.zip filtered_group.types) st1
        else
          slowScan ops logging ignore_configuration desired_config entry_idx loaded_package
            cookie type_spec.types st1
      packageScan ops logging ignore_configuration use_fast_path desired_config type_idx
        entry_idx rest st2

/-- The decoding of the winning raw entry (source lines 760-771). -/
def decodeEntry (best_entry : ResTable_entry) : EntryVariant :=
  if best_entry.size ≥ sizeof_ResTable_map_entry ∧ (best_entry.flags &&& FLAG_COMPLEX) ≠ 0 then
    EntryVariant.map_entry best_entry
  else
    EntryVariant.value best_entry.value

/-- `AssetManager2::FindEntryInternal`.  The mutable member `last_resolution_` is passed in
and returned; the second component is `none` for `kInvalidCookie`. -/
def FindEntryInternal {κ : Type} (ops : ResTable_configOps κ) (am : AssetManager2 κ)
    (package_group : PackageGroup κ) (type_idx entry_idx : Nat) (desired_config : ConfigRef κ)
    (ignore_configuration : Bool) (last_resolution : Resolution κ) :
    Resolution κ × Option (Nat × FindEntryResult κ) :=
  let use_fast_path := !ignore_configuration && desired_config.isConfiguration_
  let st := packageScan ops am.resource_resolution_logging_enabled_ ignore_configuration
    use_fast_path (desired_config.deref am) type_idx entry_idx
    (package_group.packages_.zip package_group.cookies_)
    ⟨none, 0, StepType.NO_ENTRY, [], last_resolution.steps⟩
  let log := { last_resolution with steps := st.steps }
  match st.best with
  | none => (log, none)
  | some best =>
    match GetEntryFromOffset best.type best.offset with
    | none => (log, none)
    | some best_entry =>
      (log, some (best.cookie,
        { entry := decodeEntry best_entry
          config := best.config
          type_flags := st.type_flags
          dynamic_ref_table := package_group.dynamic_ref_table
          package_name := best.package.package_name
          type_string_ref := ⟨best.package.type_string_pool, (best.type.id + 2 ^ 32 - 1) % 2 ^ 32⟩
          entry_string_ref := ⟨best.package.key_string_pool, best_entry.key⟩ }))

/-- `AssetManager2::ResetResourceResolution`. -/
def ResetResourceResolution {κ : Type} : Resolution κ :=
  ⟨none, 0, [], none, none⟩

/-- Modelled from the spec: the table a newly constructed `DynamicRefTable()` holds (the
constructor is defined outside this source file): no assigned id and the two reserved package
ids, `0x7f` for the application and `0x01` for the platform, mapped to themselves. -/
def DynamicRefTable.new : DynamicRefTable :=
  ⟨0, false, [(0x7f, 0x7f), (0x01, 0x01)], [], none, []⟩

/-- `IdmapResMap::GetOverlayDynamicRefTable`: the table the pointer `overlay_ref_table_`
refers to. -/
def IdmapResMap.GetOverlayDynamicRefTable {κ : Type} (am : AssetManager2 κ) (m : IdmapResMap) :
    DynamicRefTable :=
  match am.package_groups_.get? m.overlay_ref_table_ with
  | some g => g.dynamic_ref_table
  | none => DynamicRefTable.new

/-- The lookup result type of `FindEntry`: the new `last_resolution_` and the cookie and entry,
`none` for `kInvalidCookie`. -/
abbrev FindResult (κ : Type) : Type := Resolution κ × Option (Nat × FindEntryResult κ)

/-- The overlay loop of `FindEntry` (source lines 550-587).  `findEntry` is the recursive call
`FindEntry(overlay_entry.GetResourceId(), density_override, false, ignore_configuration, _)`;
the outer `Option` is `none` when that call exhausts the call-depth budget. -/
def overlayScan {κ : Type} (ops : ResTable_configOps κ) (am : AssetManager2 κ) (logging : Bool)
    (findEntry : Nat → Resolution κ → Option (FindResult κ)) (resid : Nat)
    (desired_config : κ) :
    List ConfiguredOverlay → Nat → FindEntryResult κ → Resolution κ →
      Option (Resolution κ × Nat × FindEntryResult κ)
  | [], cookie, out_entry, log => some (log, cookie, out_entry)
  | id_map :: rest, cookie, out_entry, log =>
    match id_map.overlay_res_maps_.Lookup resid with
    | none => overlayScan ops am logging findEntry resid desired_config rest cookie out_entry log
    | some (IdmapResult.inline value) =>
      overlayScan ops am logging findEntry resid desired_config rest id_map.cookie
        { out_entry with
          entry := EntryVariant.value value
          dynamic_ref_table := id_map.overlay_res_maps_.GetOverlayDynamicRefTable am } log
    | some (IdmapResult.resource overlay_resid) =>
      match findEntry overlay_resid log with
      | none => none
      | some (log1, none) =>
        overlayScan ops am logging findEntry resid desired_config rest cookie out_entry log1
      | some (log1, some (overlay_cookie, overlay_result)) =>
        if !ops.isBetterThan overlay_result.config out_entry.config desired_config
            && ops.compare overlay_result.config out_entry.config != 0 then
          overlayScan ops am logging findEntry resid desired_config rest cookie out_entry log1
        else
          let log2 :=
            if logging then
              { log1 with steps := log1.steps ++
                  [⟨StepType.OVERLAID, overlay_result.config, overlay_result.package_name⟩] }
            else log1
          overlayScan ops am logging findEntry resid desired_config rest overlay_cookie
            { out_entry with
              entry := overlay_result.entry
              config := overlay_result.config
              dynamic_ref_table := id_map.overlay_res_maps_.GetOverlayDynamicRefTable am } log2

/-- Whether `apk_assets_[cookie]->IsLoader()`. -/
def IsLoaderCookie {κ : Type} (am : AssetManager2 κ) (cookie : Nat) : Bool :=
  match am.apk_assets_.get? cookie with
  | some a => a.is_loader
  | none => false

/-- The selection of the desired configuration in `FindEntry` (source lines 514-523): the
member `configuration_`, or a copy of it with the density overridden when a non-zero
`density_override` differs from the current density. -/
def selectDesiredConfig {κ : Type} (ops : ResTable_configOps κ) (am : AssetManager2 κ)
    (density_override : Nat) : ConfigRef κ :=
  if density_override != 0 && density_override != ops.density am.configuration_ then
    ConfigRef.other (ops.setDensity am.configuration_ density_override)
  else ConfigRef.configuration_

/-- `AssetManager2::FindEntry`.  The first argument bounds the depth of the recursion through
overlay links; `last_resolution_` is passed in and returned. -/
def FindEntry {κ : Type} (ops : ResTable_configOps κ) (am : AssetManager2 κ) :
    Nat → Nat → Nat → Bool → Resolution κ → Option (FindResult κ)
  | 0, _, _, _, _ => none
  | fuel + 1, resid, density_override, ignore_configuration, last_resolution =>
    let logging := am.resource_resolution_logging_enabled_
    let log0 : Resolution κ :=
      if logging then { (ResetResourceResolution : Resolution κ) with resid := resid }
      else last_resolution
    let desired_config : ConfigRef κ := selectDesiredConfig ops am density_override
    if !is_valid_resid resid then some (log0, none)
    else
      let package_id := get_package_id resid
      let type_idx := get_type_id resid - 1
      let entry_idx := get_entry_id resid
      let package_idx := am.package_ids_.getD package_id 0xff
      if package_idx == 0xff then some (log0, none)
      else
        match am.package_groups_.get? package_idx with
        | none => some (log0, none)
        | some package_group =>
          match FindEntryInternal ops am package_group type_idx entry_idx desired_config
              ignore_configuration log0 with
          | (log1, none) => some (log1, none)
          | (log1, some (cookie0, out_entry0)) =>
            let overlaid :=
              if !IsLoaderCookie am cookie0 then
                overlayScan ops am logging
                  (fun r l => FindEntry ops am fuel r density_override ignore_configuration l)
                  resid (desired_config.deref am) package_group.overlays_ cookie0 out_entry0 log1
              else some (log1, cookie0, out_entry0)
            match overlaid with
            | none => none
            | some (log2, cookie, out_entry) =>
              let log3 :=
                if logging then
                  { log2 with
                    cookie := some cookie
                    type_string_ref := some out_entry.type_string_ref
                    entry_string_ref := some out_entry.entry_string_ref }
                else log2
              some (log3, some (cookie, out_entry))

/-! ## Filter rebuild, cache invalidation, configuration change -/

/-- The filtered candidates `RebuildFilterList` computes for one type of a package
(source lines 1279-1288). -/
def filterTypeSpec {κ : Type} (ops : ResTable_configOps κ) (configuration : κ)
    (filter_incompatible_configs : Bool) (spec : TypeSpec κ) : FilteredConfigGroup κ :=
  let kept := spec.types.filter
    (fun type => !filter_incompatible_configs || ops.isMatch type.config configuration)
  ⟨kept.map (fun type => type.config), kept⟩

/-- The filtered candidate lists `RebuildFilterList` computes for a package: one group per type
index, empty where the package has no type spec. -/
def filterPackage {κ : Type} (ops : ResTable_configOps κ) (configuration : κ)
    (filter_incompatible_configs : Bool) (package : LoadedPackage κ) :
    List (FilteredConfigGroup κ) :=
  package.type_specs.map (fun o =>
    match o with
    | none => ⟨[], []⟩
    | some spec => filterTypeSpec ops configuration filter_incompatible_configs spec)

/-- `AssetManager2::RebuildFilterList`.  `SetConfiguration` calls it without an argument, that
is with the default of the parameter, filtering enabled. -/
def RebuildFilterList {κ : Type} (ops : ResTable_configOps κ) (am : AssetManager2 κ)
    (filter_incompatible_configs : Bool) : AssetManager2 κ :=
  { am with
    package_groups_ := am.package_groups_.map (fun group =>
      { group with
        packages_ := group.packages_.map (fun impl =>
          { impl with
            filtered_configs_ := filterPackage ops am.configuration_
              filter_incompatible_configs impl.loaded_package_ }) }) }

/-- The purge loop of `InvalidateCaches` over `cached_bags_` (source lines 1305-1311). -/
def purgeBags (diff : Nat) : List (Nat × ResolvedBag) → List (Nat × ResolvedBag)
  | [] => []
  | (resid, bag) :: rest =>
    if (diff &&& bag.type_spec_flags) != 0 then purgeBags diff rest
    else (resid, bag) :: purgeBags diff rest

/-- `AssetManager2::InvalidateCaches`. -/
def InvalidateCaches {κ : Type} (am : AssetManager2 κ) (diff : Nat) : AssetManager2 κ :=
  let am1 := { am with cached_bag_resid_stacks_ := [] }
  if diff == 0xffffffff then { am1 with cached_bags_ := [] }
  else { am1 with cached_bags_ := purgeBags diff am1.cached_bags_ }

/-- `AssetManager2::SetConfiguration`. -/
def SetConfiguration {κ : Type} (ops : ResTable_configOps κ) (am : AssetManager2 κ)
    (configuration : κ) : AssetManager2 κ :=
  let diff := ops.diff am.configuration_ configuration
  let am1 := { am with configuration_ := configuration }
  if diff != 0 then InvalidateCaches (RebuildFilterList ops am1 true) diff
  else am1

/-! ## Runtime id registry -/

/-- The loop state of `BuildDynamicRefTable`: the two members it rebuilds and its locals
`apk_assets_package_ids` and `next_package_id`. -/
structure BuildState (κ : Type) where
  package_groups_ : List (PackageGroup κ)
  package_ids_ : List Nat
  apk_assets_package_ids : List (String × Nat)
  next_package_id : Nat

/-- The map `apk_assets_cookies` of `BuildDynamicRefTable` (source lines 97-101): the object
address of every bundle is mapped to its position, a later position replacing an earlier one. -/
def apk_assets_cookies {κ : Type} (apk_assets : List (ApkAssets κ)) : List (Nat × Nat) :=
  (List.range apk_assets.length).foldl
    (fun m i =>
      match apk_assets.get? i with
      | some a => (a.addr, i) :: m.filter (fun e => e.1 != a.addr)
      | none => m) []

/-- Applies `f` to the element at position `i` of a vector. -/
def modifyAt {α : Type} (f : α → α) (i : Nat) (l : List α) : List α :=
  match l.get? i with
  | some a => l.set i (f a)
  | none => l

/-- `KeyedVector::replaceValueFor` on `mEntries`. -/
def replaceValueFor (entries : List (String × Nat)) (name : String) (id : Nat) :
    List (String × Nat) :=
  if entries.any (fun e => e.1 == name) then
    entries.map (fun e => if e.1 == name then (name, id) else e)
  else entries ++ [(name, id)]

/-- The body of the inner loop of `BuildDynamicRefTable` for one package of one bundle
(source lines 108-169). -/
def addPackage {κ : Type} (cookies : List (Nat × Nat)) (apk_assets : ApkAssets κ)
    (package : LoadedPackage κ) (st : BuildState κ) : BuildState κ :=
  let package_id := if package.dynamic then st.next_package_id else package.package_id
  let next_package_id :=
    if package.dynamic then st.next_package_id + 1 else st.next_package_id
  let cookie := (cookies.lookup apk_assets.addr).getD 0
  let idx0 := st.package_ids_.getD package_id 0xff
  let created : Nat × List Nat × List (PackageGroup κ) :=
    if idx0 == 0xff then
      let idx := st.package_groups_.length % 256
      let package_ids := st.package_ids_.set package_id idx
      let groups0 : List (PackageGroup κ) :=
        st.package_groups_ ++ [⟨[], [], [], DynamicRefTable.new⟩]
      let last := groups0.length - 1
      let groups1 : List (PackageGroup κ) :=
        match apk_assets.loaded_idmap with
        | none => groups0
        | some loaded_idmap =>
          match st.apk_assets_package_ids.lookup loaded_idmap.target_apk_path with
          | none => groups0
          | some target_package_id =>
            let target_idx := package_ids.getD target_package_id 0xff
            let overlay_table := loaded_idmap.GetOverlayDynamicRefTable target_package_id
            let groups := modifyAt (fun g => { g with dynamic_ref_table := overlay_table })
              last groups0
            modifyAt (fun g => { g with overlays_ := g.overlays_ ++
                [⟨⟨loaded_idmap.GetTargetResourcesMap target_package_id, last⟩, cookie⟩] })
              target_idx groups
      let groups2 := modifyAt (fun g =>
          { g with dynamic_ref_table :=
              { g.dynamic_ref_table with
                mAssignedPackageId := package_id
                mAppAsLib := package.dynamic && package.package_id == 0x7f } })
        last groups1
      (idx, package_ids, groups2)
    else (idx0, st.package_ids_, st.package_groups_)
  let groups3 := modifyAt (fun g =>
      { g with
        packages_ := g.packages_ ++ [⟨package, []⟩]
        cookies_ := g.cookies_ ++ [cookie]
        dynamic_ref_table :=
          { g.dynamic_ref_table with
            mEntries := package.dynamic_package_map.foldl
              (fun m e => replaceValueFor m e.package_name (e.package_id % 256))
              g.dynamic_ref_table.mEntries } })
    created.1 created.2.2
  { package_groups_ := groups3
    package_ids_ := created.2.1
    apk_assets_package_ids :=
      if st.apk_assets_package_ids.any (fun e => e.1 == apk_assets.path) then
        st.apk_assets_package_ids
      else st.apk_assets_package_ids ++ [(apk_assets.path, package_id % 256)]
    next_package_id := next_package_id }

/-- The last loop of `BuildDynamicRefTable` (source lines 173-181): every group learns the
assigned id of every group's package name. -/
def addMappings {κ : Type} (dops : DynamicRefTableOps) (groups : List (PackageGroup κ)) :
    List (PackageGroup κ) :=
  (List.range groups.length).foldl
    (fun gs i =>
      (List.range groups.length).foldl
        (fun gs2 j =>
          match gs2.get? i with
          | none => gs2
          | some iter =>
            let package_name :=
              match iter.packages_.head? with
              | some impl => impl.loaded_package_.package_name
              | none => ""
            modifyAt (fun g =>
                { g with dynamic_ref_table :=
                    (dops.addMapping g.dynamic_ref_table package_name
                      iter.dynamic_ref_table.mAssignedPackageId) })
              j gs2)
        gs)
    groups

/-- `AssetManager2::BuildDynamicRefTable`. -/
def BuildDynamicRefTable {κ : Type} (dops : DynamicRefTableOps) (am : AssetManager2 κ) :
    AssetManager2 κ :=
  let sorted_apk_assets :=
    am.apk_assets_.filter (fun a => !a.IsOverlay) ++ am.apk_assets_.filter (fun a => a.IsOverlay)
  let cookies := apk_assets_cookies am.apk_assets_
  let st := sorted_apk_assets.foldl
    (fun st apk_assets =>
      apk_assets.packages.foldl (fun st package => addPackage cookies apk_assets package st) st)
    (⟨[], List.replicate 256 0xff, [], 0x02⟩ : BuildState κ)
  { am with
    package_groups_ := addMappings dops st.package_groups_
    package_ids_ := st.package_ids_ }

/-- `AssetManager2::SetApkAssets`. -/
def SetApkAssets {κ : Type} (ops : ResTable_configOps κ) (dops : DynamicRefTableOps)
    (am : AssetManager2 κ) (apk_assets : List (ApkAssets κ))
    (invalidate_caches filter_incompatible_configs : Bool) : AssetManager2 κ :=
  let am1 := { am with apk_assets_ := apk_assets }
  let am2 := BuildDynamicRefTable dops am1
  let am3 := RebuildFilterList ops am2 filter_incompatible_configs
  if invalidate_caches then InvalidateCaches am3 0xffffffff else am3

/-- The engine after `AssetManager2::AssetManager2()`: no bundles and the zeroed
configuration. -/
def AssetManager2.new {κ : Type} (ops : ResTable_configOps κ) : AssetManager2 κ :=
  { apk_assets_ := []
    package_groups_ := []
    package_ids_ := List.replicate 256 0xff
    configuration_ := ops.zero
    cached_bags_ := []
    cached_bag_resid_stacks_ := []
    resource_resolution_logging_enabled_ := false
    last_resolution_ := ResetResourceResolution }

/-- `AssetManager2::SetResourceResolutionLoggingEnabled`. -/
def SetResourceResolutionLoggingEnabled {κ : Type} (am : AssetManager2 κ) (enabled : Bool) :
    AssetManager2 κ :=
  { am with
    resource_resolution_logging_enabled_ := enabled
    last_resolution_ := if !enabled then ResetResourceResolution else am.last_resolution_ }

/-! ## Bag resolver -/

/-- The rewriting of a bag key (source lines 1039-1048, 1103-1110, 1146-1153): an internal
identifier is kept, any other key goes through `lookupResourceId`; `none` when that fails. -/
def rewriteKey (dops : DynamicRefTableOps) (table : DynamicRefTable) (key : Nat) : Option Nat :=
  if !is_internal_resid key then dops.lookupResourceId table key else some key

/-- The out-of-order test made after an entry has been written:
`new_entry != new_bag->entries && new_entry->key < (new_entry - 1)->key`. -/
def outOfOrder (written : List BagEntry) (new_entry : BagEntry) : Bool :=
  match written.getLast? with
  | some previous => new_entry.key < previous.key
  | none => false

/-- The loop that copies the pairs of a complex entry into the new bag (source lines
1038-1065 and 1145-1170).  `written` are the entries written so far; the result is `none` when
a key or a value cannot be rewritten (the source returns `nullptr`). -/
def copyEntries (dops : DynamicRefTableOps) (table : DynamicRefTable) (cookie resid : Nat) :
    List ResTable_map → List BagEntry → Bool → Option (List BagEntry × Bool)
  | [], written, sort_entries => some (written, sort_entries)
  | map_entry :: rest, written, sort_entries =>
    match rewriteKey dops table map_entry.name with
    | none => none
    | some new_key =>
      match dops.lookupResourceValue table map_entry.value with
      | none => none
      | some value =>
        let new_entry : BagEntry := ⟨new_key, value, cookie, resid⟩
        copyEntries dops table cookie resid rest (written ++ [new_entry])
          (sort_entries || outOfOrder written new_entry)

/-- The merge loop of `GetBag` (source lines 1102-1142).  The first argument bounds the number
of iterations; `mergeEntries` passes the sum of the two lengths, which the loop cannot
exceed because every iteration advances at least one of the two cursors.  The result is the
remaining pairs, the remaining parent entries, the entries written and `sort_entries`. -/
def mergeLoop (dops : DynamicRefTableOps) (table : DynamicRefTable) (cookie resid : Nat) :
    Nat → List ResTable_map → List BagEntry → List BagEntry → Bool →
      Option (List ResTable_map × List BagEntry × List BagEntry × Bool)
  | n + 1, map_entry :: maps, parent_entry :: parents, written, sort_entries =>
    match rewriteKey dops table map_entry.name with
    | none => none
    | some child_key =>
      let chosen : Option (BagEntry × List ResTable_map) :=
        if child_key ≤ parent_entry.key then
          match dops.lookupResourceValue table map_entry.value with
          | none => none
          | some value => some (⟨child_key, value, cookie, resid⟩, maps)
        else some (parent_entry, map_entry :: maps)
      match chosen with
      | none => none
      | some (new_entry, maps1) =>
        mergeLoop dops table cookie resid n maps1
          (if child_key ≥ parent_entry.key then parents else parent_entry :: parents)
          (written ++ [new_entry]) (sort_entries || outOfOrder written new_entry)
  | _, maps, parents, written, sort_entries => some (maps, parents, written, sort_entries)

/-- The call `std::sort(entries, entries + count, compare_bag_entries)`: the entries ordered by
key.  Entries with equal keys, whose relative order `std::sort` leaves open, keep their
order. -/
def sortEntries (entries : List BagEntry) : List BagEntry :=
  entries.insertionSort (fun a b => a.key ≤ b.key)

/-- The merge of a complex entry with its parent bag (source lines 1090-1189): the merge loop,
the remaining pairs, the remaining parent entries copied in bulk, the sort when an inversion
was seen. -/
def mergeEntries (dops : DynamicRefTableOps) (table : DynamicRefTable) (cookie resid : Nat)
    (maps : List ResTable_map) (parent_entries : List BagEntry) : Option (List BagEntry) :=
  match mergeLoop dops table cookie resid (maps.length + parent_entries.length) maps
      parent_entries [] false with
  | none => none
  | some (maps1, parents1, written1, sort1) =>
    match copyEntries dops table cookie resid maps1 written1 sort1 with
    | none => none
    | some (written2, sort2) =>
      let written3 := written2 ++ parents1
      some (if sort2 then sortEntries written3 else written3)

/-- The assignment `cached_bags_[resid] = bag`. -/
def cacheBag (cache : List (Nat × ResolvedBag)) (resid : Nat) (bag : ResolvedBag) :
    List (Nat × ResolvedBag) :=
  (resid, bag) :: cache.filter (fun e => e.1 != resid)

/-- The result type of the recursive `GetBag`: the engine afterwards, `child_resids`
afterwards, and the bag, `none` for `nullptr`. -/
abbrev BagResult (κ : Type) : Type := AssetManager2 κ × List Nat × Option ResolvedBag

/-- `AssetManager2::GetBag(uint32_t resid, std::vector<uint32_t>& child_resids)`.  The first
argument bounds the call depth (of the parent recursion and of the entry lookups it makes). -/
def GetBagRec {κ : Type} (ops : ResTable_configOps κ) (dops : DynamicRefTableOps) :
    Nat → AssetManager2 κ → Nat → List Nat → Option (BagResult κ)
  | 0, _, _, _ => none
  | fuel + 1, am, resid, child_resids =>
    match am.cached_bags_.lookup resid with
    | some bag => some (am, child_resids, some bag)
    | none =>
      match FindEntry ops am (fuel + 1) resid 0 false am.last_resolution_ with
      | none => none
      | some (log, none) => some ({ am with last_resolution_ := log }, child_resids, none)
      | some (log, some (cookie, entry)) =>
        let am1 := { am with last_resolution_ := log }
        match entry.entry with
        | EntryVariant.value _ => some (am1, child_resids, none)
        | EntryVariant.map_entry map =>
          let child_resids1 := child_resids ++ [resid]
          let parent_resid := map.parent
          if parent_resid == 0 || child_resids1.contains parent_resid then
            match copyEntries dops entry.dynamic_ref_table cookie resid map.maps [] false with
            | none => some (am1, child_resids1, none)
            | some (written, sort_entries) =>
              let new_bag : ResolvedBag :=
                ⟨entry.type_flags, if sort_entries then sortEntries written else written⟩
              some ({ am1 with cached_bags_ := cacheBag am1.cached_bags_ resid new_bag },
                child_resids1, some new_bag)
          else
            let parent_resid1 :=
              (dops.lookupResourceId entry.dynamic_ref_table parent_resid).getD parent_resid
            match GetBagRec ops dops fuel am1 parent_resid1 child_resids1 with
            | none => none
            | some (am2, child_resids2, none) => some (am2, child_resids2, none)
            | some (am2, child_resids2, some parent_bag) =>
              match mergeEntries dops entry.dynamic_ref_table cookie resid map.maps
                  parent_bag.entries with
              | none => some (am2, child_resids2, none)
              | some entries =>
                let new_bag : ResolvedBag :=
                  ⟨entry.type_flags ||| parent_bag.type_spec_flags, entries⟩
                some ({ am2 with cached_bags_ := cacheBag am2.cached_bags_ resid new_bag },
                  child_resids2, some new_bag)

/-- `AssetManager2::GetBag(uint32_t resid)`: the engine afterwards and the bag. -/
def GetBag {κ : Type} (ops : ResTable_configOps κ) (dops : DynamicRefTableOps) (fuel : Nat)
    (am : AssetManager2 κ) (resid : Nat) : Option (AssetManager2 κ × Option ResolvedBag) :=
  match GetBagRec ops dops fuel am resid [] with
  | none => none
  | some (am1, found_resids, bag) =>
    match am1.cached_bag_resid_stacks_.lookup resid with
    | some _ => some (am1, bag)
    | none =>
      some ({ am1 with
              cached_bag_resid_stacks_ := (resid, found_resids) :: am1.cached_bag_resid_stacks_ },
        bag)

/-- `AssetManager2::GetBagResIdStack`: the engine afterwards and the stack. -/
def GetBagResIdStack {κ : Type} (ops : ResTable_configOps κ) (dops : DynamicRefTableOps)
    (fuel : Nat) (am : AssetManager2 κ) (resid : Nat) : Option (AssetManager2 κ × List Nat) :=
  match am.cached_bag_resid_stacks_.lookup resid with
  | some stack => some (am, stack)
  | none =>
    match GetBagRec ops dops fuel am resid [] with
    | none => none
    | some (am1, found_resids, _) =>
      some ({ am1 with
              cached_bag_resid_stacks_ :=
                (resid, found_resids) :: am1.cached_bag_resid_stacks_.filter
                  (fun e => e.1 != resid) },
        found_resids)

/-! ## Name lookups -/

/-- A slot of a theme (`ThemeEntry`). -/
structure ThemeEntry where
  cookie : Nat
  type_spec_flags : Nat
  value : Res_value
deriving DecidableEq, Repr

/-- The slots of one type of a theme package (`ThemeType`); `entry_count` is the length of
`entries`. -/
structure ThemeType where
  entries : List ThemeEntry
deriving DecidableEq, Repr

/-- The types of one package of a theme (`Theme::Package`). -/
structure ThemePackage where
  types : Nat → Option ThemeType

/-- A theme (`Theme`); the engine it belongs to is passed to the member functions. -/
structure Theme where
  packages_ : Nat → Option ThemePackage
  type_spec_flags_ : Nat

/-- The theme after `Theme::Theme`: no package and no flags. -/
def Theme.new : Theme := ⟨fun _ => none, 0⟩

/-- A zero-filled slot, as `calloc` and `memset(_, 0, _)` leave it. -/
def ThemeEntry.zero : ThemeEntry := ⟨0, 0, ⟨0, 0⟩⟩

/-- The slot a theme holds for an identifier: `packages_[p]->types[t]->entries[e]` when the
package and the type exist and `e < entry_count`. -/
def Theme.slot (theme : Theme) (resid : Nat) : Option ThemeEntry :=
  match theme.packages_ (get_package_id resid) with
  | none => none
  | some package =>
    match package.types (get_type_id resid) with
    | none => none
    | some type => type.entries.get? (get_entry_id resid)

/-- The assignment `packages_[package_idx]->types[type_idx] = type`. -/
def Theme.setType (theme : Theme) (package_idx type_idx : Nat) (package : ThemePackage)
    (type : ThemeType) : Theme :=
  { theme with
    packages_ := fun p =>
      if p = package_idx then
        some ⟨fun t => if t = type_idx then some type else package.types t⟩
      else theme.packages_ p }

/-- The creation of a missing package of a theme (source lines 1395-1398). -/
def Theme.ensurePackage (theme : Theme) (package_idx : Nat) : Theme :=
  match theme.packages_ package_idx with
  | none =>
    { theme with
      packages_ := fun p => if p = package_idx then some ⟨fun _ => none⟩ else theme.packages_ p }
  | some _ => theme

/-- The allocation or the growth of the array of a type so that it contains `entry_idx`
(source lines 1405-1423): a missing array is allocated zero-filled with `entry_idx + 1` slots;
an array that does not contain `entry_idx` is reallocated to `entry_idx + 1` slots and the new
tail is zero-filled. -/
def Theme.ensureType (theme : Theme) (package_idx type_idx entry_idx : Nat)
    (last_package : ThemePackage) : Theme :=
  match last_package.types type_idx with
  | none =>
    theme.setType package_idx type_idx last_package
      ⟨List.replicate (entry_idx + 1) ThemeEntry.zero⟩
  | some type =>
    if entry_idx ≥ type.entries.length then
      theme.setType package_idx type_idx last_package
        ⟨type.entries ++ List.replicate (entry_idx + 1 - type.entries.length) ThemeEntry.zero⟩
    else theme

/-- The locals of the loop of `Theme::ApplyStyle`: the theme and the indices of the package and
the type the pointers `last_package` and `last_type` refer to, `none` for `-1`. -/
structure ApplyState where
  theme : Theme
  last_package_idx : Option Nat
  last_type_idx : Option Nat

/-- The first conditional of the loop body of `Theme::ApplyStyle` (source lines 1394-1402):
when the package differs from the last one, it is created if missing and becomes the last
package, and the last type is reset. -/
def ApplyState.selectPackage (st : ApplyState) (package_idx : Nat) : ApplyState :=
  if st.last_package_idx != some package_idx then
    ⟨st.theme.ensurePackage package_idx, some package_idx, none⟩
  else st

/-- The second conditional of the loop body of `Theme::ApplyStyle` (source lines 1404-1426):
when the type differs from the last one, its array is allocated or grown and it becomes the
last type. -/
def ApplyState.selectType (st : ApplyState) (package_idx type_idx entry_idx : Nat)
    (last_package : ThemePackage) : ApplyState :=
  if st.last_type_idx != some type_idx then
    ⟨st.theme.ensureType package_idx type_idx entry_idx last_package, st.last_package_idx,
      some type_idx⟩
  else st

/-- The body of the loop of `Theme::ApplyStyle` for a bag entry whose key is a valid
identifier (source lines 1390-1434).  The result is `none` when
`last_type->entries[entry_idx]` lies outside the array `last_type` refers to (or a pointer the
loop dereferences is null), which the source does not define. -/
def applyEntry (force : Bool) (bag_type_spec_flags : Nat) (bag_entry : BagEntry)
    (st : ApplyState) : Option ApplyState :=
  let attr_resid := bag_entry.key
  let package_idx := get_package_id attr_resid
  let type_idx := get_type_id attr_resid
  let entry_idx := get_entry_id attr_resid
  let st1 := st.selectPackage package_idx
  match st1.theme.packages_ package_idx with
  | none => none
  | some last_package =>
    let st2 := st1.selectType package_idx type_idx entry_idx last_package
    match st2.theme.packages_ package_idx with
    | none => none
    | some last_package2 =>
      match last_package2.types type_idx with
      | none => none
      | some last_type =>
        match last_type.entries.get? entry_idx with
        | none => none
        | some entry =>
          if force || (entry.value.dataType == TYPE_NULL &&
              entry.value.data != DATA_NULL_EMPTY) then
            some { st2 with
              theme := st2.theme.setType package_idx type_idx last_package2
                ⟨last_type.entries.set entry_idx
                  ⟨bag_entry.cookie, entry.type_spec_flags ||| bag_type_spec_flags,
                    bag_entry.value⟩⟩ }
          else some st2

/-- The loop of `Theme::ApplyStyle` (source lines 1377-1435) over the entries in the order the
reverse iterator visits them.  The result is the theme and the value returned, `none` when the
body of the loop is not defined. -/
def applyEntries (force : Bool) (bag_type_spec_flags : Nat) :
    List BagEntry → ApplyState → Option (Theme × Bool)
  | [], st => some (st.theme, true)
  | bag_entry :: rest, st =>
    if !is_valid_resid bag_entry.key then some (st.theme, false)
    else
      match applyEntry force bag_type_spec_flags bag_entry st with
      | none => none
      | some st3 => applyEntries force bag_type_spec_flags rest st3

/-- `Theme::ApplyStyle`.  The result is the engine afterwards (the call goes through `GetBag`),
the theme afterwards and the value returned; it is `none` when `GetBag` exhausts the call-depth
budget `fuel` or when the loop accesses a slot outside its array. -/
def ApplyStyle {κ : Type} (ops : ResTable_configOps κ) (dops : DynamicRefTableOps) (fuel : Nat)
    (am : AssetManager2 κ) (theme : Theme) (resid : Nat) (force : Bool) :
    Option (AssetManager2 κ × Theme × Bool) :=
  match GetBag ops dops fuel am resid with
  | none => none
  | some (am1, none) => some (am1, theme, false)
  | some (am1, some bag) =>
    match applyEntries force bag.type_spec_flags bag.entries.reverse
        ⟨{ theme with type_spec_flags_ := theme.type_spec_flags_ ||| bag.type_spec_flags },
          none, none⟩ with
    | none => none
    | some (theme1, result) => some (am1, theme1, result)

/-- The loop of `Theme::GetAttribute` (source lines 1445-1480) with `cnt` hops left.  The result
is the cookie returned, `none` for `kInvalidCookie`, and the contents of `*out_value` and
`*out_flags` afterwards. -/
def getAttributeLoop (theme : Theme) (out_value : Res_value) (out_flags : Nat) :
    Nat → Nat → Nat → Option Nat × Res_value × Nat
  | cnt, resid, type_spec_flags =>
    match theme.packages_ (get_package_id resid) with
    | none => (none, out_value, out_flags)
    | some package =>
      match package.types (get_type_id resid) with
      | none => (none, out_value, out_flags)
      | some type =>
        match type.entries.get? (get_entry_id resid) with
        | none => (none, out_value, out_flags)
        | some entry =>
          let type_spec_flags1 := type_spec_flags ||| entry.type_spec_flags
          if entry.value.dataType == TYPE_ATTRIBUTE then
            match cnt with
            | 0 => (none, out_value, out_flags)
            | cnt1 + 1 => getAttributeLoop theme out_value out_flags cnt1 entry.value.data
                type_spec_flags1
          else if entry.value.dataType == TYPE_NULL && entry.value.data != DATA_NULL_EMPTY then
            (none, out_value, out_flags)
          else (some entry.cookie, entry.value, type_spec_flags1)

/-- `Theme::GetAttribute`: the cookie returned, `none` for `kInvalidCookie`, and the contents of
`*out_value` and `*out_flags` afterwards. -/
def GetAttribute (theme : Theme) (resid : Nat) (out_value : Res_value) (out_flags : Nat) :
    Option Nat × Res_value × Nat :=
  getAttributeLoop theme out_value out_flags 20 resid 0

/-! ## A sample configuration space and sample reference rewriting

Concrete instances of the two parameter records, used to evaluate the embedding on concrete
inputs. -/

/-- A sample configuration with two axes, a locale and a density; `0` is the wildcard of an
axis. -/
structure SampleConfig where
  locale : Nat
  density : Nat
deriving DecidableEq, Repr

/-- Sample `match`: every axis the candidate specifies equals the requested value. -/
def SampleConfig.isMatch (c d : SampleConfig) : Bool :=
  (c.locale == 0 || c.locale == d.locale) && (c.density == 0 || c.density == d.density)

/-- Sample `isBetterThan`: the candidate specifies every axis the other one specifies and at
least one more (more specific non-wildcard axis values win). -/
def SampleConfig.isBetterThan (c o : SampleConfig) (_requested : SampleConfig) : Bool :=
  (o.locale == 0 || c.locale != 0) && (o.density == 0 || c.density != 0) &&
    ((c.locale != 0 && o.locale == 0) || (c.density != 0 && o.density == 0))

/-- Sample `compare`: zero exactly on identical configurations. -/
def SampleConfig.compare (c o : SampleConfig) : Int :=
  if c.locale < o.locale then -1
  else if o.locale < c.locale then 1
  else if c.density < o.density then -1
  else if o.density < c.density then 1
  else 0

/-- Sample `diff`: `CONFIG_LOCALE` (`0x0004`) and `CONFIG_DENSITY` (`0x0100`) for the axes that
differ. -/
def SampleConfig.diff (c o : SampleConfig) : Nat :=
  (if c.locale != o.locale then 0x0004 else 0) ||| (if c.density != o.density then 0x0100 else 0)

/-- The sample configuration operations. -/
def sampleOps : ResTable_configOps SampleConfig :=
  { zero := ⟨0, 0⟩
    isMatch := SampleConfig.isMatch
    isBetterThan := SampleConfig.isBetterThan
    compare := SampleConfig.compare
    diff := SampleConfig.diff
    density := fun c => c.density
    setDensity := fun c d => { c with density := d } }

/-- Modelled from the spec: `DynamicRefTable::lookupResourceId` (defined outside this source
file), the rewriting of a build-time identifier to a runtime identifier: the null identifier is
kept; application identifiers (package `0x7f`) are absolute unless the application is loaded as a
library; package `0x00` (a library referring to itself) becomes the assigned package id; any
other package id is translated through the lookup table and fails when the table has no
translation. -/
def sampleLookupResourceId (t : DynamicRefTable) (resid : Nat) : Option Nat :=
  let package_id := get_package_id resid
  if resid == 0 then some resid
  else if package_id == 0x7f && !t.mAppAsLib then some resid
  else if package_id == 0 || (package_id == 0x7f && t.mAppAsLib) then
    some (fix_package_id resid t.mAssignedPackageId)
  else
    match t.mLookupTable.lookup package_id with
    | none => none
    | some translated => if translated == 0 then none else some (fix_package_id resid translated)

/-- Modelled from the spec: `DynamicRefTable::lookupResourceValue` (defined outside this source
file): dynamic references and dynamic attributes (and plain ones when the application is loaded
as a library) have their data rewritten as an identifier and become plain references and
attributes; every other value is kept. -/
def sampleLookupResourceValue (t : DynamicRefTable) (value : Res_value) : Option Res_value :=
  let rewritten (resolved_type : Nat) : Option Res_value :=
    match sampleLookupResourceId t value.data with
    | none => none
    | some data => some ⟨resolved_type, data⟩
  if value.dataType == TYPE_ATTRIBUTE then
    if !t.mAppAsLib then some value else rewritten TYPE_ATTRIBUTE
  else if value.dataType == TYPE_REFERENCE then
    if !t.mAppAsLib then some value else rewritten TYPE_REFERENCE
  else if value.dataType == TYPE_DYNAMIC_ATTRIBUTE then rewritten TYPE_ATTRIBUTE
  else if value.dataType == TYPE_DYNAMIC_REFERENCE then rewritten TYPE_REFERENCE
  else some value

/-- Modelled from the spec: `DynamicRefTable::addMapping` (defined outside this source file):
when the table knows the package name, the build-time id recorded for it is translated to the
given runtime id. -/
def sampleAddMapping (t : DynamicRefTable) (package_name : String) (package_id : Nat) :
    DynamicRefTable :=
  match t.mEntries.lookup package_name with
  | none => t
  | some build_id =>
    { t with mLookupTable := (build_id, package_id % 256) ::
        t.mLookupTable.filter (fun e => e.1 != build_id) }

/-- The sample reference rewriting. -/
def sampleRefOps : DynamicRefTableOps :=
  ⟨sampleLookupResourceId, sampleLookupResourceValue, sampleAddMapping⟩

/-! ## Predicates used in the statements -/

/-- Two scan states agree on everything a lookup returns: the incumbent and the flags. -/
def ScanState.agree {κ : Type} (s t : ScanState κ) : Prop :=
  s.best = t.best ∧ s.type_flags = t.type_flags

/-- Two engines hold the same bundles, package groups and configuration. -/
def SameBundles {κ : Type} (am am' : AssetManager2 κ) : Prop :=
  am'.apk_assets_ = am.apk_assets_ ∧ am'.package_groups_ = am.package_groups_ ∧
    am'.package_ids_ = am.package_ids_ ∧ am'.configuration_ = am.configuration_

/-- Whether a type configuration is a candidate for an entry index: it matches the desired
configuration (unless configurations are ignored) and has a live offset at the index. -/
def isCandidateType {κ : Type} (ops : ResTable_configOps κ) (ignore_configuration : Bool)
    (desired_config : κ) (entry_idx : Nat) (type : ResTable_type κ) : Bool :=
  (ignore_configuration || ops.isMatch type.config desired_config) &&
    GetEntryOffset type entry_idx != NO_ENTRY

/-- The configurations of the candidates among the type configurations of one type spec,
in table order. -/
def candConfigs {κ : Type} (ops : ResTable_configOps κ) (d : κ) (e : Nat)
    (types : List (ResTable_type κ)) : List κ :=
  (types.filter (isCandidateType ops false d e)).map (fun t => t.config)

/-- The scan invariant of best-match selection -/
def ScanInv {κ : Type} (ops : ResTable_configOps κ) (d : κ) (seen : List κ)
    (best : Option (BestEntry κ)) : Prop :=
  (best = none → seen = []) ∧
    ∀ b, best = some b → ∀ c ∈ seen, ops.isBetterThan c b.config d = false

/-- The incumbent was taken from one of the candidate type configurations `types` of the
package `pkg` with cookie `cookie`. -/
def BestFrom {κ : Type} (ops : ResTable_configOps κ) (i : Bool) (d : κ) (e : Nat)
    (pkg : LoadedPackage κ) (cookie : Nat) (types : List (ResTable_type κ))
    (b : BestEntry κ) : Prop :=
  b.cookie = cookie ∧ b.package = pkg ∧ b.type ∈ types ∧
    isCandidateType ops i d e b.type = true ∧ b.offset = GetEntryOffset b.type e ∧
    b.config = (if i then ops.zero else b.type.config)

/-- The configurations of the candidates of a list of packages, in scan order. -/
def groupCandConfigs {κ : Type} (ops : ResTable_configOps κ) (d : κ) (ti e : Nat) :
    List (ConfiguredPackage κ × Nat) → List κ
  | [] => []
  | x :: rest =>
    (match x.1.loaded_package_.GetTypeSpecByTypeIndex ti with
      | none => []
      | some spec => candConfigs ops d e spec.types) ++ groupCandConfigs ops d ti e rest

/-- A candidate of a lookup in a package group: a type configuration `type` of the type spec
for `type_idx` of a package of the group (`impl`, with cookie `cookie`) that matches the desired
configuration (unless configurations are ignored) and has a live entry offset at
`entry_idx`. -/
def IsCandidate {κ : Type} (ops : ResTable_configOps κ) (g : PackageGroup κ)
    (type_idx entry_idx : Nat) (ignore_configuration : Bool) (desired_config : κ)
    (impl : ConfiguredPackage κ) (cookie : Nat) (type : ResTable_type κ) : Prop :=
  (impl, cookie) ∈ g.packages_.zip g.cookies_ ∧
    ∃ spec, impl.loaded_package_.GetTypeSpecByTypeIndex type_idx = some spec ∧
      type ∈ spec.types ∧
      (ignore_configuration = true ∨ ops.isMatch type.config desired_config = true) ∧
      GetEntryOffset type entry_idx ≠ NO_ENTRY

/-- The filtered candidate lists of every package of every group are the ones
`RebuildFilterList` computes with filtering enabled for the current configuration. -/
def FiltersRebuilt {κ : Type} (ops : ResTable_configOps κ) (am : AssetManager2 κ) : Prop :=
  ∀ g ∈ am.package_groups_, ∀ impl ∈ g.packages_,
    impl.filtered_configs_ = filterPackage ops am.configuration_ true impl.loaded_package_

/-- A sample type configuration of type id 1 whose only entry, index 0, is a string value. -/
def sampleStringType (config : SampleConfig) (data : Nat) : ResTable_type SampleConfig :=
  ⟨1, config, [0], [(0, ⟨8, 0, 0, ⟨TYPE_STRING, data⟩, 0, []⟩)]⟩

/-- A sample package with id `0x7f`: the resource `string/0` is defined for the default
configuration (value 100) and for locale 33 (value 200). -/
def samplePackage : LoadedPackage SampleConfig :=
  { addr := 36880
    package_name := "base"
    package_id := 0x7f
    dynamic := false
    system := false
    custom_loader := false
    type_specs := [some ⟨[sampleStringType ⟨0, 0⟩ 100, sampleStringType ⟨33, 0⟩ 200], [0x0004]⟩]
    type_string_pool := ["string"]
    key_string_pool := ["greeting"]
    dynamic_package_map := [] }

/-- A sample bundle holding `samplePackage`. -/
def sampleApk : ApkAssets SampleConfig :=
  ⟨1000, "/data/base.apk", false, none, [samplePackage]⟩

/-- The engine after `SetApkAssets([sampleApk])` and `SetConfiguration(locale 33)`. -/
def sampleEngine : AssetManager2 SampleConfig :=
  SetConfiguration sampleOps
    (SetApkAssets sampleOps sampleRefOps (AssetManager2.new sampleOps) [sampleApk] true true)
    ⟨33, 0⟩

/-- The package group of `samplePackage` in `sampleEngine`. -/
def sampleGroup : PackageGroup SampleConfig :=
  { packages_ := [⟨samplePackage, filterPackage sampleOps ⟨33, 0⟩ true samplePackage⟩]
    cookies_ := [0]
    overlays_ := []
    dynamic_ref_table := { DynamicRefTable.new with mAssignedPackageId := 0x7f } }

/-- The result of resolving `string/0` of `samplePackage` for locale 33. -/
def sampleResult : FindEntryResult SampleConfig :=
  { entry := EntryVariant.value ⟨TYPE_STRING, 200⟩
    config := ⟨33, 0⟩
    type_flags := 0x0004
    dynamic_ref_table := { DynamicRefTable.new with mAssignedPackageId := 0x7f }
    package_name := "base"
    type_string_ref := ⟨["string"], 0⟩
    entry_string_ref := ⟨["greeting"], 0⟩ }

/-- The bag entry a pair of a complex entry resolves to: its key and its value rewritten through
the dynamic reference table, the owning cookie and the resource id of the bag as originating
style; `none` when the key or the value cannot be rewritten. -/
def resolveEntry (dops : DynamicRefTableOps) (table : DynamicRefTable) (cookie resid : Nat)
    (map_entry : ResTable_map) : Option BagEntry :=
  match rewriteKey dops table map_entry.name with
  | none => none
  | some key =>
    match dops.lookupResourceValue table map_entry.value with
    | none => none
    | some value => some ⟨key, value, cookie, resid⟩

/-- The pairs `maps` of a complex entry resolve, one by one, to the bag entries `entries`. -/
def ResolvesTo (dops : DynamicRefTableOps) (table : DynamicRefTable) (cookie resid : Nat)
    (maps : List ResTable_map) (entries : List BagEntry) : Prop :=
  List.Forall₂ (fun m c => resolveEntry dops table cookie resid m = some c) maps entries

/-- The keys of the entries are strictly ascending. -/
def KeysAscending (entries : List BagEntry) : Prop :=
  entries.Pairwise (fun a b => a.key < b.key)

/-- The part of `mergeEntries` after the merge loop: the remaining pairs are copied and the
remaining parent entries are appended. -/
def finishMerge (dops : DynamicRefTableOps) (table : DynamicRefTable) (cookie resid : Nat)
    (r : Option (List ResTable_map × List BagEntry × List BagEntry × Bool)) :
    Option (List BagEntry × Bool) :=
  match r with
  | none => none
  | some (maps1, parents1, written1, sort1) =>
    match copyEntries dops table cookie resid maps1 written1 sort1 with
    | none => none
    | some (written2, sort2) => some (written2 ++ parents1, sort2)

/-- A sample complex entry (a style) with the given key index, parent and pairs. -/
def sampleStyle (key parent : Nat) (maps : List ResTable_map) : ResTable_entry :=
  ⟨16, FLAG_COMPLEX, key, ⟨0, 0⟩, parent, maps⟩

/-- A sample package with id `0x7f` whose type 2 holds five styles for the default
configuration: `0x7f020000` (keys ending in 1, 3, 5, no parent), `0x7f020001` (keys ending in
2, 3, parent `0x7f020000`), `0x7f020002` and `0x7f020003` (each the parent of the other) and
`0x7f020004` (its own parent). -/
def sampleStylePackage : LoadedPackage SampleConfig :=
  { addr := 36896
    package_name := "styles"
    package_id := 0x7f
    dynamic := false
    system := false
    custom_loader := false
    type_specs :=
      [none,
        some ⟨[⟨2, ⟨0, 0⟩, [0, 16, 32, 48, 64],
          [(0, sampleStyle 0 0
              [⟨0x7f010001, ⟨16, 11⟩⟩, ⟨0x7f010003, ⟨16, 13⟩⟩, ⟨0x7f010005, ⟨16, 15⟩⟩]),
            (16, sampleStyle 1 0x7f020000 [⟨0x7f010002, ⟨16, 22⟩⟩, ⟨0x7f010003, ⟨16, 23⟩⟩]),
            (32, sampleStyle 2 0x7f020003 [⟨0x7f010001, ⟨16, 31⟩⟩]),
            (48, sampleStyle 3 0x7f020002 [⟨0x7f010002, ⟨16, 42⟩⟩]),
            (64, sampleStyle 4 0x7f020004 [⟨0x7f010001, ⟨16, 51⟩⟩])]⟩],
          [0x0004, 0x0100, 0, 0, 0x0004]⟩]
    type_string_pool := ["attr", "style"]
    key_string_pool := ["Parent", "Child", "A", "B", "Self"]
    dynamic_package_map := [] }

/-- A sample bundle holding `sampleStylePackage`. -/
def sampleStyleApk : ApkAssets SampleConfig :=
  ⟨2000, "/data/styles.apk", false, none, [sampleStylePackage]⟩

/-- The engine after `SetApkAssets([sampleStyleApk])`. -/
def sampleStyleEngine : AssetManager2 SampleConfig :=
  SetApkAssets sampleOps sampleRefOps (AssetManager2.new sampleOps) [sampleStyleApk] true true

/-- The result of resolving the child style `0x7f020001` of `sampleStylePackage`. -/
def sampleChildEntry : FindEntryResult SampleConfig :=
  { entry := EntryVariant.map_entry
      (sampleStyle 1 0x7f020000 [⟨0x7f010002, ⟨16, 22⟩⟩, ⟨0x7f010003, ⟨16, 23⟩⟩])
    config := ⟨0, 0⟩
    type_flags := 0x0100
    dynamic_ref_table := { DynamicRefTable.new with mAssignedPackageId := 0x7f }
    package_name := "styles"
    type_string_ref := ⟨["attr", "style"], 1⟩
    entry_string_ref := ⟨["Parent", "Child", "A", "B", "Self"], 1⟩ }

/-- The bag of the parent style `0x7f020000` of `sampleStylePackage`. -/
def sampleParentBag : ResolvedBag :=
  ⟨0x0004, [⟨0x7f010001, ⟨16, 11⟩, 0, 0x7f020000⟩, ⟨0x7f010003, ⟨16, 13⟩, 0, 0x7f020000⟩,
    ⟨0x7f010005, ⟨16, 15⟩, 0, 0x7f020000⟩]⟩

/-- The pairs of the child style `0x7f020001` as bag entries. -/
def sampleChildEntries : List BagEntry :=
  [⟨0x7f010002, ⟨16, 22⟩, 0, 0x7f020001⟩, ⟨0x7f010003, ⟨16, 23⟩, 0, 0x7f020001⟩]

/-- A sample engine with two cached bags: `0x7f020000` varies with the locale (mask `0x0004`),
`0x7f020001` with the density (mask `0x0100`). -/
def sampleCachedEngine : AssetManager2 SampleConfig :=
  { sampleStyleEngine with
    cached_bags_ := [(0x7f020000, ⟨0x0004, []⟩), (0x7f020001, ⟨0x0100, []⟩)]
    cached_bag_resid_stacks_ := [(0x7f020000, [0x7f020000])] }

/-- The keys of the entries are in non-decreasing order. -/
def KeysSorted (entries : List BagEntry) : Prop :=
  entries.Pairwise (fun a b => a.key ≤ b.key)

/-- A sample shared library: a dynamic package built with package id `0x00`, whose type 2
holds one style, entry 0, that names itself as its parent by its build-time identifier
`0x00020000`. -/
def sampleLibraryPackage : LoadedPackage SampleConfig :=
  { addr := 36912
    package_name := "lib"
    package_id := 0
    dynamic := true
    system := false
    custom_loader := false
    type_specs :=
      [none, some ⟨[⟨2, ⟨0, 0⟩, [0],
        [(0, sampleStyle 0 0x00020000 [⟨0x7f010001, ⟨16, 61⟩⟩])]⟩], [0]⟩]
    type_string_pool := ["attr", "style"]
    key_string_pool := ["Loop"]
    dynamic_package_map := [] }

/-- A sample bundle holding `sampleLibraryPackage`. -/
def sampleLibraryApk : ApkAssets SampleConfig :=
  ⟨3000, "/data/lib.apk", false, none, [sampleLibraryPackage]⟩

/-- The engine after `SetApkAssets([sampleLibraryApk])`: the library is assigned the runtime
package id `0x02`, so its style is the resource `0x02020000`. -/
def sampleLibraryEngine : AssetManager2 SampleConfig :=
  SetApkAssets sampleOps sampleRefOps (AssetManager2.new sampleOps) [sampleLibraryApk] true true

/-- The result of resolving the style `0x02020000` of `sampleLibraryEngine`. -/
def sampleLoopEntry : FindEntryResult SampleConfig :=
  { entry := EntryVariant.map_entry (sampleStyle 0 0x00020000 [⟨0x7f010001, ⟨16, 61⟩⟩])
    config := ⟨0, 0⟩
    type_flags := 0
    dynamic_ref_table := { DynamicRefTable.new with mAssignedPackageId := 0x02 }
    package_name := "lib"
    type_string_ref := ⟨["attr", "style"], 1⟩
    entry_string_ref := ⟨["Loop"], 0⟩ }

/-- A sample simple entry holding a string value. -/
def sampleStringEntry (key data : Nat) : ResTable_entry :=
  ⟨8, 0, key, ⟨TYPE_STRING, data⟩, 0, []⟩

/-- A sample target package with id `0x7f`: `string/0` (value 100) and `string/1` (value 101)
are defined for locale 33. -/
def sampleTargetPackage : LoadedPackage SampleConfig :=
  { addr := 36928
    package_name := "target"
    package_id := 0x7f
    dynamic := false
    system := false
    custom_loader := false
    type_specs :=
      [some ⟨[⟨1, ⟨33, 0⟩, [0, 8], [(0, sampleStringEntry 0 100), (8, sampleStringEntry 1 101)]⟩],
        [0x0004, 0x0004]⟩]
    type_string_pool := ["string"]
    key_string_pool := ["first", "second"]
    dynamic_package_map := [] }

/-- A sample overlay package, loaded as a dynamic package: its `string/0` (value 300) is
defined for density 240 and its `string/1` (value 301) for locale 33 and density 240. -/
def sampleOverlayPackage : LoadedPackage SampleConfig :=
  { addr := 36944
    package_name := "overlay"
    package_id := 0x7f
    dynamic := true
    system := false
    custom_loader := false
    type_specs :=
      [some ⟨[⟨1, ⟨0, 240⟩, [0, NO_ENTRY], [(0, sampleStringEntry 0 300)]⟩,
          ⟨1, ⟨33, 240⟩, [NO_ENTRY, 0], [(0, sampleStringEntry 1 301)]⟩],
        [0x0100, 0x0100]⟩]
    type_string_pool := ["string"]
    key_string_pool := ["first", "second"]
    dynamic_package_map := [] }

/-- The bundle of the sample target package. -/
def sampleTargetApk : ApkAssets SampleConfig :=
  ⟨4000, "/data/target.apk", false, none, [sampleTargetPackage]⟩

/-- The id-map of the sample overlay: `string/0` and `string/1` of the target are mapped to
`string/0` and `string/1` of the overlay, whose runtime package id is `0x02`. -/
def sampleIdmap : LoadedIdmap :=
  { target_apk_path := "/data/target.apk"
    overlay_apk_path := "/data/overlay.apk"
    GetOverlayDynamicRefTable := fun target_package_id =>
      { DynamicRefTable.new with target_assigned_package_id := some target_package_id }
    GetTargetResourcesMap := fun _ =>
      [(0x7f010000, IdmapResult.resource 0x02010000),
        (0x7f010001, IdmapResult.resource 0x02010001)] }

/-- The bundle of the sample overlay package. -/
def sampleOverlayApk : ApkAssets SampleConfig :=
  ⟨5000, "/data/overlay.apk", false, some sampleIdmap, [sampleOverlayPackage]⟩

/-- The engine after `SetApkAssets([sampleTargetApk, sampleOverlayApk])` and
`SetConfiguration(locale 33, density 240)`. -/
def sampleOverlayEngine : AssetManager2 SampleConfig :=
  SetConfiguration sampleOps
    (SetApkAssets sampleOps sampleRefOps (AssetManager2.new sampleOps)
      [sampleTargetApk, sampleOverlayApk] true true)
    ⟨33, 240⟩

/-- The engine after `SetApkAssets([sampleTargetApk])` and
`SetConfiguration(locale 33, density 240)`: the overlay is not loaded. -/
def sampleTargetEngine : AssetManager2 SampleConfig :=
  SetConfiguration sampleOps
    (SetApkAssets sampleOps sampleRefOps (AssetManager2.new sampleOps) [sampleTargetApk] true true)
    ⟨33, 240⟩

/-- The result of resolving `string/1` in the sample target package alone. -/
def sampleTargetResult : FindEntryResult SampleConfig :=
  { entry := EntryVariant.value ⟨TYPE_STRING, 101⟩
    config := ⟨33, 0⟩
    type_flags := 0x0004
    dynamic_ref_table := { DynamicRefTable.new with mAssignedPackageId := 0x7f }
    package_name := "target"
    type_string_ref := ⟨["string"], 0⟩
    entry_string_ref := ⟨["first", "second"], 1⟩ }

/-- The result of resolving `string/1` of the sample overlay package, `0x02010001`. -/
def sampleOverlayResult : FindEntryResult SampleConfig :=
  { entry := EntryVariant.value ⟨TYPE_STRING, 301⟩
    config := ⟨33, 240⟩
    type_flags := 0x0100
    dynamic_ref_table :=
      { DynamicRefTable.new with
        mAssignedPackageId := 0x02
        mAppAsLib := true
        target_assigned_package_id := some 0x7f }
    package_name := "overlay"
    type_string_ref := ⟨["string"], 0⟩
    entry_string_ref := ⟨["first", "second"], 1⟩ }

/-- The package group of the sample target package in `sampleOverlayEngine`. -/
def sampleTargetGroup : PackageGroup SampleConfig :=
  { packages_ := [⟨sampleTargetPackage, filterPackage sampleOps ⟨33, 240⟩ true sampleTargetPackage⟩]
    cookies_ := [0]
    overlays_ := [⟨⟨[(0x7f010000, IdmapResult.resource 0x02010000),
      (0x7f010001, IdmapResult.resource 0x02010001)], 1⟩, 1⟩]
    dynamic_ref_table := { DynamicRefTable.new with mAssignedPackageId := 0x7f } }

/-- Every cookie of a package group and of an overlay link is an index into `apk_assets_`. -/
def CookiesValid {κ : Type} (am : AssetManager2 κ) : Prop :=
  ∀ g ∈ am.package_groups_,
    (∀ c ∈ g.cookies_, c < am.apk_assets_.length) ∧
      ∀ link ∈ g.overlays_, link.cookie < am.apk_assets_.length

/-- The overlay links are well founded: whenever an id-map of the engine maps an identifier to
an overlay resource, the rank of the overlay resource is smaller. -/
def OverlaysRanked {κ : Type} (am : AssetManager2 κ) (rank : Nat → Nat) : Prop :=
  ∀ g ∈ am.package_groups_, ∀ link ∈ g.overlays_, ∀ r r',
    link.overlay_res_maps_.Lookup r = some (IdmapResult.resource r') → rank r' < rank r

/-- A sample package with a damaged table: `string/0` is defined for the default configuration
(value 100) and for locale 33, but the offset stored for locale 33 does not hold a well-formed
entry. -/
def sampleBrokenPackage : LoadedPackage SampleConfig :=
  { addr := 36960
    package_name := "broken"
    package_id := 0x7f
    dynamic := false
    system := false
    custom_loader := false
    type_specs :=
      [some ⟨[⟨1, ⟨0, 0⟩, [0], [(0, sampleStringEntry 0 100)]⟩, ⟨1, ⟨33, 0⟩, [8], []⟩], [0x0004]⟩]
    type_string_pool := ["string"]
    key_string_pool := ["first"]
    dynamic_package_map := [] }

/-- The bundle of `sampleBrokenPackage`. -/
def sampleBrokenApk : ApkAssets SampleConfig :=
  ⟨6000, "/data/broken.apk", false, none, [sampleBrokenPackage]⟩

/-- The engine after `SetApkAssets([sampleBrokenApk])` and `SetConfiguration(locale 33)`. -/
def sampleBrokenEngine : AssetManager2 SampleConfig :=
  SetConfiguration sampleOps
    (SetApkAssets sampleOps sampleRefOps (AssetManager2.new sampleOps) [sampleBrokenApk] true true)
    ⟨33, 0⟩

/-- The package group of `sampleBrokenPackage` in `sampleBrokenEngine`. -/
def sampleBrokenGroup : PackageGroup SampleConfig :=
  { packages_ := [⟨sampleBrokenPackage, filterPackage sampleOps ⟨33, 0⟩ true sampleBrokenPackage⟩]
    cookies_ := [0]
    overlays_ := []
    dynamic_ref_table := { DynamicRefTable.new with mAssignedPackageId := 0x7f } }

/-- A rank for the overlay links of `sampleOverlayEngine`: identifiers of the target package
rank above identifiers of the overlay package. -/
def sampleRank (resid : Nat) : Nat :=
  if get_package_id resid == 0x7f then 1 else 0

/-- The engine states reachable from a new engine through `SetApkAssets` with
`filter_incompatible_configs = true` and `SetConfiguration`. -/
inductive ReachableFiltered {κ : Type} (ops : ResTable_configOps κ) (dops : DynamicRefTableOps) :
    AssetManager2 κ → Prop where
  | new : ReachableFiltered ops dops (AssetManager2.new ops)
  | setApkAssets (am : AssetManager2 κ) (apk_assets : List (ApkAssets κ))
      (invalidate_caches : Bool) :
      ReachableFiltered ops dops am →
        ReachableFiltered ops dops (SetApkAssets ops dops am apk_assets invalidate_caches true)
  | setConfiguration (am : AssetManager2 κ) (configuration : κ) :
      ReachableFiltered ops dops am →
        ReachableFiltered ops dops (SetConfiguration ops am configuration)

/-- The engine after `SetConfiguration(locale 44)` and then
`SetApkAssets([sampleTargetApk], true, false)`: filtering of incompatible configurations is
disabled. -/
def sampleUnfilteredEngine : AssetManager2 SampleConfig :=
  SetApkAssets sampleOps sampleRefOps
    (SetConfiguration sampleOps (AssetManager2.new sampleOps) ⟨44, 0⟩) [sampleTargetApk] true false

/-- The package group of the sample target package in `sampleUnfilteredEngine`. -/
def sampleUnfilteredGroup : PackageGroup SampleConfig :=
  { packages_ := [⟨sampleTargetPackage, filterPackage sampleOps ⟨44, 0⟩ false sampleTargetPackage⟩]
    cookies_ := [0]
    overlays_ := []
    dynamic_ref_table := { DynamicRefTable.new with mAssignedPackageId := 0x7f } }

/-- The identifier reached from `resid` after `n` hops through slots that hold
`TYPE_ATTRIBUTE` values, each hop leading to the identifier stored as the data of the slot;
`none` when one of the `n` slots is absent or does not hold an attribute. -/
def followAttributes (theme : Theme) : Nat → Nat → Option Nat
  | 0, resid => some resid
  | n + 1, resid =>
    match theme.slot resid with
    | none => none
    | some entry =>
      if entry.value.dataType == TYPE_ATTRIBUTE then followAttributes theme n entry.value.data
      else none

/-- A sample theme whose package `0x7f`, type 1, holds a chain of 25 attribute slots: slot `i`
refers to slot `i + 1` for `i < 25` and slot 25 holds a string value. -/
def sampleChainTheme : Theme :=
  { packages_ := fun p =>
      if p = 0x7f then
        some ⟨fun t =>
          if t = 1 then
            some ⟨(List.range 25).map (fun i => ⟨0, 0, ⟨TYPE_ATTRIBUTE, 0x7f010000 + i + 1⟩⟩) ++
              [⟨3, 0x0004, ⟨TYPE_STRING, 7⟩⟩]⟩
          else none⟩
      else none
    type_spec_flags_ := 0 }

/-- The slot holds the unset marker: `TYPE_NULL` with data other than `DATA_NULL_EMPTY`. -/
def ThemeEntry.isUnset (entry : ThemeEntry) : Bool :=
  entry.value.dataType == TYPE_NULL && entry.value.data != DATA_NULL_EMPTY

/-- Two identifiers address the same slot of a theme. -/
def sameSlot (a b : Nat) : Prop :=
  get_package_id a = get_package_id b ∧ get_type_id a = get_type_id b ∧
    get_entry_id a = get_entry_id b

/-- A sample theme of `sampleStyleEngine` after the parent style `0x7f020000` has been applied:
the slots `0x7f010001`, `0x7f010003` and `0x7f010005` hold its three values. -/
def sampleTheme : Theme :=
  { packages_ := fun p =>
      if p = 0x7f then
        some ⟨fun t =>
          if t = 1 then
            some ⟨[ThemeEntry.zero, ⟨0, 0x0004, ⟨16, 11⟩⟩, ThemeEntry.zero, ⟨0, 0x0004, ⟨16, 13⟩⟩,
              ThemeEntry.zero, ⟨0, 0x0004, ⟨16, 15⟩⟩]⟩
          else none⟩
      else none
    type_spec_flags_ := 0x0004 }

/-- The bundles in the order in which `BuildDynamicRefTable` processes them (source lines
91-94): the stable partition that puts the bundles that are not overlays first. -/
def sortedApkAssets {κ : Type} (apk_assets : List (ApkAssets κ)) : List (ApkAssets κ) :=
  apk_assets.filter (fun a => !a.IsOverlay) ++ apk_assets.filter (fun a => a.IsOverlay)

/-- The packages of a bundle list in the order in which `BuildDynamicRefTable` processes them,
each with the bundle that holds it. -/
def processingOrder {κ : Type} (apk_assets : List (ApkAssets κ)) :
    List (ApkAssets κ × LoadedPackage κ) :=
  (sortedApkAssets apk_assets).flatMap (fun a => a.packages.map (fun p => (a, p)))

/-- The state of the first loop of `BuildDynamicRefTable` after the packages `done` have been
processed. -/
def buildState {κ : Type} (cookies : List (Nat × Nat))
    (done : List (ApkAssets κ × LoadedPackage κ)) : BuildState κ :=
  done.foldl (fun st x => addPackage cookies x.1 x.2 st) ⟨[], List.replicate 256 0xff, [], 0x02⟩

/-- The runtime package id `BuildDynamicRefTable` gives to a package that is processed after
the packages `done` (source lines 109-114): a dynamic package gets `next_package_id`, which
started at 2 and was incremented for every dynamic package before it; any other package keeps
its declared id. -/
def assignedId {κ : Type} (done : List (ApkAssets κ × LoadedPackage κ))
    (package : LoadedPackage κ) : Nat :=
  if package.dynamic then 2 + (done.filter (fun x => x.2.dynamic)).length
  else package.package_id

/-- The runtime package id the loop body of `BuildDynamicRefTable` computes for a package in
the state `st` (source lines 109-114). -/
def BuildState.packageId {κ : Type} (st : BuildState κ) (package : LoadedPackage κ) : Nat :=
  if package.dynamic then st.next_package_id else package.package_id

/-- The update of a package group when a package joins it (source lines 158-167). -/
def joinGroup {κ : Type} (cookie : Nat) (package : LoadedPackage κ) (g : PackageGroup κ) :
    PackageGroup κ :=
  { g with
    packages_ := g.packages_ ++ [⟨package, []⟩]
    cookies_ := g.cookies_ ++ [cookie]
    dynamic_ref_table :=
      { g.dynamic_ref_table with
        mEntries := package.dynamic_package_map.foldl
          (fun m e => replaceValueFor m e.package_name (e.package_id % 256))
          g.dynamic_ref_table.mEntries } }

/-- The settings made in the dynamic reference table of a new package group (source lines
152-154). -/
def setAssigned {κ : Type} (package_id : Nat) (package : LoadedPackage κ) (g : PackageGroup κ) :
    PackageGroup κ :=
  { g with
    dynamic_ref_table :=
      { g.dynamic_ref_table with
        mAssignedPackageId := package_id
        mAppAsLib := package.dynamic && package.package_id == 0x7f } }

/-- The overlay link `BuildDynamicRefTable` attaches to the group of the target (source lines
145-148): the id-map for the target id, bound to the table of the group `overlay_group` of the
overlay, and the cookie of the overlay. -/
def overlayLink (loaded_idmap : LoadedIdmap) (target_package_id overlay_group cookie : Nat) :
    ConfiguredOverlay :=
  ⟨⟨loaded_idmap.GetTargetResourcesMap target_package_id, overlay_group⟩, cookie⟩

/-- The groups after a new group has been pushed and the overlay of the bundle, if it is one
and its target is known, has been linked (source lines 119-150). -/
def pushGroup {κ : Type} (cookie : Nat) (a : ApkAssets κ) (package_id : Nat)
    (st : BuildState κ) : List (PackageGroup κ) :=
  match a.loaded_idmap with
  | none => st.package_groups_ ++ [⟨[], [], [], DynamicRefTable.new⟩]
  | some loaded_idmap =>
    match st.apk_assets_package_ids.lookup loaded_idmap.target_apk_path with
    | none => st.package_groups_ ++ [⟨[], [], [], DynamicRefTable.new⟩]
    | some target_package_id =>
      modifyAt (fun g => { g with overlays_ := g.overlays_ ++
          [overlayLink loaded_idmap target_package_id st.package_groups_.length cookie] })
        ((st.package_ids_.set package_id (st.package_groups_.length % 256)).getD
          target_package_id 0xff)
        (modifyAt
          (fun g => { g with
            dynamic_ref_table := loaded_idmap.GetOverlayDynamicRefTable target_package_id })
          st.package_groups_.length (st.package_groups_ ++ [⟨[], [], [], DynamicRefTable.new⟩]))

/-- The bounds within which the 8-bit arithmetic of `BuildDynamicRefTable` is exact for the
packages `done`: declared package ids are 8-bit values, the ids handed out to dynamic packages
stay below 256, and there are at most 255 packages, so that a group index is never `0xff`. -/
def RegistryBounds {κ : Type} (done : List (ApkAssets κ × LoadedPackage κ)) : Prop :=
  (∀ x ∈ done, x.2.dynamic = false → x.2.package_id < 256) ∧
    (done.filter (fun x => x.2.dynamic)).length + 2 ≤ 256 ∧ done.length ≤ 255

/-- The invariant of the first loop of `BuildDynamicRefTable` after the packages `done`. -/
structure RegInv {κ : Type} (st : BuildState κ)
    (done : List (ApkAssets κ × LoadedPackage κ)) : Prop where
  ids_length : st.package_ids_.length = 256
  groups_le : st.package_groups_.length ≤ done.length
  next : st.next_package_id = 2 + (done.filter (fun x => x.2.dynamic)).length
  ids_group : ∀ id, id < 256 → st.package_ids_.getD id 0xff ≠ 0xff →
    ∃ g, st.package_groups_[st.package_ids_.getD id 0xff]? = some g ∧
      g.dynamic_ref_table.mAssignedPackageId = id
  group_ids : ∀ (i : Nat) (g : PackageGroup κ), st.package_groups_[i]? = some g →
    g.dynamic_ref_table.mAssignedPackageId < 256 ∧
      st.package_ids_.getD g.dynamic_ref_table.mAssignedPackageId 0xff = i
  member : ∀ pre x post, done = pre ++ x :: post →
    ∃ g, st.package_groups_[st.package_ids_.getD (assignedId pre x.2) 0xff]? = some g ∧
      (∃ cp ∈ g.packages_, cp.loaded_package_ = x.2) ∧
      g.dynamic_ref_table.mAssignedPackageId = assignedId pre x.2
  members : ∀ (i : Nat) (g : PackageGroup κ), st.package_groups_[i]? = some g →
    ∀ cp ∈ g.packages_,
    ∃ pre x post, done = pre ++ x :: post ∧ cp.loaded_package_ = x.2 ∧
      g.dynamic_ref_table.mAssignedPackageId = assignedId pre x.2
  nonempty : ∀ (i : Nat) (g : PackageGroup κ), st.package_groups_[i]? = some g →
    g.packages_ ≠ []

/-- The second group has the packages, cookies, overlay links and assigned package id of the
first. -/
def SameGroup {κ : Type} (g g' : PackageGroup κ) : Prop :=
  g'.packages_ = g.packages_ ∧ g'.cookies_ = g.cookies_ ∧ g'.overlays_ = g.overlays_ ∧
    g'.dynamic_ref_table.mAssignedPackageId = g.dynamic_ref_table.mAssignedPackageId

/-- `addMapping` leaves the assigned package id of a table as it is. -/
def KeepsAssignedId (dops : DynamicRefTableOps) : Prop :=
  ∀ t name id, (dops.addMapping t name id).mAssignedPackageId = t.mAssignedPackageId

/-- A sample package that is not dynamic and declares the package id `0x02`. -/
def sampleVendorPackage : LoadedPackage SampleConfig :=
  { addr := 36976
    package_name := "vendor"
    package_id := 0x02
    dynamic := false
    system := false
    custom_loader := false
    type_specs := [some ⟨[sampleStringType ⟨0, 0⟩ 500], [0]⟩]
    type_string_pool := ["string"]
    key_string_pool := ["brand"]
    dynamic_package_map := [] }

/-- The bundle of `sampleVendorPackage`. -/
def sampleVendorApk : ApkAssets SampleConfig :=
  ⟨7000, "/vendor/res.apk", false, none, [sampleVendorPackage]⟩

/-- An engine that holds the given bundle list and has not built its registry yet. -/
def engineWith (apk_assets : List (ApkAssets SampleConfig)) : AssetManager2 SampleConfig :=
  { AssetManager2.new sampleOps with apk_assets_ := apk_assets }

/-- The invariant of the map `apk_assets_package_ids` of `BuildDynamicRefTable` after the
packages `done`: a path is mapped to the runtime id of the first package processed for a bundle
with that path. -/
structure PathInv {κ : Type} (st : BuildState κ)
    (done : List (ApkAssets κ × LoadedPackage κ)) : Prop where
  first : ∀ (path : String) (tid : Nat), st.apk_assets_package_ids.lookup path = some tid →
    ∃ pre y post, done = pre ++ y :: post ∧ y.1.path = path ∧
      (∀ z ∈ pre, z.1.path ≠ path) ∧ tid = assignedId pre y.2 % 256
  known : ∀ y ∈ done, ∃ tid, st.apk_assets_package_ids.lookup y.1.path = some tid

/-- A link is attached to the group with index `i`, which is registered for the runtime id
`tid`, and the group with index `gi` is registered for the runtime id `pid`. -/
def Linked {κ : Type} (st : BuildState κ) (link : ConfiguredOverlay) (tid i pid gi : Nat) :
    Prop :=
  (∃ g, st.package_groups_[i]? = some g ∧ link ∈ g.overlays_) ∧
    st.package_ids_.getD tid 0xff = i ∧ st.package_ids_.getD pid 0xff = gi

/-- The incumbent of a candidate scan with its cookie renamed. -/
def BestEntry.rename {κ : Type} (σ : Nat → Nat) (b : BestEntry κ) : BestEntry κ :=
  { b with cookie := σ b.cookie }

/-- Two scan states return the same incumbent up to a renaming of cookies, and the same
flags. -/
def ScanState.sim {κ : Type} (σ : Nat → Nat) (s t : ScanState κ) : Prop :=
  s.best = t.best.map (BestEntry.rename σ) ∧ s.type_flags = t.type_flags

/-- What a lookup returns of an entry apart from its cookie and its dynamic reference table:
the value, the winning configuration, the flags and the names. -/
def FindEntryResult.payload {κ : Type} (e : FindEntryResult κ) :
    EntryVariant × κ × Nat × String × StringPoolRef × StringPoolRef :=
  (e.entry, e.config, e.type_flags, e.package_name, e.type_string_ref, e.entry_string_ref)

/-- The view of the result of a lookup under a renaming of cookies: the renamed cookie and the
payload of the entry, `none` for a miss. -/
def lookupView {κ : Type} (σ : Nat → Nat) (r : FindResult κ) :
    Option (Nat × EntryVariant × κ × Nat × String × StringPoolRef × StringPoolRef) :=
  r.2.map (fun x => (σ x.1, x.2.payload))

/-- The first package group holds the packages of the second, the cookies of the second
renamed, and overlay links with the id-map entries of the links of the second and their
cookies renamed. -/
def GroupSim {κ : Type} (σ : Nat → Nat) (gw gv : PackageGroup κ) : Prop :=
  gw.packages_ = gv.packages_ ∧ gw.cookies_ = gv.cookies_.map σ ∧
    gw.overlays_.map (fun l => (l.overlay_res_maps_.entries, l.cookie)) =
      gv.overlays_.map (fun l => (l.overlay_res_maps_.entries, σ l.cookie))

/-- The package group `FindEntry` selects for a package id (source lines 531-537): none when
the id has no group. -/
def AssetManager2.groupOf {κ : Type} (am : AssetManager2 κ) (package_id : Nat) :
    Option (PackageGroup κ) :=
  if am.package_ids_.getD package_id 0xff == 0xff then none
  else am.package_groups_.get? (am.package_ids_.getD package_id 0xff)

/-- The engine `W` simulates the engine `V` outside the package ids `ids`: both have the same
configuration, cookies of `V` renamed by `σ` name the same bundles in `W`, every package id
outside `ids` has related package groups in both or a group in neither, and no id-map of such
a group of `V` refers to a package id in `ids`. -/
structure Simulates {κ : Type} (ids : List Nat) (σ : Nat → Nat) (W V : AssetManager2 κ) :
    Prop where
  config : W.configuration_ = V.configuration_
  loader : ∀ c, IsLoaderCookie W (σ c) = IsLoaderCookie V c
  groups : ∀ p, p ∉ ids →
    (W.groupOf p = none ∧ V.groupOf p = none) ∨
      ∃ gw gv, W.groupOf p = some gw ∧ V.groupOf p = some gv ∧ GroupSim σ gw gv
  links : ∀ p, p ∉ ids → ∀ gv, V.groupOf p = some gv → ∀ link ∈ gv.overlays_,
    ∀ r r', link.overlay_res_maps_.Lookup r = some (IdmapResult.resource r') →
      get_package_id r' ∉ ids

/-- The position, in a bundle list with one more bundle at position `n`, of the bundle that has
the position `c` in the list without it. -/
def shiftCookie (n c : Nat) : Nat := if c < n then c else c + 1

/-- A package group with its cookies and the cookies of its overlay links renamed. -/
def renameGroup {κ : Type} (σ : Nat → Nat) (g : PackageGroup κ) : PackageGroup κ :=
  { g with
    cookies_ := g.cookies_.map σ
    overlays_ := g.overlays_.map (fun l => { l with cookie := σ l.cookie }) }

/-- A loop state of `BuildDynamicRefTable` with the cookies of its groups renamed. -/
def renameState {κ : Type} (σ : Nat → Nat) (st : BuildState κ) : BuildState κ :=
  { st with package_groups_ := st.package_groups_.map (renameGroup σ) }

/-- The runtime package ids `BuildDynamicRefTable` gives to the packages `rest` when they are
processed, in this order, after the packages `done`. -/
def runtimeIdsFrom {κ : Type} (done : List (ApkAssets κ × LoadedPackage κ)) :
    List (ApkAssets κ × LoadedPackage κ) → List Nat
  | [] => []
  | x :: rest => assignedId done x.2 :: runtimeIdsFrom (done ++ [x]) rest

/-- The invariant of the first loop of `BuildDynamicRefTable` while it processes the packages
of a bundle `O` whose runtime ids `ids` are in use by no group of the state `base` reached
before the bundle, and whose target path was not registered in `base`: the groups of `base`
are as they were, the registry is as it was outside `ids`, and the ids in `ids` and the target
path of `O` lead to groups that are not groups of `base`. -/
structure Appended {κ : Type} (base st : BuildState κ) (ids : List Nat) (O : ApkAssets κ) :
    Prop where
  length_le : base.package_groups_.length ≤ st.package_groups_.length
  old : ∀ j, j < base.package_groups_.length →
    st.package_groups_[j]? = base.package_groups_[j]?
  ids_same : ∀ p, p ∉ ids → st.package_ids_.getD p 0xff = base.package_ids_.getD p 0xff
  ids_new : ∀ p, p ∈ ids → base.package_groups_.length ≤ st.package_ids_.getD p 0xff
  target : ∀ im, O.loaded_idmap = some im → ∀ tid,
    st.apk_assets_package_ids.lookup im.target_apk_path = some tid →
      base.package_groups_.length ≤ st.package_ids_.getD tid 0xff

/-- Whether an id-map result is a resource of the package with the given runtime id. -/
def IdmapResult.refersTo (r : IdmapResult) (package_id : Nat) : Bool :=
  match r with
  | IdmapResult.resource resid => get_package_id resid == package_id
  | IdmapResult.inline _ => false

/-- A package with the filtered candidate lists `RebuildFilterList` computes for it. -/
def refilter {κ : Type} (ops : ResTable_configOps κ) (configuration : κ)
    (filter_incompatible_configs : Bool) (impl : ConfiguredPackage κ) : ConfiguredPackage κ :=
  { impl with
    filtered_configs_ := filterPackage ops configuration filter_incompatible_configs
      impl.loaded_package_ }

/-- A sample overlay package, loaded as a dynamic package, that defines `string/0` for locale
33 (value 900). -/
def sampleStrayPackage : LoadedPackage SampleConfig :=
  { addr := 37008
    package_name := "stray"
    package_id := 0x7f
    dynamic := true
    system := false
    custom_loader := false
    type_specs := [some ⟨[sampleStringType ⟨33, 0⟩ 900], [0x0004]⟩]
    type_string_pool := ["string"]
    key_string_pool := ["brand"]
    dynamic_package_map := [] }

/-- The id-map of the sample stray overlay: its target is a bundle that is not loaded. -/
def sampleStrayIdmap : LoadedIdmap :=
  { target_apk_path := "/data/absent.apk"
    overlay_apk_path := "/data/stray.apk"
    GetOverlayDynamicRefTable := fun target_package_id =>
      { DynamicRefTable.new with target_assigned_package_id := some target_package_id }
    GetTargetResourcesMap := fun _ => [(0x7f010000, IdmapResult.resource 0x02010000)] }

/-- The bundle of the sample stray overlay. -/
def sampleStrayApk : ApkAssets SampleConfig :=
  ⟨9000, "/data/stray.apk", false, some sampleStrayIdmap, [sampleStrayPackage]⟩

/-- The flag mask `FindEntryInternal` accumulates over the packages of a group (source lines
620-637): the bitwise or, over the packages that have a type spec for the type index, of the
flags of that type spec for the entry index. -/
def groupTypeFlags {κ : Type} (type_idx entry_idx : Nat) (packages : List (ConfiguredPackage κ)) :
    Nat :=
  packages.foldl
    (fun flags impl =>
      match impl.loaded_package_.GetTypeSpecByTypeIndex type_idx with
      | none => flags
      | some type_spec => flags ||| type_spec.GetFlagsForEntryIndex entry_idx)
    0

/-- A sample package group that holds `samplePackage`, whose `string/0` varies with the locale
(flags `0x0004`), and `sampleOverlayPackage`, whose `string/0` varies with the density (flags
`0x0100`). -/
def sampleMixedGroup : PackageGroup SampleConfig :=
  { packages_ := [⟨samplePackage, []⟩, ⟨sampleOverlayPackage, []⟩]
    cookies_ := [0, 1]
    overlays_ := []
    dynamic_ref_table := DynamicRefTable.new }

/-- The candidate a type configuration of a package is for the scan of `FindEntryInternal`:
the values the five `best_*` locals take when the candidate is selected. -/
def candidateOf {κ : Type} (entry_idx : Nat) (package : LoadedPackage κ) (cookie : Nat)
    (type : ResTable_type κ) : BestEntry κ :=
  ⟨cookie, package, type, type.config, GetEntryOffset type entry_idx⟩

/-- The candidates of a lookup (with `ignore_configuration = false`) in a list of packages, in
the order in which `FindEntryInternal` scans them: for every package that has a type spec for
the type index, the type configurations that match the desired configuration and have a live
entry offset at the entry index. -/
def groupCandidates {κ : Type} (ops : ResTable_configOps κ) (d : κ) (ti e : Nat) :
    List (ConfiguredPackage κ × Nat) → List (BestEntry κ)
  | [] => []
  | x :: rest =>
    (match x.1.loaded_package_.GetTypeSpecByTypeIndex ti with
      | none => []
      | some spec =>
        (spec.types.filter (isCandidateType ops false d e)).map
          (candidateOf e x.1.loaded_package_ x.2)) ++ groupCandidates ops d ti e rest

/-- The winner among candidates when an incumbent and all candidates offer one and the same
configuration: the last candidate of a custom-loader package if there is one, otherwise the
incumbent, otherwise the first candidate. -/
def tieWinner {κ : Type} (best : Option (BestEntry κ)) (cands : List (BestEntry κ)) :
    Option (BestEntry κ) :=
  match (cands.filter (fun x => x.package.custom_loader)).getLast? with
  | some x => some x
  | none =>
    match best with
    | some b => some b
    | none => cands.head?

/-- A sample package provided by a custom loader: `string/0` is defined for locale 33
(value 700). -/
def sampleLoaderPackage : LoadedPackage SampleConfig :=
  { addr := 37024
    package_name := "loader"
    package_id := 0x7f
    dynamic := false
    system := false
    custom_loader := true
    type_specs := [some ⟨[sampleStringType ⟨33, 0⟩ 700], [0x0004]⟩]
    type_string_pool := ["string"]
    key_string_pool := ["first"]
    dynamic_package_map := [] }

/-- A sample package group in which three packages offer `string/0` for locale 33: the sample
target package, the custom-loader package and the stray package, with the cookies 0, 1, 2. -/
def sampleLoaderGroup : PackageGroup SampleConfig :=
  { packages_ := [⟨sampleTargetPackage, []⟩, ⟨sampleLoaderPackage, []⟩, ⟨sampleStrayPackage, []⟩]
    cookies_ := [0, 1, 2]
    overlays_ := []
    dynamic_ref_table := DynamicRefTable.new }

/-- Every bag in the bag cache of the engine has its keys in non-decreasing order. -/
def CacheSorted {κ : Type} (am : AssetManager2 κ) : Prop :=
  ∀ e ∈ am.cached_bags_, KeysSorted e.2.entries

/-- A sample package of styles whose pairs are declared out of key order: the style
`0x7f020000` has the keys ending in 2, 3 and no parent; the style `0x7f020001` has the parent
`0x7f020000` and declares the keys ending in 5, 2 in this order; the style `0x7f020002` has
the parent `0x7f020001` and the key ending in 2. -/
def sampleUnorderedPackage : LoadedPackage SampleConfig :=
  { addr := 37040
    package_name := "unordered"
    package_id := 0x7f
    dynamic := false
    system := false
    custom_loader := false
    type_specs :=
      [none,
        some ⟨[⟨2, ⟨0, 0⟩, [0, 16, 32],
          [(0, sampleStyle 0 0 [⟨0x7f010002, ⟨16, 12⟩⟩, ⟨0x7f010003, ⟨16, 13⟩⟩]),
            (16, sampleStyle 1 0x7f020000 [⟨0x7f010005, ⟨16, 25⟩⟩, ⟨0x7f010002, ⟨16, 22⟩⟩]),
            (32, sampleStyle 2 0x7f020001 [⟨0x7f010002, ⟨16, 32⟩⟩])]⟩],
          [0, 0, 0]⟩]
    type_string_pool := ["attr", "style"]
    key_string_pool := ["Parent", "Child", "Grandchild"]
    dynamic_package_map := [] }

/-- The bundle of `sampleUnorderedPackage`. -/
def sampleUnorderedApk : ApkAssets SampleConfig :=
  ⟨6000, "/data/unordered.apk", false, none, [sampleUnorderedPackage]⟩

/-- The engine after `SetApkAssets([sampleUnorderedApk])`. -/
def sampleUnorderedEngine : AssetManager2 SampleConfig :=
  SetApkAssets sampleOps sampleRefOps (AssetManager2.new sampleOps) [sampleUnorderedApk] true true

/-- The merge as the specification words it, on the two arrays read from their highest key
downward: the child's entry is taken when its key is greater than or equal to the parent
entry's key (a new key, or an override, which uses up the parent's entry), otherwise the
parent's entry is copied.  The first argument bounds the number of steps; `specReverseMerge`
passes the sum of the two lengths. -/
def specReverseMergeLoop : Nat → List BagEntry → List BagEntry → List BagEntry
  | n + 1, c :: cs, p :: ps =>
    if p.key < c.key then c :: specReverseMergeLoop n cs (p :: ps)
    else if c.key = p.key then c :: specReverseMergeLoop n cs ps
    else p :: specReverseMergeLoop n (c :: cs) ps
  | _, [], ps => ps
  | _, cs, _ => cs

/-- The reverse, single-pass merge of the specification for the child entries `cs` and the
parent entries `ps`, both given in array order; the result is in array order. -/
def specReverseMerge (cs ps : List BagEntry) : List BagEntry :=
  (specReverseMergeLoop (cs.length + ps.length) cs.reverse ps.reverse).reverse

/-- The bag of the style `0x7f020001` of `sampleUnorderedEngine`: its own keys ending in 5, 2
and the inherited keys ending in 2, 3, sorted by key. -/
def sampleUnorderedParentBag : ResolvedBag :=
  ⟨0, [⟨0x7f010002, ⟨16, 12⟩, 0, 0x7f020000⟩, ⟨0x7f010002, ⟨16, 22⟩, 0, 0x7f020001⟩,
    ⟨0x7f010003, ⟨16, 13⟩, 0, 0x7f020000⟩, ⟨0x7f010005, ⟨16, 25⟩, 0, 0x7f020001⟩]⟩

/-- The cookies of a package group come from the bundle list: the packages and the cookies
are parallel, every package is paired with the cookie the map `cookies` holds for a bundle of
`apks` that contains it, and every overlay link carries an id-map of a bundle of `apks` and
the cookie the map holds for that bundle. -/
def CookiesFrom {κ : Type} (cookies : List (Nat × Nat)) (apks : List (ApkAssets κ))
    (g : PackageGroup κ) : Prop :=
  List.Forall₂
      (fun (pkg : ConfiguredPackage κ) (c : Nat) =>
        ∃ a ∈ apks, pkg.loaded_package_ ∈ a.packages ∧ c = (cookies.lookup a.addr).getD 0)
      g.packages_ g.cookies_ ∧
    ∀ o ∈ g.overlays_, ∃ a ∈ apks, ∃ im tid, a.loaded_idmap = some im ∧
      o.overlay_res_maps_.entries = im.GetTargetResourcesMap tid ∧
      o.cookie = (cookies.lookup a.addr).getD 0

/-- A bundle list in which the overlay comes before its target. -/
def sampleOverlayFirst : List (ApkAssets SampleConfig) := [sampleOverlayApk, sampleTargetApk]

/-! ## Theme::SetTo -/

/-- Modelled from the spec: `kPackageCount` of `AssetManager2.h` (not in this source file),
the size of `Theme::packages_`: one slot for every 8-bit package id. -/
def kPackageCount : Nat := 256

/-- The constant `kTypeCount` (source line 1347), the size of `Theme::Package::types`. -/
def kTypeCount : Nat := 256

/-- `AssetManager2::GetAssignedPackageId` (source lines 1314-1323): the assigned id of the
first package group that holds the package object, found by comparing addresses; 0 when no
group holds it.  The result is converted to `uint8_t`. -/
def GetAssignedPackageId {κ : Type} (am : AssetManager2 κ) (package : LoadedPackage κ) : Nat :=
  match am.package_groups_.find? (fun package_group =>
      package_group.packages_.any (fun package2 => package2.loaded_package_.addr == package.addr))
    with
  | some package_group => package_group.dynamic_ref_table.mAssignedPackageId % 256
  | none => 0

/-- The argument of `Theme::SetTo` as the two address comparisons of the function see it
(source lines 1511 and 1517): the theme the function is called on, another theme of the same
engine, or a theme of another engine. -/
inductive ThemeRef (κ : Type) where
  | this : ThemeRef κ
  | same_asset_manager (o : Theme) : ThemeRef κ
  | other_asset_manager (o : Theme) (asset_manager_ : AssetManager2 κ) : ThemeRef κ

/-- The copy loop of `Theme::SetTo` for a theme of the same engine (source lines 1517-1546):
for every package index and type index below the array sizes, our pointer is reset when
theirs is null and otherwise receives a copy of their data. -/
def Theme.copyFrom (theme o : Theme) : Theme :=
  { type_spec_flags_ := o.type_spec_flags_
    packages_ := fun p =>
      if p < kPackageCount then
        match o.packages_ p with
        | none => none
        | some package =>
          let ours : ThemePackage := (theme.packages_ p).getD ⟨fun _ => none⟩
          some ⟨fun t => if t < kTypeCount then package.types t else ours.types t⟩
      else theme.packages_ p }

/-- The two maps `Theme::SetTo` builds for a theme of another engine (source lines 1548-1550).
A `std::map` is an association list searched with `List.lookup`. -/
structure CookieMaps where
  src_to_dest_asset_cookies : List (Nat × Nat)
  src_asset_cookie_id_map : List (Nat × List (Nat × Nat))
deriving DecidableEq, Repr

/-- `std::map::insert`: the pair is added unless the key is present. -/
def mapInsert {β : Type} (m : List (Nat × β)) (k : Nat) (v : β) : List (Nat × β) :=
  match m.lookup k with
  | some _ => m
  | none => (k, v) :: m

/-- The loop that fills `package_map` (source lines 1575-1584): the assigned id of every source
package is mapped to the assigned id of the destination package at the same position, a later
assignment to a key replacing an earlier one; `none` when the `CHECK` on the package names
fails. -/
def packageMapLoop {κ : Type} [DecidableEq κ] (src_am dest_am : AssetManager2 κ) :
    List (LoadedPackage κ) → List (LoadedPackage κ) → List (Nat × Nat) →
      Option (List (Nat × Nat))
  | src_package :: src_rest, dest_package :: dest_rest, package_map =>
    if src_package.package_name != dest_package.package_name then none
    else
      packageMapLoop src_am dest_am src_rest dest_rest
        ((GetAssignedPackageId src_am src_package, GetAssignedPackageId dest_am dest_package) ::
          package_map)
  | _, _, package_map => some package_map

/-- The package map of a source bundle and the destination bundle of the same path (source
lines 1563-1584); `none` when one of the two `CHECK`s fails. -/
def buildPackageMap {κ : Type} [DecidableEq κ] (src_am dest_am : AssetManager2 κ)
    (src_asset dest_asset : ApkAssets κ) : Option (List (Nat × Nat)) :=
  if src_asset.packages.length != dest_asset.packages.length then none
  else packageMapLoop src_am dest_am src_asset.packages dest_asset.packages []

/-- The inner loop over the destination bundles (source lines 1557-1562, 1588): the position
and the bundle of the first one whose path is `path`; the second argument is the position of
the head of the list. -/
def findSamePath {κ : Type} (path : String) : List (ApkAssets κ) → Nat →
    Option (Nat × ApkAssets κ)
  | [], _ => none
  | dest_asset :: rest, j =>
    if path == dest_asset.path then some (j, dest_asset) else findSamePath path rest (j + 1)

/-- The loop over the source bundles (source lines 1553-1591); the second argument is the
position of the head of the list.  The result is `none` when a `CHECK` fails. -/
def matchBundles {κ : Type} [DecidableEq κ] (src_am dest_am : AssetManager2 κ) :
    List (ApkAssets κ) → Nat → CookieMaps → Option CookieMaps
  | [], _, maps => some maps
  | src_asset :: rest, i, maps =>
    match findSamePath src_asset.path dest_am.apk_assets_ 0 with
    | none => matchBundles src_am dest_am rest (i + 1) maps
    | some (j, dest_asset) =>
      match buildPackageMap src_am dest_am src_asset dest_asset with
      | none => none
      | some package_map =>
        matchBundles src_am dest_am rest (i + 1)
          ⟨mapInsert maps.src_to_dest_asset_cookies i j,
            mapInsert maps.src_asset_cookie_id_map i package_map⟩

/-- The local `is_reference` of `Theme::SetTo` (source lines 1619-1623). -/
def is_reference (value : Res_value) : Bool :=
  (value.dataType == TYPE_ATTRIBUTE || value.dataType == TYPE_REFERENCE ||
    value.dataType == TYPE_DYNAMIC_ATTRIBUTE || value.dataType == TYPE_DYNAMIC_REFERENCE) &&
    value.data != 0

/-- The local `attribute_data` of `Theme::SetTo` (source lines 1627-1642), `none` when the
loop continues with the next entry. -/
def attributeData (maps : CookieMaps) (entry : ThemeEntry) : Option Nat :=
  if is_reference entry.value then
    match maps.src_asset_cookie_id_map.lookup entry.cookie with
    | none => none
    | some value_package_map =>
      match value_package_map.lookup (get_package_id entry.value.data) with
      | none => none
      | some value_dest_package => some (fix_package_id entry.value.data value_dest_package)
  else some entry.value.data

/-- The local `data_dest_cookie` of `Theme::SetTo` (source lines 1646-1656), `none` when the
loop continues with the next entry. -/
def dataDestCookie (maps : CookieMaps) (entry : ThemeEntry) : Option Nat :=
  match maps.src_to_dest_asset_cookies.lookup entry.cookie with
  | some value_dest_cookie => some value_dest_cookie
  | none =>
    if is_reference entry.value || entry.value.dataType == TYPE_STRING then none else some 0

/-- The local `attribute_dest_package_id` of `Theme::SetTo` (source lines 1660-1681) for the
slot `e` of type `t` of package `p`, together with `last_resolution_` of the source engine
afterwards; the inner `none` when the loop continues with the next entry, the outer `none`
when `FindEntry` exhausts its budget. -/
def attributeDestPackageId {κ : Type} (ops : ResTable_configOps κ) (src_am : AssetManager2 κ)
    (fuel : Nat) (maps : CookieMaps) (p t e : Nat) (last_resolution : Resolution κ) :
    Option (Resolution κ × Option Nat) :=
  if p != 0x01 then
    match FindEntry ops src_am fuel (make_resid p t e) 0 true last_resolution with
    | none => none
    | some (log, none) => some (log, none)
    | some (log, some (attribute_cookie, _)) =>
      match maps.src_asset_cookie_id_map.lookup attribute_cookie with
      | none => some (log, none)
      | some attribute_package_map =>
        match attribute_package_map.lookup p with
        | none => some (log, none)
        | some attribute_dest_package => some (log, some attribute_dest_package)
  else some (last_resolution, some p)

/-- The block `malloc` and `memset(dest_data, 0, entry_count * sizeof(ThemeEntry))` leave for
`entry_count` slots (source lines 1692-1695): the block starts with the four bytes of the
entry count, so the last four bytes, the data word of the last slot, keep what the allocator
left there, `uninit`. -/
def zeroedBlock (uninit entry_count : Nat) : List ThemeEntry :=
  match entry_count with
  | 0 => []
  | n + 1 => List.replicate n ThemeEntry.zero ++ [⟨0, 0, ⟨0, uninit⟩⟩]

/-- The end of the loop body of `Theme::SetTo` (source lines 1683-1710): the destination
package and type are created if missing, a type with fewer slots than the source type `type`
is replaced by a block of the size of `type` whose first slots (as many as the replaced type
had) are copied from `type`, and the slot `entry_idx` is written. -/
def Theme.writeEntry (uninit : Nat → Nat → Nat) (theme : Theme)
    (package_idx type_idx entry_idx : Nat) (type : ThemeType) (new_entry : ThemeEntry) :
    Theme :=
  let dest_package : ThemePackage := (theme.packages_ package_idx).getD ⟨fun _ => none⟩
  let block := zeroedBlock (uninit package_idx type_idx) type.entries.length
  let dest_type : ThemeType :=
    match dest_package.types type_idx with
    | none => ⟨block⟩
    | some dest_type =>
      if dest_type.entries.length < type.entries.length then
        ⟨type.entries.take dest_type.entries.length ++ block.drop dest_type.entries.length⟩
      else dest_type
  theme.setType package_idx type_idx dest_package ⟨dest_type.entries.set entry_idx new_entry⟩

/-- The body of the innermost loop of `Theme::SetTo` for a theme of another engine (source
lines 1613-1710), for the slot `e` of the type `t` of the package `p` of the source theme.
The state is the destination theme and `last_resolution_` of the source engine. -/
def setToEntry {κ : Type} (ops : ResTable_configOps κ) (src_am : AssetManager2 κ) (fuel : Nat)
    (uninit : Nat → Nat → Nat) (maps : CookieMaps) (p t : Nat) (type : ThemeType) (e : Nat)
    (entry : ThemeEntry) (st : Theme × Resolution κ) : Option (Theme × Resolution κ) :=
  if entry.value.dataType == TYPE_NULL && entry.value.data != DATA_NULL_EMPTY then some st
  else
    match attributeData maps entry with
    | none => some st
    | some attribute_data =>
      match dataDestCookie maps entry with
      | none => some st
      | some data_dest_cookie =>
        match attributeDestPackageId ops src_am fuel maps p t e st.2 with
        | none => none
        | some (log, none) => some (st.1, log)
        | some (log, some attribute_dest_package_id) =>
          some (st.1.writeEntry uninit attribute_dest_package_id t e type
            ⟨data_dest_cookie, entry.type_spec_flags,
              ⟨entry.value.dataType, attribute_data⟩⟩,
            log)

/-- The loop over the slots of a source type (source line 1612). -/
def setToEntries {κ : Type} (ops : ResTable_configOps κ) (src_am : AssetManager2 κ) (fuel : Nat)
    (uninit : Nat → Nat → Nat) (maps : CookieMaps) (p t : Nat) (type : ThemeType) :
    List (Nat × ThemeEntry) → Theme × Resolution κ → Option (Theme × Resolution κ)
  | [], st => some st
  | (e, entry) :: rest, st =>
    match setToEntry ops src_am fuel uninit maps p t type e entry st with
    | none => none
    | some st1 => setToEntries ops src_am fuel uninit maps p t type rest st1

/-- The loop over the types of a source package (source lines 1606-1610). -/
def setToTypes {κ : Type} (ops : ResTable_configOps κ) (src_am : AssetManager2 κ) (fuel : Nat)
    (uninit : Nat → Nat → Nat) (maps : CookieMaps) (p : Nat) (package : ThemePackage) :
    List Nat → Theme × Resolution κ → Option (Theme × Resolution κ)
  | [], st => some st
  | t :: rest, st =>
    match package.types t with
    | none => setToTypes ops src_am fuel uninit maps p package rest st
    | some type =>
      match setToEntries ops src_am fuel uninit maps p t type type.entries.enum st with
      | none => none
      | some st1 => setToTypes ops src_am fuel uninit maps p package rest st1

/-- The loop over the packages of the source theme (source lines 1600-1604). -/
def setToPackages {κ : Type} (ops : ResTable_configOps κ) (src_am : AssetManager2 κ)
    (fuel : Nat) (uninit : Nat → Nat → Nat) (maps : CookieMaps) (o : Theme) :
    List Nat → Theme × Resolution κ → Option (Theme × Resolution κ)
  | [], st => some st
  | p :: rest, st =>
    match o.packages_ p with
    | none => setToPackages ops src_am fuel uninit maps o rest st
    | some package =>
      match setToTypes ops src_am fuel uninit maps p package (List.range kTypeCount) st with
      | none => none
      | some st1 => setToPackages ops src_am fuel uninit maps o rest st1

/-- `Theme::SetTo`, called on `theme`, a theme of the engine `am`.  The result is the theme
afterwards and `last_resolution_` of the engine of the argument afterwards (the copy from
another engine calls its `FindEntry`).  It is `none` when a `CHECK` fails or `FindEntry`
exhausts the budget `fuel`.  `uninit p t` is the word the allocator left at the end of the
block allocated for the type `t` of the package `p`. -/
def SetTo {κ : Type} [DecidableEq κ] (ops : ResTable_configOps κ) (fuel : Nat)
    (uninit : Nat → Nat → Nat) (am : AssetManager2 κ) (theme : Theme) (o : ThemeRef κ) :
    Option (Theme × Resolution κ) :=
  match o with
  | ThemeRef.this => some (theme, am.last_resolution_)
  | ThemeRef.same_asset_manager o => some (theme.copyFrom o, am.last_resolution_)
  | ThemeRef.other_asset_manager o src_am =>
    match matchBundles src_am am src_am.apk_assets_ 0 ⟨[], []⟩ with
    | none => none
    | some maps =>
      setToPackages ops src_am fuel uninit maps o (List.range kPackageCount)
        ({ type_spec_flags_ := o.type_spec_flags_
           packages_ := fun p => if p < kPackageCount then none else theme.packages_ p },
          src_am.last_resolution_)

/-- The slot `e` of the type `t` of the package `p` of a theme, `none` when the package or the
type is missing or the type has no such slot. -/
def Theme.entryAt (theme : Theme) (p t e : Nat) : Option ThemeEntry :=
  ((theme.packages_ p).bind (fun package => package.types t)).bind
    (fun type => type.entries.get? e)

/-- A sample shared library without resources. -/
def sampleHelperPackage : LoadedPackage SampleConfig :=
  { addr := 37056
    package_name := "helper"
    package_id := 0
    dynamic := true
    system := false
    custom_loader := false
    type_specs := []
    type_string_pool := []
    key_string_pool := []
    dynamic_package_map := [] }

/-- A sample bundle holding `sampleHelperPackage`. -/
def sampleHelperApk : ApkAssets SampleConfig :=
  ⟨7000, "/data/helper.apk", false, none, [sampleHelperPackage]⟩

/-- The engine after `SetApkAssets([sampleHelperApk, sampleLibraryApk])`: the helper is assigned
the runtime package id `0x02` and the library `0x03`. -/
def sampleSourceEngine : AssetManager2 SampleConfig :=
  SetApkAssets sampleOps sampleRefOps (AssetManager2.new sampleOps)
    [sampleHelperApk, sampleLibraryApk] true true

/-- The slots of type 1 of package `0x01` of `sampleSourceTheme`. -/
def sampleSourceSlots : List ThemeEntry :=
  [⟨1, 0x0004, ⟨TYPE_REFERENCE, 0x03020000⟩⟩, ⟨0, 0, ⟨TYPE_STRING, 7⟩⟩,
    ⟨0, 0, ⟨16, 42⟩⟩, ⟨0, 0, ⟨TYPE_REFERENCE, 0x02010000⟩⟩,
    ⟨1, 0, ⟨TYPE_REFERENCE, 0x7f010000⟩⟩, ⟨1, 0, ⟨16, 5⟩⟩]

/-- A theme of `sampleSourceEngine`.  Type 1 of package `0x01` holds, in this order, a
reference into the library owned by the library, a string, an integer and a reference owned by
the helper, a reference into package `0x7f` and an integer owned by the library; type 2 of
package `0x03` holds an integer owned by the library. -/
def sampleSourceTheme : Theme :=
  { type_spec_flags_ := 0x0004
    packages_ := fun p =>
      if p = 1 then some ⟨fun t => if t = 1 then some ⟨sampleSourceSlots⟩ else none⟩
      else if p = 3 then
        some ⟨fun t => if t = 2 then some ⟨[⟨1, 0, ⟨16, 9⟩⟩]⟩ else none⟩
      else none }

/-- The maps `Theme::SetTo` builds from `sampleSourceEngine` to `sampleLibraryEngine`: the
library is the bundle 1 of the source and the bundle 0 of the destination, and its package has
the runtime id 3 in the source and 2 in the destination. -/
def sampleMaps : CookieMaps := ⟨[(1, 0)], [(1, [(3, 2)])]⟩

/-- The state of the loop of `SetTo` from `sampleSourceEngine` into a new theme of
`sampleLibraryEngine` before the first entry is handled. -/
def sampleSetToStart : Theme × Resolution SampleConfig :=
  ({ type_spec_flags_ := 0x0004, packages_ := fun _ => none },
    sampleSourceEngine.last_resolution_)

/-- A sample overlay package, loaded as a dynamic package, whose `string/0` is defined for
locale 33 with the value `data`. -/
def sampleEqualOverlayPackage (name : String) (data : Nat) : LoadedPackage SampleConfig :=
  { addr := 0xa000 + data
    package_name := name
    package_id := 0x7f
    dynamic := true
    system := false
    custom_loader := false
    type_specs := [some ⟨[sampleStringType ⟨33, 0⟩ data], [0x0100]⟩]
    type_string_pool := ["string"]
    key_string_pool := ["first"]
    dynamic_package_map := [] }

/-- A sample id-map for the sample target that maps `string/0` to the result `mapped`. -/
def sampleEqualIdmap (overlay_path : String) (mapped : IdmapResult) : LoadedIdmap :=
  { target_apk_path := "/data/target.apk"
    overlay_apk_path := overlay_path
    GetOverlayDynamicRefTable := fun target_package_id =>
      { DynamicRefTable.new with target_assigned_package_id := some target_package_id }
    GetTargetResourcesMap := fun _ => [(0x7f010000, mapped)] }

/-- An overlay bundle of the sample target whose `string/0` has the value 810. -/
def sampleFirstOverlayApk : ApkAssets SampleConfig :=
  ⟨8100, "/data/first.apk", false,
    some (sampleEqualIdmap "/data/first.apk" (IdmapResult.resource 0x02010000)),
    [sampleEqualOverlayPackage "first" 810]⟩

/-- An overlay bundle of the sample target whose `string/0` has the value 820. -/
def sampleSecondOverlayApk : ApkAssets SampleConfig :=
  ⟨8200, "/data/second.apk", false,
    some (sampleEqualIdmap "/data/second.apk" (IdmapResult.resource 0x03010000)),
    [sampleEqualOverlayPackage "second" 820]⟩

/-- An overlay bundle of the sample target that overlays `string/0` with an inline value. -/
def sampleInlineOverlayApk : ApkAssets SampleConfig :=
  ⟨8300, "/data/inline.apk", false,
    some (sampleEqualIdmap "/data/inline.apk" (IdmapResult.inline ⟨16, 55⟩)),
    [sampleEqualOverlayPackage "inline" 830]⟩

/-- A loader bundle holding `sampleLoaderPackage`. -/
def sampleLoaderApk : ApkAssets SampleConfig :=
  ⟨8000, "/data/loader.apk", true, none, [sampleLoaderPackage]⟩

/-- The engine after `SetApkAssets` with the given bundles and `SetConfiguration(locale 33)`. -/
def sampleLocaleEngine (apk_assets : List (ApkAssets SampleConfig)) :
    AssetManager2 SampleConfig :=
  SetConfiguration sampleOps
    (SetApkAssets sampleOps sampleRefOps (AssetManager2.new sampleOps) apk_assets true true)
    ⟨33, 0⟩

/-- The engine with the sample target and the two overlays of equal configuration. -/
def sampleTwoOverlayEngine : AssetManager2 SampleConfig :=
  sampleLocaleEngine [sampleTargetApk, sampleFirstOverlayApk, sampleSecondOverlayApk]

/-- The engine with the sample target, the loader bundle and the two overlays. -/
def sampleLoaderOverlayEngine : AssetManager2 SampleConfig :=
  sampleLocaleEngine
    [sampleTargetApk, sampleLoaderApk, sampleFirstOverlayApk, sampleSecondOverlayApk]

/-- The engine with the sample target and the overlay with an inline value. -/
def sampleInlineEngine : AssetManager2 SampleConfig :=
  sampleLocaleEngine [sampleTargetApk, sampleInlineOverlayApk]

/-- The package group at the given position of an engine. -/
def sampleGroupAt (am : AssetManager2 SampleConfig) (i : Nat) : PackageGroup SampleConfig :=
  (am.package_groups_.get? i).getD ⟨[], [], [], DynamicRefTable.new⟩

/-- The result of the candidate scan for `string/0` of a sample package of the given name and
value in the group `g`. -/
def sampleStringResult (g : PackageGroup SampleConfig) (name : String) (keys : List String)
    (flags data : Nat) : FindEntryResult SampleConfig :=
  { entry := EntryVariant.value ⟨TYPE_STRING, data⟩
    config := ⟨33, 0⟩
    type_flags := flags
    dynamic_ref_table := g.dynamic_ref_table
    package_name := name
    type_string_ref := ⟨["string"], 0⟩
    entry_string_ref := ⟨keys, 0⟩ }

/-- The content of the slot of a theme for an identifier as the loop of `ApplyStyle` finds it
once the array contains the slot: what the slot holds, and zeroes when the theme has no such
slot yet. -/
def Theme.slotOrZero (theme : Theme) (resid : Nat) : ThemeEntry :=
  (theme.slot resid).getD ThemeEntry.zero

/-- A sample package with id `0x7f` whose style `0x7f020000` declares the internal key
`0x01000000`, which is not a valid resource identifier, before the key `0x7f010001`. -/
def sampleInternalPackage : LoadedPackage SampleConfig :=
  { addr := 37072
    package_name := "internal"
    package_id := 0x7f
    dynamic := false
    system := false
    custom_loader := false
    type_specs :=
      [none,
        some ⟨[⟨2, ⟨0, 0⟩, [0],
          [(0, sampleStyle 0 0 [⟨0x01000000, ⟨16, 1⟩⟩, ⟨0x7f010001, ⟨16, 71⟩⟩])]⟩], [0x0004]⟩]
    type_string_pool := ["attr", "style"]
    key_string_pool := ["Internal"]
    dynamic_package_map := [] }

/-- The engine after `SetApkAssets` with one bundle holding `sampleInternalPackage`. -/
def sampleInternalEngine : AssetManager2 SampleConfig :=
  SetApkAssets sampleOps sampleRefOps (AssetManager2.new sampleOps)
    [⟨9000, "/data/internal.apk", false, none, [sampleInternalPackage]⟩] true true

/-- The bag of the style `0x7f020000` of `sampleInternalEngine`. -/
def sampleInternalBag : ResolvedBag :=
  ⟨0x0004, [⟨0x01000000, ⟨16, 1⟩, 0, 0x7f020000⟩, ⟨0x7f010001, ⟨16, 71⟩, 0, 0x7f020000⟩]⟩

/-- The bag of the child style `0x7f020001` of `sampleStyleEngine`. -/
def sampleChildBag : ResolvedBag :=
  ⟨0x0104, [⟨0x7f010001, ⟨16, 11⟩, 0, 0x7f020000⟩, ⟨0x7f010002, ⟨16, 22⟩, 0, 0x7f020001⟩,
    ⟨0x7f010003, ⟨16, 23⟩, 0, 0x7f020001⟩, ⟨0x7f010005, ⟨16, 15⟩, 0, 0x7f020000⟩]⟩

/-- Whether the second conditional of the loop body of `Theme::ApplyStyle` (source lines
1404-1426) allocates or reallocates the array of the type: the type differs from the last one
and its array is missing or does not contain `entry_idx`. -/
def ApplyState.allocates (st : ApplyState) (type_idx entry_idx : Nat)
    (last_package : ThemePackage) : Bool :=
  st.last_type_idx != some type_idx &&
    (match last_package.types type_idx with
      | none => true
      | some type => decide (entry_idx ≥ type.entries.length))

/-- The arrays the loop of `Theme::ApplyStyle` allocates or reallocates, as pairs of a package
index and a type index, in the order of the `calloc` and `realloc` calls. -/
def allocations (force : Bool) (bag_type_spec_flags : Nat) :
    List BagEntry → ApplyState → List (Nat × Nat)
  | [], _ => []
  | bag_entry :: rest, st =>
    if !is_valid_resid bag_entry.key then []
    else
      let package_idx := get_package_id bag_entry.key
      let type_idx := get_type_id bag_entry.key
      let entry_idx := get_entry_id bag_entry.key
      let st1 := st.selectPackage package_idx
      let here : List (Nat × Nat) :=
        match st1.theme.packages_ package_idx with
        | none => []
        | some last_package =>
          if st1.allocates type_idx entry_idx last_package then [(package_idx, type_idx)]
          else []
      match applyEntry force bag_type_spec_flags bag_entry st with
      | none => here
      | some st3 => here ++ allocations force bag_type_spec_flags rest st3

/-- The pointers `last_package` and `last_type` of the loop of `Theme::ApplyStyle` refer to the
package and the type of the identifier `k`, and the array of that type contains the slot of
`k`. -/
def ApplyState.At (st : ApplyState) (k : Nat) : Prop :=
  st.last_package_idx = some (get_package_id k) ∧ st.last_type_idx = some (get_type_id k) ∧
    ∃ package type, st.theme.packages_ (get_package_id k) = some package ∧
      package.types (get_type_id k) = some type ∧ get_entry_id k < type.entries.length

/-- The bag of a resource id computed from the bundles alone: `GetBag` without the bag cache and
without the list of visited identifiers (a parent is followed whenever it is not null).  The
first argument bounds the length of the chain of parents; the result is `none` when the bound
is exhausted and `some none` for `nullptr`. -/
def freshBag {κ : Type} (ops : ResTable_configOps κ) (dops : DynamicRefTableOps)
    (am : AssetManager2 κ) : Nat → Nat → Option (Option ResolvedBag)
  | 0, _ => none
  | fuel + 1, resid =>
    match (FindEntry ops am (fuel + 1) resid 0 false am.last_resolution_).map Prod.snd with
    | none => none
    | some none => some none
    | some (some (cookie, entry)) =>
      match entry.entry with
      | EntryVariant.value _ => some none
      | EntryVariant.map_entry map =>
        if map.parent == 0 then
          match copyEntries dops entry.dynamic_ref_table cookie resid map.maps [] false with
          | none => some none
          | some (written, sort_entries) =>
            some (some ⟨entry.type_flags, if sort_entries then sortEntries written else written⟩)
        else
          match freshBag ops dops am fuel
              ((dops.lookupResourceId entry.dynamic_ref_table map.parent).getD map.parent) with
          | none => none
          | some none => some none
          | some (some parent_bag) =>
            match mergeEntries dops entry.dynamic_ref_table cookie resid map.maps
                parent_bag.entries with
            | none => some none
            | some entries =>
              some (some ⟨entry.type_flags ||| parent_bag.type_spec_flags, entries⟩)

/-- The parents of the bags of `ids` are ranked: for every identifier of the list that resolves
to a complex entry with a parent that is not null, the declared parent and the parent
rewritten through the dynamic reference table have a smaller rank than the identifier, and
the rewritten parent belongs to the list.  No chain of parents of such a list comes back to an
identifier it has visited. -/
def ParentsRanked {κ : Type} (ops : ResTable_configOps κ) (dops : DynamicRefTableOps)
    (am : AssetManager2 κ) (fuel : Nat) (ρ : Nat → Nat) (ids : List Nat) : Bool :=
  ids.all (fun x =>
    match (FindEntry ops am fuel x 0 false am.last_resolution_).map Prod.snd with
    | some (some (_, entry)) =>
      (match entry.entry with
        | EntryVariant.value _ => true
        | EntryVariant.map_entry map =>
          map.parent == 0 ||
            (decide (ρ map.parent < ρ x) &&
              decide (ρ ((dops.lookupResourceId entry.dynamic_ref_table map.parent).getD
                map.parent) < ρ x) &&
              ids.contains
                ((dops.lookupResourceId entry.dynamic_ref_table map.parent).getD map.parent)))
    | _ => true)

/-- Every bag in the bag cache of `am` is the bag computed from the bundles of `am0` alone. -/
def CacheFaithful {κ : Type} (ops : ResTable_configOps κ) (dops : DynamicRefTableOps)
    (am0 am : AssetManager2 κ) : Prop :=
  ∀ r b, am.cached_bags_.lookup r = some b → ∃ f, freshBag ops dops am0 f r = some (some b)

/-- A sequence of calls of `GetBag`, one for each identifier of the list, in order: the engine
afterwards, `none` when a call does not return. -/
def getBagCalls {κ : Type} (ops : ResTable_configOps κ) (dops : DynamicRefTableOps)
    (fuel : Nat) : List Nat → AssetManager2 κ → Option (AssetManager2 κ)
  | [], am => some am
  | r :: rest, am =>
    match GetBag ops dops fuel am r with
    | none => none
    | some (am1, _) => getBagCalls ops dops fuel rest am1

/-- A sample package with id `0x7f` in which the resource `0x7f020000` (type id 2, entry 0) is
a string value. -/
def sampleScalarPackage : LoadedPackage SampleConfig :=
  { addr := 0x9100
    package_name := "scalar"
    package_id := 0x7f
    dynamic := false
    system := false
    custom_loader := false
    type_specs :=
      [none, some ⟨[⟨2, ⟨0, 0⟩, [0], [(0, ⟨8, 0, 0, ⟨TYPE_STRING, 5⟩, 0, []⟩)]⟩], [0]⟩]
    type_string_pool := ["attr", "string"]
    key_string_pool := ["label"]
    dynamic_package_map := [] }

/-- The bundle of `sampleScalarPackage`. -/
def sampleScalarApk : ApkAssets SampleConfig :=
  ⟨9100, "/data/scalar.apk", false, none, [sampleScalarPackage]⟩

/-- A sample target package with id `0x7f` whose `string/0` is defined for the default
configuration only, with the value 100. -/
def sampleDefaultTargetPackage : LoadedPackage SampleConfig :=
  { addr := 0x9110
    package_name := "target"
    package_id := 0x7f
    dynamic := false
    system := false
    custom_loader := false
    type_specs := [some ⟨[sampleStringType ⟨0, 0⟩ 100], [0x0004]⟩]
    type_string_pool := ["string"]
    key_string_pool := ["greeting"]
    dynamic_package_map := [] }

/-- The bundle of `sampleDefaultTargetPackage`, at the path the sample id-maps target. -/
def sampleDefaultTargetApk : ApkAssets SampleConfig :=
  ⟨4100, "/data/target.apk", false, none, [sampleDefaultTargetPackage]⟩

/-- The engine, configured for locale 33, with the default target, the overlay that maps
`string/0` to an overlay resource defined for locale 33, and after it the overlay that maps
`string/0` to an inline value. -/
def sampleOverlayThenInlineEngine : AssetManager2 SampleConfig :=
  sampleLocaleEngine [sampleDefaultTargetApk, sampleFirstOverlayApk, sampleInlineOverlayApk]

/-- A slot of the source theme as the innermost loop of `Theme::SetTo` visits it (source
lines 1600-1613): the package index `p`, the type index `t`, the type array, the slot index
`e` and the slot. -/
structure SetToSlot where
  p : Nat
  t : Nat
  type : ThemeType
  e : Nat
  entry : ThemeEntry

/-- The slots of the types of a source package, in the order of the two inner loops of
`Theme::SetTo` (source lines 1606-1612). -/
def ThemePackage.setToPackageSlots (package : ThemePackage) (p : Nat) : List SetToSlot :=
  (List.range kTypeCount).flatMap (fun t =>
    match package.types t with
    | none => []
    | some type => type.entries.enum.map (fun x => ⟨p, t, type, x.1, x.2⟩))

/-- The slots of the source theme in the order in which the three loops of `Theme::SetTo`
visit them (source lines 1600-1612). -/
def Theme.setToSlots (o : Theme) : List SetToSlot :=
  (List.range kPackageCount).flatMap (fun p =>
    match o.packages_ p with
    | none => []
    | some package => package.setToPackageSlots p)

/-- The loop body of `Theme::SetTo` applied to the slots of a list, in order. -/
def setToRun {κ : Type} (ops : ResTable_configOps κ) (src_am : AssetManager2 κ) (fuel : Nat)
    (uninit : Nat → Nat → Nat) (maps : CookieMaps) :
    List SetToSlot → Theme × Resolution κ → Option (Theme × Resolution κ)
  | [], st => some st
  | s :: rest, st =>
    match setToEntry ops src_am fuel uninit maps s.p s.t s.type s.e s.entry st with
    | none => none
    | some st1 => setToRun ops src_am fuel uninit maps rest st1

/-- The destination package of the attribute of the slot `e` of type `t` of package `p`
(source lines 1660-1681): `some none` when the loop skips the slot because the package cannot
be mapped, `none` when `FindEntry` exhausts its budget. -/
def destPackage {κ : Type} (ops : ResTable_configOps κ) (src_am : AssetManager2 κ)
    (fuel : Nat) (maps : CookieMaps) (p t e : Nat) : Option (Option Nat) :=
  (attributeDestPackageId ops src_am fuel maps p t e src_am.last_resolution_).map Prod.snd

/-- No two packages of the source theme have slots of one type index whose attributes are sent
to the same destination package. -/
def DestinationsDisjoint {κ : Type} (ops : ResTable_configOps κ) (src_am : AssetManager2 κ)
    (fuel : Nat) (maps : CookieMaps) (o : Theme) : Bool :=
  o.setToSlots.all (fun s1 =>
    o.setToSlots.all (fun s2 =>
      s1.p == s2.p || s1.t != s2.t ||
        (match destPackage ops src_am fuel maps s1.p s1.t s1.e,
            destPackage ops src_am fuel maps s2.p s2.t s2.e with
          | some (some q1), some (some q2) => q1 != q2
          | _, _ => true)))

/-- The source theme with the slot `e` of type `t` of package `p` unset (zero-filled). -/
def Theme.unsetSlot (o : Theme) (p t e : Nat) : Theme :=
  { o with
    packages_ := fun p1 =>
      if p1 = p then
        (o.packages_ p).map (fun package =>
          ⟨fun t1 =>
            if t1 = t then
              (package.types t).map (fun type => ⟨type.entries.set e ThemeEntry.zero⟩)
            else package.types t1⟩)
      else o.packages_ p1 }

/-- The type array of the type `t` of the package `q` of a theme, `none` when the package or
the type is missing. -/
def Theme.typeAt (theme : Theme) (q t : Nat) : Option ThemeType :=
  (theme.packages_ q).bind (fun package => package.types t)

/-- The slot of the list of slots that stands for a slot of the theme in which the slot `e` of
the type `t` of the package `p` is unset. -/
def SetToSlot.unsetAt (p t e : Nat) (s : SetToSlot) : SetToSlot :=
  if s.p = p ∧ s.t = t then
    ⟨s.p, s.t, ⟨s.type.entries.set e ThemeEntry.zero⟩, s.e,
      if s.e = e then ThemeEntry.zero else s.entry⟩
  else s

/-- The package of `samplePackage` built with the package id `0x01`. -/
def sampleRenumberedPackage : LoadedPackage SampleConfig :=
  { samplePackage with
    addr := 0x9120
    package_id := 0x01 }

/-- A bundle at the path of `sampleApk` that holds `sampleRenumberedPackage`. -/
def sampleRenumberedApk : ApkAssets SampleConfig :=
  ⟨1100, "/data/base.apk", false, none, [sampleRenumberedPackage]⟩

/-- The engine after `SetApkAssets([sampleRenumberedApk])`. -/
def sampleRenumberedEngine : AssetManager2 SampleConfig :=
  SetApkAssets sampleOps sampleRefOps (AssetManager2.new sampleOps) [sampleRenumberedApk] true
    true

/-- The slots of type 1 of package `0x01` of `sampleCollidingTheme`: an integer and a reference
to `0x7f010000`, both owned by the bundle 0. -/
def sampleFrameworkSlots : List ThemeEntry :=
  [⟨0, 0, ⟨16, 1⟩⟩, ⟨0, 0x0004, ⟨TYPE_REFERENCE, 0x7f010000⟩⟩]

/-- The slots of type 1 of package `0x7f` of `sampleCollidingTheme`: an integer and a reference
to `0x02010000`, both owned by the bundle 0, and an unset slot. -/
def sampleAppSlots : List ThemeEntry :=
  [⟨0, 0, ⟨16, 7⟩⟩, ⟨0, 0, ⟨TYPE_REFERENCE, 0x02010000⟩⟩, ThemeEntry.zero]

/-- A theme of `sampleEngine` with slots for type 1 in the packages `0x01` and `0x7f`. -/
def sampleCollidingTheme : Theme :=
  { type_spec_flags_ := 0x0004
    packages_ := fun p =>
      if p = 0x01 then some ⟨fun t => if t = 1 then some ⟨sampleFrameworkSlots⟩ else none⟩
      else if p = 0x7f then some ⟨fun t => if t = 1 then some ⟨sampleAppSlots⟩ else none⟩
      else none }

/-- The theme `sampleCollidingTheme` without its package `0x7f`. -/
def sampleFrameworkTheme : Theme :=
  { type_spec_flags_ := 0x0004
    packages_ := fun p =>
      if p = 0x01 then some ⟨fun t => if t = 1 then some ⟨sampleFrameworkSlots⟩ else none⟩
      else none }

/-- The engine after `SetApkAssets([sampleHelperApk, sampleApk])`: the helper is the bundle 0
and `sampleApk` the bundle 1. -/
def sampleMixedEngine : AssetManager2 SampleConfig :=
  SetApkAssets sampleOps sampleRefOps (AssetManager2.new sampleOps) [sampleHelperApk, sampleApk]
    true true

/-- A theme of `sampleMixedEngine`.  Type 1 of package `0x01` holds two integers owned by the
helper; type 1 of package `0x7f` holds an integer owned by `sampleApk`, a string owned by the
helper and an unset slot. -/
def sampleMixedTheme : Theme :=
  { type_spec_flags_ := 0
    packages_ := fun p =>
      if p = 0x01 then
        some ⟨fun t => if t = 1 then some ⟨[⟨0, 0, ⟨16, 1⟩⟩, ⟨0, 0, ⟨16, 2⟩⟩]⟩ else none⟩
      else if p = 0x7f then
        some ⟨fun t =>
          if t = 1 then
            some ⟨[⟨1, 0, ⟨16, 7⟩⟩, ⟨0, 0, ⟨TYPE_STRING, 7⟩⟩, ThemeEntry.zero]⟩
          else none⟩
      else none }

/-- The theme `sampleMixedTheme` without its package `0x7f`. -/
def sampleMixedFrameworkTheme : Theme :=
  { type_spec_flags_ := 0
    packages_ := fun p =>
      if p = 0x01 then
        some ⟨fun t => if t = 1 then some ⟨[⟨0, 0, ⟨16, 1⟩⟩, ⟨0, 0, ⟨16, 2⟩⟩]⟩ else none⟩
      else none }

/-! # Theorems -/

/-! ## Lookups do not depend on the trace -/

theorem fastScan_agree {κ : Type} (ops : ResTable_configOps κ) (l l' : Bool) (d : κ) (e : Nat)
    (p : LoadedPackage κ) (c : Nat) (cands : List (κ × ResTable_type κ)) :
    ∀ s t : ScanState κ, s.agree t →
      (fastScan ops l d e p c cands s).agree (fastScan ops l' d e p c cands t) := by
  induction cands with
  | nil => intro s t h; simpa [fastScan] using h
  | cons x rest ih =>
    intro s t h
    obtain ⟨cfg, ty⟩ := x
    obtain ⟨hb, hf⟩ := h
    simp only [fastScan]
    rw [hb]
    cases hc : classifyCandidate ops d p.custom_loader cfg t.best with
    | none =>
      simp only []
      apply ih
      constructor
      · cases l <;> cases l' <;> simp [hb]
      · cases l <;> cases l' <;> simp [hf]
    | some rt =>
      simp only []
      by_cases ho : (GetEntryOffset ty e == NO_ENTRY) = true
      · simp only [ho, if_true]
        apply ih
        constructor
        · cases l <;> cases l' <;> simp [hb]
        · cases l <;> cases l' <;> simp [hf]
      · simp only [ho]
        apply ih
        constructor
        · cases l <;> cases l' <;> simp
        · cases l <;> cases l' <;> simp [hf]

theorem slowScan_agree {κ : Type} (ops : ResTable_configOps κ) (l l' i : Bool) (d : κ) (e : Nat)
    (p : LoadedPackage κ) (c : Nat) (types : List (ResTable_type κ)) :
    ∀ s t : ScanState κ, s.agree t →
      (slowScan ops l i d e p c types s).agree (slowScan ops l' i d e p c types t) := by
  induction types with
  | nil => intro s t h; simpa [slowScan] using h
  | cons ty rest ih =>
    intro s t h
    obtain ⟨hb, hf⟩ := h
    simp only [slowScan]
    rw [hb]
    cases i with
    | true =>
      simp only [Bool.not_true, Bool.false_eq_true, if_false, if_true]
      by_cases ho : (GetEntryOffset ty e == NO_ENTRY) = true
      · simp only [ho, if_true]
        exact ih _ _ ⟨hb, hf⟩
      · simp only [ho]
        exact ⟨rfl, hf⟩
    | false =>
      simp only [Bool.not_false, Bool.false_eq_true, if_false, if_true]
      by_cases hm : ops.isMatch ty.config d = true
      · simp only [hm, Bool.not_true]
        cases hc : classifyCandidate ops d p.custom_loader ty.config t.best with
        | none => exact ih _ _ ⟨hb, hf⟩
        | some rt =>
          simp only []
          by_cases ho : (GetEntryOffset ty e == NO_ENTRY) = true
          · simp only [ho, if_true]
            exact ih _ _ ⟨rfl, hf⟩
          · simp only [ho]
            apply ih
            constructor
            · cases l <;> cases l' <;> simp
            · cases l <;> cases l' <;> simp [hf]
      · simp only [hm]
        exact ih _ _ ⟨hb, hf⟩

theorem packageScan_agree {κ : Type} (ops : ResTable_configOps κ) (l l' i u : Bool) (d : κ)
    (ti e : Nat) (pkgs : List (ConfiguredPackage κ × Nat)) :
    ∀ s t : ScanState κ, s.agree t →
      (packageScan ops l i u d ti e pkgs s).agree (packageScan ops l' i u d ti e pkgs t) := by
  induction pkgs with
  | nil => intro s t h; simpa [packageScan] using h
  | cons x rest ih =>
    intro s t h
    obtain ⟨impl, c⟩ := x
    obtain ⟨hb, hf⟩ := h
    simp only [packageScan]
    cases hs : impl.loaded_package_.GetTypeSpecByTypeIndex ti with
    | none => exact ih _ _ ⟨hb, hf⟩
    | some spec =>
      simp only []
      apply ih
      cases u with
      | true =>
        simp only [if_true]
        apply fastScan_agree
        exact ⟨hb, by simp [hf]⟩
      | false =>
        simp only [Bool.false_eq_true, if_false]
        apply slowScan_agree
        exact ⟨hb, by simp [hf]⟩

theorem FindEntryInternal_snd_eq {κ : Type} (ops : ResTable_configOps κ)
    (am am' : AssetManager2 κ) (h : am'.configuration_ = am.configuration_)
    (g : PackageGroup κ) (ti e : Nat) (d : ConfigRef κ) (i : Bool) (log log' : Resolution κ) :
    (FindEntryInternal ops am' g ti e d i log').2 =
      (FindEntryInternal ops am g ti e d i log).2 := by
  have hd : d.deref am' = d.deref am := by cases d <;> simp [ConfigRef.deref, h]
  have := packageScan_agree ops am'.resource_resolution_logging_enabled_
    am.resource_resolution_logging_enabled_ i (!i && d.isConfiguration_) (d.deref am) ti e
    (g.packages_.zip g.cookies_) ⟨none, 0, StepType.NO_ENTRY, [], log'.steps⟩
    ⟨none, 0, StepType.NO_ENTRY, [], log.steps⟩ ⟨rfl, rfl⟩
  obtain ⟨hb, hf⟩ := this
  simp only [FindEntryInternal, hd]
  rw [hb, hf]
  cases (packageScan ops am.resource_resolution_logging_enabled_ i (!i && d.isConfiguration_)
    (d.deref am) ti e (g.packages_.zip g.cookies_)
    ⟨none, 0, StepType.NO_ENTRY, [], log.steps⟩).best with
  | none => rfl
  | some b =>
    simp only []
    cases GetEntryFromOffset b.type b.offset <;> rfl

theorem overlayScan_snd_eq {κ : Type} (ops : ResTable_configOps κ) (am am' : AssetManager2 κ)
    (hg : am'.package_groups_ = am.package_groups_) (l l' : Bool)
    (f f' : Nat → Resolution κ → Option (FindResult κ))
    (hf : ∀ r log log', (f' r log').map Prod.snd = (f r log).map Prod.snd)
    (resid : Nat) (d : κ) (ovs : List ConfiguredOverlay) :
    ∀ (c : Nat) (out : FindEntryResult κ) (log log' : Resolution κ),
      (overlayScan ops am' l' f' resid d ovs c out log').map Prod.snd =
        (overlayScan ops am l f resid d ovs c out log).map Prod.snd := by
  induction ovs with
  | nil => intro c out log log'; simp [overlayScan]
  | cons o rest ih =>
    intro c out log log'
    simp only [overlayScan]
    cases hl : o.overlay_res_maps_.Lookup resid with
    | none => exact ih _ _ _ _
    | some r =>
      cases r with
      | inline v =>
        simp only []
        have : o.overlay_res_maps_.GetOverlayDynamicRefTable am' =
            o.overlay_res_maps_.GetOverlayDynamicRefTable am := by
          simp [IdmapResMap.GetOverlayDynamicRefTable, hg]
        rw [this]
        exact ih _ _ _ _
      | resource r' =>
        simp only []
        have h1 := hf r' log log'
        cases h2 : f r' log with
        | none =>
          rw [h2] at h1
          cases h3 : f' r' log' with
          | none => rfl
          | some x => rw [h3] at h1; simp at h1
        | some x =>
          rw [h2] at h1
          cases h3 : f' r' log' with
          | none => rw [h3] at h1; simp at h1
          | some y =>
            rw [h3] at h1
            simp only [Option.map_some', Option.some.injEq] at h1
            obtain ⟨lx, rx⟩ := x
            obtain ⟨ly, ry⟩ := y
            simp only at h1
            subst h1
            cases ry with
            | none => exact ih _ _ _ _
            | some cr =>
              obtain ⟨oc, ores⟩ := cr
              simp only []
              have : o.overlay_res_maps_.GetOverlayDynamicRefTable am' =
                  o.overlay_res_maps_.GetOverlayDynamicRefTable am := by
                simp [IdmapResMap.GetOverlayDynamicRefTable, hg]
              rw [this]
              split
              · exact ih _ _ _ _
              · exact ih _ _ _ _

theorem FindEntry_snd_eq {κ : Type} (ops : ResTable_configOps κ) (am am' : AssetManager2 κ)
    (h : SameBundles am am') (fuel : Nat) :
    ∀ (resid density_override : Nat) (ignore : Bool) (log log' : Resolution κ),
      (FindEntry ops am' fuel resid density_override ignore log').map Prod.snd =
        (FindEntry ops am fuel resid density_override ignore log).map Prod.snd := by
  obtain ⟨ha, hg, hi, hc⟩ := h
  induction fuel with
  | zero => intro r d i log log'; simp [FindEntry]
  | succ n ih =>
    intro r d i log log'
    have hsel : selectDesiredConfig ops am' d = selectDesiredConfig ops am d := by
      simp [selectDesiredConfig, hc]
    simp only [FindEntry, hsel, hi, hg]
    by_cases hv : is_valid_resid r = true
    · simp only [hv, Bool.not_true, Bool.false_eq_true, if_false]
      by_cases hp : (am.package_ids_.getD (get_package_id r) 0xff == 0xff) = true
      · simp only [hp, if_true, Option.map_some']
      · simp only [hp, Bool.false_eq_true, if_false]
        cases hgr : am.package_groups_.get? (am.package_ids_.getD (get_package_id r) 0xff) with
        | none => simp
        | some g =>
          simp only []
          have hX := FindEntryInternal_snd_eq ops am am' hc g (get_type_id r - 1) (get_entry_id r)
            (selectDesiredConfig ops am d) i
            (if am.resource_resolution_logging_enabled_ = true then
              { (ResetResourceResolution : Resolution κ) with resid := r } else log)
            (if am'.resource_resolution_logging_enabled_ = true then
              { (ResetResourceResolution : Resolution κ) with resid := r } else log')
          revert hX
          generalize FindEntryInternal ops am' g (get_type_id r - 1) (get_entry_id r) _ i _ = X'
          generalize FindEntryInternal ops am g (get_type_id r - 1) (get_entry_id r) _ i _ = X
          intro hX
          obtain ⟨lx', rx'⟩ := X'
          obtain ⟨lx, rx⟩ := X
          simp only at hX
          subst hX
          cases rx' with
          | none => rfl
          | some cr =>
            obtain ⟨c0, out0⟩ := cr
            simp only []
            have hl : IsLoaderCookie am' c0 = IsLoaderCookie am c0 := by
              simp [IsLoaderCookie, ha]
            have hd : ∀ x : ConfigRef κ, x.deref am' = x.deref am := by
              intro x; cases x <;> simp [ConfigRef.deref, hc]
            rw [hl, hd]
            cases hlc : IsLoaderCookie am c0 with
            | true => simp
            | false =>
              simp only [Bool.not_false, if_true]
              have ho := overlayScan_snd_eq ops am am' hg am.resource_resolution_logging_enabled_
                am'.resource_resolution_logging_enabled_
                (fun r l => FindEntry ops am n r d i l) (fun r l => FindEntry ops am' n r d i l)
                (fun r log log' => ih r d i log log') r
                (ConfigRef.deref am (selectDesiredConfig ops am d))
                g.overlays_ c0 out0 lx lx'
              revert ho
              generalize overlayScan ops am' _ _ r _ g.overlays_ c0 out0 lx' = Y'
              generalize overlayScan ops am _ _ r _ g.overlays_ c0 out0 lx = Y
              intro ho
              cases Y' with
              | none =>
                cases Y with
                | none => rfl
                | some y => simp at ho
              | some y' =>
                cases Y with
                | none => simp at ho
                | some y =>
                  obtain ⟨l2', c2', o2'⟩ := y'
                  obtain ⟨l2, c2, o2⟩ := y
                  simp only [Option.map_some', Option.some.injEq, Prod.mk.injEq] at ho
                  obtain ⟨h1, h2⟩ := ho
                  subst h1; subst h2
                  simp
    · simp [hv]

theorem candConfigs_cons {κ : Type} (ops : ResTable_configOps κ) (d : κ) (e : Nat)
    (ty : ResTable_type κ) (rest : List (ResTable_type κ)) :
    candConfigs ops d e (ty :: rest) =
      (if isCandidateType ops false d e ty then [ty.config] else []) ++
        candConfigs ops d e rest := by
  unfold candConfigs
  by_cases h : isCandidateType ops false d e ty = true
  · simp [List.filter_cons, h]
  · simp [List.filter_cons, h]

theorem slowScan_inv {κ : Type} (ops : ResTable_configOps κ)
    (hirr : ∀ a d, ops.isBetterThan a a d = false)
    (htrans : ∀ a b c d, ops.isBetterThan a b d = true → ops.isBetterThan b c d = true →
      ops.isBetterThan a c d = true)
    (hcmp : ∀ a b, ops.compare a b = 0 → ∀ c d, ops.isBetterThan c a d = ops.isBetterThan c b d)
    (l : Bool) (d : κ) (e : Nat) (p : LoadedPackage κ) (c : Nat)
    (types : List (ResTable_type κ)) :
    ∀ (seen : List κ) (st : ScanState κ), ScanInv ops d seen st.best →
      ScanInv ops d (seen ++ candConfigs ops d e types)
        (slowScan ops l false d e p c types st).best := by
  induction types with
  | nil => intro seen st h; simpa [slowScan, candConfigs] using h
  | cons ty rest ih =>
    intro seen st h
    rw [candConfigs_cons, ← List.append_assoc]
    simp only [slowScan, Bool.not_false, Bool.false_eq_true, if_false, if_true]
    by_cases hm : ops.isMatch ty.config d = true
    · simp only [hm, Bool.not_true, Bool.false_eq_true, if_false]
      cases hc : classifyCandidate ops d p.custom_loader ty.config st.best with
      | none =>
        simp only []
        apply ih
        -- skipped: ty is not better than the incumbent
        cases hb : st.best with
        | none => simp [classifyCandidate, hb] at hc
        | some b =>
          refine ⟨fun h0 => by simp at h0, ?_⟩
          intro b' hb' x hx
          simp only [Option.some.injEq] at hb'
          subst hb'
          rcases List.mem_append.1 hx with hx | hx
          · exact h.2 b hb x hx
          · have hx' : x = ty.config := by
              by_cases hcand : isCandidateType ops false d e ty = true
              · simpa [hcand] using hx
              · simp [hcand] at hx
            subst hx'
            simp only [classifyCandidate, hb] at hc
            by_cases hbt : ops.isBetterThan ty.config b.config d = true
            · simp [hbt] at hc
            · simpa using hbt
      | some rt =>
        simp only []
        by_cases ho : (GetEntryOffset ty e == NO_ENTRY) = true
        · simp only [ho, if_true]
          apply ih
          have hnc : isCandidateType ops false d e ty = false := by
            simp only [isCandidateType, Bool.and_eq_false_imp]
            intro _
            simpa using ho
          simpa [hnc] using h
        · simp only [ho, Bool.false_eq_true, if_false]
          have hcand : isCandidateType ops false d e ty = true := by
            simp only [isCandidateType, hm, Bool.false_or, Bool.true_and]
            simpa using ho
          have key : ScanInv ops d (seen ++ [ty.config])
              (some (⟨c, p, ty, ty.config, GetEntryOffset ty e⟩ : BestEntry κ)) := by
            refine ⟨fun h0 => by simp at h0, ?_⟩
            intro b' hb' x hx
            simp only [Option.some.injEq] at hb'
            subst hb'
            simp only []
            rcases List.mem_append.1 hx with hx | hx
            · cases hb : st.best with
              | none => have := h.1 hb; subst this; simp at hx
              | some b =>
                have hxb := h.2 b hb x hx
                simp only [classifyCandidate, hb] at hc
                by_cases hbt : ops.isBetterThan ty.config b.config d = true
                · by_contra hcon
                  have hcon' : ops.isBetterThan x ty.config d = true := by simpa using hcon
                  have := htrans _ _ _ _ hcon' hbt
                  rw [hxb] at this
                  exact Bool.noConfusion this
                · simp only [hbt, Bool.false_eq_true, if_false] at hc
                  by_cases hl : (p.custom_loader && ops.compare ty.config b.config == 0) = true
                  · have h0 : ops.compare ty.config b.config = 0 := by
                      simp only [Bool.and_eq_true, beq_iff_eq] at hl
                      exact hl.2
                    rw [hcmp _ _ h0]
                    exact hxb
                  · simp [hl] at hc
            · have : x = ty.config := by simpa using hx
              subst this
              exact hirr _ _
          simp only [hcand, if_true]
          apply ih
          cases l <;> exact key
    · simp only [hm, Bool.not_false, if_true]
      apply ih
      have hnc : isCandidateType ops false d e ty = false := by
        simp [isCandidateType, hm]
      simpa [hnc] using h

theorem BestFrom.cons {κ : Type} {ops : ResTable_configOps κ} {i : Bool} {d : κ} {e : Nat}
    {pkg : LoadedPackage κ} {cookie : Nat} {types : List (ResTable_type κ)}
    {b : BestEntry κ} (ty : ResTable_type κ) (h : BestFrom ops i d e pkg cookie types b) :
    BestFrom ops i d e pkg cookie (ty :: types) b :=
  ⟨h.1, h.2.1, List.mem_cons_of_mem _ h.2.2.1, h.2.2.2⟩

theorem slowScan_best_from {κ : Type} (ops : ResTable_configOps κ)
    (l i : Bool) (d : κ) (e : Nat) (p : LoadedPackage κ) (c : Nat)
    (types : List (ResTable_type κ)) :
    ∀ (st : ScanState κ) (b : BestEntry κ),
      (slowScan ops l i d e p c types st).best = some b →
        st.best = some b ∨ BestFrom ops i d e p c types b := by
  induction types with
  | nil => intro st b h; left; simpa [slowScan] using h
  | cons ty rest ih =>
    intro st b
    simp only [slowScan]
    cases i with
    | true =>
      simp only [Bool.not_true, Bool.false_eq_true, if_false, if_true]
      by_cases ho : (GetEntryOffset ty e == NO_ENTRY) = true
      · simp only [ho, if_true]
        intro h
        exact (ih st b h).imp id (BestFrom.cons ty)
      · simp only [ho, Bool.false_eq_true, if_false]
        intro h
        right
        simp only [Option.some.injEq] at h
        subst h
        refine ⟨rfl, rfl, List.mem_cons_self _ _, ?_, rfl, rfl⟩
        simp only [isCandidateType, Bool.true_or, Bool.true_and]
        simpa using ho
    | false =>
      simp only [Bool.not_false, Bool.false_eq_true, if_false, if_true]
      by_cases hm : ops.isMatch ty.config d = true
      · simp only [hm, Bool.not_true, Bool.false_eq_true, if_false]
        cases hc : classifyCandidate ops d p.custom_loader ty.config st.best with
        | none =>
          simp only []
          intro h
          exact (ih st b h).imp id (BestFrom.cons ty)
        | some rt =>
          simp only []
          by_cases ho : (GetEntryOffset ty e == NO_ENTRY) = true
          · simp only [ho, if_true]
            intro h
            exact (ih _ b h).imp id (BestFrom.cons ty)
          · simp only [ho, Bool.false_eq_true, if_false]
            intro h
            right
            rcases ih _ b h with h1 | h1
            · have h2 : b = ⟨c, p, ty, ty.config, GetEntryOffset ty e⟩ := by
                cases l <;> simpa using h1.symm
              subst h2
              refine ⟨rfl, rfl, List.mem_cons_self _ _, ?_, rfl, rfl⟩
              simp only [isCandidateType, hm, Bool.false_or, Bool.true_and]
              simpa using ho
            · exact BestFrom.cons ty h1
      · simp only [hm, Bool.not_false, if_true]
        intro h
        exact (ih st b h).imp id (BestFrom.cons ty)

theorem slowScan_isSome {κ : Type} (ops : ResTable_configOps κ)
    (l i : Bool) (d : κ) (e : Nat) (p : LoadedPackage κ) (c : Nat)
    (types : List (ResTable_type κ)) :
    ∀ (st : ScanState κ),
      (st.best.isSome = true ∨ ∃ t ∈ types, isCandidateType ops i d e t = true) →
        (slowScan ops l i d e p c types st).best.isSome = true := by
  induction types with
  | nil =>
    intro st h
    rcases h with h | ⟨t, ht, _⟩
    · simpa [slowScan] using h
    · simp at ht
  | cons ty rest ih =>
    intro st h
    simp only [slowScan]
    cases i with
    | true =>
      simp only [Bool.not_true, Bool.false_eq_true, if_false, if_true]
      by_cases ho : (GetEntryOffset ty e == NO_ENTRY) = true
      · simp only [ho, if_true]
        apply ih
        rcases h with h | ⟨t, ht, hc⟩
        · exact Or.inl h
        · rcases List.mem_cons.1 ht with rfl | ht
          · simp only [isCandidateType, Bool.true_or, Bool.true_and] at hc
            simp only [beq_iff_eq] at ho
            simp [ho] at hc
          · exact Or.inr ⟨t, ht, hc⟩
      · simp only [ho, Bool.false_eq_true, if_false]
        rfl
    | false =>
      simp only [Bool.not_false, Bool.false_eq_true, if_false, if_true]
      by_cases hm : ops.isMatch ty.config d = true
      · simp only [hm, Bool.not_true, Bool.false_eq_true, if_false]
        cases hc : classifyCandidate ops d p.custom_loader ty.config st.best with
        | none =>
          simp only []
          apply ih
          left
          cases hb : st.best with
          | none => simp [classifyCandidate, hb] at hc
          | some b => rfl
        | some rt =>
          simp only []
          by_cases ho : (GetEntryOffset ty e == NO_ENTRY) = true
          · simp only [ho, if_true]
            apply ih
            rcases h with h | ⟨t, ht, hc'⟩
            · exact Or.inl h
            · rcases List.mem_cons.1 ht with rfl | ht
              · simp only [isCandidateType, Bool.and_eq_true, bne_iff_ne] at hc'
                simp only [beq_iff_eq] at ho
                exact absurd ho hc'.2
              · exact Or.inr ⟨t, ht, hc'⟩
          · simp only [ho, Bool.false_eq_true, if_false]
            apply ih
            left
            cases l <;> rfl
      · simp only [hm, Bool.not_false, if_true]
        apply ih
        rcases h with h | ⟨t, ht, hc⟩
        · exact Or.inl h
        · rcases List.mem_cons.1 ht with rfl | ht
          · simp [isCandidateType, hm] at hc
          · exact Or.inr ⟨t, ht, hc⟩

/-- Fast path over the filtered list against slow path over the raw list. -/
theorem fastScan_filter_agree {κ : Type} (ops : ResTable_configOps κ) (l l' : Bool) (d : κ)
    (e : Nat) (p : LoadedPackage κ) (c : Nat) (types : List (ResTable_type κ)) :
    ∀ s t : ScanState κ, s.agree t →
      (fastScan ops l d e p c
        ((types.filter (fun ty => ops.isMatch ty.config d)).map
          (fun ty => (ty.config, ty))) s).agree
        (slowScan ops l' false d e p c types t) := by
  induction types with
  | nil => intro s t h; simpa [fastScan, slowScan] using h
  | cons ty rest ih =>
    intro s t h
    obtain ⟨hb, hf⟩ := h
    by_cases hm : ops.isMatch ty.config d = true
    · simp only [List.filter_cons, hm, if_true, List.map_cons, fastScan, slowScan, Bool.not_false,
        Bool.not_true, Bool.false_eq_true, if_false]
      rw [hb]
      cases hc : classifyCandidate ops d p.custom_loader ty.config t.best with
      | none =>
        simp only []
        apply ih
        constructor
        · cases l <;> simp [hb]
        · cases l <;> simp [hf]
      | some rt =>
        simp only []
        by_cases ho : (GetEntryOffset ty e == NO_ENTRY) = true
        · simp only [ho, if_true]
          apply ih
          constructor
          · cases l <;> simp [hb]
          · cases l <;> simp [hf]
        · simp only [ho, Bool.false_eq_true, if_false]
          apply ih
          constructor
          · cases l <;> cases l' <;> simp
          · cases l <;> cases l' <;> simp [hf]
    · simp only [List.filter_cons, hm, Bool.false_eq_true, if_false, slowScan, Bool.not_false,
        if_true]
      exact ih _ _ ⟨hb, hf⟩

theorem zip_map_config {κ : Type} (kept : List (ResTable_type κ)) :
    (kept.map (fun ty => ty.config)).zip kept = kept.map (fun ty => (ty.config, ty)) := by
  induction kept with
  | nil => rfl
  | cons a rest ih => simp [ih]

theorem filterPackage_getD {κ : Type} (ops : ResTable_configOps κ) (cfg : κ) (f : Bool)
    (p : LoadedPackage κ) (ti : Nat) (spec : TypeSpec κ)
    (h : p.GetTypeSpecByTypeIndex ti = some spec) :
    (filterPackage ops cfg f p).getD ti ⟨[], []⟩ = filterTypeSpec ops cfg f spec := by
  unfold LoadedPackage.GetTypeSpecByTypeIndex at h
  unfold filterPackage
  have h2 : p.type_specs[ti]? = some (some spec) := by
    rw [List.get?_eq_getElem?] at h
    cases hg : p.type_specs[ti]? with
    | none => rw [hg] at h; simp at h
    | some o =>
      rw [hg] at h
      cases o with
      | none => simp at h
      | some s => simp at h; rw [h]
  rw [List.getD_eq_getElem?_getD, List.getElem?_map, h2]
  rfl

/-! ## Candidate scans over a package group -/

theorem isCandidateType_iff {κ : Type} (ops : ResTable_configOps κ) (i : Bool) (d : κ) (e : Nat)
    (t : ResTable_type κ) :
    isCandidateType ops i d e t = true ↔
      (i = true ∨ ops.isMatch t.config d = true) ∧ GetEntryOffset t e ≠ NO_ENTRY := by
  simp [isCandidateType]

theorem packageScan_fast_slow_agree {κ : Type} (ops : ResTable_configOps κ) (l l' : Bool)
    (d : κ) (ti e : Nat) (pkgs : List (ConfiguredPackage κ × Nat))
    (hcons : ∀ x ∈ pkgs, x.1.filtered_configs_ = filterPackage ops d true x.1.loaded_package_) :
    ∀ s t : ScanState κ, s.agree t →
      (packageScan ops l false true d ti e pkgs s).agree
        (packageScan ops l' false false d ti e pkgs t) := by
  induction pkgs with
  | nil => intro s t h; simpa [packageScan] using h
  | cons x rest ih =>
    intro s t h
    obtain ⟨impl, c⟩ := x
    obtain ⟨hb, hf⟩ := h
    have hx := hcons (impl, c) (List.mem_cons_self _ _)
    have ih' := ih (fun y hy => hcons y (List.mem_cons_of_mem _ hy))
    simp only [packageScan]
    cases hs : impl.loaded_package_.GetTypeSpecByTypeIndex ti with
    | none => exact ih' _ _ ⟨hb, hf⟩
    | some spec =>
      simp only [if_true, Bool.false_eq_true, if_false]
      apply ih'
      simp only at hx
      rw [hx, filterPackage_getD ops d true _ ti spec hs]
      simp only [filterTypeSpec, Bool.not_true, Bool.false_or, zip_map_config]
      apply fastScan_filter_agree
      exact ⟨hb, by simp [hf]⟩

theorem packageScan_inv {κ : Type} (ops : ResTable_configOps κ)
    (hirr : ∀ a d, ops.isBetterThan a a d = false)
    (htrans : ∀ a b c d, ops.isBetterThan a b d = true → ops.isBetterThan b c d = true →
      ops.isBetterThan a c d = true)
    (hcmp : ∀ a b, ops.compare a b = 0 → ∀ c d, ops.isBetterThan c a d = ops.isBetterThan c b d)
    (l : Bool) (d : κ) (ti e : Nat) (pkgs : List (ConfiguredPackage κ × Nat)) :
    ∀ (seen : List κ) (st : ScanState κ), ScanInv ops d seen st.best →
      ScanInv ops d (seen ++ groupCandConfigs ops d ti e pkgs)
        (packageScan ops l false false d ti e pkgs st).best := by
  induction pkgs with
  | nil => intro seen st h; simpa [packageScan, groupCandConfigs] using h
  | cons x rest ih =>
    intro seen st h
    obtain ⟨impl, c⟩ := x
    simp only [packageScan, groupCandConfigs]
    cases hs : impl.loaded_package_.GetTypeSpecByTypeIndex ti with
    | none => simpa using ih seen st h
    | some spec =>
      simp only [Bool.false_eq_true, if_false]
      rw [← List.append_assoc]
      apply ih
      apply slowScan_inv ops hirr htrans hcmp
      exact h

theorem packageScan_best_from {κ : Type} (ops : ResTable_configOps κ)
    (l i : Bool) (d : κ) (ti e : Nat) (pkgs : List (ConfiguredPackage κ × Nat)) :
    ∀ (st : ScanState κ) (b : BestEntry κ),
      (packageScan ops l i false d ti e pkgs st).best = some b →
        st.best = some b ∨ ∃ x ∈ pkgs, ∃ spec,
          x.1.loaded_package_.GetTypeSpecByTypeIndex ti = some spec ∧
            BestFrom ops i d e x.1.loaded_package_ x.2 spec.types b := by
  induction pkgs with
  | nil => intro st b h; left; simpa [packageScan] using h
  | cons x rest ih =>
    intro st b
    obtain ⟨impl, c⟩ := x
    simp only [packageScan]
    cases hs : impl.loaded_package_.GetTypeSpecByTypeIndex ti with
    | none =>
      intro h
      rcases ih st b h with h1 | ⟨y, hy, spec, h2, h3⟩
      · exact Or.inl h1
      · exact Or.inr ⟨y, List.mem_cons_of_mem _ hy, spec, h2, h3⟩
    | some spec =>
      simp only [Bool.false_eq_true, if_false]
      intro h
      rcases ih _ b h with h1 | ⟨y, hy, spec', h2, h3⟩
      · rcases slowScan_best_from ops l i d e _ c spec.types _ b h1 with h4 | h4
        · exact Or.inl h4
        · exact Or.inr ⟨(impl, c), List.mem_cons_self _ _, spec, hs, h4⟩
      · exact Or.inr ⟨y, List.mem_cons_of_mem _ hy, spec', h2, h3⟩

theorem packageScan_isSome {κ : Type} (ops : ResTable_configOps κ)
    (l i : Bool) (d : κ) (ti e : Nat) (pkgs : List (ConfiguredPackage κ × Nat)) :
    ∀ (st : ScanState κ),
      (st.best.isSome = true ∨ ∃ x ∈ pkgs, ∃ spec,
          x.1.loaded_package_.GetTypeSpecByTypeIndex ti = some spec ∧
            ∃ t ∈ spec.types, isCandidateType ops i d e t = true) →
        (packageScan ops l i false d ti e pkgs st).best.isSome = true := by
  induction pkgs with
  | nil =>
    intro st h
    rcases h with h | ⟨x, hx, _⟩
    · simpa [packageScan] using h
    · simp at hx
  | cons x rest ih =>
    intro st h
    obtain ⟨impl, c⟩ := x
    simp only [packageScan]
    cases hs : impl.loaded_package_.GetTypeSpecByTypeIndex ti with
    | none =>
      apply ih
      rcases h with h | ⟨y, hy, spec, h2, h3⟩
      · exact Or.inl h
      · rcases List.mem_cons.1 hy with rfl | hy
        · simp only at h2; rw [hs] at h2; simp at h2
        · exact Or.inr ⟨y, hy, spec, h2, h3⟩
    | some spec =>
      simp only [Bool.false_eq_true, if_false]
      apply ih
      rcases h with h | ⟨y, hy, spec', h2, h3⟩
      · left
        apply slowScan_isSome
        exact Or.inl h
      · rcases List.mem_cons.1 hy with rfl | hy
        · left
          simp only at h2
          rw [hs] at h2
          simp only [Option.some.injEq] at h2
          subst h2
          apply slowScan_isSome
          exact Or.inr h3
        · exact Or.inr ⟨y, hy, spec', h2, h3⟩

theorem mem_candConfigs {κ : Type} (ops : ResTable_configOps κ) (d : κ) (e : Nat)
    (types : List (ResTable_type κ)) (c : κ) :
    c ∈ candConfigs ops d e types ↔
      ∃ t ∈ types, isCandidateType ops false d e t = true ∧ t.config = c := by
  simp [candConfigs, List.mem_map, List.mem_filter, and_assoc]

theorem mem_groupCandConfigs {κ : Type} (ops : ResTable_configOps κ) (d : κ) (ti e : Nat)
    (pkgs : List (ConfiguredPackage κ × Nat)) (c : κ) :
    c ∈ groupCandConfigs ops d ti e pkgs ↔
      ∃ x ∈ pkgs, ∃ spec, x.1.loaded_package_.GetTypeSpecByTypeIndex ti = some spec ∧
        ∃ t ∈ spec.types, isCandidateType ops false d e t = true ∧ t.config = c := by
  induction pkgs with
  | nil => simp [groupCandConfigs]
  | cons x rest ih =>
    simp only [groupCandConfigs, List.mem_append, ih, List.mem_cons, exists_eq_or_imp]
    apply or_congr_left
    cases hs : x.1.loaded_package_.GetTypeSpecByTypeIndex ti with
    | none => simp
    | some spec => simp [mem_candConfigs]

/-! ## C1: best-match selection -/

theorem sampleOps_irrefl (a d : SampleConfig) : sampleOps.isBetterThan a a d = false := by
  simp only [sampleOps, SampleConfig.isBetterThan]
  cases h1 : a.locale == 0 <;> cases h2 : a.density == 0 <;> simp [bne, h1, h2]

theorem sampleOps_trans (a b c d : SampleConfig) (h1 : sampleOps.isBetterThan a b d = true)
    (h2 : sampleOps.isBetterThan b c d = true) : sampleOps.isBetterThan a c d = true := by
  simp only [sampleOps, SampleConfig.isBetterThan] at *
  cases ha1 : a.locale == 0 <;> cases ha2 : a.density == 0 <;>
  cases hb1 : b.locale == 0 <;> cases hb2 : b.density == 0 <;>
  cases hc1 : c.locale == 0 <;> cases hc2 : c.density == 0 <;>
  simp [bne, ha1, ha2, hb1, hb2, hc1, hc2] at h1 h2 ⊢

theorem sampleOps_compare (a b : SampleConfig) (h : sampleOps.compare a b = 0) : a = b := by
  simp only [sampleOps, SampleConfig.compare] at h
  obtain ⟨al, ad⟩ := a
  obtain ⟨bl, bd⟩ := b
  simp only at h
  split at h
  · simp at h
  · split at h
    · simp at h
    · split at h
      · simp at h
      · split at h
        · simp at h
        · have : al = bl := by omega
          have : ad = bd := by omega
          simp [*]

/-- C1 (best-match selection).  On the slow path (the desired configuration is not the member
`configuration_`) and with `ignore_configuration = false`, when `FindEntryInternal` succeeds
the configuration it returns is the configuration of a candidate owned by the returned cookie (a
type configuration of a package of the group that matches the desired configuration and has a
live entry offset at the entry index), no candidate `isBetterThan` the returned configuration,
and when all candidates have one and the same configuration that configuration is returned.
`isBetterThan` is assumed irreflexive and transitive, and `compare` to return zero only on
configurations that `isBetterThan` does not tell apart as the incumbent. -/
theorem FindEntryInternal_best_match {κ : Type} (ops : ResTable_configOps κ)
    (hirr : ∀ a d, ops.isBetterThan a a d = false)
    (htrans : ∀ a b c d, ops.isBetterThan a b d = true → ops.isBetterThan b c d = true →
      ops.isBetterThan a c d = true)
    (hcmp : ∀ a b, ops.compare a b = 0 → ∀ c d, ops.isBetterThan c a d = ops.isBetterThan c b d)
    (am : AssetManager2 κ) (g : PackageGroup κ) (type_idx entry_idx : Nat) (desired : κ)
    (log : Resolution κ) (cookie : Nat) (res : FindEntryResult κ)
    (h : (FindEntryInternal ops am g type_idx entry_idx (ConfigRef.other desired) false log).2 =
      some (cookie, res)) :
    (∃ impl type, IsCandidate ops g type_idx entry_idx false desired impl cookie type ∧
        res.config = type.config) ∧
      (∀ impl c type, IsCandidate ops g type_idx entry_idx false desired impl c type →
        ops.isBetterThan type.config res.config desired = false) ∧
      (∀ c0, (∀ impl c type, IsCandidate ops g type_idx entry_idx false desired impl c type →
        type.config = c0) → res.config = c0) := by
  simp only [FindEntryInternal, Bool.not_false, Bool.true_and, ConfigRef.isConfiguration_,
    ConfigRef.deref] at h
  have hinv := packageScan_inv ops hirr htrans hcmp am.resource_resolution_logging_enabled_
    desired type_idx entry_idx (g.packages_.zip g.cookies_) []
    ⟨none, 0, StepType.NO_ENTRY, [], log.steps⟩ ⟨fun _ => rfl, fun b hb => by simp at hb⟩
  have hfrom := packageScan_best_from ops am.resource_resolution_logging_enabled_ false
    desired type_idx entry_idx (g.packages_.zip g.cookies_)
    ⟨none, 0, StepType.NO_ENTRY, [], log.steps⟩
  revert h hinv hfrom
  generalize packageScan ops am.resource_resolution_logging_enabled_ false false desired type_idx
    entry_idx (g.packages_.zip g.cookies_) ⟨none, 0, StepType.NO_ENTRY, [], log.steps⟩ = st
  intro h hinv hfrom
  cases hb : st.best with
  | none => rw [hb] at h; simp at h
  | some b =>
    rw [hb] at h
    simp only at h
    cases he : GetEntryFromOffset b.type b.offset with
    | none => rw [he] at h; simp at h
    | some entry =>
      rw [he] at h
      simp only [Option.some.injEq, Prod.mk.injEq] at h
      obtain ⟨hck, hres⟩ := h
      have hcfg : res.config = b.config := by rw [← hres]
      have hfrom' := hfrom b hb
      simp only [false_or] at hfrom'
      have hfrom'' : ∃ x ∈ g.packages_.zip g.cookies_, ∃ spec,
          x.1.loaded_package_.GetTypeSpecByTypeIndex type_idx = some spec ∧
            BestFrom ops false desired entry_idx x.1.loaded_package_ x.2 spec.types b := by
        rcases hfrom' with h0 | h0
        · simp at h0
        · exact h0
      obtain ⟨x, hx, spec, hspec, hbf⟩ := hfrom''
      obtain ⟨hbc, _, hbt, hbcand, _, hbcfg⟩ := hbf
      have first : ∃ impl type,
          IsCandidate ops g type_idx entry_idx false desired impl cookie type ∧
          res.config = type.config := by
        refine ⟨x.1, b.type, ⟨?_, spec, hspec, hbt, ?_⟩, ?_⟩
        · rw [← hck, hbc]; exact hx
        · exact (isCandidateType_iff ops false desired entry_idx b.type).1 hbcand
        · rw [hcfg, hbcfg]; simp
      refine ⟨first, ?_, ?_⟩
      · intro impl c type hcand
        rw [hcfg]
        apply hinv.2 b hb
        simp only [List.nil_append]
        rw [mem_groupCandConfigs]
        obtain ⟨hmem, spec', hs', ht', hm', hl'⟩ := hcand
        exact ⟨(impl, c), hmem, spec', hs', type, ht',
          (isCandidateType_iff ops false desired entry_idx type).2 ⟨hm', hl'⟩, rfl⟩
      · intro c0 hall
        obtain ⟨impl, type, hc, hrc⟩ := first
        rw [hrc]
        exact hall impl cookie type hc

/-- Witness of C1: the locale-33 request on `samplePackage` returns the locale-33 entry. -/
theorem FindEntryInternal_best_match_witness :
    (FindEntryInternal sampleOps sampleEngine sampleGroup 0 0
      (ConfigRef.other ⟨33, 0⟩) false sampleEngine.last_resolution_).2 = some (0, sampleResult) ∧
    ((∃ impl type, IsCandidate sampleOps sampleGroup 0 0 false ⟨33, 0⟩ impl 0 type ∧
        sampleResult.config = type.config) ∧
      (∀ impl c type, IsCandidate sampleOps sampleGroup 0 0 false ⟨33, 0⟩ impl c type →
        sampleOps.isBetterThan type.config sampleResult.config ⟨33, 0⟩ = false) ∧
      (∀ c0, (∀ impl c type, IsCandidate sampleOps sampleGroup 0 0 false ⟨33, 0⟩ impl c type →
        type.config = c0) → sampleResult.config = c0)) :=
  ⟨by rfl, FindEntryInternal_best_match sampleOps sampleOps_irrefl sampleOps_trans
    (fun a b h c d => by rw [sampleOps_compare a b h]) sampleEngine sampleGroup 0 0 ⟨33, 0⟩
    sampleEngine.last_resolution_ 0 sampleResult (by rfl)⟩

/-! ## C5: the fast path equals the slow path -/

theorem RebuildFilterList_filtersRebuilt {κ : Type} (ops : ResTable_configOps κ)
    (am : AssetManager2 κ) : FiltersRebuilt ops (RebuildFilterList ops am true) := by
  intro g hg impl himpl
  simp only [RebuildFilterList, List.mem_map] at hg
  obtain ⟨g0, _, rfl⟩ := hg
  simp only [List.mem_map] at himpl
  obtain ⟨impl0, _, rfl⟩ := himpl
  rfl

/-- C5 (fast path equals slow path).  In an engine whose filtered candidate lists are the ones
`RebuildFilterList` computes with filtering enabled for the current configuration, for every
package group of the engine, type index and entry index, `FindEntryInternal` called with
`desired_config` being the member `configuration_` and `ignore_configuration = false` (the fast
path, which scans the filtered lists without calling `match`) returns the same cookie and the
same result (entry, winning configuration, flag mask, names) as the slow path run for the same
desired configuration. -/
theorem FindEntryInternal_fast_eq_slow {κ : Type} (ops : ResTable_configOps κ)
    (am : AssetManager2 κ) (hfilters : FiltersRebuilt ops am) (g : PackageGroup κ)
    (hg : g ∈ am.package_groups_) (type_idx entry_idx : Nat) (log : Resolution κ) :
    (FindEntryInternal ops am g type_idx entry_idx ConfigRef.configuration_ false log).2 =
      (FindEntryInternal ops am g type_idx entry_idx (ConfigRef.other am.configuration_)
        false log).2 := by
  have hcons : ∀ x ∈ g.packages_.zip g.cookies_,
      x.1.filtered_configs_ = filterPackage ops am.configuration_ true x.1.loaded_package_ := by
    intro x hx
    exact hfilters g hg x.1 (List.of_mem_zip hx).1
  have := packageScan_fast_slow_agree ops am.resource_resolution_logging_enabled_
    am.resource_resolution_logging_enabled_ am.configuration_ type_idx entry_idx
    (g.packages_.zip g.cookies_) hcons ⟨none, 0, StepType.NO_ENTRY, [], log.steps⟩
    ⟨none, 0, StepType.NO_ENTRY, [], log.steps⟩ ⟨rfl, rfl⟩
  obtain ⟨hb, hf⟩ := this
  simp only [FindEntryInternal, Bool.not_false, Bool.true_and, ConfigRef.isConfiguration_,
    ConfigRef.deref]
  rw [hb, hf]
  cases (packageScan ops am.resource_resolution_logging_enabled_ false false am.configuration_
    type_idx entry_idx (g.packages_.zip g.cookies_)
    ⟨none, 0, StepType.NO_ENTRY, [], log.steps⟩).best with
  | none => rfl
  | some b =>
    simp only []
    cases GetEntryFromOffset b.type b.offset <;> rfl

/-- Witness of C5: in `sampleEngine`, whose lists were rebuilt by `SetConfiguration`, both
paths return the locale-33 entry. -/
theorem FindEntryInternal_fast_eq_slow_witness :
    sampleGroup ∈ sampleEngine.package_groups_ ∧
    (FindEntryInternal sampleOps sampleEngine sampleGroup 0 0 ConfigRef.configuration_ false
        sampleEngine.last_resolution_).2 = some (0, sampleResult) ∧
    (FindEntryInternal sampleOps sampleEngine sampleGroup 0 0 ConfigRef.configuration_ false
        sampleEngine.last_resolution_).2 =
      (FindEntryInternal sampleOps sampleEngine sampleGroup 0 0
        (ConfigRef.other sampleEngine.configuration_) false sampleEngine.last_resolution_).2 :=
  ⟨List.mem_singleton.2 rfl, by rfl,
    FindEntryInternal_fast_eq_slow sampleOps sampleEngine
      (RebuildFilterList_filtersRebuilt sampleOps _) sampleGroup (List.mem_singleton.2 rfl) 0 0
      sampleEngine.last_resolution_⟩

/-! ## C6: lookups are deterministic and independent of the trace -/

theorem SameBundles.refl {κ : Type} (am : AssetManager2 κ) : SameBundles am am :=
  ⟨rfl, rfl, rfl, rfl⟩

theorem SameBundles.trans {κ : Type} {a b c : AssetManager2 κ} (h1 : SameBundles a b)
    (h2 : SameBundles b c) : SameBundles a c :=
  ⟨h2.1.trans h1.1, h2.2.1.trans h1.2.1, h2.2.2.1.trans h1.2.2.1, h2.2.2.2.trans h1.2.2.2⟩

theorem GetBagRec_sameBundles {κ : Type} (ops : ResTable_configOps κ) (dops : DynamicRefTableOps)
    (fuel : Nat) :
    ∀ (am : AssetManager2 κ) (resid : Nat) (child_resids : List Nat) (r : BagResult κ),
      GetBagRec ops dops fuel am resid child_resids = some r → SameBundles am r.1 := by
  induction fuel with
  | zero => intro am resid cr r h; simp [GetBagRec] at h
  | succ n ih =>
    intro am resid cr r h
    unfold GetBagRec at h
    split at h
    · simp only [Option.some.injEq] at h; subst h; exact SameBundles.refl am
    · split at h
      · exact absurd h (by simp)
      · simp only [Option.some.injEq] at h; subst h; exact ⟨rfl, rfl, rfl, rfl⟩
      · simp only at h
        split at h
        · simp only [Option.some.injEq] at h; subst h; exact ⟨rfl, rfl, rfl, rfl⟩
        · split at h
          · split at h
            · simp only [Option.some.injEq] at h; subst h; exact ⟨rfl, rfl, rfl, rfl⟩
            · simp only [Option.some.injEq] at h; subst h; exact ⟨rfl, rfl, rfl, rfl⟩
          · split at h
            · exact absurd h (by simp)
            · rename_i h2
              simp only [Option.some.injEq] at h; subst h
              have := ih _ _ _ _ h2
              exact SameBundles.trans ⟨rfl, rfl, rfl, rfl⟩ this
            · rename_i h2
              have h3 := ih _ _ _ _ h2
              split at h
              · simp only [Option.some.injEq] at h; subst h
                exact SameBundles.trans ⟨rfl, rfl, rfl, rfl⟩ h3
              · simp only [Option.some.injEq] at h; subst h
                exact SameBundles.trans ⟨rfl, rfl, rfl, rfl⟩
                  (SameBundles.trans h3 ⟨rfl, rfl, rfl, rfl⟩)

theorem GetBag_sameBundles {κ : Type} (ops : ResTable_configOps κ) (dops : DynamicRefTableOps)
    (fuel : Nat) (am : AssetManager2 κ) (resid : Nat) (r : AssetManager2 κ × Option ResolvedBag)
    (h : GetBag ops dops fuel am resid = some r) : SameBundles am r.1 := by
  unfold GetBag at h
  split at h
  · exact absurd h (by simp)
  · rename_i h2
    have h3 := GetBagRec_sameBundles ops dops fuel _ _ _ _ h2
    split at h
    · simp only [Option.some.injEq] at h; subst h; exact h3
    · simp only [Option.some.injEq] at h; subst h
      exact SameBundles.trans h3 ⟨rfl, rfl, rfl, rfl⟩

/-- C6 (lookups are deterministic and independent of the trace).  For a fixed bundle list,
package groups and configuration, the cookie and the resolved entry `FindEntry` returns do not
depend on whether resolution logging is enabled, on the recorded last resolution, or on the
content of the bag cache and of the bag-stack cache: changing these members of the engine, or
calling `GetBag` or `FindEntry` beforehand, leaves the returned cookie and entry unchanged. -/
theorem FindEntry_deterministic {κ : Type} (ops : ResTable_configOps κ) (am : AssetManager2 κ)
    (fuel resid density_override : Nat) (ignore_configuration : Bool) (log : Resolution κ) :
    (∀ (enabled : Bool) (last_resolution log' : Resolution κ) (bags : List (Nat × ResolvedBag))
        (resid_stacks : List (Nat × List Nat)),
        (FindEntry ops
            { am with
              resource_resolution_logging_enabled_ := enabled
              last_resolution_ := last_resolution
              cached_bags_ := bags
              cached_bag_resid_stacks_ := resid_stacks }
            fuel resid density_override ignore_configuration log').map Prod.snd =
          (FindEntry ops am fuel resid density_override ignore_configuration log).map Prod.snd) ∧
      (∀ (dops : DynamicRefTableOps) (fuel0 resid0 : Nat) (am1 : AssetManager2 κ)
        (bag : Option ResolvedBag) (log' : Resolution κ),
        GetBag ops dops fuel0 am resid0 = some (am1, bag) →
          (FindEntry ops am1 fuel resid density_override ignore_configuration log').map Prod.snd =
            (FindEntry ops am fuel resid density_override ignore_configuration log).map
              Prod.snd) ∧
      (∀ (fuel0 resid0 density0 : Nat) (ignore0 : Bool) (r : FindResult κ)
        (log' : Resolution κ),
        FindEntry ops am fuel0 resid0 density0 ignore0 am.last_resolution_ = some r →
          (FindEntry ops { am with last_resolution_ := r.1 } fuel resid density_override
              ignore_configuration log').map Prod.snd =
            (FindEntry ops am fuel resid density_override ignore_configuration log).map
              Prod.snd) := by
  refine ⟨?_, ?_, ?_⟩
  · intro enabled lr log' bags resid_stacks
    exact FindEntry_snd_eq ops am
      { am with
        resource_resolution_logging_enabled_ := enabled
        last_resolution_ := lr
        cached_bags_ := bags
        cached_bag_resid_stacks_ := resid_stacks } ⟨rfl, rfl, rfl, rfl⟩ fuel resid
      density_override ignore_configuration log log'
  · intro dops fuel0 resid0 am1 bag log' h
    exact FindEntry_snd_eq ops am am1 (GetBag_sameBundles ops dops fuel0 am resid0 _ h) fuel resid
      density_override ignore_configuration log log'
  · intro fuel0 resid0 density0 ignore0 r log' _
    exact FindEntry_snd_eq ops am { am with last_resolution_ := r.1 } ⟨rfl, rfl, rfl, rfl⟩ fuel
      resid density_override ignore_configuration log log'

/-! ## Bag merge -/

theorem resolveEntry_some {dops : DynamicRefTableOps} {table : DynamicRefTable}
    {cookie resid : Nat} {m : ResTable_map} {c : BagEntry}
    (h : resolveEntry dops table cookie resid m = some c) :
    rewriteKey dops table m.name = some c.key ∧
      dops.lookupResourceValue table m.value = some c.value ∧
      c = ⟨c.key, c.value, cookie, resid⟩ := by
  unfold resolveEntry at h
  cases hk : rewriteKey dops table m.name with
  | none => rw [hk] at h; simp at h
  | some k =>
    rw [hk] at h
    simp only at h
    cases hv : dops.lookupResourceValue table m.value with
    | none => rw [hv] at h; simp at h
    | some v =>
      rw [hv] at h
      simp only [Option.some.injEq] at h
      subst h
      exact ⟨rfl, rfl, rfl⟩

theorem outOfOrder_false_of_ascending (written : List BagEntry) (c : BagEntry)
    (h : ∀ w ∈ written, w.key < c.key) : outOfOrder written c = false := by
  unfold outOfOrder
  cases hl : written.getLast? with
  | none => rfl
  | some prev =>
    have hm : prev ∈ written := List.mem_of_getLast?_eq_some hl
    have := h prev hm
    simp only [decide_eq_false_iff_not, not_lt]
    omega

theorem copyEntries_ascending (dops : DynamicRefTableOps) (table : DynamicRefTable)
    (cookie resid : Nat) (maps : List ResTable_map) (cs : List BagEntry)
    (hres : ResolvesTo dops table cookie resid maps cs) :
    ∀ (written : List BagEntry) (sort_entries : Bool), KeysAscending (written ++ cs) →
      copyEntries dops table cookie resid maps written sort_entries =
        some (written ++ cs, sort_entries) := by
  induction hres with
  | nil => intro written s _; simp [copyEntries]
  | @cons m c ms cs' hmc _ ih =>
    intro written s hasc
    obtain ⟨hk, hv, hc⟩ := resolveEntry_some hmc
    simp only [copyEntries, hk, hv]
    rw [← hc]
    have hlt : ∀ w ∈ written, w.key < c.key := by
      intro w hw
      have := (List.pairwise_append.1 hasc).2.2 w hw c (List.mem_cons_self _ _)
      exact this
    rw [outOfOrder_false_of_ascending written c hlt, Bool.or_false]
    have := ih (written ++ [c]) s (by simpa [KeysAscending] using hasc)
    simpa using this

theorem mergeEntries_eq_finishMerge (dops : DynamicRefTableOps) (table : DynamicRefTable)
    (cookie resid : Nat) (maps : List ResTable_map) (ps : List BagEntry) :
    mergeEntries dops table cookie resid maps ps =
      (finishMerge dops table cookie resid
        (mergeLoop dops table cookie resid (maps.length + ps.length) maps ps [] false)).map
        (fun r => if r.2 then sortEntries r.1 else r.1) := by
  unfold mergeEntries finishMerge
  cases mergeLoop dops table cookie resid (maps.length + ps.length) maps ps [] false with
  | none => rfl
  | some r =>
    obtain ⟨m1, p1, w1, s1⟩ := r
    simp only
    cases copyEntries dops table cookie resid m1 w1 s1 with
    | none => rfl
    | some r2 => rfl

theorem mergeLoop_ascending (dops : DynamicRefTableOps) (table : DynamicRefTable)
    (cookie resid : Nat) (n : Nat) :
    ∀ (maps : List ResTable_map) (cs ps written : List BagEntry),
      maps.length + ps.length ≤ n →
      ResolvesTo dops table cookie resid maps cs →
      KeysAscending (written ++ cs) → KeysAscending (written ++ ps) →
      ∃ merged, finishMerge dops table cookie resid
          (mergeLoop dops table cookie resid n maps ps written false) =
            some (written ++ merged, false) ∧
        KeysAscending (written ++ merged) ∧
        ∀ x, x ∈ merged ↔ x ∈ cs ∨ (x ∈ ps ∧ ∀ c ∈ cs, c.key ≠ x.key) := by
  induction n with
  | zero =>
    intro maps cs ps written hn hres hc hp
    have hm : maps = [] := by
      cases maps with
      | nil => rfl
      | cons a l => simp at hn
    have hps : ps = [] := by
      cases ps with
      | nil => rfl
      | cons a l => simp at hn
    subst hm; subst hps
    cases hres
    refine ⟨[], ?_, by simpa using hc, by simp⟩
    simp [mergeLoop, finishMerge, copyEntries]
  | succ n ih =>
    intro maps cs ps written hn hres hc hp
    cases hres with
    | nil =>
      refine ⟨ps, ?_, hp, by simp⟩
      cases ps <;> simp [mergeLoop, finishMerge, copyEntries]
    | @cons m c ms cs' hmc hrest =>
      cases ps with
      | nil =>
        refine ⟨c :: cs', ?_, hc, by simp⟩
        simp only [mergeLoop, finishMerge]
        rw [copyEntries_ascending dops table cookie resid (m :: ms) (c :: cs')
          (List.Forall₂.cons hmc hrest) written false hc]
        simp
      | cons p ps' =>
        obtain ⟨hk, hv, hceq⟩ := resolveEntry_some hmc
        have hcw : ∀ w ∈ written, w.key < c.key := fun w hw =>
          (List.pairwise_append.1 hc).2.2 w hw c (List.mem_cons_self _ _)
        have hpw : ∀ w ∈ written, w.key < p.key := fun w hw =>
          (List.pairwise_append.1 hp).2.2 w hw p (List.mem_cons_self _ _)
        have hcs : KeysAscending (c :: cs') := (List.pairwise_append.1 hc).2.1
        have hpp : KeysAscending (p :: ps') := (List.pairwise_append.1 hp).2.1
        have hcs' : ∀ x ∈ cs', c.key < x.key := (List.pairwise_cons.1 hcs).1
        have hps' : ∀ x ∈ ps', p.key < x.key := (List.pairwise_cons.1 hpp).1
        simp only [mergeLoop, hk]
        by_cases hle : c.key ≤ p.key
        · simp only [hle, if_true, hv]
          rw [← hceq, outOfOrder_false_of_ascending written c hcw, Bool.or_false]
          by_cases hge : c.key ≥ p.key
          · -- equal keys: the child overrides the parent entry
            have heq : c.key = p.key := by omega
            simp only [hge, if_true]
            have hn' : ms.length + ps'.length ≤ n := by simp at hn; omega
            have h1 : KeysAscending ((written ++ [c]) ++ cs') := by
              simpa [KeysAscending] using hc
            have h2 : KeysAscending ((written ++ [c]) ++ ps') := by
              unfold KeysAscending
              rw [List.append_assoc]
              apply List.pairwise_append.2
              refine ⟨(List.pairwise_append.1 hc).1, ?_, ?_⟩
              · apply List.pairwise_cons.2
                refine ⟨?_, (List.pairwise_cons.1 hpp).2⟩
                intro x hx
                have := hps' x hx
                omega
              · intro w hw x hx
                rcases List.mem_cons.1 hx with rfl | hx
                · exact hcw w hw
                · have := hps' x hx
                  have := hpw w hw
                  omega
            obtain ⟨merged, hm1, hm2, hm3⟩ := ih ms cs' ps' (written ++ [c]) hn' hrest h1 h2
            refine ⟨c :: merged, ?_, ?_, ?_⟩
            · rw [hm1]; simp
            · simpa using hm2
            · intro x
              simp only [List.mem_cons, hm3]
              constructor
              · rintro (rfl | h | ⟨h, h'⟩)
                · exact Or.inl (Or.inl rfl)
                · exact Or.inl (Or.inr h)
                · right
                  refine ⟨Or.inr h, ?_⟩
                  intro c' hc'
                  rcases hc' with rfl | hc'
                  · have := hps' x h; omega
                  · exact h' c' hc'
              · rintro (h | ⟨h, h'⟩)
                · rcases h with rfl | h
                  · exact Or.inl rfl
                  · exact Or.inr (Or.inl h)
                · rcases h with rfl | h
                  · exact absurd heq (h' c (Or.inl rfl))
                  · exact Or.inr (Or.inr ⟨h, fun c' hc' => h' c' (Or.inr hc')⟩)
          · -- the child's key comes first
            have hlt : c.key < p.key := by omega
            simp only [hge, if_false]
            have hn' : ms.length + (p :: ps').length ≤ n := by simp at hn ⊢; omega
            have h1 : KeysAscending ((written ++ [c]) ++ cs') := by
              simpa [KeysAscending] using hc
            have h2 : KeysAscending ((written ++ [c]) ++ (p :: ps')) := by
              unfold KeysAscending
              rw [List.append_assoc]
              apply List.pairwise_append.2
              refine ⟨(List.pairwise_append.1 hc).1, ?_, ?_⟩
              · apply List.pairwise_cons.2
                refine ⟨?_, hpp⟩
                intro x hx
                rcases List.mem_cons.1 hx with rfl | hx
                · exact hlt
                · have := hps' x hx; omega
              · intro w hw x hx
                rcases List.mem_cons.1 hx with rfl | hx
                · exact hcw w hw
                · exact (List.pairwise_append.1 hp).2.2 w hw x hx
            obtain ⟨merged, hm1, hm2, hm3⟩ :=
              ih ms cs' (p :: ps') (written ++ [c]) hn' hrest h1 h2
            refine ⟨c :: merged, ?_, ?_, ?_⟩
            · rw [hm1]; simp
            · simpa using hm2
            · intro x
              simp only [List.mem_cons, hm3]
              constructor
              · rintro (rfl | h | ⟨h, h'⟩)
                · exact Or.inl (Or.inl rfl)
                · exact Or.inl (Or.inr h)
                · right
                  refine ⟨h, ?_⟩
                  intro c' hc'
                  rcases hc' with rfl | hc'
                  · rcases h with rfl | h
                    · omega
                    · have := hps' x h; omega
                  · exact h' c' hc'
              · rintro (h | ⟨h, h'⟩)
                · rcases h with rfl | h
                  · exact Or.inl rfl
                  · exact Or.inr (Or.inl h)
                · exact Or.inr (Or.inr ⟨h, fun c' hc' => h' c' (Or.inr hc')⟩)
        · -- the parent's key comes first: the parent entry is copied
          have hgt : p.key < c.key := by omega
          have hge : c.key ≥ p.key := by omega
          simp only [hle, if_false, hge, if_true]
          rw [outOfOrder_false_of_ascending written p hpw, Bool.or_false]
          have hn' : (m :: ms).length + ps'.length ≤ n := by simp at hn ⊢; omega
          have h1 : KeysAscending ((written ++ [p]) ++ (c :: cs')) := by
            unfold KeysAscending
            rw [List.append_assoc]
            apply List.pairwise_append.2
            refine ⟨(List.pairwise_append.1 hp).1, ?_, ?_⟩
            · apply List.pairwise_cons.2
              refine ⟨?_, hcs⟩
              intro x hx
              rcases List.mem_cons.1 hx with rfl | hx
              · exact hgt
              · have := hcs' x hx; omega
            · intro w hw x hx
              rcases List.mem_cons.1 hx with rfl | hx
              · exact hpw w hw
              · exact (List.pairwise_append.1 hc).2.2 w hw x hx
          have h2 : KeysAscending ((written ++ [p]) ++ ps') := by
            simpa [KeysAscending] using hp
          obtain ⟨merged, hm1, hm2, hm3⟩ :=
            ih (m :: ms) (c :: cs') ps' (written ++ [p]) hn' (List.Forall₂.cons hmc hrest) h1 h2
          refine ⟨p :: merged, ?_, ?_, ?_⟩
          · rw [hm1]; simp
          · simpa using hm2
          · intro x
            simp only [List.mem_cons, hm3]
            constructor
            · rintro (rfl | h | ⟨h, h'⟩)
              · right
                refine ⟨Or.inl rfl, ?_⟩
                intro c' hc'
                rcases hc' with rfl | hc'
                · omega
                · have := hcs' c' hc'; omega
              · exact Or.inl h
              · exact Or.inr ⟨Or.inr h, h'⟩
            · rintro (h | ⟨h, h'⟩)
              · exact Or.inr (Or.inl h)
              · rcases h with rfl | h
                · exact Or.inl rfl
                · exact Or.inr (Or.inr ⟨h, h'⟩)

/-! ## C2: bag inheritance merge -/

theorem ResolvesTo.cookie_style {dops : DynamicRefTableOps} {table : DynamicRefTable}
    {cookie resid : Nat} {maps : List ResTable_map} {cs : List BagEntry}
    (h : ResolvesTo dops table cookie resid maps cs) :
    ∀ c ∈ cs, c.cookie = cookie ∧ c.style = resid := by
  induction h with
  | nil => intro c hc; simp at hc
  | @cons m c ms cs' hmc _ ih =>
    intro x hx
    rcases List.mem_cons.1 hx with rfl | hx
    · have := (resolveEntry_some hmc).2.2
      rw [this]
      exact ⟨rfl, rfl⟩
    · exact ih x hx

theorem KeysAscending.eq_of_key_eq {l : List BagEntry} (h : KeysAscending l)
    {a b : BagEntry} (ha : a ∈ l) (hb : b ∈ l) (hk : a.key = b.key) : a = b := by
  unfold KeysAscending at h
  have h2 : l.Pairwise (fun x y => x.key = y.key → x = y) := by
    refine List.Pairwise.imp ?_ h
    intro x y hxy hk'
    omega
  have hsymm : Symmetric (fun x y : BagEntry => x.key = y.key → x = y) := by
    intro x y hxy hk'
    exact (hxy hk'.symm).symm
  exact List.Pairwise.forall_of_forall hsymm (fun x _ _ => rfl) h2 ha hb hk

/-- C2 (bag inheritance merge).  Let a bag `resid` that is not cached resolve to a complex
entry whose declared parent is not null and not on the visited list, let the recursive call for
the parent return `parent_bag`, and let the pairs of the entry resolve (keys and values
rewritten through the dynamic reference table) to the entries `cs`.  If the keys of `cs` and
the keys of `parent_bag` are strictly ascending, `GetBag` returns and caches a bag whose keys
are strictly ascending and are exactly the keys of the child and of the parent, in which every
key of the child carries the child's entry (the child's value, cookie and resource id as
style) and every other key carries an entry of the parent, unchanged; its flag mask is the
entry's flags or-ed with the parent's. -/
theorem GetBag_inheritance_merge {κ : Type} (ops : ResTable_configOps κ)
    (dops : DynamicRefTableOps) (fuel : Nat) (am : AssetManager2 κ) (resid : Nat)
    (child_resids : List Nat) (log : Resolution κ) (cookie : Nat) (entry : FindEntryResult κ)
    (map : ResTable_entry) (am2 : AssetManager2 κ) (child_resids2 : List Nat)
    (parent_bag : ResolvedBag) (cs : List BagEntry)
    (hcache : am.cached_bags_.lookup resid = none)
    (hfind : FindEntry ops am (fuel + 1) resid 0 false am.last_resolution_ =
      some (log, some (cookie, entry)))
    (hmap : entry.entry = EntryVariant.map_entry map)
    (hparent : map.parent ≠ 0) (hcycle : map.parent ∉ child_resids ++ [resid])
    (hrec : GetBagRec ops dops fuel { am with last_resolution_ := log }
      ((dops.lookupResourceId entry.dynamic_ref_table map.parent).getD map.parent)
      (child_resids ++ [resid]) = some (am2, child_resids2, some parent_bag))
    (hres : ResolvesTo dops entry.dynamic_ref_table cookie resid map.maps cs)
    (hchild : KeysAscending cs) (hpar : KeysAscending parent_bag.entries) :
    ∃ bag, GetBagRec ops dops (fuel + 1) am resid child_resids =
        some ({ am2 with cached_bags_ := cacheBag am2.cached_bags_ resid bag }, child_resids2,
          some bag) ∧
      KeysAscending bag.entries ∧
      (∀ k, k ∈ bag.entries.map (fun x => x.key) ↔
        k ∈ cs.map (fun x => x.key) ∨ k ∈ parent_bag.entries.map (fun x => x.key)) ∧
      (∀ x ∈ bag.entries, ∀ c ∈ cs, c.key = x.key →
        x = c ∧ x.cookie = cookie ∧ x.style = resid) ∧
      (∀ x ∈ bag.entries, (∀ c ∈ cs, c.key ≠ x.key) → x ∈ parent_bag.entries) ∧
      bag.type_spec_flags = entry.type_flags ||| parent_bag.type_spec_flags := by
  obtain ⟨merged, hm1, hm2, hm3⟩ := mergeLoop_ascending dops entry.dynamic_ref_table cookie resid
    (map.maps.length + parent_bag.entries.length) map.maps cs parent_bag.entries [] (le_refl _)
    hres (by simpa using hchild) (by simpa using hpar)
  have hme : mergeEntries dops entry.dynamic_ref_table cookie resid map.maps parent_bag.entries =
      some merged := by
    rw [mergeEntries_eq_finishMerge, hm1]
    simp
  refine ⟨⟨entry.type_flags ||| parent_bag.type_spec_flags, merged⟩, ?_, ?_, ?_, ?_, ?_, rfl⟩
  · have hnc : (map.parent == 0 || (child_resids ++ [resid]).contains map.parent) = false := by
      simp only [Bool.or_eq_false_iff, beq_eq_false_iff_ne, ne_eq]
      refine ⟨hparent, ?_⟩
      rw [Bool.eq_false_iff]
      intro hcon
      exact hcycle (by simpa using hcon)
    rw [GetBagRec]
    simp only [hcache, hfind, hmap, hnc, hrec, hme, Bool.false_eq_true, if_false]
  · simpa using hm2
  · intro k
    simp only [List.mem_map]
    constructor
    · rintro ⟨x, hx, rfl⟩
      rcases (hm3 x).1 hx with h | ⟨h, _⟩
      · exact Or.inl ⟨x, h, rfl⟩
      · exact Or.inr ⟨x, h, rfl⟩
    · rintro (⟨c, hc, rfl⟩ | ⟨p, hp, rfl⟩)
      · exact ⟨c, (hm3 c).2 (Or.inl hc), rfl⟩
      · by_cases hex : ∃ c ∈ cs, c.key = p.key
        · obtain ⟨c, hc, hck⟩ := hex
          exact ⟨c, (hm3 c).2 (Or.inl hc), hck⟩
        · refine ⟨p, (hm3 p).2 (Or.inr ⟨hp, ?_⟩), rfl⟩
          intro c hc hck
          exact hex ⟨c, hc, hck⟩
  · intro x hx c hc hck
    have hxc : x = c := by
      rcases (hm3 x).1 hx with h | ⟨_, h⟩
      · exact (KeysAscending.eq_of_key_eq hchild hc h hck).symm
      · exact absurd hck (h c hc)
    subst hxc
    exact ⟨rfl, ResolvesTo.cookie_style hres x hc⟩
  · intro x hx hno
    rcases (hm3 x).1 hx with h | ⟨h, _⟩
    · exact absurd rfl (hno x h)
    · exact h

/-- Witness of C2: parent keys ending in 1, 3, 5 and child keys ending in 2, 3 give a bag with
the keys ending in 1, 2, 3, 5. -/
theorem GetBag_inheritance_merge_witness :
    ∃ bag, GetBagRec sampleOps sampleRefOps 2 sampleStyleEngine 0x7f020001 [] =
        some ({ sampleStyleEngine with
                cached_bags_ := cacheBag [(0x7f020000, sampleParentBag)] 0x7f020001 bag },
          [0x7f020001, 0x7f020000], some bag) ∧
      KeysAscending bag.entries ∧
      (∀ k, k ∈ bag.entries.map (fun x => x.key) ↔
        k ∈ sampleChildEntries.map (fun x => x.key) ∨
          k ∈ sampleParentBag.entries.map (fun x => x.key)) ∧
      (∀ x ∈ bag.entries, ∀ c ∈ sampleChildEntries, c.key = x.key →
        x = c ∧ x.cookie = 0 ∧ x.style = 0x7f020001) ∧
      (∀ x ∈ bag.entries, (∀ c ∈ sampleChildEntries, c.key ≠ x.key) →
        x ∈ sampleParentBag.entries) ∧
      bag.type_spec_flags = sampleChildEntry.type_flags ||| sampleParentBag.type_spec_flags :=
  GetBag_inheritance_merge sampleOps sampleRefOps 1 sampleStyleEngine 0x7f020001 []
    sampleStyleEngine.last_resolution_ 0 sampleChildEntry
    (sampleStyle 1 0x7f020000 [⟨0x7f010002, ⟨16, 22⟩⟩, ⟨0x7f010003, ⟨16, 23⟩⟩])
    { sampleStyleEngine with cached_bags_ := [(0x7f020000, sampleParentBag)] }
    [0x7f020001, 0x7f020000] sampleParentBag sampleChildEntries
    (by rfl) (by rfl) (by rfl) (by decide) (by decide) (by rfl)
    (List.Forall₂.cons (by rfl) (List.Forall₂.cons (by rfl) List.Forall₂.nil))
    (by unfold KeysAscending sampleChildEntries; decide)
    (by unfold KeysAscending sampleParentBag; decide)

/-! ## C10: bag cache eviction -/

theorem purgeBags_eq_filter (diff : Nat) (bags : List (Nat × ResolvedBag)) :
    purgeBags diff bags = bags.filter (fun e => (diff &&& e.2.type_spec_flags) == 0) := by
  induction bags with
  | nil => rfl
  | cons e rest ih =>
    obtain ⟨resid, bag⟩ := e
    simp only [purgeBags, List.filter_cons, ih]
    by_cases h : diff &&& bag.type_spec_flags = 0
    · simp [h]
    · simp [h]

/-- C10 (bag cache eviction rule).  For every mask other than `0xffffffff`,
`InvalidateCaches(diff)` keeps exactly the cached bags with `(diff & type_spec_flags) == 0`, in
their order and unchanged, and evicts the others; `SetConfiguration`, whose mask is the
configuration diff, therefore evicts a cached bag if and only if the diff intersects the bag's
flag mask; `InvalidateCaches(0xffffffff)` and a reload through `SetApkAssets` with
`invalidate_caches = true` leave the bag cache empty. -/
theorem InvalidateCaches_eviction {κ : Type} (ops : ResTable_configOps κ)
    (dops : DynamicRefTableOps) (am : AssetManager2 κ) (configuration : κ)
    (hdiff : ops.diff am.configuration_ configuration ≠ 0xffffffff) :
    (∀ diff, diff ≠ 0xffffffff →
      (InvalidateCaches am diff).cached_bags_ =
          am.cached_bags_.filter (fun e => (diff &&& e.2.type_spec_flags) == 0) ∧
        ∀ resid bag, (resid, bag) ∈ am.cached_bags_ →
          ((resid, bag) ∉ (InvalidateCaches am diff).cached_bags_ ↔
            diff &&& bag.type_spec_flags ≠ 0)) ∧
      ((SetConfiguration ops am configuration).cached_bags_ =
          am.cached_bags_.filter
            (fun e => (ops.diff am.configuration_ configuration &&& e.2.type_spec_flags) == 0) ∧
        ∀ resid bag, (resid, bag) ∈ am.cached_bags_ →
          ((resid, bag) ∉ (SetConfiguration ops am configuration).cached_bags_ ↔
            ops.diff am.configuration_ configuration &&& bag.type_spec_flags ≠ 0)) ∧
      (InvalidateCaches am 0xffffffff).cached_bags_ = [] ∧
      (∀ apk_assets filter_incompatible_configs,
        (SetApkAssets ops dops am apk_assets true filter_incompatible_configs).cached_bags_ =
          []) := by
  have key' : ∀ (am' : AssetManager2 κ) diff, diff ≠ 0xffffffff →
      (InvalidateCaches am' diff).cached_bags_ =
        am'.cached_bags_.filter (fun e => (diff &&& e.2.type_spec_flags) == 0) := by
    intro am' diff hd
    simp only [InvalidateCaches]
    have : (diff == 0xffffffff) = false := by simpa using hd
    simp only [this, Bool.false_eq_true, if_false]
    exact purgeBags_eq_filter diff am'.cached_bags_
  have key := key' am
  have mem : ∀ (diff : Nat) (l : List (Nat × ResolvedBag)),
      l = am.cached_bags_.filter (fun e => (diff &&& e.2.type_spec_flags) == 0) →
      ∀ resid bag, (resid, bag) ∈ am.cached_bags_ →
        ((resid, bag) ∉ l ↔ diff &&& bag.type_spec_flags ≠ 0) := by
    intro diff l hl resid bag hin
    subst hl
    simp [List.mem_filter, hin]
  have hset : (SetConfiguration ops am configuration).cached_bags_ =
      am.cached_bags_.filter
        (fun e => (ops.diff am.configuration_ configuration &&& e.2.type_spec_flags) == 0) := by
    simp only [SetConfiguration]
    by_cases h0 : ops.diff am.configuration_ configuration = 0
    · simp [h0]
    · have : (ops.diff am.configuration_ configuration != 0) = true := by simpa using h0
      simp only [this, if_true]
      exact key' (RebuildFilterList ops { am with configuration_ := configuration } true)
        (ops.diff am.configuration_ configuration) hdiff
  refine ⟨fun diff hd => ⟨key diff hd, mem diff _ (key diff hd)⟩, ⟨hset, mem _ _ hset⟩, ?_, ?_⟩
  · simp [InvalidateCaches]
  · intro apk f
    simp [SetApkAssets, InvalidateCaches]

/-- Witness of C10: a locale change evicts the locale-dependent bag and keeps the
density-dependent one. -/
theorem InvalidateCaches_eviction_witness :
    sampleOps.diff sampleCachedEngine.configuration_ ⟨33, 0⟩ = 0x0004 ∧
      (SetConfiguration sampleOps sampleCachedEngine ⟨33, 0⟩).cached_bags_ =
        [(0x7f020001, ⟨0x0100, []⟩)] ∧
      (SetApkAssets sampleOps sampleRefOps sampleCachedEngine [sampleStyleApk] true
        true).cached_bags_ = [] :=
  ⟨by decide,
    ((InvalidateCaches_eviction sampleOps sampleRefOps sampleCachedEngine ⟨33, 0⟩
      (by decide)).2.1.1).trans (by decide),
    (InvalidateCaches_eviction sampleOps sampleRefOps sampleCachedEngine ⟨33, 0⟩
      (by decide)).2.2.2 [sampleStyleApk] true⟩

/-! ## C9: the bag at which a cycle closes -/

theorem KeysSorted.le_getLast {l : List BagEntry} (h : KeysSorted l) {x : BagEntry}
    (hl : l.getLast? = some x) : ∀ w ∈ l, w.key ≤ x.key := by
  induction l with
  | nil => intro w hw; simp at hw
  | cons a rest ih =>
    intro w hw
    cases rest with
    | nil =>
      simp only [List.getLast?_singleton, Option.some.injEq] at hl
      subst hl
      simp only [List.mem_singleton] at hw
      subst hw
      exact le_refl _
    | cons b rest' =>
      have hl' : (b :: rest').getLast? = some x := by
        rw [List.getLast?_cons_cons] at hl
        exact hl
      have hx : x ∈ b :: rest' := List.mem_of_getLast?_eq_some hl'
      rcases List.mem_cons.1 hw with rfl | hw
      · exact (List.pairwise_cons.1 h).1 x hx
      · exact ih (List.pairwise_cons.1 h).2 hl' w hw

theorem copyEntries_resolved (dops : DynamicRefTableOps) (table : DynamicRefTable)
    (cookie resid : Nat) (maps : List ResTable_map) (cs : List BagEntry)
    (hres : ResolvesTo dops table cookie resid maps cs) :
    ∀ (written : List BagEntry) (sort_entries : Bool),
      ∃ s, copyEntries dops table cookie resid maps written sort_entries =
          some (written ++ cs, s) ∧
        (s = false → sort_entries = false ∧ (KeysSorted written → KeysSorted (written ++ cs))) := by
  induction hres with
  | nil => intro written s; exact ⟨s, by simp [copyEntries], fun h => ⟨h, by simp⟩⟩
  | @cons m c ms cs' hmc _ ih =>
    intro written s
    obtain ⟨hk, hv, hc⟩ := resolveEntry_some hmc
    obtain ⟨s', h1, h2⟩ := ih (written ++ [c]) (s || outOfOrder written c)
    refine ⟨s', ?_, ?_⟩
    · simp only [copyEntries, hk, hv]
      rw [← hc, h1]
      simp
    · intro hs'
      obtain ⟨h3, h4⟩ := h2 hs'
      simp only [Bool.or_eq_false_iff] at h3
      refine ⟨h3.1, ?_⟩
      intro hw
      have : KeysSorted (written ++ [c]) := by
        unfold KeysSorted
        apply List.pairwise_append.2
        refine ⟨hw, List.pairwise_singleton _ _, ?_⟩
        intro w hw' x hx
        simp only [List.mem_singleton] at hx
        subst hx
        have ho := h3.2
        unfold outOfOrder at ho
        cases hl : written.getLast? with
        | none =>
          have : written = [] := List.getLast?_eq_none_iff.1 hl
          subst this
          simp at hw'
        | some prev =>
          rw [hl] at ho
          simp only [decide_eq_false_iff_not, not_lt] at ho
          have := KeysSorted.le_getLast hw hl w hw'
          omega
      simpa using h4 this

theorem sortEntries_perm (l : List BagEntry) : (sortEntries l).Perm l :=
  List.perm_insertionSort _ l

theorem sortEntries_sorted (l : List BagEntry) : KeysSorted (sortEntries l) := by
  haveI : IsTotal BagEntry (fun a b => a.key ≤ b.key) := ⟨fun a b => Nat.le_total _ _⟩
  haveI : IsTrans BagEntry (fun a b => a.key ≤ b.key) := ⟨fun a b c h1 h2 => Nat.le_trans h1 h2⟩
  exact List.sorted_insertionSort (fun a b : BagEntry => a.key ≤ b.key) l

/-- C9, as amended (the bag at which a cycle closes).  Let a bag `resid` that is not cached
resolve to a complex entry whose declared parent is already on the visited list, which includes
`resid` itself (the bag is its own parent, or its parent is a bag from which the resolution
came), and let the pairs of the entry resolve (keys and values rewritten through the dynamic
reference table) to the entries `cs`.  Then `GetBag` succeeds, does not recurse, and returns and
caches a bag that consists of exactly the entries `cs`, ordered by key, with flag mask equal to
the entry's variance flags. -/
theorem GetBag_cycle_own_entries {κ : Type} (ops : ResTable_configOps κ)
    (dops : DynamicRefTableOps) (fuel : Nat) (am : AssetManager2 κ) (resid : Nat)
    (child_resids : List Nat) (log : Resolution κ) (cookie : Nat) (entry : FindEntryResult κ)
    (map : ResTable_entry) (cs : List BagEntry)
    (hcache : am.cached_bags_.lookup resid = none)
    (hfind : FindEntry ops am (fuel + 1) resid 0 false am.last_resolution_ =
      some (log, some (cookie, entry)))
    (hmap : entry.entry = EntryVariant.map_entry map)
    (hcycle : map.parent ∈ child_resids ++ [resid])
    (hres : ResolvesTo dops entry.dynamic_ref_table cookie resid map.maps cs) :
    ∃ bag, GetBagRec ops dops (fuel + 1) am resid child_resids =
        some ({ am with
                last_resolution_ := log
                cached_bags_ := cacheBag am.cached_bags_ resid bag },
          child_resids ++ [resid], some bag) ∧
      bag.entries.Perm cs ∧ KeysSorted bag.entries ∧
      bag.type_spec_flags = entry.type_flags := by
  obtain ⟨s, h1, h2⟩ := copyEntries_resolved dops entry.dynamic_ref_table cookie resid map.maps cs
    hres [] false
  have hc : (map.parent == 0 || (child_resids ++ [resid]).contains map.parent) = true := by
    simp only [Bool.or_eq_true, beq_iff_eq]
    right
    simpa using hcycle
  refine ⟨⟨entry.type_flags, if s then sortEntries cs else cs⟩, ?_, ?_, ?_, rfl⟩
  · rw [GetBagRec]
    simp only [hcache, hfind, hmap, hc, if_true, h1, List.nil_append]
  · cases s with
    | true => exact sortEntries_perm cs
    | false => exact List.Perm.refl cs
  · cases s with
    | true => exact sortEntries_sorted cs
    | false =>
      have := (h2 rfl).2 (List.Pairwise.nil)
      simpa using this

/-- Witness of C9 as amended: the style `0x7f020004`, which is its own parent, resolves to its
own pair. -/
theorem GetBag_cycle_own_entries_witness :
    ∃ bag, GetBagRec sampleOps sampleRefOps 1 sampleStyleEngine 0x7f020004 [] =
        some ({ sampleStyleEngine with
                last_resolution_ := sampleStyleEngine.last_resolution_
                cached_bags_ := cacheBag sampleStyleEngine.cached_bags_ 0x7f020004 bag },
          [0x7f020004], some bag) ∧
      bag.entries.Perm [⟨0x7f010001, ⟨16, 51⟩, 0, 0x7f020004⟩] ∧ KeysSorted bag.entries ∧
      bag.type_spec_flags = 0x0004 :=
  GetBag_cycle_own_entries sampleOps sampleRefOps 0 sampleStyleEngine 0x7f020004 []
    sampleStyleEngine.last_resolution_ 0
    { entry := EntryVariant.map_entry (sampleStyle 4 0x7f020004 [⟨0x7f010001, ⟨16, 51⟩⟩])
      config := ⟨0, 0⟩
      type_flags := 0x0004
      dynamic_ref_table := { DynamicRefTable.new with mAssignedPackageId := 0x7f }
      package_name := "styles"
      type_string_ref := ⟨["attr", "style"], 1⟩
      entry_string_ref := ⟨["Parent", "Child", "A", "B", "Self"], 4⟩ }
    (sampleStyle 4 0x7f020004 [⟨0x7f010001, ⟨16, 51⟩⟩])
    [⟨0x7f010001, ⟨16, 51⟩, 0, 0x7f020004⟩]
    (by rfl) (by rfl) (by rfl) (by decide)
    (List.Forall₂.cons (by rfl) List.Forall₂.nil)

/-- Counterexample to C9 as stated: in `sampleStylePackage` the style `0x7f020002` has parent
`0x7f020003`, whose parent is `0x7f020002` again.  `GetBag(0x7f020002)` succeeds, but the bag
it returns holds, besides the style's own pair (key `0x7f010001`), the pair of `0x7f020003`
(key `0x7f010002`): it is not the list of the style's own pairs. -/
theorem GetBag_transitive_cycle_counterexample :
    ((FindEntry sampleOps sampleStyleEngine 1 0x7f020002 0 false
        sampleStyleEngine.last_resolution_).map
          (fun r => r.2.map (fun x => x.2.entry))) =
        some (some (EntryVariant.map_entry
          (sampleStyle 2 0x7f020003 [⟨0x7f010001, ⟨16, 31⟩⟩]))) ∧
      ((FindEntry sampleOps sampleStyleEngine 1 0x7f020003 0 false
        sampleStyleEngine.last_resolution_).map
          (fun r => r.2.map (fun x => x.2.entry))) =
        some (some (EntryVariant.map_entry
          (sampleStyle 3 0x7f020002 [⟨0x7f010002, ⟨16, 42⟩⟩]))) ∧
      ResolvesTo sampleRefOps { DynamicRefTable.new with mAssignedPackageId := 0x7f } 0
        0x7f020002 [⟨0x7f010001, ⟨16, 31⟩⟩] [⟨0x7f010001, ⟨16, 31⟩, 0, 0x7f020002⟩] ∧
      (GetBag sampleOps sampleRefOps 2 sampleStyleEngine 0x7f020002).map (fun r => r.2) =
        some (some ⟨0, [⟨0x7f010001, ⟨16, 31⟩, 0, 0x7f020002⟩,
          ⟨0x7f010002, ⟨16, 42⟩, 0, 0x7f020003⟩]⟩) ∧
      ¬ List.Perm
        [(⟨0x7f010001, ⟨16, 31⟩, 0, 0x7f020002⟩ : BagEntry),
          ⟨0x7f010002, ⟨16, 42⟩, 0, 0x7f020003⟩]
        [⟨0x7f010001, ⟨16, 31⟩, 0, 0x7f020002⟩] := by
  refine ⟨by rfl, by rfl, List.Forall₂.cons (by rfl) List.Forall₂.nil, by rfl, ?_⟩
  intro h
  have := h.length_eq
  simp at this

/-! ## C8: a cycle through rewritten parent identifiers -/

theorem sampleLibraryEngine_findEntry (n : Nat) :
    FindEntry sampleOps sampleLibraryEngine (n + 1) 0x02020000 0 false
        sampleLibraryEngine.last_resolution_ =
      some (sampleLibraryEngine.last_resolution_, some (0, sampleLoopEntry)) := by
  rfl

theorem sampleLibraryEngine_diverges (n : Nat) :
    ∀ child_resids : List Nat, 0x00020000 ∉ child_resids →
      GetBagRec sampleOps sampleRefOps n sampleLibraryEngine 0x02020000 child_resids = none := by
  induction n with
  | zero => intro cr _; rfl
  | succ n ih =>
    intro child_resids h
    have hc : sampleLibraryEngine.cached_bags_.lookup 0x02020000 = none := by rfl
    have hnot : (0x00020000 : Nat) ∉ child_resids ++ [0x02020000] := by
      intro hcon
      rcases List.mem_append.1 hcon with h1 | h1
      · exact h h1
      · simp at h1
    have hnc : ((0x00020000 : Nat) == 0 ||
        (child_resids ++ [0x02020000]).contains 0x00020000) = false := by
      simp only [Bool.or_eq_false_iff]
      refine ⟨by decide, ?_⟩
      rw [Bool.eq_false_iff]
      intro hcon
      exact hnot (by simpa using hcon)
    have hp : (sampleStyle 0 0x00020000 [⟨0x7f010001, ⟨16, 61⟩⟩]).parent = 0x00020000 := rfl
    have hl : (sampleRefOps.lookupResourceId
        { DynamicRefTable.new with mAssignedPackageId := 0x02 } 0x00020000).getD 0x00020000 =
          0x02020000 := by decide
    have ham : ({ sampleLibraryEngine with
        last_resolution_ := sampleLibraryEngine.last_resolution_ } :
          AssetManager2 SampleConfig) = sampleLibraryEngine := rfl
    rw [GetBagRec]
    simp only [hc, sampleLibraryEngine_findEntry]
    simp only [sampleLoopEntry, hp, hnc, Bool.false_eq_true, if_false]
    rw [hl, ham, ih (child_resids ++ [0x02020000]) hnot]

/-- C8 (failing input).  In `sampleLibraryEngine` the style `0x02020000` of a shared library
names itself as its parent by its build-time identifier `0x00020000`.  The visited list holds
runtime identifiers and is searched for the build-time identifier before that identifier is
rewritten, so the cycle is never detected: `GetBag(0x02020000)` exhausts every call-depth
budget, that is, the recursion does not terminate. -/
theorem GetBag_rewritten_cycle_diverges :
    (FindEntry sampleOps sampleLibraryEngine 1 0x02020000 0 false
        sampleLibraryEngine.last_resolution_).map (fun r => r.2.map (fun x => x.2.entry)) =
      some (some (EntryVariant.map_entry
        (sampleStyle 0 0x00020000 [⟨0x7f010001, ⟨16, 61⟩⟩]))) ∧
    sampleRefOps.lookupResourceId { DynamicRefTable.new with mAssignedPackageId := 0x02 }
      0x00020000 = some 0x02020000 ∧
    ∀ fuel, GetBag sampleOps sampleRefOps fuel sampleLibraryEngine 0x02020000 = none := by
  refine ⟨by rfl, by decide, ?_⟩
  intro fuel
  unfold GetBag
  rw [sampleLibraryEngine_diverges fuel [] (by simp)]

/-! ## C3: overlay precedence -/

theorem FindEntryInternal_overlays_irrelevant {κ : Type} (ops : ResTable_configOps κ)
    (am : AssetManager2 κ) (g : PackageGroup κ) (ovs : List ConfiguredOverlay) (ti e : Nat)
    (d : ConfigRef κ) (i : Bool) (log : Resolution κ) :
    FindEntryInternal ops am { g with overlays_ := ovs } ti e d i log =
      FindEntryInternal ops am g ti e d i log := rfl

theorem FindEntry_eq_of_snd {κ : Type} {x : Option (FindResult κ)}
    {r : Option (Nat × FindEntryResult κ)} (h : x.map Prod.snd = some r) :
    ∃ l, x = some (l, r) := by
  cases x with
  | none => simp at h
  | some y =>
    obtain ⟨l, r'⟩ := y
    simp only [Option.map_some', Option.some.injEq] at h
    subst h
    exact ⟨l, rfl⟩

/-- C3, as amended (overlay precedence).  Let `resid` be a valid identifier whose package
group `g` has exactly one overlay link, let the scan of `g` select the target's entry `resP`
with cookie `cookieP`, a bundle that is not a loader, let the link's id-map map `resid` to
`overlay_resid`, and let the lookup of `overlay_resid` return the overlay's entry `resO` with
cookie `cookieO`.  If the overlay's winning configuration `isBetterThan` the target's, or
compares equal to it, `FindEntry(resid)` returns the overlay's cookie, value and
configuration (and the overlay's dynamic reference table); otherwise it returns the target's
entry.  In an engine with the same configuration in which the group has no overlay link (the
overlay is not loaded), `FindEntry` returns the target's entry. -/
theorem FindEntry_overlay_precedence {κ : Type} (ops : ResTable_configOps κ)
    (am : AssetManager2 κ) (fuel resid density_override : Nat) (ignore_configuration : Bool)
    (log : Resolution κ) (g : PackageGroup κ) (link : ConfiguredOverlay) (overlay_resid : Nat)
    (cookieP : Nat) (resP : FindEntryResult κ) (cookieO : Nat) (resO : FindEntryResult κ)
    (hvalid : is_valid_resid resid = true)
    (hidx : am.package_ids_.getD (get_package_id resid) 0xff ≠ 0xff)
    (hg : am.package_groups_.get? (am.package_ids_.getD (get_package_id resid) 0xff) = some g)
    (hP : (FindEntryInternal ops am g (get_type_id resid - 1) (get_entry_id resid)
      (selectDesiredConfig ops am density_override) ignore_configuration log).2 =
        some (cookieP, resP))
    (hloader : IsLoaderCookie am cookieP = false)
    (hlink : g.overlays_ = [link])
    (hmap : link.overlay_res_maps_.Lookup resid = some (IdmapResult.resource overlay_resid))
    (hO : (FindEntry ops am fuel overlay_resid density_override ignore_configuration log).map
      Prod.snd = some (some (cookieO, resO))) :
    ((ops.isBetterThan resO.config resP.config
          ((selectDesiredConfig ops am density_override).deref am) = true ∨
        ops.compare resO.config resP.config = 0) →
      (FindEntry ops am (fuel + 1) resid density_override ignore_configuration log).map Prod.snd =
        some (some (cookieO,
          { resP with
            entry := resO.entry
            config := resO.config
            dynamic_ref_table := link.overlay_res_maps_.GetOverlayDynamicRefTable am }))) ∧
      (¬ (ops.isBetterThan resO.config resP.config
            ((selectDesiredConfig ops am density_override).deref am) = true ∨
          ops.compare resO.config resP.config = 0) →
        (FindEntry ops am (fuel + 1) resid density_override ignore_configuration log).map
          Prod.snd = some (some (cookieP, resP))) ∧
      (∀ am0 : AssetManager2 κ, am0.configuration_ = am.configuration_ →
        am0.package_ids_.getD (get_package_id resid) 0xff ≠ 0xff →
        am0.package_groups_.get? (am0.package_ids_.getD (get_package_id resid) 0xff) =
          some { g with overlays_ := [] } →
        (FindEntry ops am0 (fuel + 1) resid density_override ignore_configuration log).map
          Prod.snd = some (some (cookieP, resP))) := by
  have hidx' : (am.package_ids_.getD (get_package_id resid) 0xff == 0xff) = false := by
    simpa using hidx
  refine ⟨?_, ?_, ?_⟩
  · intro hbetter
    simp only [FindEntry, hvalid, hidx', hg, Bool.not_true, Bool.false_eq_true, if_false]
    have hP' := (FindEntryInternal_snd_eq ops am am rfl g (get_type_id resid - 1)
      (get_entry_id resid) (selectDesiredConfig ops am density_override) ignore_configuration log
      (if am.resource_resolution_logging_enabled_ = true then
        { (ResetResourceResolution : Resolution κ) with resid := resid } else log)).trans hP
    revert hP'
    generalize FindEntryInternal ops am g (get_type_id resid - 1) (get_entry_id resid)
      (selectDesiredConfig ops am density_override) ignore_configuration _ = X
    intro hP'
    obtain ⟨l1, r1⟩ := X
    simp only at hP'
    subst hP'
    simp only [hloader, Bool.not_false, if_true, hlink, overlayScan, hmap]
    obtain ⟨l2, hO'⟩ := FindEntry_eq_of_snd
      ((FindEntry_snd_eq ops am am ⟨rfl, rfl, rfl, rfl⟩ fuel overlay_resid density_override
        ignore_configuration log l1).trans hO)
    rw [hO']
    have hcond : (!ops.isBetterThan resO.config resP.config
        ((selectDesiredConfig ops am density_override).deref am) &&
          ops.compare resO.config resP.config != 0) = false := by
      rcases hbetter with h | h
      · simp [h]
      · simp [h]
    simp only [hcond, Bool.false_eq_true, if_false, Option.map_some']
  · intro hnot
    simp only [FindEntry, hvalid, hidx', hg, Bool.not_true, Bool.false_eq_true, if_false]
    have hP' := (FindEntryInternal_snd_eq ops am am rfl g (get_type_id resid - 1)
      (get_entry_id resid) (selectDesiredConfig ops am density_override) ignore_configuration log
      (if am.resource_resolution_logging_enabled_ = true then
        { (ResetResourceResolution : Resolution κ) with resid := resid } else log)).trans hP
    revert hP'
    generalize FindEntryInternal ops am g (get_type_id resid - 1) (get_entry_id resid)
      (selectDesiredConfig ops am density_override) ignore_configuration _ = X
    intro hP'
    obtain ⟨l1, r1⟩ := X
    simp only at hP'
    subst hP'
    simp only [hloader, Bool.not_false, if_true, hlink, overlayScan, hmap]
    obtain ⟨l2, hO'⟩ := FindEntry_eq_of_snd
      ((FindEntry_snd_eq ops am am ⟨rfl, rfl, rfl, rfl⟩ fuel overlay_resid density_override
        ignore_configuration log l1).trans hO)
    rw [hO']
    have hcond : (!ops.isBetterThan resO.config resP.config
        ((selectDesiredConfig ops am density_override).deref am) &&
          ops.compare resO.config resP.config != 0) = true := by
      simp only [not_or] at hnot
      simp [hnot.1, hnot.2]
    simp only [hcond, if_true, Option.map_some']
  · intro am0 hcfg hids hg0
    have hids' : (am0.package_ids_.getD (get_package_id resid) 0xff == 0xff) = false := by
      simpa using hids
    have hsel : selectDesiredConfig ops am0 density_override =
        selectDesiredConfig ops am density_override := by
      simp [selectDesiredConfig, hcfg]
    simp only [FindEntry, hvalid, hids', hg0, hsel, Bool.not_true, Bool.false_eq_true,
      if_false]
    have hP' := (FindEntryInternal_snd_eq ops am am0 hcfg g (get_type_id resid - 1)
      (get_entry_id resid) (selectDesiredConfig ops am density_override) ignore_configuration log
      (if am0.resource_resolution_logging_enabled_ = true then
        { (ResetResourceResolution : Resolution κ) with resid := resid } else log)).trans hP
    rw [← FindEntryInternal_overlays_irrelevant ops am0 g [] ] at hP'
    revert hP'
    generalize FindEntryInternal ops am0 { g with overlays_ := [] } (get_type_id resid - 1)
      (get_entry_id resid) (selectDesiredConfig ops am density_override) ignore_configuration _ = X
    intro hP'
    obtain ⟨l1, r1⟩ := X
    simp only at hP'
    subst hP'
    simp only [overlayScan]
    cases IsLoaderCookie am0 cookieP <;> simp

/-- Witness of C3 as amended: `string/1` of the sample target is overlaid by the overlay's
`string/1`, whose configuration (locale 33, density 240) is better than the target's
(locale 33); without the overlay link the target's value is returned. -/
theorem FindEntry_overlay_precedence_witness :
    (FindEntry sampleOps sampleOverlayEngine 2 0x7f010001 0 false
        sampleOverlayEngine.last_resolution_).map Prod.snd =
      some (some (1,
        { sampleTargetResult with
          entry := sampleOverlayResult.entry
          config := sampleOverlayResult.config
          dynamic_ref_table := sampleOverlayResult.dynamic_ref_table })) ∧
      (FindEntry sampleOps sampleTargetEngine 2 0x7f010001 0 false
        sampleOverlayEngine.last_resolution_).map Prod.snd = some (some (0, sampleTargetResult)) :=
  have h := FindEntry_overlay_precedence sampleOps sampleOverlayEngine 1 0x7f010001 0 false
    sampleOverlayEngine.last_resolution_ sampleTargetGroup
    ⟨⟨[(0x7f010000, IdmapResult.resource 0x02010000),
      (0x7f010001, IdmapResult.resource 0x02010001)], 1⟩, 1⟩ 0x02010001 0 sampleTargetResult 1
    sampleOverlayResult (by decide) (by decide) (by rfl) (by rfl) (by rfl) (by rfl) (by rfl)
    (by rfl)
  ⟨h.1 (Or.inl (by decide)), h.2.2 sampleTargetEngine (by rfl) (by decide) (by rfl)⟩

/-- Counterexample to C3 as stated: in `sampleOverlayEngine` the overlay link maps `string/0`
of the target (`0x7f010000`, defined for locale 33) to `string/0` of the overlay (`0x02010000`,
defined for density 240).  For the desired configuration (locale 33, density 240) the target's
configuration is not better than the overlay's, yet `FindEntry(0x7f010000)` returns the
target's value 100 with cookie 0, not the overlay's value 300: the overlay's configuration is
neither better than nor equal to the target's. -/
theorem FindEntry_overlay_incomparable_counterexample :
    (sampleOverlayEngine.package_groups_.map (fun g => g.overlays_.map (fun l =>
        (l.overlay_res_maps_.Lookup 0x7f010000, l.cookie)))) =
      [[(some (IdmapResult.resource 0x02010000), 1)], []] ∧
    (FindEntry sampleOps sampleOverlayEngine 1 0x02010000 0 false
        sampleOverlayEngine.last_resolution_).map
          (fun r => r.2.map (fun x => (x.1, x.2.entry, x.2.config))) =
      some (some (1, EntryVariant.value ⟨TYPE_STRING, 300⟩, ⟨0, 240⟩)) ∧
    sampleOps.isBetterThan ⟨33, 0⟩ ⟨0, 240⟩ sampleOverlayEngine.configuration_ = false ∧
    (FindEntry sampleOps sampleOverlayEngine 2 0x7f010000 0 false
        sampleOverlayEngine.last_resolution_).map
          (fun r => r.2.map (fun x => (x.1, x.2.entry, x.2.config))) =
      some (some (0, EntryVariant.value ⟨TYPE_STRING, 100⟩, ⟨33, 0⟩)) := by
  refine ⟨by rfl, by rfl, by rfl, by rfl⟩

/-! ## Hits, misses and cookies of the candidate scan -/

theorem fastScan_cookie {κ : Type} (ops : ResTable_configOps κ) (l : Bool) (d : κ) (e : Nat)
    (p : LoadedPackage κ) (c : Nat) (cands : List (κ × ResTable_type κ)) :
    ∀ (st : ScanState κ) (b : BestEntry κ), (fastScan ops l d e p c cands st).best = some b →
      st.best = some b ∨ b.cookie = c := by
  induction cands with
  | nil => intro st b h; left; simpa [fastScan] using h
  | cons x rest ih =>
    intro st b
    obtain ⟨cfg, ty⟩ := x
    simp only [fastScan]
    cases hc : classifyCandidate ops d p.custom_loader cfg st.best with
    | none =>
      simp only []
      intro h
      rcases ih _ b h with h1 | h1
      · left; cases l <;> simpa using h1
      · exact Or.inr h1
    | some rt =>
      simp only []
      by_cases ho : (GetEntryOffset ty e == NO_ENTRY) = true
      · simp only [ho, if_true]
        intro h
        rcases ih _ b h with h1 | h1
        · left; cases l <;> simpa using h1
        · exact Or.inr h1
      · simp only [ho, Bool.false_eq_true, if_false]
        intro h
        right
        rcases ih _ b h with h1 | h1
        · have h2 : b = ⟨c, p, ty, cfg, GetEntryOffset ty e⟩ := by
            cases l <;> simpa using h1.symm
          rw [h2]
        · exact h1

theorem packageScan_cookie {κ : Type} (ops : ResTable_configOps κ)
    (l i u : Bool) (d : κ) (ti e : Nat) (pkgs : List (ConfiguredPackage κ × Nat)) :
    ∀ (st : ScanState κ) (b : BestEntry κ),
      (packageScan ops l i u d ti e pkgs st).best = some b →
        st.best = some b ∨ ∃ x ∈ pkgs, b.cookie = x.2 := by
  induction pkgs with
  | nil => intro st b h; left; simpa [packageScan] using h
  | cons x rest ih =>
    intro st b
    obtain ⟨impl, c⟩ := x
    simp only [packageScan]
    cases hs : impl.loaded_package_.GetTypeSpecByTypeIndex ti with
    | none =>
      intro h
      rcases ih st b h with h1 | ⟨y, hy, h2⟩
      · exact Or.inl h1
      · exact Or.inr ⟨y, List.mem_cons_of_mem _ hy, h2⟩
    | some spec =>
      simp only []
      intro h
      rcases ih _ b h with h1 | ⟨y, hy, h2⟩
      · cases u with
        | true =>
          simp only [if_true] at h1
          rcases fastScan_cookie ops l d e _ c _ _ b h1 with h4 | h4
          · exact Or.inl h4
          · exact Or.inr ⟨(impl, c), List.mem_cons_self _ _, h4⟩
        | false =>
          simp only [Bool.false_eq_true, if_false] at h1
          rcases slowScan_best_from ops l i d e _ c spec.types _ b h1 with h4 | h4
          · exact Or.inl h4
          · exact Or.inr ⟨(impl, c), List.mem_cons_self _ _, h4.1⟩
      · exact Or.inr ⟨y, List.mem_cons_of_mem _ hy, h2⟩

theorem FindEntryInternal_cookie_mem {κ : Type} (ops : ResTable_configOps κ)
    (am : AssetManager2 κ) (g : PackageGroup κ) (ti e : Nat) (d : ConfigRef κ) (i : Bool)
    (log : Resolution κ) (c : Nat) (res : FindEntryResult κ)
    (h : (FindEntryInternal ops am g ti e d i log).2 = some (c, res)) : c ∈ g.cookies_ := by
  simp only [FindEntryInternal] at h
  have hck := packageScan_cookie ops am.resource_resolution_logging_enabled_ i
    (!i && d.isConfiguration_) (d.deref am) ti e (g.packages_.zip g.cookies_)
    ⟨none, 0, StepType.NO_ENTRY, [], log.steps⟩
  revert h hck
  generalize packageScan ops am.resource_resolution_logging_enabled_ i
    (!i && d.isConfiguration_) (d.deref am) ti e (g.packages_.zip g.cookies_)
    ⟨none, 0, StepType.NO_ENTRY, [], log.steps⟩ = st
  intro h hck
  cases hb : st.best with
  | none => rw [hb] at h; simp at h
  | some b =>
    rw [hb] at h
    simp only at h
    cases he : GetEntryFromOffset b.type b.offset with
    | none => rw [he] at h; simp at h
    | some entry =>
      rw [he] at h
      simp only [Option.some.injEq, Prod.mk.injEq] at h
      rcases hck b hb with h0 | ⟨x, hx, h2⟩
      · simp at h0
      · rw [← h.1, h2]
        exact (List.of_mem_zip hx).2

/-- The slow-path form of a desired-configuration reference. -/
theorem FindEntryInternal_as_slow {κ : Type} (ops : ResTable_configOps κ)
    (am : AssetManager2 κ) (hfilters : FiltersRebuilt ops am) (g : PackageGroup κ)
    (hg : g ∈ am.package_groups_) (ti e : Nat) (d : ConfigRef κ) (i : Bool)
    (log : Resolution κ) :
    (FindEntryInternal ops am g ti e d i log).2 =
      (FindEntryInternal ops am g ti e (ConfigRef.other (d.deref am)) i log).2 := by
  cases d with
  | other c => rfl
  | configuration_ =>
    cases i with
    | false =>
      have hcons : ∀ x ∈ g.packages_.zip g.cookies_,
          x.1.filtered_configs_ =
            filterPackage ops am.configuration_ true x.1.loaded_package_ := by
        intro x hx
        exact hfilters g hg x.1 (List.of_mem_zip hx).1
      obtain ⟨hb, hf⟩ := packageScan_fast_slow_agree ops am.resource_resolution_logging_enabled_
        am.resource_resolution_logging_enabled_ am.configuration_ ti e
        (g.packages_.zip g.cookies_) hcons ⟨none, 0, StepType.NO_ENTRY, [], log.steps⟩
        ⟨none, 0, StepType.NO_ENTRY, [], log.steps⟩ ⟨rfl, rfl⟩
      simp only [FindEntryInternal, Bool.not_false, Bool.true_and, ConfigRef.isConfiguration_,
        ConfigRef.deref]
      rw [hb, hf]
      cases (packageScan ops am.resource_resolution_logging_enabled_ false false
        am.configuration_ ti e (g.packages_.zip g.cookies_)
        ⟨none, 0, StepType.NO_ENTRY, [], log.steps⟩).best with
      | none => rfl
      | some b =>
        simp only []
        cases GetEntryFromOffset b.type b.offset <;> rfl
    | true => rfl

theorem FindEntryInternal_slow_some {κ : Type} (ops : ResTable_configOps κ)
    (am : AssetManager2 κ) (g : PackageGroup κ) (ti e : Nat) (d : κ) (i : Bool)
    (log : Resolution κ)
    (hex : ∃ impl c t, IsCandidate ops g ti e i d impl c t)
    (hdec : ∀ impl c t, IsCandidate ops g ti e i d impl c t →
      (GetEntryFromOffset t (GetEntryOffset t e)).isSome = true) :
    ∃ c res, (FindEntryInternal ops am g ti e (ConfigRef.other d) i log).2 = some (c, res) := by
  simp only [FindEntryInternal, ConfigRef.isConfiguration_, Bool.and_false, ConfigRef.deref]
  have hsome := packageScan_isSome ops am.resource_resolution_logging_enabled_ i d ti e
    (g.packages_.zip g.cookies_) ⟨none, 0, StepType.NO_ENTRY, [], log.steps⟩
    (by
      right
      obtain ⟨impl, c, t, hmem, spec, hs, ht, hm, hl⟩ := hex
      exact ⟨(impl, c), hmem, spec, hs, t, ht, (isCandidateType_iff ops i d e t).2 ⟨hm, hl⟩⟩)
  have hfrom := packageScan_best_from ops am.resource_resolution_logging_enabled_ i d ti e
    (g.packages_.zip g.cookies_) ⟨none, 0, StepType.NO_ENTRY, [], log.steps⟩
  revert hsome hfrom
  generalize packageScan ops am.resource_resolution_logging_enabled_ i false d ti e
    (g.packages_.zip g.cookies_) ⟨none, 0, StepType.NO_ENTRY, [], log.steps⟩ = st
  intro hsome hfrom
  cases hb : st.best with
  | none => rw [hb] at hsome; simp at hsome
  | some b =>
    simp only []
    rcases hfrom b hb with h0 | ⟨x, hx, spec, hs, hbf⟩
    · simp at h0
    · obtain ⟨hbc, _, hbt, hbcand, hboff, _⟩ := hbf
      have hcand : IsCandidate ops g ti e i d x.1 x.2 b.type :=
        ⟨hx, spec, hs, hbt, ((isCandidateType_iff ops i d e b.type).1 hbcand).1,
          ((isCandidateType_iff ops i d e b.type).1 hbcand).2⟩
      have := hdec x.1 x.2 b.type hcand
      rw [← hboff] at this
      cases he : GetEntryFromOffset b.type b.offset with
      | none => rw [he] at this; simp at this
      | some entry => exact ⟨_, _, rfl⟩

theorem FindEntryInternal_slow_none {κ : Type} (ops : ResTable_configOps κ)
    (am : AssetManager2 κ) (g : PackageGroup κ) (ti e : Nat) (d : κ) (i : Bool)
    (log : Resolution κ)
    (hno : ∀ impl c t, ¬ IsCandidate ops g ti e i d impl c t) :
    (FindEntryInternal ops am g ti e (ConfigRef.other d) i log).2 = none := by
  simp only [FindEntryInternal, ConfigRef.isConfiguration_, Bool.and_false, ConfigRef.deref]
  have hfrom := packageScan_best_from ops am.resource_resolution_logging_enabled_ i d ti e
    (g.packages_.zip g.cookies_) ⟨none, 0, StepType.NO_ENTRY, [], log.steps⟩
  revert hfrom
  generalize packageScan ops am.resource_resolution_logging_enabled_ i false d ti e
    (g.packages_.zip g.cookies_) ⟨none, 0, StepType.NO_ENTRY, [], log.steps⟩ = st
  intro hfrom
  cases hb : st.best with
  | none => rfl
  | some b =>
    exfalso
    rcases hfrom b hb with h0 | ⟨x, hx, spec, hs, hbf⟩
    · simp at h0
    · obtain ⟨_, _, hbt, hbcand, _, _⟩ := hbf
      exact hno x.1 x.2 b.type ⟨hx, spec, hs, hbt,
        ((isCandidateType_iff ops i d e b.type).1 hbcand).1,
        ((isCandidateType_iff ops i d e b.type).1 hbcand).2⟩

/-! ## Termination and cookies of FindEntry -/

theorem overlayScan_isSome {κ : Type} (ops : ResTable_configOps κ) (am : AssetManager2 κ)
    (l : Bool) (f : Nat → Resolution κ → Option (FindResult κ)) (resid : Nat) (d : κ)
    (ovs : List ConfiguredOverlay)
    (hf : ∀ link ∈ ovs, ∀ r', link.overlay_res_maps_.Lookup resid =
      some (IdmapResult.resource r') → ∀ log, (f r' log).isSome = true) :
    ∀ (c : Nat) (out : FindEntryResult κ) (log : Resolution κ),
      (overlayScan ops am l f resid d ovs c out log).isSome = true := by
  induction ovs with
  | nil => intro c out log; rfl
  | cons o rest ih =>
    intro c out log
    have ih' := ih (fun link hl => hf link (List.mem_cons_of_mem _ hl))
    simp only [overlayScan]
    cases hl : o.overlay_res_maps_.Lookup resid with
    | none => exact ih' _ _ _
    | some r =>
      cases r with
      | inline v => exact ih' _ _ _
      | resource r' =>
        simp only []
        have := hf o (List.mem_cons_self _ _) r' hl log
        cases hx : f r' log with
        | none => rw [hx] at this; simp at this
        | some x =>
          obtain ⟨l1, r1⟩ := x
          cases r1 with
          | none => exact ih' _ _ _
          | some cr =>
            obtain ⟨oc, ores⟩ := cr
            simp only []
            split
            · exact ih' _ _ _
            · exact ih' _ _ _

theorem overlayScan_cookie {κ : Type} (ops : ResTable_configOps κ) (am : AssetManager2 κ)
    (l : Bool) (f : Nat → Resolution κ → Option (FindResult κ)) (resid : Nat) (d : κ)
    (P : Nat → Prop) (ovs : List ConfiguredOverlay)
    (hlinks : ∀ link ∈ ovs, P link.cookie)
    (hf : ∀ r' log log' c res, f r' log = some (log', some (c, res)) → P c) :
    ∀ (c : Nat) (out : FindEntryResult κ) (log : Resolution κ)
      (x : Resolution κ × Nat × FindEntryResult κ), P c →
      overlayScan ops am l f resid d ovs c out log = some x → P x.2.1 := by
  induction ovs with
  | nil =>
    intro c out log x hc h
    simp only [overlayScan, Option.some.injEq] at h
    subst h
    exact hc
  | cons o rest ih =>
    intro c out log x hc
    have ih' := ih (fun link hl => hlinks link (List.mem_cons_of_mem _ hl))
    simp only [overlayScan]
    cases hl : o.overlay_res_maps_.Lookup resid with
    | none => exact ih' _ _ _ x hc
    | some r =>
      cases r with
      | inline v => exact ih' _ _ _ x (hlinks o (List.mem_cons_self _ _))
      | resource r' =>
        simp only []
        cases hx : f r' log with
        | none => intro h; simp at h
        | some y =>
          obtain ⟨l1, r1⟩ := y
          cases r1 with
          | none => exact ih' _ _ _ x hc
          | some cr =>
            obtain ⟨oc, ores⟩ := cr
            simp only []
            split
            · exact ih' _ _ _ x hc
            · exact ih' _ _ _ x (hf r' log l1 oc ores hx)

theorem mem_of_get?_eq_some {α : Type} {l : List α} {i : Nat} {a : α} (h : l.get? i = some a) :
    a ∈ l := by
  exact List.get?_mem h

/-- The shape of the result of `FindEntry` once the scan of the package group is known. -/
theorem FindEntry_succ_of_internal {κ : Type} (ops : ResTable_configOps κ)
    (am : AssetManager2 κ) (n resid density_override : Nat) (ignore : Bool)
    (log : Resolution κ) (g : PackageGroup κ)
    (hvalid : is_valid_resid resid = true)
    (hidx : am.package_ids_.getD (get_package_id resid) 0xff ≠ 0xff)
    (hg : am.package_groups_.get? (am.package_ids_.getD (get_package_id resid) 0xff) = some g) :
    ((FindEntryInternal ops am g (get_type_id resid - 1) (get_entry_id resid)
        (selectDesiredConfig ops am density_override) ignore log).2 = none →
      (FindEntry ops am (n + 1) resid density_override ignore log).map Prod.snd = some none) ∧
    (∀ c0 res0, (FindEntryInternal ops am g (get_type_id resid - 1) (get_entry_id resid)
        (selectDesiredConfig ops am density_override) ignore log).2 = some (c0, res0) →
      (FindEntry ops am (n + 1) resid density_override ignore log = none ∧
        ∃ log1, overlayScan ops am am.resource_resolution_logging_enabled_
          (fun r l => FindEntry ops am n r density_override ignore l) resid
          ((selectDesiredConfig ops am density_override).deref am) g.overlays_ c0 res0 log1 =
            none ∧ IsLoaderCookie am c0 = false) ∨
      (∃ log3 c res, FindEntry ops am (n + 1) resid density_override ignore log =
          some (log3, some (c, res)) ∧
        (c = c0 ∨ ∃ log1 x, overlayScan ops am am.resource_resolution_logging_enabled_
          (fun r l => FindEntry ops am n r density_override ignore l) resid
          ((selectDesiredConfig ops am density_override).deref am) g.overlays_ c0 res0 log1 =
            some x ∧ x.2.1 = c))) := by
  have hidx' : (am.package_ids_.getD (get_package_id resid) 0xff == 0xff) = false := by
    simpa using hidx
  have hP := FindEntryInternal_snd_eq ops am am rfl g (get_type_id resid - 1)
    (get_entry_id resid) (selectDesiredConfig ops am density_override) ignore log
    (if am.resource_resolution_logging_enabled_ = true then
      { (ResetResourceResolution : Resolution κ) with resid := resid } else log)
  constructor
  · intro hnone
    simp only [FindEntry, hvalid, hidx', hg, Bool.not_true, Bool.false_eq_true, if_false]
    rw [hnone] at hP
    revert hP
    generalize FindEntryInternal ops am g (get_type_id resid - 1) (get_entry_id resid)
      (selectDesiredConfig ops am density_override) ignore _ = X
    intro hP
    obtain ⟨l1, r1⟩ := X
    simp only at hP
    subst hP
    rfl
  · intro c0 res0 hsome
    simp only [FindEntry, hvalid, hidx', hg, Bool.not_true, Bool.false_eq_true, if_false]
    rw [hsome] at hP
    revert hP
    generalize FindEntryInternal ops am g (get_type_id resid - 1) (get_entry_id resid)
      (selectDesiredConfig ops am density_override) ignore _ = X
    intro hP
    obtain ⟨l1, r1⟩ := X
    simp only at hP
    subst hP
    simp only []
    cases hload : IsLoaderCookie am c0 with
    | true =>
      right
      simp only [Bool.not_true, Bool.false_eq_true, if_false]
      exact ⟨_, c0, res0, rfl, Or.inl rfl⟩
    | false =>
      simp only [Bool.not_false, if_true]
      cases hov : overlayScan ops am am.resource_resolution_logging_enabled_
        (fun r l => FindEntry ops am n r density_override ignore l) resid
        ((selectDesiredConfig ops am density_override).deref am) g.overlays_ c0 res0 l1 with
      | none => left; exact ⟨rfl, l1, hov, trivial⟩
      | some x =>
        right
        obtain ⟨l2, c2, o2⟩ := x
        exact ⟨_, c2, o2, rfl, Or.inr ⟨l1, (l2, c2, o2), hov, rfl⟩⟩

theorem FindEntry_invalid {κ : Type} (ops : ResTable_configOps κ) (am : AssetManager2 κ)
    (n resid density_override : Nat) (ignore : Bool) (log : Resolution κ)
    (h : is_valid_resid resid = false ∨ am.package_ids_.getD (get_package_id resid) 0xff = 0xff) :
    (FindEntry ops am (n + 1) resid density_override ignore log).map Prod.snd = some none := by
  by_cases hv : is_valid_resid resid = true
  · have hidx : am.package_ids_.getD (get_package_id resid) 0xff = 0xff := by
      rcases h with h | h
      · rw [hv] at h; exact absurd h (by simp)
      · exact h
    have hidx' : (am.package_ids_.getD (get_package_id resid) 0xff == 0xff) = true := by
      simpa using hidx
    simp only [FindEntry, hv, hidx', Bool.not_true, Bool.false_eq_true, if_false, if_true,
      Option.map_some']
  · have hv' : is_valid_resid resid = false := by simpa using hv
    simp only [FindEntry, hv', Bool.not_false, if_true, Option.map_some']

theorem FindEntry_terminates {κ : Type} (ops : ResTable_configOps κ) (am : AssetManager2 κ)
    (rank : Nat → Nat) (hrank : OverlaysRanked am rank) (density_override : Nat)
    (ignore : Bool) (fuel : Nat) :
    ∀ (resid : Nat) (log : Resolution κ), rank resid < fuel →
      (FindEntry ops am fuel resid density_override ignore log).isSome = true := by
  induction fuel with
  | zero => intro resid log h; omega
  | succ n ih =>
    intro resid log h
    by_cases hv : is_valid_resid resid = true
    · by_cases hidx : am.package_ids_.getD (get_package_id resid) 0xff = 0xff
      · have := FindEntry_invalid ops am n resid density_override ignore log (Or.inr hidx)
        cases hx : FindEntry ops am (n + 1) resid density_override ignore log with
        | none => rw [hx] at this; simp at this
        | some x => rfl
      · cases hg : am.package_groups_.get? (am.package_ids_.getD (get_package_id resid) 0xff) with
        | none =>
          have hidx' : (am.package_ids_.getD (get_package_id resid) 0xff == 0xff) = false := by
            simpa using hidx
          simp only [FindEntry, hv, hidx', hg, Bool.not_true, Bool.false_eq_true, if_false,
            Option.isSome_some]
        | some g =>
          have hshape := FindEntry_succ_of_internal ops am n resid density_override ignore log g
            hv hidx hg
          cases hint : (FindEntryInternal ops am g (get_type_id resid - 1) (get_entry_id resid)
            (selectDesiredConfig ops am density_override) ignore log).2 with
          | none =>
            have := hshape.1 hint
            cases hx : FindEntry ops am (n + 1) resid density_override ignore log with
            | none => rw [hx] at this; simp at this
            | some x => rfl
          | some cr =>
            obtain ⟨c0, res0⟩ := cr
            rcases hshape.2 c0 res0 hint with ⟨_, log1, hnone, _⟩ | ⟨log3, c, res, hx, _⟩
            · exfalso
              have hs := overlayScan_isSome ops am am.resource_resolution_logging_enabled_
                (fun r l => FindEntry ops am n r density_override ignore l) resid
                ((selectDesiredConfig ops am density_override).deref am) g.overlays_
                (by
                  intro link hl r' hlook log'
                  apply ih
                  have := hrank g (mem_of_get?_eq_some hg) link hl resid r' hlook
                  omega) c0 res0 log1
              rw [hnone] at hs
              simp at hs
            · rw [hx]; rfl
    · have := FindEntry_invalid ops am n resid density_override ignore log
        (Or.inl (by simpa using hv))
      cases hx : FindEntry ops am (n + 1) resid density_override ignore log with
      | none => rw [hx] at this; simp at this
      | some x => rfl

theorem FindEntry_cookie_valid {κ : Type} (ops : ResTable_configOps κ) (am : AssetManager2 κ)
    (hcookies : CookiesValid am) (density_override : Nat) (ignore : Bool) (fuel : Nat) :
    ∀ (resid : Nat) (log log' : Resolution κ) (c : Nat) (res : FindEntryResult κ),
      FindEntry ops am fuel resid density_override ignore log = some (log', some (c, res)) →
        c < am.apk_assets_.length := by
  induction fuel with
  | zero => intro resid log log' c res h; simp [FindEntry] at h
  | succ n ih =>
    intro resid log log' c res h
    by_cases hv : is_valid_resid resid = true
    · by_cases hidx : am.package_ids_.getD (get_package_id resid) 0xff = 0xff
      · have := FindEntry_invalid ops am n resid density_override ignore log (Or.inr hidx)
        rw [h] at this
        simp at this
      · cases hg : am.package_groups_.get? (am.package_ids_.getD (get_package_id resid) 0xff) with
        | none =>
          have hidx' : (am.package_ids_.getD (get_package_id resid) 0xff == 0xff) = false := by
            simpa using hidx
          simp only [FindEntry, hv, hidx', hg, Bool.not_true, Bool.false_eq_true, if_false,
            Option.some.injEq, Prod.mk.injEq] at h
          exact absurd h.2 (by simp)
        | some g =>
          have hgm := mem_of_get?_eq_some hg
          have hshape := FindEntry_succ_of_internal ops am n resid density_override ignore log g
            hv hidx hg
          cases hint : (FindEntryInternal ops am g (get_type_id resid - 1) (get_entry_id resid)
            (selectDesiredConfig ops am density_override) ignore log).2 with
          | none =>
            have := hshape.1 hint
            rw [h] at this
            simp at this
          | some cr =>
            obtain ⟨c0, res0⟩ := cr
            have hc0 : c0 < am.apk_assets_.length :=
              (hcookies g hgm).1 c0 (FindEntryInternal_cookie_mem ops am g _ _ _ _ _ c0 res0 hint)
            rcases hshape.2 c0 res0 hint with ⟨hnone, _⟩ | ⟨log3, c', res', hx, hcc⟩
            · rw [h] at hnone; simp at hnone
            · rw [h] at hx
              simp only [Option.some.injEq, Prod.mk.injEq] at hx
              obtain ⟨_, hc, _⟩ := hx
              subst hc
              rcases hcc with rfl | ⟨log1, x, hov, hxc⟩
              · exact hc0
              · rw [← hxc]
                exact overlayScan_cookie ops am am.resource_resolution_logging_enabled_
                  (fun r l => FindEntry ops am n r density_override ignore l) resid
                  ((selectDesiredConfig ops am density_override).deref am)
                  (fun k => k < am.apk_assets_.length) g.overlays_ (hcookies g hgm).2
                  (fun r' lg lg' k rs hk => ih r' lg lg' k rs hk) c0 res0 log1 x hc0 hov
    · have := FindEntry_invalid ops am n resid density_override ignore log
        (Or.inl (by simpa using hv))
      rw [h] at this
      simp at this

/-! ## C7: lookups fail exactly on a miss -/

/-- C7, as amended (lookups fail exactly on a miss).  In an engine whose filtered lists were
rebuilt for the current configuration, whose cookies are indices into the bundle list and whose
overlay links are well founded: `FindEntry` returns `kInvalidCookie` when the identifier has
package id 0 or type id 0, when its package id has no package group, and when the group has no
candidate (no type configuration, matching the desired configuration unless
`ignore_configuration` is set, with a live entry offset at the entry index); conversely, when
the group has a candidate and the live entry of every candidate can be decoded, `FindEntry`
returns, for every call-depth budget above the rank of the identifier, a cookie that is an
index into the bundle list. -/
theorem FindEntry_miss_and_hit {κ : Type} (ops : ResTable_configOps κ) (am : AssetManager2 κ)
    (rank : Nat → Nat) (hfilters : FiltersRebuilt ops am) (hcookies : CookiesValid am)
    (hrank : OverlaysRanked am rank) (resid density_override : Nat)
    (ignore_configuration : Bool) (log : Resolution κ) :
    ((get_package_id resid = 0 ∨ get_type_id resid = 0) → ∀ n,
        (FindEntry ops am (n + 1) resid density_override ignore_configuration log).map Prod.snd =
          some none) ∧
      (am.package_ids_.getD (get_package_id resid) 0xff = 0xff → ∀ n,
        (FindEntry ops am (n + 1) resid density_override ignore_configuration log).map Prod.snd =
          some none) ∧
      (∀ g, is_valid_resid resid = true →
        am.package_ids_.getD (get_package_id resid) 0xff ≠ 0xff →
        am.package_groups_.get? (am.package_ids_.getD (get_package_id resid) 0xff) = some g →
        (∀ impl c t, ¬ IsCandidate ops g (get_type_id resid - 1) (get_entry_id resid)
          ignore_configuration ((selectDesiredConfig ops am density_override).deref am)
          impl c t) →
        ∀ n, (FindEntry ops am (n + 1) resid density_override ignore_configuration log).map
          Prod.snd = some none) ∧
      (∀ g, is_valid_resid resid = true →
        am.package_ids_.getD (get_package_id resid) 0xff ≠ 0xff →
        am.package_groups_.get? (am.package_ids_.getD (get_package_id resid) 0xff) = some g →
        (∃ impl c t, IsCandidate ops g (get_type_id resid - 1) (get_entry_id resid)
          ignore_configuration ((selectDesiredConfig ops am density_override).deref am)
          impl c t) →
        (∀ impl c t, IsCandidate ops g (get_type_id resid - 1) (get_entry_id resid)
          ignore_configuration ((selectDesiredConfig ops am density_override).deref am)
          impl c t →
            (GetEntryFromOffset t (GetEntryOffset t (get_entry_id resid))).isSome = true) →
        ∀ fuel, rank resid < fuel →
          ∃ c res, (FindEntry ops am fuel resid density_override ignore_configuration log).map
              Prod.snd = some (some (c, res)) ∧ c < am.apk_assets_.length) := by
  refine ⟨?_, ?_, ?_, ?_⟩
  · intro h n
    apply FindEntry_invalid
    left
    unfold is_valid_resid
    rcases h with h | h
    · simp [h]
    · simp [h]
  · intro h n
    exact FindEntry_invalid ops am n resid density_override ignore_configuration log (Or.inr h)
  · intro g hv hidx hg hno n
    apply (FindEntry_succ_of_internal ops am n resid density_override ignore_configuration log g
      hv hidx hg).1
    rw [FindEntryInternal_as_slow ops am hfilters g (mem_of_get?_eq_some hg)]
    exact FindEntryInternal_slow_none ops am g _ _ _ _ log hno
  · intro g hv hidx hg hex hdec fuel hfuel
    obtain ⟨c0, res0, hint⟩ := FindEntryInternal_slow_some ops am g (get_type_id resid - 1)
      (get_entry_id resid) ((selectDesiredConfig ops am density_override).deref am)
      ignore_configuration log hex hdec
    rw [← FindEntryInternal_as_slow ops am hfilters g (mem_of_get?_eq_some hg)] at hint
    have hterm := FindEntry_terminates ops am rank hrank density_override ignore_configuration fuel
      resid log hfuel
    cases fuel with
    | zero => omega
    | succ n =>
      rcases (FindEntry_succ_of_internal ops am n resid density_override ignore_configuration log
        g hv hidx hg).2 c0 res0 hint with ⟨hnone, _⟩ | ⟨log3, c, res, hx, _⟩
      · rw [hnone] at hterm; simp at hterm
      · refine ⟨c, res, by rw [hx]; rfl, ?_⟩
        exact FindEntry_cookie_valid ops am hcookies density_override ignore_configuration (n + 1)
          resid log log3 c res hx

theorem sampleOverlayEngine_ranked : OverlaysRanked sampleOverlayEngine sampleRank := by
  intro g hg link hl r r' h
  have hgroups : sampleOverlayEngine.package_groups_.map (fun g => g.overlays_) =
      [[⟨⟨[(0x7f010000, IdmapResult.resource 0x02010000),
        (0x7f010001, IdmapResult.resource 0x02010001)], 1⟩, 1⟩], []] := by rfl
  have hmem : g.overlays_ ∈ sampleOverlayEngine.package_groups_.map (fun g => g.overlays_) :=
    List.mem_map_of_mem _ hg
  rw [hgroups] at hmem
  simp only [List.mem_cons, List.mem_singleton, List.not_mem_nil, or_false] at hmem
  rcases hmem with hmem | hmem
  · rw [hmem] at hl
    simp only [List.mem_singleton] at hl
    subst hl
    simp only [IdmapResMap.Lookup, List.lookup] at h
    split at h
    · rename_i h1
      simp only [Option.some.injEq, IdmapResult.resource.injEq] at h
      subst h
      simp only [beq_iff_eq] at h1
      subst h1
      decide
    · split at h
      · rename_i h2
        simp only [Option.some.injEq, IdmapResult.resource.injEq] at h
        subst h
        simp only [beq_iff_eq] at h2
        subst h2
        decide
      · simp at h
  · rw [hmem] at hl
    simp at hl

/-- Witness of C7 as amended: in `sampleOverlayEngine`, `string/1` of the target has a
candidate whose entry can be decoded, and `FindEntry` returns a cookie below the number of
bundles. -/
theorem FindEntry_miss_and_hit_witness :
    ∃ c res, (FindEntry sampleOps sampleOverlayEngine 2 0x7f010001 0 false
        sampleOverlayEngine.last_resolution_).map Prod.snd = some (some (c, res)) ∧
      c < sampleOverlayEngine.apk_assets_.length :=
  (FindEntry_miss_and_hit sampleOps sampleOverlayEngine sampleRank
    (RebuildFilterList_filtersRebuilt sampleOps _) (by unfold CookiesValid; decide)
    sampleOverlayEngine_ranked 0x7f010001 0 false sampleOverlayEngine.last_resolution_).2.2.2
    sampleTargetGroup (by decide) (by decide) (by rfl)
    ⟨⟨sampleTargetPackage, filterPackage sampleOps ⟨33, 240⟩ true sampleTargetPackage⟩, 0,
      ⟨1, ⟨33, 0⟩, [0, 8], [(0, sampleStringEntry 0 100), (8, sampleStringEntry 1 101)]⟩,
      List.mem_singleton.2 rfl, _, rfl, List.mem_singleton.2 rfl, Or.inr (by decide),
      by decide⟩
    (by
      intro impl c t hc
      obtain ⟨hmem, spec, hs, ht, _, _⟩ := hc
      have himpl : impl =
          ⟨sampleTargetPackage, filterPackage sampleOps ⟨33, 240⟩ true sampleTargetPackage⟩ := by
        have := (List.of_mem_zip hmem).1
        simpa [sampleTargetGroup] using this
      subst himpl
      have hspec : some spec = some (⟨[⟨1, ⟨33, 0⟩, [0, 8],
          [(0, sampleStringEntry 0 100), (8, sampleStringEntry 1 101)]⟩],
            [0x0004, 0x0004]⟩ : TypeSpec SampleConfig) := hs.symm.trans (by rfl)
      simp only [Option.some.injEq] at hspec
      subst hspec
      simp only [List.mem_singleton] at ht
      subst ht
      rfl)
    2 (by decide)

/-- Counterexample to C7 as stated: in `sampleBrokenEngine` the group of `0x7f010000` exists
and the default configuration is a candidate with a live entry that can be decoded, but the
better matching candidate for locale 33 has a live offset without a well-formed entry, and
`FindEntry` returns `kInvalidCookie`. -/
theorem FindEntry_undecodable_winner_counterexample :
    sampleBrokenEngine.package_groups_.get?
        (sampleBrokenEngine.package_ids_.getD (get_package_id 0x7f010000) 0xff) =
      some sampleBrokenGroup ∧
    IsCandidate sampleOps sampleBrokenGroup 0 0 false ⟨33, 0⟩
      ⟨sampleBrokenPackage, filterPackage sampleOps ⟨33, 0⟩ true sampleBrokenPackage⟩ 0
      ⟨1, ⟨0, 0⟩, [0], [(0, sampleStringEntry 0 100)]⟩ ∧
    GetEntryFromOffset
        (⟨1, ⟨0, 0⟩, [0], [(0, sampleStringEntry 0 100)]⟩ : ResTable_type SampleConfig)
        (GetEntryOffset
          (⟨1, ⟨0, 0⟩, [0], [(0, sampleStringEntry 0 100)]⟩ : ResTable_type SampleConfig) 0) =
      some (sampleStringEntry 0 100) ∧
    (∀ n, (FindEntry sampleOps sampleBrokenEngine (n + 1) 0x7f010000 0 false
        sampleBrokenEngine.last_resolution_).map Prod.snd = some none) := by
  refine ⟨by rfl, ⟨List.mem_singleton.2 rfl, _, rfl, List.mem_cons_self _ _, Or.inr (by decide),
    by decide⟩, by rfl, ?_⟩
  intro n
  rfl

/-! ## C4: only matching configurations are returned -/

theorem filterPackage_congr {κ : Type} (ops : ResTable_configOps κ) (a b : κ)
    (h : ∀ c, ops.isMatch c a = ops.isMatch c b) (f : Bool) (p : LoadedPackage κ) :
    filterPackage ops a f p = filterPackage ops b f p := by
  unfold filterPackage filterTypeSpec
  simp only [h]

theorem FiltersRebuilt.invalidateCaches {κ : Type} {ops : ResTable_configOps κ}
    {am : AssetManager2 κ} (h : FiltersRebuilt ops am) (diff : Nat) :
    FiltersRebuilt ops (InvalidateCaches am diff) := by
  unfold InvalidateCaches
  by_cases hd : (diff == 0xffffffff) = true
  · simp only [hd, if_true]; exact h
  · simp only [hd, Bool.false_eq_true, if_false]; exact h

theorem ReachableFiltered.filtersRebuilt {κ : Type} {ops : ResTable_configOps κ}
    {dops : DynamicRefTableOps}
    (hdiff : ∀ a b, ops.diff a b = 0 → ∀ c, ops.isMatch c a = ops.isMatch c b)
    {am : AssetManager2 κ} (h : ReachableFiltered ops dops am) : FiltersRebuilt ops am := by
  induction h with
  | new => intro g hg; exact (List.not_mem_nil g hg).elim
  | setApkAssets am apk inval _ _ =>
    unfold SetApkAssets
    cases inval with
    | true =>
      simp only [if_true]
      exact FiltersRebuilt.invalidateCaches (RebuildFilterList_filtersRebuilt ops _) _
    | false => exact RebuildFilterList_filtersRebuilt ops _
  | setConfiguration am c _ ih =>
    unfold SetConfiguration
    by_cases h0 : ops.diff am.configuration_ c = 0
    · simp only [h0, bne_self_eq_false, Bool.false_eq_true, if_false]
      intro g hg impl himpl
      have := ih g hg impl himpl
      rw [this]
      exact filterPackage_congr ops _ _ (hdiff _ _ h0) true _
    · have : (ops.diff am.configuration_ c != 0) = true := by simpa using h0
      simp only [this, if_true]
      exact FiltersRebuilt.invalidateCaches (RebuildFilterList_filtersRebuilt ops _) _

theorem FindEntryInternal_slow_from_candidate {κ : Type} (ops : ResTable_configOps κ)
    (am : AssetManager2 κ) (g : PackageGroup κ) (ti e : Nat) (d : κ) (i : Bool)
    (log : Resolution κ) (c : Nat) (res : FindEntryResult κ)
    (h : (FindEntryInternal ops am g ti e (ConfigRef.other d) i log).2 = some (c, res)) :
    ∃ impl t, IsCandidate ops g ti e i d impl c t ∧
      res.config = (if i then ops.zero else t.config) := by
  simp only [FindEntryInternal, ConfigRef.isConfiguration_, Bool.and_false, ConfigRef.deref] at h
  have hfrom := packageScan_best_from ops am.resource_resolution_logging_enabled_ i d ti e
    (g.packages_.zip g.cookies_) ⟨none, 0, StepType.NO_ENTRY, [], log.steps⟩
  revert h hfrom
  generalize packageScan ops am.resource_resolution_logging_enabled_ i false d ti e
    (g.packages_.zip g.cookies_) ⟨none, 0, StepType.NO_ENTRY, [], log.steps⟩ = st
  intro h hfrom
  cases hb : st.best with
  | none => rw [hb] at h; simp at h
  | some b =>
    rw [hb] at h
    simp only at h
    cases he : GetEntryFromOffset b.type b.offset with
    | none => rw [he] at h; simp at h
    | some entry =>
      rw [he] at h
      simp only [Option.some.injEq, Prod.mk.injEq] at h
      obtain ⟨hck, hres⟩ := h
      rcases hfrom b hb with h0 | ⟨x, hx, spec, hs, hbf⟩
      · simp at h0
      · obtain ⟨hbc, _, hbt, hbcand, _, hbcfg⟩ := hbf
        refine ⟨x.1, b.type, ⟨?_, spec, hs, hbt,
          ((isCandidateType_iff ops i d e b.type).1 hbcand).1,
          ((isCandidateType_iff ops i d e b.type).1 hbcand).2⟩, ?_⟩
        · rw [← hck, hbc]; exact hx
        · rw [← hres]; exact hbcfg

/-- C4, as amended (only matching configurations are returned).  In every engine state
reachable from a new engine through `SetApkAssets` with `filter_incompatible_configs = true`
and `SetConfiguration`, whenever `FindEntryInternal` is called on a package group of the engine
with `ignore_configuration = false` (on the fast path or on the slow path) and succeeds, the
configuration of the returned entry matches the desired configuration.  The configuration
`diff` is assumed to be zero only between configurations that match the same candidates. -/
theorem FindEntryInternal_returns_matching {κ : Type} (ops : ResTable_configOps κ)
    (dops : DynamicRefTableOps)
    (hdiff : ∀ a b, ops.diff a b = 0 → ∀ c, ops.isMatch c a = ops.isMatch c b)
    (am : AssetManager2 κ) (hreach : ReachableFiltered ops dops am) (g : PackageGroup κ)
    (hg : g ∈ am.package_groups_) (type_idx entry_idx : Nat) (desired_config : ConfigRef κ)
    (log : Resolution κ) (cookie : Nat) (res : FindEntryResult κ)
    (h : (FindEntryInternal ops am g type_idx entry_idx desired_config false log).2 =
      some (cookie, res)) :
    ops.isMatch res.config (desired_config.deref am) = true := by
  rw [FindEntryInternal_as_slow ops am (hreach.filtersRebuilt hdiff) g hg] at h
  obtain ⟨impl, t, hcand, hcfg⟩ := FindEntryInternal_slow_from_candidate ops am g type_idx
    entry_idx (desired_config.deref am) false log cookie res h
  obtain ⟨_, spec, _, _, hm, _⟩ := hcand
  simp only [Bool.false_eq_true, if_false] at hcfg
  rw [hcfg]
  rcases hm with hm | hm
  · exact absurd hm (by simp)
  · exact hm

theorem sampleOps_diff (a b : SampleConfig) (h : sampleOps.diff a b = 0) : a = b := by
  obtain ⟨al, ad⟩ := a
  obtain ⟨bl, bd⟩ := b
  simp only [sampleOps, SampleConfig.diff] at h
  by_cases h1 : al = bl
  · by_cases h2 : ad = bd
    · simp [h1, h2]
    · simp [h1, h2] at h
  · by_cases h2 : ad = bd
    · simp [h1, h2] at h
    · simp [h1, h2] at h

/-- Witness of C4 as amended: in `sampleEngine` (bundles set with filtering enabled, then
locale 33 set) the fast path returns the locale-33 entry, which matches. -/
theorem FindEntryInternal_returns_matching_witness :
    (FindEntryInternal sampleOps sampleEngine sampleGroup 0 0 ConfigRef.configuration_ false
        sampleEngine.last_resolution_).2 = some (0, sampleResult) ∧
      sampleOps.isMatch sampleResult.config ((ConfigRef.configuration_).deref sampleEngine) =
        true :=
  ⟨by rfl, FindEntryInternal_returns_matching sampleOps sampleRefOps
    (fun a b h c => by rw [sampleOps_diff a b h]) sampleEngine
    (ReachableFiltered.setConfiguration _ _
      (ReachableFiltered.setApkAssets _ _ _ ReachableFiltered.new))
    sampleGroup (List.mem_singleton.2 rfl) 0 0 ConfigRef.configuration_
    sampleEngine.last_resolution_ 0 sampleResult (by rfl)⟩

/-- Counterexample to C4 as stated: `sampleUnfilteredEngine` is reached by
`SetConfiguration(locale 44)` followed by `SetApkAssets` with `filter_incompatible_configs =
false`.  Its filtered list keeps the locale-33 configuration, and `FindEntryInternal`, called
with `ignore_configuration = false` and the current configuration, takes the fast path and
returns the locale-33 entry, whose configuration does not match locale 44 (the slow path finds
nothing). -/
theorem FindEntryInternal_unfiltered_counterexample :
    sampleUnfilteredEngine.configuration_ = ⟨44, 0⟩ ∧
      sampleUnfilteredEngine.package_groups_.get? 0 = some sampleUnfilteredGroup ∧
      (FindEntryInternal sampleOps sampleUnfilteredEngine sampleUnfilteredGroup 0 0
        ConfigRef.configuration_ false sampleUnfilteredEngine.last_resolution_).2.map
          (fun x => (x.1, x.2.entry, x.2.config)) =
        some (0, EntryVariant.value ⟨TYPE_STRING, 100⟩, ⟨33, 0⟩) ∧
      sampleOps.isMatch ⟨33, 0⟩ sampleUnfilteredEngine.configuration_ = false ∧
      (FindEntryInternal sampleOps sampleUnfilteredEngine sampleUnfilteredGroup 0 0
        (ConfigRef.other ⟨44, 0⟩) false sampleUnfilteredEngine.last_resolution_).2 = none := by
  refine ⟨by rfl, by rfl, by rfl, by rfl, by rfl⟩

/-! ## C11: cached bags are reused -/

theorem cacheBag_lookup (cache : List (Nat × ResolvedBag)) (resid : Nat) (bag : ResolvedBag) :
    (cacheBag cache resid bag).lookup resid = some bag := by
  simp [cacheBag, List.lookup]

theorem GetBagRec_cached {κ : Type} (ops : ResTable_configOps κ) (dops : DynamicRefTableOps)
    (fuel : Nat) :
    ∀ (am : AssetManager2 κ) (resid : Nat) (child_resids : List Nat) (r : BagResult κ),
      GetBagRec ops dops fuel am resid child_resids = some r →
        ∀ bag, r.2.2 = some bag → r.1.cached_bags_.lookup resid = some bag := by
  induction fuel with
  | zero => intro am resid cr r h; simp [GetBagRec] at h
  | succ n ih =>
    intro am resid cr r h bag hbag
    unfold GetBagRec at h
    split at h
    · rename_i b hb
      simp only [Option.some.injEq] at h; subst h
      simp only [Option.some.injEq] at hbag; subst hbag
      exact hb
    · split at h
      · exact absurd h (by simp)
      · simp only [Option.some.injEq] at h; subst h; simp at hbag
      · simp only at h
        split at h
        · simp only [Option.some.injEq] at h; subst h; simp at hbag
        · split at h
          · split at h
            · simp only [Option.some.injEq] at h; subst h; simp at hbag
            · simp only [Option.some.injEq] at h; subst h
              simp only [Option.some.injEq] at hbag; subst hbag
              exact cacheBag_lookup _ _ _
          · split at h
            · exact absurd h (by simp)
            · simp only [Option.some.injEq] at h; subst h; simp at hbag
            · split at h
              · simp only [Option.some.injEq] at h; subst h; simp at hbag
              · simp only [Option.some.injEq] at h; subst h
                simp only [Option.some.injEq] at hbag; subst hbag
                exact cacheBag_lookup _ _ _

theorem GetBagRec_hit {κ : Type} (ops : ResTable_configOps κ) (dops : DynamicRefTableOps)
    (fuel : Nat) (am : AssetManager2 κ) (resid : Nat) (child_resids : List Nat)
    (bag : ResolvedBag) (h : am.cached_bags_.lookup resid = some bag) :
    GetBagRec ops dops (fuel + 1) am resid child_resids = some (am, child_resids, some bag) := by
  rw [GetBagRec]
  simp only [h]

theorem purgeBags_lookup (diff resid : Nat) (bag : ResolvedBag) :
    ∀ (bags : List (Nat × ResolvedBag)), bags.lookup resid = some bag →
      diff &&& bag.type_spec_flags = 0 → (purgeBags diff bags).lookup resid = some bag := by
  intro bags
  induction bags with
  | nil => intro h; simp at h
  | cons e rest ih =>
    intro h hd
    obtain ⟨r, b⟩ := e
    by_cases hr : resid = r
    · subst hr
      simp only [List.lookup, beq_self_eq_true, Option.some.injEq] at h
      subst h
      simp [purgeBags, hd, List.lookup]
    · have hne : (resid == r) = false := by simpa using hr
      simp only [List.lookup, hne] at h
      simp only [purgeBags]
      split
      · exact ih h hd
      · simp only [List.lookup, hne]
        exact ih h hd

theorem GetBag_cached {κ : Type} (ops : ResTable_configOps κ) (dops : DynamicRefTableOps)
    (fuel : Nat) (am am1 : AssetManager2 κ) (resid : Nat) (bag : ResolvedBag)
    (h : GetBag ops dops fuel am resid = some (am1, some bag)) :
    am1.cached_bags_.lookup resid = some bag ∧
      ∃ stack, am1.cached_bag_resid_stacks_.lookup resid = some stack := by
  unfold GetBag at h
  split at h
  · exact absurd h (by simp)
  · rename_i am0 found b h2
    have h3 := GetBagRec_cached ops dops fuel _ _ _ _ h2
    split at h
    · rename_i stack hs
      simp only [Option.some.injEq, Prod.mk.injEq] at h
      obtain ⟨rfl, rfl⟩ := h
      exact ⟨h3 bag rfl, stack, hs⟩
    · simp only [Option.some.injEq, Prod.mk.injEq] at h
      obtain ⟨rfl, rfl⟩ := h
      exact ⟨h3 bag rfl, found, by simp [List.lookup]⟩

theorem GetBag_hit {κ : Type} (ops : ResTable_configOps κ) (dops : DynamicRefTableOps)
    (fuel : Nat) (am : AssetManager2 κ) (resid : Nat) (bag : ResolvedBag)
    (h : am.cached_bags_.lookup resid = some bag) :
    ∃ am2, GetBag ops dops (fuel + 1) am resid = some (am2, some bag) ∧
      am2.cached_bags_ = am.cached_bags_ ∧
      ((∃ stack, am.cached_bag_resid_stacks_.lookup resid = some stack) → am2 = am) := by
  unfold GetBag
  rw [GetBagRec_hit ops dops fuel am resid [] bag h]
  cases hs : am.cached_bag_resid_stacks_.lookup resid with
  | some stack => exact ⟨am, by simp only [hs], rfl, fun _ => rfl⟩
  | none =>
    refine ⟨{ am with cached_bag_resid_stacks_ := (resid, []) :: am.cached_bag_resid_stacks_ },
      by simp only [hs], rfl, ?_⟩
    rintro ⟨stack, h'⟩
    simp at h'

theorem SetConfiguration_lookup {κ : Type} (ops : ResTable_configOps κ) (am : AssetManager2 κ)
    (configuration : κ) (resid : Nat) (bag : ResolvedBag)
    (h : am.cached_bags_.lookup resid = some bag)
    (hdiff : ops.diff am.configuration_ configuration ≠ 0xffffffff)
    (hdisj : ops.diff am.configuration_ configuration &&& bag.type_spec_flags = 0) :
    (SetConfiguration ops am configuration).cached_bags_.lookup resid = some bag := by
  simp only [SetConfiguration]
  by_cases h0 : ops.diff am.configuration_ configuration = 0
  · simpa [h0] using h
  · have h1 : (ops.diff am.configuration_ configuration != 0) = true := by simpa using h0
    have h2 : (ops.diff am.configuration_ configuration == 0xffffffff) = false := by
      simpa using hdiff
    simp only [h1, if_true, InvalidateCaches, h2, Bool.false_eq_true, if_false]
    exact purgeBags_lookup _ _ _ _ h hdisj

/-- C11 (cached bags are reused).  After a successful `GetBag(resid)` a second `GetBag(resid)`
returns the same bag and leaves the whole engine, the bag cache included, unchanged; and after
`SetConfiguration` with a configuration whose diff mask (other than the full mask `0xffffffff`)
is disjoint from the flag mask of the bag, the bag is still in the bag cache, and `GetBag(resid)`
returns it and leaves the bag cache unchanged. -/
theorem GetBag_cache_reuse {κ : Type} (ops : ResTable_configOps κ) (dops : DynamicRefTableOps)
    (fuel : Nat) (am am1 : AssetManager2 κ) (resid : Nat) (bag : ResolvedBag)
    (h : GetBag ops dops fuel am resid = some (am1, some bag)) :
    am1.cached_bags_.lookup resid = some bag ∧
      (∀ fuel1, GetBag ops dops (fuel1 + 1) am1 resid = some (am1, some bag)) ∧
      ∀ configuration, ops.diff am1.configuration_ configuration ≠ 0xffffffff →
        ops.diff am1.configuration_ configuration &&& bag.type_spec_flags = 0 →
          (SetConfiguration ops am1 configuration).cached_bags_.lookup resid = some bag ∧
            ∀ fuel1, ∃ am2,
              GetBag ops dops (fuel1 + 1) (SetConfiguration ops am1 configuration) resid =
                  some (am2, some bag) ∧
                am2.cached_bags_ = (SetConfiguration ops am1 configuration).cached_bags_ := by
  obtain ⟨hc, hs⟩ := GetBag_cached ops dops fuel am am1 resid bag h
  refine ⟨hc, ?_, ?_⟩
  · intro fuel1
    obtain ⟨am2, h1, -, h3⟩ := GetBag_hit ops dops fuel1 am1 resid bag hc
    rw [h1, h3 hs]
  · intro configuration hdiff hdisj
    have hl := SetConfiguration_lookup ops am1 configuration resid bag hc hdiff hdisj
    refine ⟨hl, fun fuel1 => ?_⟩
    obtain ⟨am2, h1, h2, -⟩ := GetBag_hit ops dops fuel1 _ resid bag hl
    exact ⟨am2, h1, h2⟩

/-- Witness of C11: the parent style `0x7f020000` of the sample package, whose bag varies with
the locale, is resolved once; a second call and a call after a density change return the cached
bag. -/
theorem GetBag_cache_reuse_witness :
    ∃ am1, GetBag sampleOps sampleRefOps 1 sampleStyleEngine 0x7f020000 =
        some (am1, some sampleParentBag) ∧
      GetBag sampleOps sampleRefOps 1 am1 0x7f020000 = some (am1, some sampleParentBag) ∧
      sampleOps.diff am1.configuration_ ⟨0, 240⟩ = 0x0100 ∧
      (SetConfiguration sampleOps am1 ⟨0, 240⟩).cached_bags_.lookup 0x7f020000 =
        some sampleParentBag :=
  ⟨_, rfl,
    (GetBag_cache_reuse sampleOps sampleRefOps 1 sampleStyleEngine _ 0x7f020000 sampleParentBag
      rfl).2.1 0,
    by decide,
    ((GetBag_cache_reuse sampleOps sampleRefOps 1 sampleStyleEngine _ 0x7f020000 sampleParentBag
      rfl).2.2 ⟨0, 240⟩ (by decide) (by decide)).1⟩

/-! ## Slots of a theme -/

theorem getAttributeLoop_slot_none (theme : Theme) (ov : Res_value) (ofl : Nat)
    (cnt resid flags : Nat) (h : theme.slot resid = none) :
    getAttributeLoop theme ov ofl cnt resid flags = (none, ov, ofl) := by
  unfold Theme.slot at h
  unfold getAttributeLoop
  split at h
  · rename_i hp; simp only [hp]
  · rename_i package hp
    simp only [hp]
    split at h
    · rename_i ht; simp only [ht]
    · rename_i type ht
      simp only [ht, h]

theorem getAttributeLoop_slot_some (theme : Theme) (ov : Res_value) (ofl : Nat)
    (cnt resid flags : Nat) (entry : ThemeEntry) (h : theme.slot resid = some entry) :
    getAttributeLoop theme ov ofl cnt resid flags =
      if entry.value.dataType == TYPE_ATTRIBUTE then
        match cnt with
        | 0 => (none, ov, ofl)
        | cnt1 + 1 => getAttributeLoop theme ov ofl cnt1 entry.value.data
            (flags ||| entry.type_spec_flags)
      else if entry.value.dataType == TYPE_NULL && entry.value.data != DATA_NULL_EMPTY then
        (none, ov, ofl)
      else (some entry.cookie, entry.value, flags ||| entry.type_spec_flags) := by
  unfold Theme.slot at h
  rw [getAttributeLoop]
  split at h
  · simp at h
  · rename_i package hp
    simp only [hp]
    split at h
    · simp at h
    · rename_i type ht
      simp only [ht, h]

/-! ## C14: attribute indirection is bounded -/

theorem getAttributeLoop_within (theme : Theme) (ov : Res_value) (ofl : Nat) (final : ThemeEntry)
    (hattr : final.value.dataType ≠ TYPE_ATTRIBUTE)
    (hset : ¬ (final.value.dataType = TYPE_NULL ∧ final.value.data ≠ DATA_NULL_EMPTY)) :
    ∀ (n cnt resid flags r : Nat), n ≤ cnt → followAttributes theme n resid = some r →
      theme.slot r = some final →
      ∃ fl, getAttributeLoop theme ov ofl cnt resid flags = (some final.cookie, final.value, fl) := by
  intro n
  induction n with
  | zero =>
    intro cnt resid flags r _ hf hs
    simp only [followAttributes, Option.some.injEq] at hf
    subst hf
    rw [getAttributeLoop_slot_some theme ov ofl cnt resid flags final hs]
    have h1 : (final.value.dataType == TYPE_ATTRIBUTE) = false := by simpa using hattr
    have h2 : (final.value.dataType == TYPE_NULL && final.value.data != DATA_NULL_EMPTY) =
        false := by
      by_cases h : final.value.dataType = TYPE_NULL
      · have : ¬ final.value.data ≠ DATA_NULL_EMPTY := fun h' => hset ⟨h, h'⟩
        simp only [ne_eq, not_not] at this
        simp [this]
      · simp [h]
    simp only [h1, h2, Bool.false_eq_true, if_false]
    exact ⟨_, rfl⟩
  | succ n ih =>
    intro cnt resid flags r hle hf hs
    simp only [followAttributes] at hf
    split at hf
    · simp at hf
    · rename_i entry he
      split at hf
      · rename_i ha
        rw [getAttributeLoop_slot_some theme ov ofl cnt resid flags entry he]
        simp only [ha, if_true]
        cases cnt with
        | zero => omega
        | succ c => exact ih c _ _ r (by omega) hf hs
      · simp at hf

theorem getAttributeLoop_beyond (theme : Theme) (ov : Res_value) (ofl : Nat) :
    ∀ (cnt n resid flags r : Nat), cnt < n → followAttributes theme n resid = some r →
      getAttributeLoop theme ov ofl cnt resid flags = (none, ov, ofl) := by
  intro cnt
  induction cnt with
  | zero =>
    intro n resid flags r hlt hf
    cases n with
    | zero => omega
    | succ m =>
      simp only [followAttributes] at hf
      split at hf
      · simp at hf
      · rename_i entry he
        split at hf
        · rename_i ha
          rw [getAttributeLoop_slot_some theme ov ofl 0 resid flags entry he]
          simp only [ha, if_true]
        · simp at hf
  | succ c ih =>
    intro n resid flags r hlt hf
    cases n with
    | zero => omega
    | succ m =>
      simp only [followAttributes] at hf
      split at hf
      · simp at hf
      · rename_i entry he
        split at hf
        · rename_i ha
          rw [getAttributeLoop_slot_some theme ov ofl (c + 1) resid flags entry he]
          simp only [ha, if_true]
          exact ih m _ _ r (by omega) hf
        · simp at hf

theorem followAttributes_self (theme : Theme) (resid : Nat) (entry : ThemeEntry)
    (hs : theme.slot resid = some entry) (hv : entry.value = ⟨TYPE_ATTRIBUTE, resid⟩) :
    ∀ n, followAttributes theme n resid = some resid := by
  intro n
  induction n with
  | zero => rfl
  | succ m ih =>
    simp only [followAttributes, hs, hv, beq_self_eq_true, if_true]
    exact ih

/-- C14 (attribute indirection is bounded at 20 hops).  `GetAttribute` is a total function on
themes.  If `n` hops through slots holding `TYPE_ATTRIBUTE` values lead from `resid` to a slot
that holds a set value that is not an attribute, `GetAttribute(resid)` returns the cookie and the
value of that slot when `n ≤ 20`; whenever more than 20 consecutive attribute hops are possible
from an identifier, as in a chain of 25 indirections or for an attribute that refers to itself,
`GetAttribute` returns `kInvalidCookie` and leaves `*out_value` and `*out_flags` as they were. -/
theorem GetAttribute_hop_bound (theme : Theme) (resid n r : Nat) (final : ThemeEntry)
    (out_value : Res_value) (out_flags : Nat)
    (hchain : followAttributes theme n resid = some r)
    (hslot : theme.slot r = some final)
    (hattr : final.value.dataType ≠ TYPE_ATTRIBUTE)
    (hset : ¬ (final.value.dataType = TYPE_NULL ∧ final.value.data ≠ DATA_NULL_EMPTY)) :
    (n ≤ 20 →
        (GetAttribute theme resid out_value out_flags).1 = some final.cookie ∧
          (GetAttribute theme resid out_value out_flags).2.1 = final.value) ∧
      (20 < n → GetAttribute theme resid out_value out_flags = (none, out_value, out_flags)) ∧
      (∀ resid1 m r1, 20 < m → followAttributes theme m resid1 = some r1 →
        GetAttribute theme resid1 out_value out_flags = (none, out_value, out_flags)) ∧
      (∀ resid1 entry, theme.slot resid1 = some entry →
        entry.value = ⟨TYPE_ATTRIBUTE, resid1⟩ →
          GetAttribute theme resid1 out_value out_flags = (none, out_value, out_flags)) := by
  refine ⟨fun hn => ?_, fun hn => ?_, fun resid1 m r1 hm hf => ?_, fun resid1 entry hs hv => ?_⟩
  · obtain ⟨fl, h⟩ := getAttributeLoop_within theme out_value out_flags final hattr hset n 20
      resid 0 r hn hchain hslot
    unfold GetAttribute
    rw [h]
    exact ⟨rfl, rfl⟩
  · exact getAttributeLoop_beyond theme out_value out_flags 20 n resid 0 r hn hchain
  · exact getAttributeLoop_beyond theme out_value out_flags 20 m resid1 0 r1 hm hf
  · exact getAttributeLoop_beyond theme out_value out_flags 20 21 resid1 0 resid1 (by omega)
      (followAttributes_self theme resid1 entry hs hv 21)

/-- Witness of C14: in the sample theme 25 hops lead from `0x7f010000` to the string slot
`0x7f010019`, and `GetAttribute(0x7f010000)` fails; 20 hops lead from `0x7f010005` to it, and
`GetAttribute(0x7f010005)` returns its cookie and value. -/
theorem GetAttribute_hop_bound_witness :
    followAttributes sampleChainTheme 25 0x7f010000 = some 0x7f010019 ∧
      GetAttribute sampleChainTheme 0x7f010000 ⟨0, 0⟩ 0 = (none, ⟨0, 0⟩, 0) ∧
      followAttributes sampleChainTheme 20 0x7f010005 = some 0x7f010019 ∧
      (GetAttribute sampleChainTheme 0x7f010005 ⟨0, 0⟩ 0).1 = some 3 ∧
      (GetAttribute sampleChainTheme 0x7f010005 ⟨0, 0⟩ 0).2.1 = ⟨TYPE_STRING, 7⟩ :=
  ⟨by decide,
    (GetAttribute_hop_bound sampleChainTheme 0x7f010000 25 0x7f010019
      ⟨3, 0x0004, ⟨TYPE_STRING, 7⟩⟩ ⟨0, 0⟩ 0 (by decide) (by decide) (by decide)
      (by decide)).2.1 (by decide),
    by decide,
    (GetAttribute_hop_bound sampleChainTheme 0x7f010005 20 0x7f010019
      ⟨3, 0x0004, ⟨TYPE_STRING, 7⟩⟩ ⟨0, 0⟩ 0 (by decide) (by decide) (by decide)
      (by decide)).1 (by decide)⟩

/-! ## C15: unset is a miss, empty is a hit -/

/-- C15 (unset is a miss, empty is a hit).  `GetAttribute` returns `kInvalidCookie` and leaves
`*out_value` and `*out_flags` as they were when the theme has no package for the package id of
the identifier, when that package has no type for its type id, when the entry index is not below
`entry_count`, and when the slot holds the unset marker (`TYPE_NULL` with data other than
`DATA_NULL_EMPTY`), which a zero-filled slot does; when the slot holds the explicit empty value
(`TYPE_NULL` with `DATA_NULL_EMPTY`) it returns the cookie, the value and the flags of the
slot. -/
theorem GetAttribute_unset_is_miss (theme : Theme) (resid : Nat) (out_value : Res_value)
    (out_flags : Nat) :
    (theme.packages_ (get_package_id resid) = none →
        GetAttribute theme resid out_value out_flags = (none, out_value, out_flags)) ∧
      (∀ package, theme.packages_ (get_package_id resid) = some package →
        package.types (get_type_id resid) = none →
          GetAttribute theme resid out_value out_flags = (none, out_value, out_flags)) ∧
      (∀ package type, theme.packages_ (get_package_id resid) = some package →
        package.types (get_type_id resid) = some type →
          type.entries.length ≤ get_entry_id resid →
            GetAttribute theme resid out_value out_flags = (none, out_value, out_flags)) ∧
      (∀ entry, theme.slot resid = some entry → entry.value.dataType = TYPE_NULL →
        entry.value.data ≠ DATA_NULL_EMPTY →
          GetAttribute theme resid out_value out_flags = (none, out_value, out_flags)) ∧
      (theme.slot resid = some ThemeEntry.zero →
        GetAttribute theme resid out_value out_flags = (none, out_value, out_flags)) ∧
      (∀ entry, theme.slot resid = some entry → entry.value.dataType = TYPE_NULL →
        entry.value.data = DATA_NULL_EMPTY →
          GetAttribute theme resid out_value out_flags =
            (some entry.cookie, entry.value, entry.type_spec_flags)) := by
  have hunset : ∀ entry, theme.slot resid = some entry → entry.value.dataType = TYPE_NULL →
      entry.value.data ≠ DATA_NULL_EMPTY →
        GetAttribute theme resid out_value out_flags = (none, out_value, out_flags) := by
    intro entry hs ht hd
    unfold GetAttribute
    rw [getAttributeLoop_slot_some theme out_value out_flags 20 resid 0 entry hs]
    have h1 : (entry.value.dataType == TYPE_ATTRIBUTE) = false := by
      rw [ht]; decide
    have h2 : (entry.value.dataType == TYPE_NULL && entry.value.data != DATA_NULL_EMPTY) =
        true := by
      simp [ht, hd]
    simp only [h1, h2, Bool.false_eq_true, if_false, if_true]
  refine ⟨fun hp => ?_, fun package hp ht => ?_, fun package type hp ht hl => ?_, hunset,
    fun hs => ?_, fun entry hs ht hd => ?_⟩
  · exact getAttributeLoop_slot_none theme out_value out_flags 20 resid 0
      (by simp only [Theme.slot, hp])
  · exact getAttributeLoop_slot_none theme out_value out_flags 20 resid 0
      (by simp only [Theme.slot, hp, ht])
  · exact getAttributeLoop_slot_none theme out_value out_flags 20 resid 0
      (by simp only [Theme.slot, hp, ht]; exact List.get?_eq_none.2 hl)
  · exact hunset ThemeEntry.zero hs rfl (by decide)
  · unfold GetAttribute
    rw [getAttributeLoop_slot_some theme out_value out_flags 20 resid 0 entry hs]
    have h1 : (entry.value.dataType == TYPE_ATTRIBUTE) = false := by
      rw [ht]; decide
    have h2 : (entry.value.dataType == TYPE_NULL && entry.value.data != DATA_NULL_EMPTY) =
        false := by
      simp [ht, hd]
    simp only [h1, h2, Bool.false_eq_true, if_false, Nat.zero_or]

/-! ## Frame of a theme write -/

theorem Theme.setType_slot_same (theme : Theme) (p t : Nat) (pkg : ThemePackage)
    (ty : ThemeType) (k : Nat) (hp : get_package_id k = p) (ht : get_type_id k = t) :
    (theme.setType p t pkg ty).slot k = ty.entries.get? (get_entry_id k) := by
  simp only [Theme.slot, Theme.setType, hp, ht, if_true]

theorem Theme.setType_slot_other (theme : Theme) (p t : Nat) (pkg : ThemePackage)
    (ty : ThemeType) (k : Nat) (hpkg : theme.packages_ p = some pkg)
    (h : get_package_id k ≠ p ∨ get_type_id k ≠ t) :
    (theme.setType p t pkg ty).slot k = theme.slot k := by
  by_cases hp : get_package_id k = p
  · have ht : get_type_id k ≠ t := by
      rcases h with h | h
      · exact absurd hp h
      · exact h
    simp only [Theme.slot, Theme.setType, hp, if_true, ht, if_false, hpkg]
  · simp only [Theme.slot, Theme.setType, hp, if_false]

theorem Theme.ensurePackage_slot (theme : Theme) (p k : Nat) (x : ThemeEntry)
    (h : theme.slot k = some x) : (theme.ensurePackage p).slot k = some x := by
  unfold Theme.ensurePackage
  cases hp : theme.packages_ p with
  | some pkg => simpa using h
  | none =>
    by_cases hk : get_package_id k = p
    · simp only [Theme.slot, hk, hp] at h
      exact absurd h (by simp)
    · simpa only [Theme.slot, hk, if_false] using h

theorem Theme.ensurePackage_some (theme : Theme) (p : Nat) :
    ∃ pkg, (theme.ensurePackage p).packages_ p = some pkg := by
  unfold Theme.ensurePackage
  cases hp : theme.packages_ p with
  | some pkg => exact ⟨pkg, hp⟩
  | none => exact ⟨⟨fun _ => none⟩, by simp⟩

theorem Theme.ensureType_slot (theme : Theme) (p t e k : Nat) (pkg : ThemePackage)
    (x : ThemeEntry) (hpkg : theme.packages_ p = some pkg) (h : theme.slot k = some x) :
    (theme.ensureType p t e pkg).slot k = some x := by
  unfold Theme.ensureType
  by_cases hk : get_package_id k = p ∧ get_type_id k = t
  · obtain ⟨hk1, hk2⟩ := hk
    cases hty : pkg.types t with
    | none =>
      have hs : theme.slot k = none := by simp only [Theme.slot, hk1, hpkg, hk2, hty]
      rw [hs] at h
      exact absurd h (by simp)
    | some ty =>
      have hs : theme.slot k = ty.entries.get? (get_entry_id k) := by
        simp only [Theme.slot, hk1, hpkg, hk2, hty]
      rw [hs] at h
      simp only
      split
      · rw [Theme.setType_slot_same _ _ _ _ _ _ hk1 hk2]
        have hlt : get_entry_id k < ty.entries.length := by
          by_contra hc
          rw [List.get?_eq_none.2 (by omega)] at h
          exact absurd h (by simp)
        simp only [List.get?_eq_getElem?] at h ⊢
        rw [List.getElem?_append_left hlt]
        exact h
      · simp only [Theme.slot, hk1, hpkg, hk2, hty]
        exact h
  · have hk' : get_package_id k ≠ p ∨ get_type_id k ≠ t := by
      by_cases h1 : get_package_id k = p
      · right; exact fun h2 => hk ⟨h1, h2⟩
      · left; exact h1
    cases hty : pkg.types t with
    | none =>
      simp only
      rw [Theme.setType_slot_other _ _ _ _ _ _ hpkg hk']
      exact h
    | some ty =>
      simp only
      split
      · rw [Theme.setType_slot_other _ _ _ _ _ _ hpkg hk']
        exact h
      · exact h

theorem applyEntry_some (force : Bool) (flags : Nat) (e : BagEntry) (st st3 : ApplyState)
    (h : applyEntry force flags e st = some st3) :
    ∃ pkg1 pkg2 ty entry,
      (st.selectPackage (get_package_id e.key)).theme.packages_ (get_package_id e.key) =
        some pkg1 ∧
      ((st.selectPackage (get_package_id e.key)).selectType (get_package_id e.key)
          (get_type_id e.key) (get_entry_id e.key) pkg1).theme.packages_
          (get_package_id e.key) = some pkg2 ∧
      pkg2.types (get_type_id e.key) = some ty ∧
      ty.entries.get? (get_entry_id e.key) = some entry ∧
      (((force || entry.isUnset) = true ∧
          st3 = { (st.selectPackage (get_package_id e.key)).selectType (get_package_id e.key)
                    (get_type_id e.key) (get_entry_id e.key) pkg1 with
                  theme :=
                    ((st.selectPackage (get_package_id e.key)).selectType
                      (get_package_id e.key) (get_type_id e.key) (get_entry_id e.key)
                      pkg1).theme.setType (get_package_id e.key) (get_type_id e.key) pkg2
                      ⟨ty.entries.set (get_entry_id e.key)
                        ⟨e.cookie, entry.type_spec_flags ||| flags, e.value⟩⟩ }) ∨
        ((force || entry.isUnset) = false ∧
          st3 = (st.selectPackage (get_package_id e.key)).selectType (get_package_id e.key)
            (get_type_id e.key) (get_entry_id e.key) pkg1)) := by
  unfold applyEntry at h
  simp only at h
  split at h
  · exact absurd h (by simp)
  · rename_i pkg1 hp1
    split at h
    · exact absurd h (by simp)
    · rename_i pkg2 hp2
      split at h
      · exact absurd h (by simp)
      · rename_i ty hty
        split at h
        · exact absurd h (by simp)
        · rename_i entry hen
          refine ⟨pkg1, pkg2, ty, entry, hp1, hp2, hty, hen, ?_⟩
          split at h
          · rename_i c
            left
            simp only [Option.some.injEq] at h
            exact ⟨c, h.symm⟩
          · rename_i c
            right
            simp only [Option.some.injEq] at h
            refine ⟨?_, h.symm⟩
            simpa [ThemeEntry.isUnset] using c

theorem ApplyState.selectPackage_slot (st : ApplyState) (p k : Nat) (x : ThemeEntry)
    (h : st.theme.slot k = some x) : (st.selectPackage p).theme.slot k = some x := by
  unfold ApplyState.selectPackage
  split
  · exact Theme.ensurePackage_slot _ _ _ _ h
  · exact h

theorem ApplyState.selectType_slot (st : ApplyState) (p t e k : Nat) (pkg : ThemePackage)
    (x : ThemeEntry) (hpkg : st.theme.packages_ p = some pkg) (h : st.theme.slot k = some x) :
    (st.selectType p t e pkg).theme.slot k = some x := by
  unfold ApplyState.selectType
  split
  · exact Theme.ensureType_slot _ _ _ _ _ _ _ hpkg h
  · exact h

theorem applyEntry_frame (force : Bool) (flags : Nat) (e : BagEntry) (st st3 : ApplyState)
    (k : Nat) (x : ThemeEntry) (h : applyEntry force flags e st = some st3)
    (hs : st.theme.slot k = some x)
    (hk : sameSlot e.key k → force = false ∧ x.isUnset = false) :
    st3.theme.slot k = some x := by
  obtain ⟨pkg1, pkg2, ty, entry, hp1, hp2, hty, hen, h3⟩ :=
    applyEntry_some force flags e st st3 h
  have hs1 := ApplyState.selectPackage_slot st (get_package_id e.key) k x hs
  have hs2 := ApplyState.selectType_slot _ (get_package_id e.key) (get_type_id e.key)
    (get_entry_id e.key) k pkg1 x hp1 hs1
  rcases h3 with ⟨hc, h3⟩ | ⟨-, h3⟩
  · rw [h3]
    simp only
    by_cases hpt : get_package_id k = get_package_id e.key ∧ get_type_id k = get_type_id e.key
    · obtain ⟨hk1, hk2⟩ := hpt
      rw [Theme.setType_slot_same _ _ _ _ _ _ hk1 hk2]
      have hs2' : ty.entries.get? (get_entry_id k) = some x := by
        simpa only [Theme.slot, hk1, hp2, hk2, hty] using hs2
      by_cases hke : get_entry_id k = get_entry_id e.key
      · obtain ⟨hf, hu⟩ := hk ⟨hk1.symm, hk2.symm, hke.symm⟩
        rw [hke, hen] at hs2'
        simp only [Option.some.injEq] at hs2'
        subst hs2'
        rw [hf, hu] at hc
        exact absurd hc (by simp)
      · simp only [List.get?_eq_getElem?] at hs2' ⊢
        rw [List.getElem?_set_ne (fun hh => hke hh.symm)]
        exact hs2'
    · have hk' : get_package_id k ≠ get_package_id e.key ∨
          get_type_id k ≠ get_type_id e.key := by
        by_cases h1 : get_package_id k = get_package_id e.key
        · right; exact fun h2 => hpt ⟨h1, h2⟩
        · left; exact h1
      rw [Theme.setType_slot_other _ _ _ _ _ _ hp2 hk']
      exact hs2
  · rw [h3]; exact hs2

theorem applyEntries_frame (force : Bool) (flags : Nat) (k : Nat) (x : ThemeEntry) :
    ∀ (l : List BagEntry) (st : ApplyState) (r : Theme × Bool),
      applyEntries force flags l st = some r → st.theme.slot k = some x →
      (∀ e ∈ l, sameSlot e.key k → force = false ∧ x.isUnset = false) →
      r.1.slot k = some x := by
  intro l
  induction l with
  | nil =>
    intro st r h hs _
    simp only [applyEntries, Option.some.injEq] at h
    subst h
    exact hs
  | cons e rest ih =>
    intro st r h hs hk
    rw [applyEntries] at h
    split at h
    · simp only [Option.some.injEq] at h
      subst h
      exact hs
    · split at h
      · exact absurd h (by simp)
      · rename_i st3 hst
        exact ih st3 r h
          (applyEntry_frame force flags e st st3 k x hst hs
            (hk e (List.mem_cons_self _ _)))
          (fun e' he' => hk e' (List.mem_cons_of_mem _ he'))

/-! ## C12: theme first-write-wins -/

/-- C12 (theme first-write-wins).  `ApplyStyle(resid, force = false)` leaves every slot
unchanged, in its cookie, its value and its flags, that before the call held anything other
than the unset marker (`TYPE_NULL` with data other than `DATA_NULL_EMPTY`): a slot holding the
explicit empty value or a non-null value is exactly as it was, whatever the call returns. -/
theorem ApplyStyle_first_write_wins {κ : Type} (ops : ResTable_configOps κ)
    (dops : DynamicRefTableOps) (fuel : Nat) (am am1 : AssetManager2 κ) (theme theme1 : Theme)
    (resid : Nat) (result : Bool) (k : Nat) (entry : ThemeEntry)
    (h : ApplyStyle ops dops fuel am theme resid false = some (am1, theme1, result))
    (hslot : theme.slot k = some entry)
    (hset : ¬ (entry.value.dataType = TYPE_NULL ∧ entry.value.data ≠ DATA_NULL_EMPTY)) :
    theme1.slot k = some entry := by
  have hu : entry.isUnset = false := by
    unfold ThemeEntry.isUnset
    by_cases h1 : entry.value.dataType = TYPE_NULL
    · have : ¬ entry.value.data ≠ DATA_NULL_EMPTY := fun h' => hset ⟨h1, h'⟩
      simp only [ne_eq, not_not] at this
      simp [this]
    · simp [h1]
  unfold ApplyStyle at h
  split at h
  · exact absurd h (by simp)
  · simp only [Option.some.injEq, Prod.mk.injEq] at h
    obtain ⟨-, rfl, -⟩ := h
    exact hslot
  · rename_i am2 bag hbag
    split at h
    · exact absurd h (by simp)
    · rename_i th res happ
      simp only [Option.some.injEq, Prod.mk.injEq] at h
      obtain ⟨-, rfl, -⟩ := h
      exact applyEntries_frame false bag.type_spec_flags k entry _ _ _ happ hslot
        (fun _ _ _ => ⟨rfl, hu⟩)

/-- Witness of C12: applying the child style `0x7f020001`, whose bag holds the value 23 for the
key `0x7f010003`, without force leaves the value 13 the slot holds. -/
theorem ApplyStyle_first_write_wins_witness :
    ∃ am1 theme1,
      ApplyStyle sampleOps sampleRefOps 2 sampleStyleEngine sampleTheme 0x7f020001 false =
        some (am1, theme1, true) ∧
      theme1.slot 0x7f010003 = some ⟨0, 0x0004, ⟨16, 13⟩⟩ ∧
      theme1.slot 0x7f010002 = some ⟨0, 0x0104, ⟨16, 22⟩⟩ :=
  ⟨_, _, rfl,
    ApplyStyle_first_write_wins sampleOps sampleRefOps 2 sampleStyleEngine _ sampleTheme _
      0x7f020001 true 0x7f010003 ⟨0, 0x0004, ⟨16, 13⟩⟩ rfl (by decide) (by decide),
    by decide⟩

/-! ## C13: theme force-write -/

theorem sameSlot_eq (a b : Nat) (ha : a < 2 ^ 32) (hb : b < 2 ^ 32) (h : sameSlot a b) :
    a = b := by
  obtain ⟨h1, h2, h3⟩ := h
  simp only [get_package_id, get_type_id, get_entry_id] at h1 h2 h3
  norm_num at ha hb h1 h2 h3
  omega

theorem applyEntries_force_written (flags : Nat) :
    ∀ (l : List BagEntry) (st : ApplyState) (th : Theme),
      applyEntries true flags l st = some (th, true) →
      l.Pairwise (fun a b => a.key ≠ b.key) → (∀ e ∈ l, e.key < 2 ^ 32) →
      ∀ e ∈ l, ∃ x, th.slot e.key = some x ∧ x.cookie = e.cookie ∧ x.value = e.value := by
  intro l
  induction l with
  | nil => intro st th _ _ _ e he; simp at he
  | cons a rest ih =>
    intro st th h hd hb e he
    rw [applyEntries] at h
    split at h
    · simp at h
    · split at h
      · exact absurd h (by simp)
      · rename_i st3 hst
        rcases List.mem_cons.1 he with rfl | he'
        · obtain ⟨pkg1, pkg2, ty, entry, hp1, hp2, hty, hen, h3⟩ :=
            applyEntry_some true flags e st st3 hst
          rcases h3 with ⟨-, h3⟩ | ⟨hc, -⟩
          · have hlt : get_entry_id e.key < ty.entries.length := by
              by_contra hc
              rw [List.get?_eq_none.2 (by omega)] at hen
              exact absurd hen (by simp)
            have hs3 : st3.theme.slot e.key =
                some ⟨e.cookie, entry.type_spec_flags ||| flags, e.value⟩ := by
              rw [h3]
              simp only
              rw [Theme.setType_slot_same _ _ _ _ _ _ rfl rfl]
              simp only [List.get?_eq_getElem?]
              rw [List.getElem?_set_self hlt]
            refine ⟨_, applyEntries_frame true flags e.key _ rest st3 (th, true) h hs3 ?_,
              rfl, rfl⟩
            intro e' he' hsame
            have hne := (List.pairwise_cons.1 hd).1 e' he'
            exact absurd (sameSlot_eq _ _ (hb e' (List.mem_cons_of_mem _ he'))
              (hb e (List.mem_cons_self _ _)) hsame).symm hne
          · simp at hc
        · exact ih st3 th h (List.pairwise_cons.1 hd).2
            (fun e' he'' => hb e' (List.mem_cons_of_mem _ he'')) e he'

/-- C13 (theme force-write).  When `ApplyStyle(resid, force = true)` returns true and the keys
of the bag of the style, which are 32-bit values, are pairwise distinct, then for every entry
of the bag the slot of the theme for its key afterwards holds the cookie and the value of that
entry, whatever the slot held before the call. -/
theorem ApplyStyle_force_writes {κ : Type} (ops : ResTable_configOps κ)
    (dops : DynamicRefTableOps) (fuel : Nat) (am am0 am1 : AssetManager2 κ)
    (theme theme1 : Theme) (resid : Nat) (bag : ResolvedBag)
    (h : ApplyStyle ops dops fuel am theme resid true = some (am1, theme1, true))
    (hbag : GetBag ops dops fuel am resid = some (am0, some bag))
    (hdistinct : bag.entries.Pairwise (fun a b => a.key ≠ b.key))
    (hbits : ∀ e ∈ bag.entries, e.key < 2 ^ 32) :
    ∀ e ∈ bag.entries,
      ∃ x, theme1.slot e.key = some x ∧ x.cookie = e.cookie ∧ x.value = e.value := by
  unfold ApplyStyle at h
  rw [hbag] at h
  simp only at h
  split at h
  · exact absurd h (by simp)
  · rename_i th res happ
    simp only [Option.some.injEq, Prod.mk.injEq] at h
    obtain ⟨-, rfl, rfl⟩ := h
    intro e he
    exact applyEntries_force_written bag.type_spec_flags bag.entries.reverse _ th happ
      (List.pairwise_reverse.2 (hdistinct.imp (fun h => Ne.symm h)))
      (fun e' he' => hbits e' (List.mem_reverse.1 he')) e (List.mem_reverse.2 he)

/-- Witness of C13: applying the child style `0x7f020001` with force to the sample theme
overwrites the value 13 of the slot `0x7f010003` by the value 23 of the bag. -/
theorem ApplyStyle_force_writes_witness :
    ∃ (am1 : AssetManager2 SampleConfig) (theme1 : Theme),
      ApplyStyle sampleOps sampleRefOps 2 sampleStyleEngine sampleTheme 0x7f020001 true =
        some (am1, theme1, true) ∧
      sampleTheme.slot 0x7f010003 = some ⟨0, 0x0004, ⟨16, 13⟩⟩ ∧
      ∃ x, theme1.slot 0x7f010003 = some x ∧ x.cookie = 0 ∧ x.value = ⟨16, 23⟩ :=
  ⟨_, _, rfl, by decide,
    ApplyStyle_force_writes sampleOps sampleRefOps 2 sampleStyleEngine _ _ sampleTheme _
      0x7f020001
      ⟨0x0104, [⟨0x7f010001, ⟨16, 11⟩, 0, 0x7f020000⟩, ⟨0x7f010002, ⟨16, 22⟩, 0, 0x7f020001⟩,
        ⟨0x7f010003, ⟨16, 23⟩, 0, 0x7f020001⟩, ⟨0x7f010005, ⟨16, 15⟩, 0, 0x7f020000⟩]⟩
      rfl rfl (by decide) (by decide) ⟨0x7f010003, ⟨16, 23⟩, 0, 0x7f020001⟩ (by decide)⟩

/-! ## The loop of BuildDynamicRefTable -/

theorem foldl_flatMap_eq {α β γ : Type} (f : α → List β) (g : γ → β → γ) :
    ∀ (l : List α) (s : γ), (l.flatMap f).foldl g s = l.foldl (fun s a => (f a).foldl g s) s := by
  intro l
  induction l with
  | nil => intro s; rfl
  | cons a rest ih =>
    intro s
    simp only [List.flatMap_cons, List.foldl_append, List.foldl_cons, ih]

theorem BuildDynamicRefTable_eq {κ : Type} (dops : DynamicRefTableOps) (am : AssetManager2 κ) :
    BuildDynamicRefTable dops am =
      { am with
        package_groups_ := addMappings dops
          (buildState (apk_assets_cookies am.apk_assets_)
            (processingOrder am.apk_assets_)).package_groups_
        package_ids_ :=
          (buildState (apk_assets_cookies am.apk_assets_)
            (processingOrder am.apk_assets_)).package_ids_ } := by
  have h : (buildState (apk_assets_cookies am.apk_assets_) (processingOrder am.apk_assets_)) =
      (am.apk_assets_.filter (fun a => !a.IsOverlay) ++
          am.apk_assets_.filter (fun a => a.IsOverlay)).foldl
        (fun st apk_assets =>
          apk_assets.packages.foldl
            (fun st package => addPackage (apk_assets_cookies am.apk_assets_) apk_assets package st)
            st)
        (⟨[], List.replicate 256 0xff, [], 0x02⟩ : BuildState κ) := by
    unfold buildState processingOrder sortedApkAssets
    rw [foldl_flatMap_eq]
    congr 1
    funext st a
    rw [List.foldl_map]
  unfold BuildDynamicRefTable
  simp only [h]

theorem buildState_snoc {κ : Type} (cookies : List (Nat × Nat))
    (done : List (ApkAssets κ × LoadedPackage κ)) (x : ApkAssets κ × LoadedPackage κ) :
    buildState cookies (done ++ [x]) = addPackage cookies x.1 x.2 (buildState cookies done) := by
  simp only [buildState, List.foldl_append, List.foldl_cons, List.foldl_nil]

theorem length_modifyAt {α : Type} (f : α → α) (i : Nat) (l : List α) :
    (modifyAt f i l).length = l.length := by
  unfold modifyAt
  split <;> simp

theorem getElem?_modifyAt {α : Type} (f : α → α) (i j : Nat) (l : List α) :
    (modifyAt f i l)[j]? = if j = i then l[j]?.map f else l[j]? := by
  unfold modifyAt
  cases h : l.get? i with
  | none =>
    simp only
    split
    · rename_i hji
      subst hji
      rw [List.get?_eq_getElem?] at h
      simp [h]
    · rfl
  | some a =>
    simp only
    rw [List.get?_eq_getElem?] at h
    rw [List.getElem?_set]
    by_cases hji : j = i
    · subst hji
      have hlt : j < l.length := by
        by_contra hc
        rw [List.getElem?_eq_none (by omega)] at h
        exact absurd h (by simp)
      simp [h, hlt]
    · have : ¬ i = j := fun h' => hji h'.symm
      simp [this, hji]

theorem addPackage_package_ids {κ : Type} (cookies : List (Nat × Nat)) (a : ApkAssets κ)
    (p : LoadedPackage κ) (st : BuildState κ) :
    (addPackage cookies a p st).package_ids_ =
      if st.package_ids_.getD (st.packageId p) 0xff = 0xff then
        st.package_ids_.set (st.packageId p) (st.package_groups_.length % 256)
      else st.package_ids_ := by
  by_cases h : st.package_ids_.getD (st.packageId p) 0xff = 0xff
  · have h' : (st.package_ids_.getD (if p.dynamic then st.next_package_id else p.package_id)
        0xff == 0xff) = true := by
      unfold BuildState.packageId at h
      simpa using h
    rw [if_pos h]
    unfold addPackage BuildState.packageId
    simp only [h', if_true]
  · have h' : (st.package_ids_.getD (if p.dynamic then st.next_package_id else p.package_id)
        0xff == 0xff) = false := by
      unfold BuildState.packageId at h
      simpa using h
    rw [if_neg h]
    unfold addPackage
    simp only [h', Bool.false_eq_true, if_false]

theorem addPackage_next {κ : Type} (cookies : List (Nat × Nat)) (a : ApkAssets κ)
    (p : LoadedPackage κ) (st : BuildState κ) :
    (addPackage cookies a p st).next_package_id =
      if p.dynamic then st.next_package_id + 1 else st.next_package_id := by
  unfold addPackage
  rfl

theorem addPackage_paths {κ : Type} (cookies : List (Nat × Nat)) (a : ApkAssets κ)
    (p : LoadedPackage κ) (st : BuildState κ) :
    (addPackage cookies a p st).apk_assets_package_ids =
      if st.apk_assets_package_ids.any (fun e => e.1 == a.path) then st.apk_assets_package_ids
      else st.apk_assets_package_ids ++ [(a.path, st.packageId p % 256)] := by
  unfold addPackage BuildState.packageId
  rfl

theorem addPackage_groups_old {κ : Type} (cookies : List (Nat × Nat)) (a : ApkAssets κ)
    (p : LoadedPackage κ) (st : BuildState κ)
    (h : st.package_ids_.getD (st.packageId p) 0xff ≠ 0xff) :
    (addPackage cookies a p st).package_groups_ =
      modifyAt (joinGroup ((cookies.lookup a.addr).getD 0) p)
        (st.package_ids_.getD (st.packageId p) 0xff) st.package_groups_ := by
  unfold BuildState.packageId at h
  have h' : (st.package_ids_.getD (if p.dynamic then st.next_package_id else p.package_id) 0xff
      == 0xff) = false := by simpa using h
  unfold addPackage BuildState.packageId
  simp only [h', Bool.false_eq_true, if_false]
  rfl

theorem addPackage_groups_new {κ : Type} (cookies : List (Nat × Nat)) (a : ApkAssets κ)
    (p : LoadedPackage κ) (st : BuildState κ)
    (h : st.package_ids_.getD (st.packageId p) 0xff = 0xff) :
    (addPackage cookies a p st).package_groups_ =
      modifyAt (joinGroup ((cookies.lookup a.addr).getD 0) p) (st.package_groups_.length % 256)
        (modifyAt (setAssigned (st.packageId p) p) st.package_groups_.length
          (pushGroup ((cookies.lookup a.addr).getD 0) a (st.packageId p) st)) := by
  unfold BuildState.packageId at h
  have h' : (st.package_ids_.getD (if p.dynamic then st.next_package_id else p.package_id) 0xff
      == 0xff) = true := by simpa using h
  unfold addPackage BuildState.packageId pushGroup
  simp only [h', if_true, List.length_append, List.length_singleton, Nat.add_sub_cancel]
  rfl

theorem pushGroup_length {κ : Type} (cookie : Nat) (a : ApkAssets κ) (pid : Nat)
    (st : BuildState κ) :
    (pushGroup cookie a pid st).length = st.package_groups_.length + 1 := by
  unfold pushGroup
  split
  · simp
  · split
    · simp
    · simp [length_modifyAt]

theorem pushGroup_old {κ : Type} (cookie : Nat) (a : ApkAssets κ) (pid : Nat)
    (st : BuildState κ) (j : Nat) (g : PackageGroup κ) (hg : st.package_groups_[j]? = some g) :
    ∃ g', (pushGroup cookie a pid st)[j]? = some g' ∧ g'.packages_ = g.packages_ ∧
      g'.cookies_ = g.cookies_ ∧ g'.dynamic_ref_table = g.dynamic_ref_table ∧
      ∃ extra, g'.overlays_ = g.overlays_ ++ extra := by
  have hj : j < st.package_groups_.length := by
    by_contra hc
    rw [List.getElem?_eq_none (by omega)] at hg
    exact absurd hg (by simp)
  have happ : (st.package_groups_ ++ [(⟨[], [], [], DynamicRefTable.new⟩ : PackageGroup κ)])[j]? =
      some g := by
    rw [List.getElem?_append_left hj]; exact hg
  unfold pushGroup
  split
  · exact ⟨g, happ, rfl, rfl, rfl, [], by simp⟩
  · split
    · exact ⟨g, happ, rfl, rfl, rfl, [], by simp⟩
    · rw [getElem?_modifyAt, getElem?_modifyAt]
      have hne : ¬ j = st.package_groups_.length := by omega
      simp only [hne, if_false, happ, Option.map_some']
      split
      · exact ⟨_, rfl, rfl, rfl, rfl, _, rfl⟩
      · exact ⟨g, rfl, rfl, rfl, rfl, [], by simp⟩

theorem pushGroup_new {κ : Type} (cookie : Nat) (a : ApkAssets κ) (pid : Nat)
    (st : BuildState κ) :
    ∃ g', (pushGroup cookie a pid st)[st.package_groups_.length]? = some g' ∧
      g'.packages_ = [] ∧ g'.cookies_ = [] := by
  have happ : (st.package_groups_ ++ [(⟨[], [], [], DynamicRefTable.new⟩ : PackageGroup κ)])[
      st.package_groups_.length]? = some ⟨[], [], [], DynamicRefTable.new⟩ := by
    simp
  unfold pushGroup
  split
  · exact ⟨_, happ, rfl, rfl⟩
  · split
    · exact ⟨_, happ, rfl, rfl⟩
    · rw [getElem?_modifyAt, getElem?_modifyAt]
      simp only [if_true, happ, Option.map_some']
      split
      · exact ⟨_, rfl, rfl, rfl⟩
      · exact ⟨_, rfl, rfl, rfl⟩

theorem addPackage_length {κ : Type} (cookies : List (Nat × Nat)) (a : ApkAssets κ)
    (p : LoadedPackage κ) (st : BuildState κ) :
    (addPackage cookies a p st).package_groups_.length =
      if st.package_ids_.getD (st.packageId p) 0xff = 0xff then st.package_groups_.length + 1
      else st.package_groups_.length := by
  split
  · rename_i h
    rw [addPackage_groups_new cookies a p st h, length_modifyAt, length_modifyAt,
      pushGroup_length]
  · rename_i h
    rw [addPackage_groups_old cookies a p st h, length_modifyAt]

theorem addPackage_old {κ : Type} (cookies : List (Nat × Nat)) (a : ApkAssets κ)
    (p : LoadedPackage κ) (st : BuildState κ) (hlen : st.package_groups_.length < 255)
    (j : Nat) (g : PackageGroup κ) (hg : st.package_groups_[j]? = some g) :
    ∃ g', (addPackage cookies a p st).package_groups_[j]? = some g' ∧
      g'.dynamic_ref_table.mAssignedPackageId = g.dynamic_ref_table.mAssignedPackageId ∧
      (∃ extra, g'.overlays_ = g.overlays_ ++ extra) ∧
      g'.packages_ =
        (if j = st.package_ids_.getD (st.packageId p) 0xff then g.packages_ ++ [⟨p, []⟩]
          else g.packages_) ∧
      g'.cookies_ =
        (if j = st.package_ids_.getD (st.packageId p) 0xff then
          g.cookies_ ++ [(cookies.lookup a.addr).getD 0]
          else g.cookies_) := by
  have hj : j < st.package_groups_.length := by
    by_contra hc
    rw [List.getElem?_eq_none (by omega)] at hg
    exact absurd hg (by simp)
  by_cases h : st.package_ids_.getD (st.packageId p) 0xff = 0xff
  · have hne : ¬ j = st.package_groups_.length := by omega
    have hne2 : ¬ j = st.package_groups_.length % 256 := by omega
    have hne3 : ¬ j = st.package_ids_.getD (st.packageId p) 0xff := by rw [h]; omega
    obtain ⟨g', h1, h2, h3, h4, h5⟩ := pushGroup_old ((cookies.lookup a.addr).getD 0) a
      (st.packageId p) st j g hg
    rw [addPackage_groups_new cookies a p st h, getElem?_modifyAt, getElem?_modifyAt]
    simp only [hne, hne2, hne3, if_false]
    exact ⟨g', h1, by rw [h4], h5, h2, h3⟩
  · rw [addPackage_groups_old cookies a p st h, getElem?_modifyAt]
    split
    · rename_i hji
      simp only [hg, Option.map_some']
      exact ⟨_, rfl, rfl, ⟨[], by simp [joinGroup]⟩, rfl, rfl⟩
    · exact ⟨g, hg, rfl, ⟨[], by simp⟩, rfl, rfl⟩

theorem addPackage_new {κ : Type} (cookies : List (Nat × Nat)) (a : ApkAssets κ)
    (p : LoadedPackage κ) (st : BuildState κ) (hlen : st.package_groups_.length < 255)
    (h : st.package_ids_.getD (st.packageId p) 0xff = 0xff) :
    ∃ g', (addPackage cookies a p st).package_groups_[st.package_groups_.length]? = some g' ∧
      g'.dynamic_ref_table.mAssignedPackageId = st.packageId p ∧
      g'.packages_ = [⟨p, []⟩] ∧ g'.cookies_ = [(cookies.lookup a.addr).getD 0] := by
  obtain ⟨g0, h0, h1, h2⟩ := pushGroup_new ((cookies.lookup a.addr).getD 0) a (st.packageId p) st
  have hmod : st.package_groups_.length % 256 = st.package_groups_.length := by omega
  rw [addPackage_groups_new cookies a p st h, hmod, getElem?_modifyAt, getElem?_modifyAt]
  simp only [if_true, h0, Option.map_some']
  exact ⟨_, rfl, rfl, by simp [joinGroup, setAssigned, h1], by simp [joinGroup, setAssigned, h2]⟩

/-! ## The invariant of the runtime id registry -/

theorem getD_set_eq {α : Type} (l : List α) (i j : Nat) (a d : α) :
    (l.set i a).getD j d = if j = i ∧ i < l.length then a else l.getD j d := by
  simp only [List.getD_eq_getElem?_getD, List.getElem?_set]
  by_cases h : i = j
  · subst h
    by_cases hl : i < l.length
    · simp [hl]
    · simp [hl, List.getElem?_eq_none (Nat.le_of_not_lt hl)]
  · have : ¬ j = i := fun h' => h h'.symm
    simp [h, this]

theorem snoc_eq_append_cons {α : Type} (done pre post : List α) (x y : α)
    (h : done ++ [x] = pre ++ y :: post) :
    (post = [] ∧ pre = done ∧ y = x) ∨ ∃ post', post = post' ++ [x] ∧ done = pre ++ y :: post' := by
  rcases List.eq_nil_or_concat post with rfl | ⟨post', z, hz⟩
  all_goals try rw [List.concat_eq_append] at hz; subst hz
  · left
    have h' : done ++ [x] = pre ++ [y] := h
    obtain ⟨h1, h2⟩ := List.append_inj' h' rfl
    simp only [List.cons.injEq, and_true] at h2
    exact ⟨rfl, h1.symm, h2.symm⟩
  · right
    have h' : done ++ [x] = (pre ++ y :: post') ++ [z] := by
      rw [h]; simp
    obtain ⟨h1, h2⟩ := List.append_inj' h' rfl
    simp only [List.cons.injEq, and_true] at h2
    subst h2
    exact ⟨post', rfl, h1⟩

theorem RegistryBounds.init {κ : Type} {done : List (ApkAssets κ × LoadedPackage κ)}
    {x : ApkAssets κ × LoadedPackage κ} (h : RegistryBounds (done ++ [x])) :
    RegistryBounds done := by
  obtain ⟨h1, h2, h3⟩ := h
  refine ⟨fun y hy => h1 y (List.mem_append_left _ hy), ?_, ?_⟩
  · rw [List.filter_append, List.length_append] at h2
    omega
  · rw [List.length_append] at h3
    omega

theorem assignedId_lt {κ : Type} {done : List (ApkAssets κ × LoadedPackage κ)}
    {x : ApkAssets κ × LoadedPackage κ} (h : RegistryBounds (done ++ [x])) :
    assignedId done x.2 < 256 := by
  obtain ⟨h1, h2, -⟩ := h
  unfold assignedId
  split
  · rename_i hd
    rw [List.filter_append, List.length_append] at h2
    simp only [List.filter_cons, hd, if_true, List.filter_nil, List.length_singleton] at h2
    omega
  · rename_i hd
    exact h1 x (by simp) (by simpa using hd)

theorem getElem?_some_lt {α : Type} {l : List α} {i : Nat} {a : α} (h : l[i]? = some a) :
    i < l.length := by
  by_contra hc
  rw [List.getElem?_eq_none (by omega)] at h
  exact absurd h (by simp)

theorem regInv_init {κ : Type} (cookies : List (Nat × Nat)) :
    RegInv (buildState cookies ([] : List (ApkAssets κ × LoadedPackage κ))) [] := by
  have hg0 : ∀ (i : Nat) (g : PackageGroup κ),
      (buildState cookies ([] : List (ApkAssets κ × LoadedPackage κ))).package_groups_[i]? =
        some g → False := by
    intro i g hg
    change ([] : List (PackageGroup κ))[i]? = some g at hg
    rw [List.getElem?_nil] at hg
    exact absurd hg (by simp)
  refine ⟨?_, ?_, rfl, ?_, ?_, ?_, ?_, ?_⟩
  · change (List.replicate 256 0xff).length = 256
    exact List.length_replicate _ _
  · exact Nat.le_refl _
  · intro id hid hne
    exfalso
    apply hne
    change (List.replicate 256 0xff).getD id 0xff = 0xff
    rw [List.getD_eq_getElem?_getD, List.getElem?_replicate]
    split <;> rfl
  · intro i g hg
    exact (hg0 i g hg).elim
  · intro pre x post h
    exact absurd h (by simp)
  · intro i g hg
    exact (hg0 i g hg).elim
  · intro i g hg
    exact (hg0 i g hg).elim

theorem regInv_step {κ : Type} (cookies : List (Nat × Nat))
    {done : List (ApkAssets κ × LoadedPackage κ)} {st : BuildState κ}
    (x : ApkAssets κ × LoadedPackage κ) (hinv : RegInv st done)
    (hwf : RegistryBounds (done ++ [x])) :
    RegInv (addPackage cookies x.1 x.2 st) (done ++ [x]) := by
  have hpid : st.packageId x.2 = assignedId done x.2 := by
    unfold BuildState.packageId assignedId
    rw [hinv.next]
  have hlt : assignedId done x.2 < 256 := assignedId_lt hwf
  have hlen : st.package_groups_.length < 255 := by
    have h1 := hinv.groups_le
    have h2 := hwf.2.2
    rw [List.length_append, List.length_singleton] at h2
    omega
  have hold := addPackage_old cookies x.1 x.2 st hlen
  have hnew := addPackage_new cookies x.1 x.2 st hlen
  have hnewlen := addPackage_length cookies x.1 x.2 st
  have hids := addPackage_package_ids cookies x.1 x.2 st
  rw [hpid] at hold hnew hnewlen hids
  have hgetD : ∀ id, id < 256 →
      (addPackage cookies x.1 x.2 st).package_ids_.getD id 0xff =
        if st.package_ids_.getD (assignedId done x.2) 0xff = 0xff ∧ id = assignedId done x.2 then
          st.package_groups_.length
        else st.package_ids_.getD id 0xff := by
    intro id hid
    rw [hids]
    by_cases h0 : st.package_ids_.getD (assignedId done x.2) 0xff = 0xff
    · rw [if_pos h0, getD_set_eq, hinv.ids_length]
      have hmod : st.package_groups_.length % 256 = st.package_groups_.length := by omega
      simp only [hlt, and_true, h0, true_and, hmod]
    · simp only [h0, if_false, false_and]
  have hfresh : ∀ (i : Nat) (g : PackageGroup κ), st.package_groups_[i]? = some g →
      st.package_ids_.getD (assignedId done x.2) 0xff = 0xff →
      g.dynamic_ref_table.mAssignedPackageId ≠ assignedId done x.2 := by
    intro i g hg h0 heq
    have h1 := (hinv.group_ids i g hg).2
    rw [heq, h0] at h1
    have := getElem?_some_lt hg
    omega
  refine ⟨?_, ?_, ?_, ?_, ?_, ?_, ?_, ?_⟩
  · rw [hids]
    split
    · simp [hinv.ids_length]
    · exact hinv.ids_length
  · rw [hnewlen, List.length_append, List.length_singleton]
    have := hinv.groups_le
    split <;> omega
  · rw [addPackage_next, hinv.next, List.filter_append, List.length_append]
    cases hd : x.2.dynamic <;> simp [hd]
    omega
  · intro id hid hne
    rw [hgetD id hid] at hne ⊢
    by_cases hc : st.package_ids_.getD (assignedId done x.2) 0xff = 0xff ∧
        id = assignedId done x.2
    · rw [if_pos hc]
      obtain ⟨g', h1, h2, -, -⟩ := hnew hc.1
      exact ⟨g', h1, by rw [h2, hc.2]⟩
    · rw [if_neg hc] at hne ⊢
      obtain ⟨g, h1, h2⟩ := hinv.ids_group id hid hne
      obtain ⟨g', h3, h4, -, -, -⟩ := hold _ g h1
      exact ⟨g', h3, by rw [h4, h2]⟩
  · intro i g' hg'
    have hi := getElem?_some_lt hg'
    by_cases hio : i < st.package_groups_.length
    · obtain ⟨g, hg⟩ : ∃ g, st.package_groups_[i]? = some g :=
        ⟨_, List.getElem?_eq_getElem hio⟩
      obtain ⟨g'', h3, h4, -, -, -⟩ := hold i g hg
      rw [hg'] at h3
      simp only [Option.some.injEq] at h3
      subst h3
      obtain ⟨h5, h6⟩ := hinv.group_ids i g hg
      rw [h4]
      refine ⟨h5, ?_⟩
      rw [hgetD _ h5]
      by_cases hc : st.package_ids_.getD (assignedId done x.2) 0xff = 0xff ∧
          g.dynamic_ref_table.mAssignedPackageId = assignedId done x.2
      · exact absurd hc.2 (hfresh i g hg hc.1)
      · rw [if_neg hc]; exact h6
    · have h0 : st.package_ids_.getD (assignedId done x.2) 0xff = 0xff := by
        by_contra hc
        rw [hnewlen, if_neg hc] at hi
        exact hio hi
      rw [hnewlen, if_pos h0] at hi
      have hil : i = st.package_groups_.length := by omega
      subst hil
      obtain ⟨g'', h1, h2, -, -⟩ := hnew h0
      rw [hg'] at h1
      simp only [Option.some.injEq] at h1
      subst h1
      rw [h2]
      refine ⟨hlt, ?_⟩
      rw [hgetD _ hlt, if_pos ⟨h0, rfl⟩]
  · intro pre y post hsplit
    rcases snoc_eq_append_cons done pre post x y hsplit with ⟨-, rfl, rfl⟩ | ⟨post', -, hd⟩
    · rw [hgetD _ hlt]
      by_cases h0 : st.package_ids_.getD (assignedId pre y.2) 0xff = 0xff
      · rw [if_pos ⟨h0, rfl⟩]
        obtain ⟨g', h1, h2, h3, -⟩ := hnew h0
        exact ⟨g', h1, ⟨_, by rw [h3]; exact List.mem_singleton_self _, rfl⟩, h2⟩
      · rw [if_neg (fun hc => h0 hc.1)]
        obtain ⟨g, h1, h2⟩ := hinv.ids_group _ hlt h0
        obtain ⟨g', h3, h4, -, h5, -⟩ := hold _ g h1
        refine ⟨g', h3, ⟨⟨y.2, []⟩, ?_, rfl⟩, by rw [h4, h2]⟩
        rw [h5, if_pos rfl]
        exact List.mem_append_right _ (List.mem_singleton_self _)
    · obtain ⟨g, h1, ⟨cp, hcp, hcpe⟩, h2⟩ := hinv.member pre y post' hd
      obtain ⟨h5, h6⟩ := hinv.group_ids _ g h1
      rw [h2] at h5
      rw [hgetD _ h5]
      have hne : ¬ (st.package_ids_.getD (assignedId done x.2) 0xff = 0xff ∧
          assignedId pre y.2 = assignedId done x.2) := by
        rintro ⟨hc1, hc2⟩
        exact hfresh _ g h1 hc1 (by rw [h2, hc2])
      rw [if_neg hne]
      obtain ⟨g', h3, h4, -, h7, -⟩ := hold _ g h1
      refine ⟨g', h3, ⟨cp, ?_, hcpe⟩, by rw [h4, h2]⟩
      rw [h7]
      split
      · exact List.mem_append_left _ hcp
      · exact hcp
  · intro i g' hg' cp hcp
    have hi := getElem?_some_lt hg'
    by_cases hio : i < st.package_groups_.length
    · obtain ⟨g, hg⟩ : ∃ g, st.package_groups_[i]? = some g :=
        ⟨_, List.getElem?_eq_getElem hio⟩
      obtain ⟨g'', h3, h4, -, h5, -⟩ := hold i g hg
      rw [hg'] at h3
      simp only [Option.some.injEq] at h3
      subst h3
      rw [h5] at hcp
      have hcase : cp ∈ g.packages_ ∨
          (i = st.package_ids_.getD (assignedId done x.2) 0xff ∧ cp = ⟨x.2, []⟩) := by
        split at hcp
        · rename_i hi0
          rcases List.mem_append.1 hcp with h | h
          · exact Or.inl h
          · exact Or.inr ⟨hi0, List.mem_singleton.1 h⟩
        · exact Or.inl hcp
      rcases hcase with hmem | ⟨hi0, hcpe⟩
      · obtain ⟨pre, y, post, hd, h6, h7⟩ := hinv.members i g hg cp hmem
        exact ⟨pre, y, post ++ [x], by rw [hd]; simp, h6, by rw [h4, h7]⟩
      · have hne : st.package_ids_.getD (assignedId done x.2) 0xff ≠ 0xff := by
          rw [← hi0]; omega
        obtain ⟨g0, h6, h7⟩ := hinv.ids_group _ hlt hne
        rw [← hi0, hg] at h6
        simp only [Option.some.injEq] at h6
        subst h6
        exact ⟨done, x, [], rfl, by rw [hcpe], by rw [h4, h7]⟩
    · have h0 : st.package_ids_.getD (assignedId done x.2) 0xff = 0xff := by
        by_contra hc
        rw [hnewlen, if_neg hc] at hi
        exact hio hi
      rw [hnewlen, if_pos h0] at hi
      have hil : i = st.package_groups_.length := by omega
      subst hil
      obtain ⟨g'', h1, h2, h3, -⟩ := hnew h0
      rw [hg'] at h1
      simp only [Option.some.injEq] at h1
      subst h1
      rw [h3] at hcp
      exact ⟨done, x, [], rfl, by rw [List.mem_singleton.1 hcp], h2⟩
  · intro i g' hg'
    have hi := getElem?_some_lt hg'
    by_cases hio : i < st.package_groups_.length
    · obtain ⟨g, hg⟩ : ∃ g, st.package_groups_[i]? = some g :=
        ⟨_, List.getElem?_eq_getElem hio⟩
      obtain ⟨g'', h3, -, -, h5, -⟩ := hold i g hg
      rw [hg'] at h3
      simp only [Option.some.injEq] at h3
      subst h3
      rw [h5]
      have := hinv.nonempty i g hg
      split
      · simp
      · exact this
    · have h0 : st.package_ids_.getD (assignedId done x.2) 0xff = 0xff := by
        by_contra hc
        rw [hnewlen, if_neg hc] at hi
        exact hio hi
      rw [hnewlen, if_pos h0] at hi
      have hil : i = st.package_groups_.length := by omega
      subst hil
      obtain ⟨g'', h1, -, h3, -⟩ := hnew h0
      rw [hg'] at h1
      simp only [Option.some.injEq] at h1
      subst h1
      rw [h3]
      simp

theorem regInv_buildState {κ : Type} (cookies : List (Nat × Nat)) :
    ∀ (done : List (ApkAssets κ × LoadedPackage κ)), RegistryBounds done →
      RegInv (buildState cookies done) done := by
  intro done
  induction done using List.reverseRecOn with
  | nil => intro _; exact regInv_init cookies
  | append_singleton l x ih =>
    intro hwf
    rw [buildState_snoc]
    exact regInv_step cookies x (ih hwf.init) hwf

/-! ## The registry BuildDynamicRefTable builds -/

theorem foldl_invariant {α β : Type} (P : β → Prop) (f : β → α → β) (l : List α) (s : β)
    (h0 : P s) (hstep : ∀ s a, P s → P (f s a)) : P (l.foldl f s) := by
  induction l generalizing s with
  | nil => exact h0
  | cons a rest ih => exact ih (f s a) (hstep s a h0)

theorem addMappings_sameGroup {κ : Type} (dops : DynamicRefTableOps) (hadd : KeepsAssignedId dops)
    (groups : List (PackageGroup κ)) :
    (addMappings dops groups).length = groups.length ∧
      ∀ (j : Nat) (g : PackageGroup κ), groups[j]? = some g →
        ∃ g', (addMappings dops groups)[j]? = some g' ∧ SameGroup g g' := by
  unfold addMappings
  apply foldl_invariant (fun gs : List (PackageGroup κ) => gs.length = groups.length ∧
      ∀ (j : Nat) (g : PackageGroup κ), groups[j]? = some g →
        ∃ g', gs[j]? = some g' ∧ SameGroup g g')
  · exact ⟨rfl, fun j g hg => ⟨g, hg, rfl, rfl, rfl, rfl⟩⟩
  · intro gs i hP
    apply foldl_invariant (fun gs : List (PackageGroup κ) => gs.length = groups.length ∧
      ∀ (j : Nat) (g : PackageGroup κ), groups[j]? = some g →
        ∃ g', gs[j]? = some g' ∧ SameGroup g g')
    · exact hP
    · intro gs2 j hP2
      cases hi : gs2.get? i with
      | none => simpa only [hi] using hP2
      | some iter =>
        simp only []
        refine ⟨by rw [length_modifyAt]; exact hP2.1, ?_⟩
        intro k g hg
        obtain ⟨g', h1, h2, h3, h4, h5⟩ := hP2.2 k g hg
        rw [getElem?_modifyAt]
        split
        · rw [h1]
          exact ⟨_, rfl, h2, h3, h4, (hadd _ _ _).trans h5⟩
        · exact ⟨g', h1, h2, h3, h4, h5⟩

theorem sampleRefOps_keepsAssignedId : KeepsAssignedId sampleRefOps := by
  intro t name id
  show (sampleAddMapping t name id).mAssignedPackageId = t.mAssignedPackageId
  unfold sampleAddMapping
  split <;> rfl

theorem BuildDynamicRefTable_registry {κ : Type} (dops : DynamicRefTableOps)
    (hadd : KeepsAssignedId dops) (am : AssetManager2 κ) :
    (BuildDynamicRefTable dops am).package_ids_ =
        (buildState (apk_assets_cookies am.apk_assets_)
          (processingOrder am.apk_assets_)).package_ids_ ∧
      (∀ (j : Nat) (g : PackageGroup κ),
        (buildState (apk_assets_cookies am.apk_assets_)
          (processingOrder am.apk_assets_)).package_groups_[j]? = some g →
          ∃ g', (BuildDynamicRefTable dops am).package_groups_[j]? = some g' ∧ SameGroup g g') ∧
      ∀ (j : Nat) (g' : PackageGroup κ),
        (BuildDynamicRefTable dops am).package_groups_[j]? = some g' →
          ∃ g, (buildState (apk_assets_cookies am.apk_assets_)
            (processingOrder am.apk_assets_)).package_groups_[j]? = some g ∧ SameGroup g g' := by
  rw [BuildDynamicRefTable_eq]
  obtain ⟨hlen, hsame⟩ := addMappings_sameGroup dops hadd
    (buildState (apk_assets_cookies am.apk_assets_)
      (processingOrder am.apk_assets_)).package_groups_
  refine ⟨rfl, hsame, ?_⟩
  intro j g' hg'
  have hj := getElem?_some_lt hg'
  simp only [hlen] at hj
  obtain ⟨g'', h1, h2⟩ := hsame j _ (List.getElem?_eq_getElem hj)
  simp only at hg'
  rw [hg'] at h1
  simp only [Option.some.injEq] at h1
  subst h1
  exact ⟨_, List.getElem?_eq_getElem hj, h2⟩

theorem BuildDynamicRefTable_member {κ : Type} (dops : DynamicRefTableOps)
    (hadd : KeepsAssignedId dops) (am : AssetManager2 κ)
    (hwf : RegistryBounds (processingOrder am.apk_assets_))
    (pre post : List (ApkAssets κ × LoadedPackage κ)) (x : ApkAssets κ × LoadedPackage κ)
    (hsplit : processingOrder am.apk_assets_ = pre ++ x :: post) :
    ∃ g, (BuildDynamicRefTable dops am).package_groups_[
          (BuildDynamicRefTable dops am).package_ids_.getD (assignedId pre x.2) 0xff]? = some g ∧
      (∃ cp ∈ g.packages_, cp.loaded_package_ = x.2) ∧
      g.dynamic_ref_table.mAssignedPackageId = assignedId pre x.2 := by
  obtain ⟨hids, hsame, -⟩ := BuildDynamicRefTable_registry dops hadd am
  have hinv := regInv_buildState (apk_assets_cookies am.apk_assets_)
    (processingOrder am.apk_assets_) hwf
  obtain ⟨g, h1, ⟨cp, hcp, hcpe⟩, h2⟩ := hinv.member pre x post hsplit
  obtain ⟨g', h3, h4, -, -, h5⟩ := hsame _ g h1
  rw [hids]
  exact ⟨g', h3, ⟨cp, by rw [h4]; exact hcp, hcpe⟩, by rw [h5, h2]⟩

theorem BuildDynamicRefTable_members {κ : Type} (dops : DynamicRefTableOps)
    (hadd : KeepsAssignedId dops) (am : AssetManager2 κ)
    (hwf : RegistryBounds (processingOrder am.apk_assets_)) (i : Nat) (g : PackageGroup κ)
    (hg : (BuildDynamicRefTable dops am).package_groups_[i]? = some g) :
    ∀ cp ∈ g.packages_, ∃ pre x post, processingOrder am.apk_assets_ = pre ++ x :: post ∧
      cp.loaded_package_ = x.2 ∧ g.dynamic_ref_table.mAssignedPackageId = assignedId pre x.2 := by
  obtain ⟨-, -, hback⟩ := BuildDynamicRefTable_registry dops hadd am
  have hinv := regInv_buildState (apk_assets_cookies am.apk_assets_)
    (processingOrder am.apk_assets_) hwf
  obtain ⟨g0, h1, h2, -, -, h3⟩ := hback i g hg
  intro cp hcp
  rw [h2] at hcp
  obtain ⟨pre, x, post, h4, h5, h6⟩ := hinv.members i g0 h1 cp hcp
  exact ⟨pre, x, post, h4, h5, by rw [h3, h6]⟩

theorem assignedId_dynamic_ne {κ : Type} (l pre post pre' post' : List (ApkAssets κ × LoadedPackage κ))
    (x y : ApkAssets κ × LoadedPackage κ) (h1 : l = pre ++ x :: post)
    (h2 : l = pre' ++ y :: post') (hx : x.2.dynamic = true) (hy : y.2.dynamic = true)
    (hne : pre'.length ≠ pre.length) : assignedId pre' y.2 ≠ assignedId pre x.2 := by
  have key : ∀ (a b a' b' : List (ApkAssets κ × LoadedPackage κ))
      (u v : ApkAssets κ × LoadedPackage κ), a ++ u :: b = a' ++ v :: b' →
      u.2.dynamic = true → a.length < a'.length →
      (a.filter (fun z => z.2.dynamic)).length < (a'.filter (fun z => z.2.dynamic)).length := by
    intro a b a' b' u v h hu hlt
    rcases List.append_eq_append_iff.1 h with ⟨c, hc1, hc2⟩ | ⟨c, hc1, hc2⟩
    · cases c with
      | nil =>
        rw [List.append_nil] at hc1
        rw [hc1] at hlt
        omega
      | cons w c' =>
        simp only [List.cons_append, List.cons.injEq] at hc2
        obtain ⟨rfl, -⟩ := hc2
        rw [hc1, List.filter_append, List.length_append, List.filter_cons, if_pos hu,
          List.length_cons]
        omega
    · rw [hc1, List.length_append] at hlt
      omega
  unfold assignedId
  rw [if_pos hx, if_pos hy]
  rcases Nat.lt_or_gt_of_ne hne with hlt | hlt
  · have := key pre' post' pre post y x (h2.symm.trans h1) hy hlt
    omega
  · have := key pre post pre' post' x y (h1.symm.trans h2) hx hlt
    omega

/-! ## C17: runtime id assignment -/

/-- C17, as amended (runtime id assignment).  Within the bounds of the 8-bit arithmetic, after
`BuildDynamicRefTable` every package of the bundle list is a member of the package group that
`package_ids_` registers for the runtime id it was given, and that group's assigned id is this
id.  For a package that is not dynamic the id is its declared build-time id.  For a dynamic
package it is 2 plus the number of dynamic packages processed before it: at least 2 and
different from the id of every other dynamic package; it is not compared with the declared ids
of the packages that are not dynamic. -/
theorem BuildDynamicRefTable_runtime_ids {κ : Type} (dops : DynamicRefTableOps)
    (am : AssetManager2 κ) (pre post : List (ApkAssets κ × LoadedPackage κ))
    (x : ApkAssets κ × LoadedPackage κ) (hadd : KeepsAssignedId dops)
    (hwf : RegistryBounds (processingOrder am.apk_assets_))
    (hsplit : processingOrder am.apk_assets_ = pre ++ x :: post) :
    (∃ g, (BuildDynamicRefTable dops am).package_groups_[
          (BuildDynamicRefTable dops am).package_ids_.getD (assignedId pre x.2) 0xff]? = some g ∧
        (∃ cp ∈ g.packages_, cp.loaded_package_ = x.2) ∧
        g.dynamic_ref_table.mAssignedPackageId = assignedId pre x.2) ∧
      (x.2.dynamic = false → assignedId pre x.2 = x.2.package_id) ∧
      (x.2.dynamic = true →
        2 ≤ assignedId pre x.2 ∧
          ∀ (pre' post' : List (ApkAssets κ × LoadedPackage κ))
            (y : ApkAssets κ × LoadedPackage κ),
            processingOrder am.apk_assets_ = pre' ++ y :: post' → y.2.dynamic = true →
              pre'.length ≠ pre.length → assignedId pre' y.2 ≠ assignedId pre x.2) := by
  refine ⟨BuildDynamicRefTable_member dops hadd am hwf pre post x hsplit, ?_, ?_⟩
  · intro hd
    simp [assignedId, hd]
  · intro hd
    refine ⟨by simp [assignedId, hd], ?_⟩
    intro pre' post' y hsplit' hy hne
    exact assignedId_dynamic_ne _ pre post pre' post' x y hsplit hsplit' hd hy hne

theorem sampleBounds_base_library :
    RegistryBounds (processingOrder (engineWith [sampleApk, sampleLibraryApk]).apk_assets_) := by
  refine ⟨?_, by decide, by decide⟩
  intro x hx
  have hx' : x = (sampleApk, samplePackage) ∨ x = (sampleLibraryApk, sampleLibraryPackage) := by
    simpa [processingOrder, sortedApkAssets, engineWith, sampleApk, sampleLibraryApk,
      ApkAssets.IsOverlay] using hx
  rcases hx' with rfl | rfl
  · intro _; decide
  · intro h; exact absurd h (by decide)

/-- Witness of C17 as amended: with the bundles of the sample package (id `0x7f`) and of the
sample library, the library is a member of the group registered for the id 2. -/
theorem BuildDynamicRefTable_runtime_ids_witness :
    ∃ g, (BuildDynamicRefTable sampleRefOps (engineWith [sampleApk, sampleLibraryApk])).package_groups_[
          (BuildDynamicRefTable sampleRefOps
            (engineWith [sampleApk, sampleLibraryApk])).package_ids_.getD 2 0xff]? = some g ∧
        (∃ cp ∈ g.packages_, cp.loaded_package_ = sampleLibraryPackage) ∧
        g.dynamic_ref_table.mAssignedPackageId = 2 :=
  (BuildDynamicRefTable_runtime_ids sampleRefOps (engineWith [sampleApk, sampleLibraryApk])
    [(sampleApk, samplePackage)] [] (sampleLibraryApk, sampleLibraryPackage)
    sampleRefOps_keepsAssignedId sampleBounds_base_library rfl).1

/-- Counterexample to C17 as stated: with the bundles of the vendor package, which is not
dynamic and declares the id `0x02`, and of the sample library, the dynamic library is given the
id 2, which is the assigned id of the vendor package: both are members of the one package
group, whose assigned id is 2. -/
theorem BuildDynamicRefTable_dynamic_id_collision_counterexample :
    (BuildDynamicRefTable sampleRefOps
        (engineWith [sampleVendorApk, sampleLibraryApk])).package_groups_.map
      (fun g => (g.dynamic_ref_table.mAssignedPackageId,
        g.packages_.map
          (fun cp => (cp.loaded_package_.package_name, cp.loaded_package_.dynamic)))) =
      [(2, [("vendor", false), ("lib", true)])] := by
  decide

/-! ## C18: groups are formed by runtime id -/

/-- C18, as amended (groups are formed by runtime id).  Within the bounds of the 8-bit
arithmetic, after `BuildDynamicRefTable` every member of a package group that is not dynamic
declares the group's assigned id as its build-time id, so two such members of one group declare
the same id; conversely any two packages of the bundle list that are not dynamic and declare the
same id are members of one group.  Package names are not compared. -/
theorem BuildDynamicRefTable_groups_by_id {κ : Type} (dops : DynamicRefTableOps)
    (am : AssetManager2 κ) (hadd : KeepsAssignedId dops)
    (hwf : RegistryBounds (processingOrder am.apk_assets_)) :
    (∀ (i : Nat) (g : PackageGroup κ),
        (BuildDynamicRefTable dops am).package_groups_[i]? = some g →
        (∀ cp ∈ g.packages_, cp.loaded_package_.dynamic = false →
          cp.loaded_package_.package_id = g.dynamic_ref_table.mAssignedPackageId) ∧
        ∀ cp1 ∈ g.packages_, ∀ cp2 ∈ g.packages_, cp1.loaded_package_.dynamic = false →
          cp2.loaded_package_.dynamic = false →
            cp1.loaded_package_.package_id = cp2.loaded_package_.package_id) ∧
      ∀ (pre post pre' post' : List (ApkAssets κ × LoadedPackage κ))
        (x y : ApkAssets κ × LoadedPackage κ),
        processingOrder am.apk_assets_ = pre ++ x :: post →
        processingOrder am.apk_assets_ = pre' ++ y :: post' →
        x.2.dynamic = false → y.2.dynamic = false → x.2.package_id = y.2.package_id →
          ∃ g, (BuildDynamicRefTable dops am).package_groups_[
                (BuildDynamicRefTable dops am).package_ids_.getD x.2.package_id 0xff]? =
              some g ∧
            (∃ cp ∈ g.packages_, cp.loaded_package_ = x.2) ∧
            ∃ cp ∈ g.packages_, cp.loaded_package_ = y.2 := by
  have hmem : ∀ (i : Nat) (g : PackageGroup κ),
      (BuildDynamicRefTable dops am).package_groups_[i]? = some g →
      ∀ cp ∈ g.packages_, cp.loaded_package_.dynamic = false →
        cp.loaded_package_.package_id = g.dynamic_ref_table.mAssignedPackageId := by
    intro i g hg cp hcp hd
    obtain ⟨pre, x, post, -, h2, h3⟩ :=
      BuildDynamicRefTable_members dops hadd am hwf i g hg cp hcp
    rw [h3, h2]
    rw [h2] at hd
    simp [assignedId, hd]
  refine ⟨fun i g hg => ⟨hmem i g hg, ?_⟩, ?_⟩
  · intro cp1 h1 cp2 h2 hd1 hd2
    rw [hmem i g hg cp1 h1 hd1, hmem i g hg cp2 h2 hd2]
  · intro pre post pre' post' x y hx hy hdx hdy hid
    obtain ⟨g, h1, h2, -⟩ := BuildDynamicRefTable_member dops hadd am hwf pre post x hx
    obtain ⟨g', h3, h4, -⟩ := BuildDynamicRefTable_member dops hadd am hwf pre' post' y hy
    have e1 : assignedId pre x.2 = x.2.package_id := by simp [assignedId, hdx]
    have e2 : assignedId pre' y.2 = x.2.package_id := by simp [assignedId, hdy, hid]
    rw [e1] at h1
    rw [e2, h1] at h3
    simp only [Option.some.injEq] at h3
    subst h3
    exact ⟨g, h1, h2, h4⟩

theorem sampleBounds_base_target :
    RegistryBounds (processingOrder (engineWith [sampleApk, sampleTargetApk]).apk_assets_) := by
  refine ⟨?_, by decide, by decide⟩
  intro x hx
  have hx' : x = (sampleApk, samplePackage) ∨ x = (sampleTargetApk, sampleTargetPackage) := by
    simpa [processingOrder, sortedApkAssets, engineWith, sampleApk, sampleTargetApk,
      ApkAssets.IsOverlay] using hx
  rcases hx' with rfl | rfl
  · intro _; decide
  · intro _; decide

/-- Witness of C18 as amended: the sample package and the sample target package both declare
the id `0x7f`; they are members of the group registered for `0x7f`. -/
theorem BuildDynamicRefTable_groups_by_id_witness :
    ∃ g, (BuildDynamicRefTable sampleRefOps
          (engineWith [sampleApk, sampleTargetApk])).package_groups_[
            (BuildDynamicRefTable sampleRefOps
              (engineWith [sampleApk, sampleTargetApk])).package_ids_.getD 0x7f 0xff]? =
          some g ∧
        (∃ cp ∈ g.packages_, cp.loaded_package_ = samplePackage) ∧
        ∃ cp ∈ g.packages_, cp.loaded_package_ = sampleTargetPackage :=
  (BuildDynamicRefTable_groups_by_id sampleRefOps (engineWith [sampleApk, sampleTargetApk])
    sampleRefOps_keepsAssignedId sampleBounds_base_target).2
    [] [(sampleTargetApk, sampleTargetPackage)] [(sampleApk, samplePackage)] []
    (sampleApk, samplePackage) (sampleTargetApk, sampleTargetPackage) rfl rfl rfl rfl rfl

/-- Counterexample to C18 as stated: the sample package, named `base`, and the sample target
package, named `target`, are not dynamic and both declare the id `0x7f`; after
`BuildDynamicRefTable` they are the two members of the only package group, although their
names differ. -/
theorem BuildDynamicRefTable_same_id_other_name_counterexample :
    (BuildDynamicRefTable sampleRefOps
        (engineWith [sampleApk, sampleTargetApk])).package_groups_.map
      (fun g => g.packages_.map
        (fun cp => (cp.loaded_package_.package_name, cp.loaded_package_.package_id,
          cp.loaded_package_.dynamic))) =
      [[("base", 0x7f, false), ("target", 0x7f, false)]] ∧ "base" ≠ "target" := by
  decide

/-! ## The path map of BuildDynamicRefTable -/

theorem lookup_append_singleton (l : List (String × Nat)) (k q : String) (v : Nat) :
    (l ++ [(q, v)]).lookup k =
      match l.lookup k with
      | some w => some w
      | none => if k = q then some v else none := by
  induction l with
  | nil =>
    simp only [List.nil_append, List.lookup, List.lookup_nil]
    by_cases h : k = q
    · simp [h]
    · have hb : (k == q) = false := by simpa using h
      simp [h, hb]
  | cons e rest ih =>
    obtain ⟨a, b⟩ := e
    simp only [List.cons_append, List.lookup]
    cases h : k == a with
    | true => rfl
    | false => exact ih

theorem lookup_none_of_not_any (l : List (String × Nat)) (k : String)
    (h : l.any (fun e => e.1 == k) = false) : l.lookup k = none := by
  induction l with
  | nil => rfl
  | cons e rest ih =>
    obtain ⟨a, b⟩ := e
    simp only [List.any_cons, Bool.or_eq_false_iff] at h
    have hne : (k == a) = false := by
      have := h.1
      simp only [beq_eq_false_iff_ne, ne_eq] at this ⊢
      exact fun h' => this h'.symm
    simp only [List.lookup, hne]
    exact ih h.2

theorem lookup_some_of_any (l : List (String × Nat)) (k : String)
    (h : l.any (fun e => e.1 == k) = true) : ∃ v, l.lookup k = some v := by
  induction l with
  | nil => simp at h
  | cons e rest ih =>
    obtain ⟨a, b⟩ := e
    simp only [List.lookup]
    cases hk : k == a with
    | true => exact ⟨b, rfl⟩
    | false =>
      simp only [List.any_cons, Bool.or_eq_true] at h
      rcases h with h | h
      · simp only [beq_iff_eq] at h
        simp only [beq_eq_false_iff_ne, ne_eq] at hk
        exact absurd h.symm hk
      · exact ih h

theorem pathInv_init {κ : Type} (cookies : List (Nat × Nat)) :
    PathInv (buildState cookies ([] : List (ApkAssets κ × LoadedPackage κ))) [] := by
  refine ⟨?_, ?_⟩
  · intro path tid h
    change ([] : List (String × Nat)).lookup path = some tid at h
    simp at h
  · intro y hy
    simp at hy

theorem pathInv_step {κ : Type} (cookies : List (Nat × Nat))
    {done : List (ApkAssets κ × LoadedPackage κ)} {st : BuildState κ}
    (x : ApkAssets κ × LoadedPackage κ) (hinv : RegInv st done) (hp : PathInv st done) :
    PathInv (addPackage cookies x.1 x.2 st) (done ++ [x]) := by
  have hpid : st.packageId x.2 = assignedId done x.2 := by
    unfold BuildState.packageId assignedId
    rw [hinv.next]
  have hpaths := addPackage_paths cookies x.1 x.2 st
  rw [hpid] at hpaths
  refine ⟨?_, ?_⟩
  · intro path tid h
    rw [hpaths] at h
    by_cases hany : st.apk_assets_package_ids.any (fun e => e.1 == x.1.path) = true
    · rw [if_pos hany] at h
      obtain ⟨pre, y, post, h1, h2, h3, h4⟩ := hp.first path tid h
      exact ⟨pre, y, post ++ [x], by rw [h1]; simp, h2, h3, h4⟩
    · rw [if_neg hany, lookup_append_singleton] at h
      cases hl : st.apk_assets_package_ids.lookup path with
      | some w =>
        rw [hl] at h
        simp only [Option.some.injEq] at h
        subst h
        obtain ⟨pre, y, post, h1, h2, h3, h4⟩ := hp.first path w hl
        exact ⟨pre, y, post ++ [x], by rw [h1]; simp, h2, h3, h4⟩
      | none =>
        rw [hl] at h
        simp only at h
        split at h
        · rename_i hpq
          simp only [Option.some.injEq] at h
          refine ⟨done, x, [], rfl, hpq.symm, ?_, h.symm⟩
          intro z hz hzp
          obtain ⟨w, hw⟩ := hp.known z hz
          rw [hzp, hl] at hw
          exact absurd hw (by simp)
        · exact absurd h (by simp)
  · intro y hy
    rw [hpaths]
    by_cases hany : st.apk_assets_package_ids.any (fun e => e.1 == x.1.path) = true
    · rw [if_pos hany]
      rcases List.mem_append.1 hy with h | h
      · exact hp.known y h
      · rw [List.mem_singleton.1 h]
        exact lookup_some_of_any _ _ hany
    · rw [if_neg hany, lookup_append_singleton]
      rcases List.mem_append.1 hy with h | h
      · obtain ⟨w, hw⟩ := hp.known y h
        exact ⟨w, by rw [hw]⟩
      · rw [List.mem_singleton.1 h]
        have hnone := lookup_none_of_not_any st.apk_assets_package_ids x.1.path
          (Bool.eq_false_iff.2 hany)
        rw [hnone]
        exact ⟨assignedId done x.2 % 256, by simp⟩

theorem pathInv_buildState {κ : Type} (cookies : List (Nat × Nat)) :
    ∀ (done : List (ApkAssets κ × LoadedPackage κ)), RegistryBounds done →
      PathInv (buildState cookies done) done := by
  intro done
  induction done using List.reverseRecOn with
  | nil => intro _; exact pathInv_init cookies
  | append_singleton l x ih =>
    intro hwf
    rw [buildState_snoc]
    exact pathInv_step cookies x (regInv_buildState cookies l hwf.init) (ih hwf.init)

theorem first_unique {α : Type} (P : α → Prop) (a b a' b' : List α) (u v : α)
    (h : a ++ u :: b = a' ++ v :: b') (hu : P u) (hv : P v) (ha : ∀ z ∈ a, ¬ P z)
    (ha' : ∀ z ∈ a', ¬ P z) : a = a' ∧ u = v := by
  rcases List.append_eq_append_iff.1 h with ⟨c, hc1, hc2⟩ | ⟨c, hc1, hc2⟩
  · cases c with
    | nil =>
      simp only [List.append_nil] at hc1
      simp only [List.nil_append, List.cons.injEq] at hc2
      exact ⟨hc1.symm, hc2.1⟩
    | cons w c' =>
      simp only [List.cons_append, List.cons.injEq] at hc2
      obtain ⟨rfl, -⟩ := hc2
      exact absurd hu (ha' u (by rw [hc1]; simp))
  · cases c with
    | nil =>
      simp only [List.append_nil] at hc1
      simp only [List.nil_append, List.cons.injEq] at hc2
      exact ⟨hc1, hc2.1.symm⟩
    | cons w c' =>
      simp only [List.cons_append, List.cons.injEq] at hc2
      obtain ⟨rfl, -⟩ := hc2
      exact absurd hv (ha v (by rw [hc1]; simp))

/-! ## Overlay links in the loop of BuildDynamicRefTable -/

theorem RegistryBounds.of_append {κ : Type} {pre rest : List (ApkAssets κ × LoadedPackage κ)}
    (h : RegistryBounds (pre ++ rest)) : RegistryBounds pre := by
  obtain ⟨h1, h2, h3⟩ := h
  refine ⟨fun y hy => h1 y (List.mem_append_left _ hy), ?_, ?_⟩
  · rw [List.filter_append, List.length_append] at h2
    omega
  · rw [List.length_append] at h3
    omega

theorem pushGroup_link {κ : Type} (cookie : Nat) (a : ApkAssets κ) (pid : Nat)
    (st : BuildState κ) (im : LoadedIdmap) (tid j : Nat) (g : PackageGroup κ)
    (hov : a.loaded_idmap = some im)
    (hl : st.apk_assets_package_ids.lookup im.target_apk_path = some tid)
    (hg : st.package_groups_[j]? = some g)
    (hj : (st.package_ids_.set pid (st.package_groups_.length % 256)).getD tid 0xff = j) :
    ∃ g', (pushGroup cookie a pid st)[j]? = some g' ∧
      g'.overlays_ = g.overlays_ ++ [overlayLink im tid st.package_groups_.length cookie] := by
  have hlt := getElem?_some_lt hg
  have happ : (st.package_groups_ ++ [(⟨[], [], [], DynamicRefTable.new⟩ : PackageGroup κ)])[j]? =
      some g := by
    rw [List.getElem?_append_left hlt]; exact hg
  unfold pushGroup
  simp only [hov, hl, hj]
  rw [getElem?_modifyAt, getElem?_modifyAt]
  have hne : ¬ j = st.package_groups_.length := by omega
  simp only [if_true, hne, if_false, happ, Option.map_some']
  exact ⟨_, rfl, rfl⟩

theorem addPackage_link {κ : Type} (cookies : List (Nat × Nat)) (a : ApkAssets κ)
    (p : LoadedPackage κ) (st : BuildState κ) (im : LoadedIdmap) (tid j : Nat)
    (g : PackageGroup κ) (hlen : st.package_groups_.length < 255)
    (h0 : st.package_ids_.getD (st.packageId p) 0xff = 0xff)
    (hov : a.loaded_idmap = some im)
    (hl : st.apk_assets_package_ids.lookup im.target_apk_path = some tid)
    (hg : st.package_groups_[j]? = some g)
    (hj : (st.package_ids_.set (st.packageId p) (st.package_groups_.length % 256)).getD tid
      0xff = j) :
    ∃ g', (addPackage cookies a p st).package_groups_[j]? = some g' ∧
      overlayLink im tid st.package_groups_.length ((cookies.lookup a.addr).getD 0) ∈
        g'.overlays_ := by
  have hlt := getElem?_some_lt hg
  obtain ⟨g', h1, h2⟩ := pushGroup_link ((cookies.lookup a.addr).getD 0) a (st.packageId p) st im
    tid j g hov hl hg hj
  have hne : ¬ j = st.package_groups_.length := by omega
  have hne2 : ¬ j = st.package_groups_.length % 256 := by omega
  rw [addPackage_groups_new cookies a p st h0, getElem?_modifyAt, getElem?_modifyAt]
  simp only [hne, hne2, if_false]
  exact ⟨g', h1, by rw [h2]; simp⟩

theorem linked_step {κ : Type} (cookies : List (Nat × Nat))
    {done : List (ApkAssets κ × LoadedPackage κ)} {st : BuildState κ}
    (x : ApkAssets κ × LoadedPackage κ) (hinv : RegInv st done)
    (hwf : RegistryBounds (done ++ [x])) (link : ConfiguredOverlay) (tid i pid gi : Nat)
    (hi : i ≠ 0xff) (hgi : gi ≠ 0xff) (h : Linked st link tid i pid gi) :
    Linked (addPackage cookies x.1 x.2 st) link tid i pid gi := by
  obtain ⟨⟨g, hg, hlink⟩, h1, h2⟩ := h
  have hlen : st.package_groups_.length < 255 := by
    have h1 := hinv.groups_le
    have h2 := hwf.2.2
    rw [List.length_append, List.length_singleton] at h2
    omega
  have hkeep : ∀ id v, v ≠ 0xff → st.package_ids_.getD id 0xff = v →
      (addPackage cookies x.1 x.2 st).package_ids_.getD id 0xff = v := by
    intro id v hv hid
    rw [addPackage_package_ids]
    split
    · rename_i h0
      rw [getD_set_eq]
      split
      · rename_i hc
        rw [hc.1, h0] at hid
        exact absurd hid.symm hv
      · exact hid
    · exact hid
  obtain ⟨g', h3, -, ⟨extra, h4⟩, -, -⟩ := addPackage_old cookies x.1 x.2 st hlen i g hg
  exact ⟨⟨g', h3, by rw [h4]; exact List.mem_append_left _ hlink⟩, hkeep tid i hi h1,
    hkeep pid gi hgi h2⟩

theorem Linked.persist {κ : Type} (cookies : List (Nat × Nat))
    (base : List (ApkAssets κ × LoadedPackage κ)) (link : ConfiguredOverlay)
    (tid i pid gi : Nat) (hi : i ≠ 0xff) (hgi : gi ≠ 0xff)
    (h : Linked (buildState cookies base) link tid i pid gi) :
    ∀ (more : List (ApkAssets κ × LoadedPackage κ)), RegistryBounds (base ++ more) →
      Linked (buildState cookies (base ++ more)) link tid i pid gi := by
  intro more
  induction more using List.reverseRecOn with
  | nil => intro _; simpa using h
  | append_singleton l x ih =>
    intro hwf
    rw [← List.append_assoc] at hwf ⊢
    rw [buildState_snoc]
    exact linked_step cookies x (regInv_buildState cookies _ hwf.init) hwf link tid i pid gi hi
      hgi (ih hwf.init)

/-! ## C19: overlay links are attached -/

/-- C19, as amended (overlay links are attached by the package that opens a group).  Let a
package `p` of an overlay bundle `O` be processed after the packages `pre`, let no package of
`pre` have been given the runtime id of `p` (so `p` opens a new package group), and let `t` be
the first package of `pre` whose bundle has the path `O` declares as its target.  Then, within
the bounds of the 8-bit arithmetic, after `BuildDynamicRefTable` the package group of `t` holds
an overlay link that carries the id-map of `O` for the runtime id of `t`, bound to the package
group of `p`, and the cookie of `O`. -/
theorem BuildDynamicRefTable_attaches_link {κ : Type} (dops : DynamicRefTableOps)
    (am : AssetManager2 κ) (pre post pre1 post1 : List (ApkAssets κ × LoadedPackage κ))
    (O : ApkAssets κ) (p : LoadedPackage κ) (t : ApkAssets κ × LoadedPackage κ)
    (im : LoadedIdmap) (hadd : KeepsAssignedId dops)
    (hwf : RegistryBounds (processingOrder am.apk_assets_))
    (hsplit : processingOrder am.apk_assets_ = pre ++ (O, p) :: post)
    (hov : O.loaded_idmap = some im)
    (hfresh : ∀ (pre' post' : List (ApkAssets κ × LoadedPackage κ))
      (y : ApkAssets κ × LoadedPackage κ),
      pre = pre' ++ y :: post' → assignedId pre' y.2 ≠ assignedId pre p)
    (htarget : pre = pre1 ++ t :: post1) (hpath : t.1.path = im.target_apk_path)
    (hfirst : ∀ z ∈ pre1, z.1.path ≠ im.target_apk_path) :
    ∃ g go,
      (BuildDynamicRefTable dops am).package_groups_[
          (BuildDynamicRefTable dops am).package_ids_.getD (assignedId pre1 t.2) 0xff]? =
        some g ∧
      (∃ cp ∈ g.packages_, cp.loaded_package_ = t.2) ∧
      (BuildDynamicRefTable dops am).package_groups_[
          (BuildDynamicRefTable dops am).package_ids_.getD (assignedId pre p) 0xff]? =
        some go ∧
      (∃ cp ∈ go.packages_, cp.loaded_package_ = p) ∧
      overlayLink im (assignedId pre1 t.2)
          ((BuildDynamicRefTable dops am).package_ids_.getD (assignedId pre p) 0xff)
          (((apk_assets_cookies am.apk_assets_).lookup O.addr).getD 0) ∈ g.overlays_ := by
  have hsplit' : processingOrder am.apk_assets_ = (pre ++ [(O, p)]) ++ post := by
    rw [hsplit]; simp
  have hwf1 : RegistryBounds (pre ++ [(O, p)]) := by
    rw [hsplit'] at hwf
    exact hwf.of_append
  have hwf0 : RegistryBounds pre := hwf1.init
  have hinv := regInv_buildState (apk_assets_cookies am.apk_assets_) pre hwf0
  have hpinv := pathInv_buildState (apk_assets_cookies am.apk_assets_) pre hwf0
  have hpidlt : assignedId pre p < 256 := assignedId_lt (x := (O, p)) hwf1
  have hpid : (buildState (apk_assets_cookies am.apk_assets_) pre).packageId p =
      assignedId pre p := by
    unfold BuildState.packageId assignedId
    rw [hinv.next]
  have hlen : (buildState (apk_assets_cookies am.apk_assets_) pre).package_groups_.length <
      255 := by
    have h1 := hinv.groups_le
    have h2 := hwf1.2.2
    rw [List.length_append, List.length_singleton] at h2
    omega
  have h0 : (buildState (apk_assets_cookies am.apk_assets_) pre).package_ids_.getD
      (assignedId pre p) 0xff = 0xff := by
    by_contra hc
    obtain ⟨g, h1, h2⟩ := hinv.ids_group _ hpidlt hc
    obtain ⟨cp, hcp⟩ := List.exists_mem_of_ne_nil _ (hinv.nonempty _ g h1)
    obtain ⟨pre', y, post', h3, -, h4⟩ := hinv.members _ g h1 cp hcp
    exact hfresh pre' post' y h3 (by rw [← h4, h2])
  have htmem : t ∈ pre := by rw [htarget]; simp
  obtain ⟨tid, htid⟩ := hpinv.known t htmem
  rw [hpath] at htid
  obtain ⟨pre2, y2, post2, h5, h6, h7, h8⟩ := hpinv.first _ tid htid
  obtain ⟨e1, e2⟩ := first_unique (fun z : ApkAssets κ × LoadedPackage κ =>
    z.1.path = im.target_apk_path) pre1 post1 pre2 post2 t y2 (htarget.symm.trans h5) hpath h6
    hfirst h7
  subst e1 e2
  obtain ⟨gt, h9, -, h10⟩ := hinv.member pre1 t post1 htarget
  have hTlt : assignedId pre1 t.2 < 256 := by
    have := (hinv.group_ids _ gt h9).1
    rw [h10] at this
    exact this
  have htid' : tid = assignedId pre1 t.2 := by rw [h8]; omega
  subst htid'
  have hti := getElem?_some_lt h9
  have hTne : assignedId pre1 t.2 ≠ assignedId pre p := by
    intro hc
    rw [hc, h0] at hti
    omega
  have hj : ((buildState (apk_assets_cookies am.apk_assets_) pre).package_ids_.set
      ((buildState (apk_assets_cookies am.apk_assets_) pre).packageId p)
      ((buildState (apk_assets_cookies am.apk_assets_) pre).package_groups_.length % 256)).getD
        (assignedId pre1 t.2) 0xff =
      (buildState (apk_assets_cookies am.apk_assets_) pre).package_ids_.getD
        (assignedId pre1 t.2) 0xff := by
    rw [getD_set_eq, hpid, if_neg (fun hc => hTne hc.1)]
  rw [← hpid] at h0
  obtain ⟨g1, h11, h12⟩ := addPackage_link (apk_assets_cookies am.apk_assets_) O p _ im _ _ gt
    hlen h0 hov htid h9 hj
  have hids1 := addPackage_package_ids (apk_assets_cookies am.apk_assets_) O p
    (buildState (apk_assets_cookies am.apk_assets_) pre)
  rw [if_pos h0, hpid] at hids1
  have hmod : (buildState (apk_assets_cookies am.apk_assets_) pre).package_groups_.length % 256 =
      (buildState (apk_assets_cookies am.apk_assets_) pre).package_groups_.length := by omega
  have hlinked : Linked (buildState (apk_assets_cookies am.apk_assets_) (pre ++ [(O, p)]))
      (overlayLink im (assignedId pre1 t.2)
        (buildState (apk_assets_cookies am.apk_assets_) pre).package_groups_.length
        (((apk_assets_cookies am.apk_assets_).lookup O.addr).getD 0))
      (assignedId pre1 t.2)
      ((buildState (apk_assets_cookies am.apk_assets_) pre).package_ids_.getD
        (assignedId pre1 t.2) 0xff)
      (assignedId pre p)
      (buildState (apk_assets_cookies am.apk_assets_) pre).package_groups_.length := by
    rw [buildState_snoc]
    refine ⟨⟨g1, h11, h12⟩, ?_, ?_⟩
    · rw [hids1, getD_set_eq, if_neg (fun hc => hTne hc.1)]
    · rw [hids1, getD_set_eq, hinv.ids_length, if_pos ⟨rfl, hpidlt⟩, hmod]
  have hfinal := Linked.persist (apk_assets_cookies am.apk_assets_) (pre ++ [(O, p)]) _ _ _ _ _
    (by omega) (by omega) hlinked post (by rw [← hsplit']; exact hwf)
  rw [← hsplit'] at hfinal
  obtain ⟨⟨g2, h13, h14⟩, h15, h16⟩ := hfinal
  obtain ⟨hids, hsame, -⟩ := BuildDynamicRefTable_registry dops hadd am
  obtain ⟨g3, h17, -, -, h18, -⟩ := hsame _ g2 h13
  obtain ⟨g4, h19, h20, -⟩ := BuildDynamicRefTable_member dops hadd am hwf pre1
    (post1 ++ (O, p) :: post) t (by rw [hsplit, htarget]; simp)
  obtain ⟨g5, h21, h22, -⟩ := BuildDynamicRefTable_member dops hadd am hwf pre post (O, p) hsplit
  rw [hids, h15] at h19
  rw [h17] at h19
  simp only [Option.some.injEq] at h19
  subst h19
  refine ⟨g3, g5, ?_, h20, h21, h22, ?_⟩
  · rw [hids, h15]; exact h17
  · rw [hids, h16, h18]; exact h14

theorem sampleBounds_target_overlay :
    RegistryBounds
      (processingOrder (engineWith [sampleTargetApk, sampleOverlayApk]).apk_assets_) := by
  refine ⟨?_, by decide, by decide⟩
  intro x hx
  have hx' : x = (sampleTargetApk, sampleTargetPackage) ∨
      x = (sampleOverlayApk, sampleOverlayPackage) := by
    simpa [processingOrder, sortedApkAssets, engineWith, sampleTargetApk, sampleOverlayApk,
      ApkAssets.IsOverlay] using hx
  rcases hx' with rfl | rfl
  · intro _; decide
  · intro h; exact absurd h (by decide)

/-- Witness of C19 as amended: with the sample target and the sample overlay, whose dynamic
package opens the group of the runtime id 2, the group of the target holds the link with the
id-map of the overlay for the target id `0x7f`, bound to the group with index 1, and the
cookie 1. -/
theorem BuildDynamicRefTable_attaches_link_witness :
    ∃ g go,
      (BuildDynamicRefTable sampleRefOps
        (engineWith [sampleTargetApk, sampleOverlayApk])).package_groups_[0]? = some g ∧
      (∃ cp ∈ g.packages_, cp.loaded_package_ = sampleTargetPackage) ∧
      (BuildDynamicRefTable sampleRefOps
        (engineWith [sampleTargetApk, sampleOverlayApk])).package_groups_[1]? = some go ∧
      (∃ cp ∈ go.packages_, cp.loaded_package_ = sampleOverlayPackage) ∧
      overlayLink sampleIdmap 0x7f 1 1 ∈ g.overlays_ :=
  BuildDynamicRefTable_attaches_link sampleRefOps
    (engineWith [sampleTargetApk, sampleOverlayApk]) [(sampleTargetApk, sampleTargetPackage)] []
    [] [] sampleOverlayApk sampleOverlayPackage (sampleTargetApk, sampleTargetPackage)
    sampleIdmap sampleRefOps_keepsAssignedId sampleBounds_target_overlay rfl rfl
    (by
      intro pre' post' y h
      cases pre' with
      | nil =>
        simp only [List.nil_append, List.cons.injEq] at h
        rw [← h.1]
        decide
      | cons w rest =>
        simp only [List.cons_append, List.cons.injEq] at h
        exact absurd h.2 (by simp))
    rfl rfl (by intro z hz; simp at hz)

/-- Counterexample to C19 as stated: the bundle list holds the vendor package (not dynamic,
declared id `0x02`), the sample target and the sample overlay, whose declared target path is the
path of the target bundle, processed before it.  The dynamic package of the overlay is given
the runtime id 2 and joins the group of the vendor package; no overlay link is attached to the
group of the target, nor to any group. -/
theorem BuildDynamicRefTable_overlay_joins_group_counterexample :
    (processingOrder [sampleVendorApk, sampleTargetApk, sampleOverlayApk]).map
        (fun x => (x.1.path, x.1.loaded_idmap.map (fun im => im.target_apk_path))) =
      [("/vendor/res.apk", none), ("/data/target.apk", none),
        ("/data/overlay.apk", some "/data/target.apk")] ∧
      (BuildDynamicRefTable sampleRefOps
        (engineWith [sampleVendorApk, sampleTargetApk, sampleOverlayApk])).package_groups_.map
        (fun g => (g.dynamic_ref_table.mAssignedPackageId,
          g.packages_.map (fun cp => cp.loaded_package_.package_name), g.overlays_.length)) =
      [(2, ["vendor", "overlay"], 0), (0x7f, ["target"], 0)] := by
  decide

/-! ## Names of a resolved entry -/

theorem overlayScan_names {κ : Type} (ops : ResTable_configOps κ) (am : AssetManager2 κ)
    (l : Bool) (f : Nat → Resolution κ → Option (FindResult κ)) (resid : Nat) (d : κ)
    (ovs : List ConfiguredOverlay) :
    ∀ (c : Nat) (out : FindEntryResult κ) (log : Resolution κ)
      (x : Resolution κ × Nat × FindEntryResult κ),
      overlayScan ops am l f resid d ovs c out log = some x →
        x.2.2.package_name = out.package_name ∧ x.2.2.type_string_ref = out.type_string_ref ∧
          x.2.2.entry_string_ref = out.entry_string_ref ∧ x.2.2.type_flags = out.type_flags := by
  induction ovs with
  | nil =>
    intro c out log x h
    simp only [overlayScan, Option.some.injEq] at h
    subst h
    exact ⟨rfl, rfl, rfl, rfl⟩
  | cons o rest ih =>
    intro c out log x
    simp only [overlayScan]
    cases hl : o.overlay_res_maps_.Lookup resid with
    | none => exact ih _ _ _ x
    | some r =>
      cases r with
      | inline v => exact ih _ _ _ x
      | resource r' =>
        simp only []
        cases hx : f r' log with
        | none => intro h; simp at h
        | some y =>
          obtain ⟨l1, r1⟩ := y
          cases r1 with
          | none => exact ih _ _ _ x
          | some cr =>
            obtain ⟨oc, ores⟩ := cr
            simp only []
            split
            · exact ih _ _ _ x
            · exact ih _ _ _ x

theorem FindEntry_names_of_internal {κ : Type} (ops : ResTable_configOps κ)
    (am : AssetManager2 κ) (n resid density_override : Nat) (ignore : Bool)
    (log : Resolution κ) (g : PackageGroup κ)
    (hvalid : is_valid_resid resid = true)
    (hidx : am.package_ids_.getD (get_package_id resid) 0xff ≠ 0xff)
    (hg : am.package_groups_.get? (am.package_ids_.getD (get_package_id resid) 0xff) = some g)
    (c0 : Nat) (res0 : FindEntryResult κ)
    (hint : (FindEntryInternal ops am g (get_type_id resid - 1) (get_entry_id resid)
        (selectDesiredConfig ops am density_override) ignore log).2 = some (c0, res0))
    (r : FindResult κ)
    (h : FindEntry ops am (n + 1) resid density_override ignore log = some r) :
    ∃ c res, r.2 = some (c, res) ∧ res.package_name = res0.package_name ∧
      res.type_string_ref = res0.type_string_ref ∧
      res.entry_string_ref = res0.entry_string_ref ∧ res.type_flags = res0.type_flags := by
  have hidx' : (am.package_ids_.getD (get_package_id resid) 0xff == 0xff) = false := by
    simpa using hidx
  have hP := FindEntryInternal_snd_eq ops am am rfl g (get_type_id resid - 1)
    (get_entry_id resid) (selectDesiredConfig ops am density_override) ignore log
    (if am.resource_resolution_logging_enabled_ = true then
      { (ResetResourceResolution : Resolution κ) with resid := resid } else log)
  simp only [FindEntry, hvalid, hidx', hg, Bool.not_true, Bool.false_eq_true, if_false] at h
  rw [hint] at hP
  revert hP h
  generalize FindEntryInternal ops am g (get_type_id resid - 1) (get_entry_id resid)
    (selectDesiredConfig ops am density_override) ignore _ = X
  intro hP h
  obtain ⟨l1, r1⟩ := X
  simp only at hP
  subst hP
  simp only [] at h
  cases hload : IsLoaderCookie am c0 with
  | true =>
    simp only [hload, Bool.not_true, Bool.false_eq_true, if_false, Option.some.injEq] at h
    subst h
    exact ⟨c0, res0, rfl, rfl, rfl, rfl, rfl⟩
  | false =>
    simp only [hload, Bool.not_false, if_true] at h
    cases hov : overlayScan ops am am.resource_resolution_logging_enabled_
      (fun r l => FindEntry ops am n r density_override ignore l) resid
      ((selectDesiredConfig ops am density_override).deref am) g.overlays_ c0 res0 l1 with
    | none => rw [hov] at h; simp at h
    | some x =>
      rw [hov] at h
      obtain ⟨l2, c2, o2⟩ := x
      simp only [Option.some.injEq] at h
      subst h
      have := overlayScan_names ops am _ _ resid _ g.overlays_ c0 res0 l1 _ hov
      exact ⟨c2, o2, rfl, this⟩

theorem classifyCandidate_rename {κ : Type} (ops : ResTable_configOps κ) (σ : Nat → Nat) (d : κ)
    (pl : Bool) (cfg : κ) (best : Option (BestEntry κ)) :
    classifyCandidate ops d pl cfg (best.map (BestEntry.rename σ)) =
      classifyCandidate ops d pl cfg best := by
  cases best <;> rfl

theorem fastScan_sim {κ : Type} (ops : ResTable_configOps κ) (σ : Nat → Nat) (l l' : Bool)
    (d : κ) (e : Nat) (p : LoadedPackage κ) (c : Nat) (cands : List (κ × ResTable_type κ)) :
    ∀ s t : ScanState κ, s.sim σ t →
      (fastScan ops l d e p (σ c) cands s).sim σ (fastScan ops l' d e p c cands t) := by
  induction cands with
  | nil => intro s t h; simpa [fastScan] using h
  | cons x rest ih =>
    intro s t h
    obtain ⟨cfg, ty⟩ := x
    obtain ⟨hb, hf⟩ := h
    simp only [fastScan]
    rw [hb, classifyCandidate_rename]
    cases hc : classifyCandidate ops d p.custom_loader cfg t.best with
    | none =>
      simp only []
      apply ih
      constructor
      · cases l <;> cases l' <;> simp [hb]
      · cases l <;> cases l' <;> simp [hf]
    | some rt =>
      simp only []
      by_cases ho : (GetEntryOffset ty e == NO_ENTRY) = true
      · simp only [ho, if_true]
        apply ih
        constructor
        · cases l <;> cases l' <;> simp [hb]
        · cases l <;> cases l' <;> simp [hf]
      · simp only [ho]
        apply ih
        constructor
        · cases l <;> cases l' <;> simp [BestEntry.rename]
        · cases l <;> cases l' <;> simp [hf]

theorem slowScan_sim {κ : Type} (ops : ResTable_configOps κ) (σ : Nat → Nat) (l l' i : Bool)
    (d : κ) (e : Nat) (p : LoadedPackage κ) (c : Nat) (types : List (ResTable_type κ)) :
    ∀ s t : ScanState κ, s.sim σ t →
      (slowScan ops l i d e p (σ c) types s).sim σ (slowScan ops l' i d e p c types t) := by
  induction types with
  | nil => intro s t h; simpa [slowScan] using h
  | cons ty rest ih =>
    intro s t h
    obtain ⟨hb, hf⟩ := h
    simp only [slowScan]
    rw [hb, classifyCandidate_rename]
    cases i with
    | true =>
      simp only [Bool.not_true, Bool.false_eq_true, if_false, if_true]
      by_cases ho : (GetEntryOffset ty e == NO_ENTRY) = true
      · simp only [ho, if_true]
        exact ih _ _ ⟨hb, hf⟩
      · simp only [ho]
        exact ⟨rfl, hf⟩
    | false =>
      simp only [Bool.not_false, Bool.false_eq_true, if_false, if_true]
      by_cases hm : ops.isMatch ty.config d = true
      · simp only [hm, Bool.not_true]
        cases hc : classifyCandidate ops d p.custom_loader ty.config t.best with
        | none => exact ih _ _ ⟨hb, hf⟩
        | some rt =>
          simp only []
          by_cases ho : (GetEntryOffset ty e == NO_ENTRY) = true
          · simp only [ho, if_true]
            exact ih _ _ ⟨rfl, hf⟩
          · simp only [ho]
            apply ih
            constructor
            · cases l <;> cases l' <;> simp [BestEntry.rename]
            · cases l <;> cases l' <;> simp [hf]
      · simp only [hm]
        exact ih _ _ ⟨hb, hf⟩

theorem packageScan_sim {κ : Type} (ops : ResTable_configOps κ) (σ : Nat → Nat)
    (l l' i u : Bool) (d : κ) (ti e : Nat) (pkgs : List (ConfiguredPackage κ × Nat)) :
    ∀ s t : ScanState κ, s.sim σ t →
      (packageScan ops l i u d ti e (pkgs.map (fun x => (x.1, σ x.2))) s).sim σ
        (packageScan ops l' i u d ti e pkgs t) := by
  induction pkgs with
  | nil => intro s t h; simpa [packageScan] using h
  | cons x rest ih =>
    intro s t h
    obtain ⟨impl, c⟩ := x
    obtain ⟨hb, hf⟩ := h
    simp only [List.map_cons, packageScan]
    cases hs : impl.loaded_package_.GetTypeSpecByTypeIndex ti with
    | none => exact ih _ _ ⟨hb, hf⟩
    | some spec =>
      simp only []
      apply ih
      cases u with
      | true =>
        simp only [if_true]
        apply fastScan_sim
        exact ⟨hb, by simp [hf]⟩
      | false =>
        simp only [Bool.false_eq_true, if_false]
        apply slowScan_sim
        exact ⟨hb, by simp [hf]⟩

/-! ## Lookups of an engine that simulates another -/

theorem FindEntry_groupOf {κ : Type} (ops : ResTable_configOps κ) (am : AssetManager2 κ)
    (n resid d : Nat) (i : Bool) (log : Resolution κ) :
    FindEntry ops am (n + 1) resid d i log =
      if !is_valid_resid resid then
        some (if am.resource_resolution_logging_enabled_ then
          { (ResetResourceResolution : Resolution κ) with resid := resid } else log, none)
      else
        match am.groupOf (get_package_id resid) with
        | none =>
          some (if am.resource_resolution_logging_enabled_ then
            { (ResetResourceResolution : Resolution κ) with resid := resid } else log, none)
        | some package_group =>
          match FindEntryInternal ops am package_group (get_type_id resid - 1)
              (get_entry_id resid) (selectDesiredConfig ops am d) i
              (if am.resource_resolution_logging_enabled_ then
                { (ResetResourceResolution : Resolution κ) with resid := resid } else log) with
          | (log1, none) => some (log1, none)
          | (log1, some (cookie0, out_entry0)) =>
            match (if !IsLoaderCookie am cookie0 then
                overlayScan ops am am.resource_resolution_logging_enabled_
                  (fun r l => FindEntry ops am n r d i l)
                  resid ((selectDesiredConfig ops am d).deref am) package_group.overlays_
                  cookie0 out_entry0 log1
              else some (log1, cookie0, out_entry0)) with
            | none => none
            | some (log2, cookie, out_entry) =>
              some (if am.resource_resolution_logging_enabled_ then
                  { log2 with
                    cookie := some cookie
                    type_string_ref := some out_entry.type_string_ref
                    entry_string_ref := some out_entry.entry_string_ref }
                else log2, some (cookie, out_entry)) := by
  by_cases hv : is_valid_resid resid = true
  · by_cases hp : (am.package_ids_.getD (get_package_id resid) 0xff == 0xff) = true
    · simp only [FindEntry, AssetManager2.groupOf, hv, hp, Bool.not_true, Bool.false_eq_true,
        if_false, if_true]
    · simp only [FindEntry, AssetManager2.groupOf, hv, hp, Bool.not_true, Bool.false_eq_true,
        if_false]
  · simp only [FindEntry, hv, Bool.not_false, if_true]

theorem FindEntryInternal_sim {κ : Type} (ops : ResTable_configOps κ) (σ : Nat → Nat)
    (W V : AssetManager2 κ) (hc : W.configuration_ = V.configuration_)
    (gw gv : PackageGroup κ) (hg : GroupSim σ gw gv) (ti e : Nat) (d : ConfigRef κ) (i : Bool)
    (lw lv : Resolution κ) :
    (FindEntryInternal ops W gw ti e d i lw).2.map (fun x => (x.1, x.2.payload)) =
      (FindEntryInternal ops V gv ti e d i lv).2.map (fun x => (σ x.1, x.2.payload)) := by
  have hd : d.deref W = d.deref V := by cases d <;> simp [ConfigRef.deref, hc]
  obtain ⟨hp, hk, -⟩ := hg
  have hz : gw.packages_.zip gw.cookies_ =
      (gv.packages_.zip gv.cookies_).map (fun x => (x.1, σ x.2)) := by
    rw [hp, hk, List.zip_map_right]
    rfl
  have := packageScan_sim ops σ W.resource_resolution_logging_enabled_
    V.resource_resolution_logging_enabled_ i (!i && d.isConfiguration_) (d.deref V) ti e
    (gv.packages_.zip gv.cookies_) ⟨none, 0, StepType.NO_ENTRY, [], lw.steps⟩
    ⟨none, 0, StepType.NO_ENTRY, [], lv.steps⟩ ⟨rfl, rfl⟩
  obtain ⟨hb, hf⟩ := this
  simp only [FindEntryInternal, hd, hz]
  rw [hb, hf]
  cases (packageScan ops V.resource_resolution_logging_enabled_ i (!i && d.isConfiguration_)
    (d.deref V) ti e (gv.packages_.zip gv.cookies_)
    ⟨none, 0, StepType.NO_ENTRY, [], lv.steps⟩).best with
  | none => rfl
  | some b =>
    simp only [Option.map_some', BestEntry.rename]
    cases GetEntryFromOffset b.type b.offset <;> rfl

theorem payload_eq {κ : Type} {a b : FindEntryResult κ} (h : a.payload = b.payload) :
    a.entry = b.entry ∧ a.config = b.config ∧ a.type_flags = b.type_flags ∧
      a.package_name = b.package_name ∧ a.type_string_ref = b.type_string_ref ∧
      a.entry_string_ref = b.entry_string_ref := by
  simpa [FindEntryResult.payload] using h

theorem overlayScan_sim {κ : Type} (ops : ResTable_configOps κ) (σ : Nat → Nat)
    (W V : AssetManager2 κ) (l l' : Bool)
    (fw fv : Nat → Resolution κ → Option (FindResult κ)) (resid : Nat) (d : κ)
    (P : Nat → Prop)
    (hf : ∀ r, P r → ∀ lw lv, (fw r lw).map (lookupView id) = (fv r lv).map (lookupView σ)) :
    ∀ (ovv ovw : List ConfiguredOverlay),
      ovw.map (fun l => (l.overlay_res_maps_.entries, l.cookie)) =
        ovv.map (fun l => (l.overlay_res_maps_.entries, σ l.cookie)) →
      (∀ link ∈ ovv, ∀ r', link.overlay_res_maps_.Lookup resid =
        some (IdmapResult.resource r') → P r') →
      ∀ (cv : Nat) (outw outv : FindEntryResult κ) (lw lv : Resolution κ),
        outw.payload = outv.payload →
        (overlayScan ops W l fw resid d ovw (σ cv) outw lw).map
            (fun y => (y.2.1, y.2.2.payload)) =
          (overlayScan ops V l' fv resid d ovv cv outv lv).map
            (fun y => (σ y.2.1, y.2.2.payload)) := by
  intro ovv
  induction ovv with
  | nil =>
    intro ovw hmap _ cv outw outv lw lv hpay
    cases ovw with
    | nil => simp [overlayScan, hpay]
    | cons a b => simp at hmap
  | cons ov rest ih =>
    intro ovw hmap hP cv outw outv lw lv hpay
    cases ovw with
    | nil => simp at hmap
    | cons ow restw =>
      simp only [List.map_cons, List.cons.injEq, Prod.mk.injEq] at hmap
      obtain ⟨⟨hent, hck⟩, hrest⟩ := hmap
      have hP' : ∀ link ∈ rest, ∀ r', link.overlay_res_maps_.Lookup resid =
          some (IdmapResult.resource r') → P r' :=
        fun link hl => hP link (List.mem_cons_of_mem _ hl)
      have hlk : ow.overlay_res_maps_.Lookup resid = ov.overlay_res_maps_.Lookup resid := by
        simp only [IdmapResMap.Lookup, hent]
      obtain ⟨e1, e2, e3, e4, e5, e6⟩ := payload_eq hpay
      simp only [overlayScan]
      rw [hlk]
      cases hl : ov.overlay_res_maps_.Lookup resid with
      | none => exact ih restw hrest hP' cv outw outv lw lv hpay
      | some r =>
        cases r with
        | inline v =>
          simp only []
          rw [hck]
          apply ih restw hrest hP'
          simp [FindEntryResult.payload, e2, e3, e4, e5, e6]
        | resource r' =>
          simp only []
          have h1 := hf r' (hP ov (List.mem_cons_self _ _) r' hl) lw lv
          cases h2 : fw r' lw with
          | none =>
            rw [h2] at h1
            cases h3 : fv r' lv with
            | none => rfl
            | some x => rw [h3] at h1; simp at h1
          | some x =>
            rw [h2] at h1
            cases h3 : fv r' lv with
            | none => rw [h3] at h1; simp at h1
            | some y =>
              rw [h3] at h1
              simp only [Option.map_some', Option.some.injEq, lookupView] at h1
              obtain ⟨lx, rx⟩ := x
              obtain ⟨ly, ry⟩ := y
              simp only at h1
              cases rx with
              | none =>
                cases ry with
                | none => exact ih restw hrest hP' cv outw outv _ _ hpay
                | some cr => simp at h1
              | some crw =>
                cases ry with
                | none => simp at h1
                | some crv =>
                  obtain ⟨cw, resw⟩ := crw
                  obtain ⟨cv', resv⟩ := crv
                  simp only [Option.map_some', Option.some.injEq, Prod.mk.injEq, id] at h1
                  obtain ⟨hcw, hres⟩ := h1
                  obtain ⟨f1, f2, f3, f4, f5, f6⟩ := payload_eq hres
                  simp only []
                  rw [f2, e2, hcw]
                  split
                  · exact ih restw hrest hP' cv outw outv _ _ hpay
                  · apply ih restw hrest hP'
                    simp [FindEntryResult.payload, f1, e3, e4, e5, e6]

theorem FindEntry_sim {κ : Type} (ops : ResTable_configOps κ) (ids : List Nat) (σ : Nat → Nat)
    (W V : AssetManager2 κ) (h : Simulates ids σ W V) (fuel : Nat) :
    ∀ (resid d : Nat) (i : Bool) (lw lv : Resolution κ), get_package_id resid ∉ ids →
      (FindEntry ops W fuel resid d i lw).map (lookupView id) =
        (FindEntry ops V fuel resid d i lv).map (lookupView σ) := by
  induction fuel with
  | zero => intro r d i lw lv _; simp [FindEntry]
  | succ n ih =>
    intro r d i lw lv hr
    have hsel : selectDesiredConfig ops W d = selectDesiredConfig ops V d := by
      simp [selectDesiredConfig, h.config]
    have hd : ∀ x : ConfigRef κ, x.deref W = x.deref V := by
      intro x; cases x <;> simp [ConfigRef.deref, h.config]
    rw [FindEntry_groupOf, FindEntry_groupOf]
    by_cases hv : is_valid_resid r = true
    · simp only [hv, Bool.not_true, Bool.false_eq_true, if_false]
      rcases h.groups _ hr with ⟨hw, hv'⟩ | ⟨gw, gv, hw, hv', hsim⟩
      · rw [hw, hv']
        simp [lookupView]
      · rw [hw, hv']
        simp only []
        have hX := FindEntryInternal_sim ops σ W V h.config gw gv hsim (get_type_id r - 1)
          (get_entry_id r) (selectDesiredConfig ops V d) i
          (if W.resource_resolution_logging_enabled_ = true then
            { (ResetResourceResolution : Resolution κ) with resid := r } else lw)
          (if V.resource_resolution_logging_enabled_ = true then
            { (ResetResourceResolution : Resolution κ) with resid := r } else lv)
        rw [hsel, hd]
        revert hX
        generalize FindEntryInternal ops W gw (get_type_id r - 1) (get_entry_id r) _ i _ = X'
        generalize FindEntryInternal ops V gv (get_type_id r - 1) (get_entry_id r) _ i _ = X
        intro hX
        obtain ⟨lx', rx'⟩ := X'
        obtain ⟨lx, rx⟩ := X
        simp only at hX
        cases rx' with
        | none =>
          cases rx with
          | none => simp [lookupView]
          | some cr => simp at hX
        | some crw =>
          cases rx with
          | none => simp at hX
          | some crv =>
            obtain ⟨c0w, out0w⟩ := crw
            obtain ⟨c0v, out0v⟩ := crv
            simp only [Option.map_some', Option.some.injEq, Prod.mk.injEq] at hX
            obtain ⟨hc0, hpay⟩ := hX
            subst hc0
            simp only []
            rw [h.loader]
            cases hlc : IsLoaderCookie V c0v with
            | true =>
              simp [lookupView, hpay]
            | false =>
              simp only [Bool.not_false, if_true]
              have ho := overlayScan_sim ops σ W V W.resource_resolution_logging_enabled_
                V.resource_resolution_logging_enabled_
                (fun r l => FindEntry ops W n r d i l) (fun r l => FindEntry ops V n r d i l)
                r (ConfigRef.deref V (selectDesiredConfig ops V d))
                (fun r' => get_package_id r' ∉ ids)
                (fun r' hr' lw lv => ih r' d i lw lv hr')
                gv.overlays_ gw.overlays_ hsim.2.2
                (fun link hl r0 hlk => h.links _ hr gv hv' link hl r r0 hlk)
                c0v out0w out0v lx' lx hpay
              revert ho
              generalize overlayScan ops W _ _ r _ gw.overlays_ (σ c0v) out0w lx' = Y'
              generalize overlayScan ops V _ _ r _ gv.overlays_ c0v out0v lx = Y
              intro ho
              cases Y' with
              | none =>
                cases Y with
                | none => rfl
                | some y => simp at ho
              | some y' =>
                cases Y with
                | none => simp at ho
                | some y =>
                  obtain ⟨l2', c2', o2'⟩ := y'
                  obtain ⟨l2, c2, o2⟩ := y
                  simp only [Option.map_some', Option.some.injEq, Prod.mk.injEq] at ho
                  obtain ⟨h1, h2⟩ := ho
                  simp [lookupView, h1, h2]
    · simp [hv, lookupView]

/-! ## The cookie map and the processing order with one more bundle -/

theorem foldl_range_congr {β : Type} (f g : β → Nat → β) (s : β) :
    ∀ k, (∀ i, i < k → ∀ m, f m i = g m i) →
      (List.range k).foldl f s = (List.range k).foldl g s := by
  intro k
  induction k with
  | zero => intro _; rfl
  | succ k ih =>
    intro h
    rw [List.range_succ, List.foldl_append, List.foldl_append,
      ih (fun i hi m => h i (by omega) m)]
    simp only [List.foldl_cons, List.foldl_nil]
    exact h k (by omega) _

theorem apk_assets_cookies_snoc {κ : Type} (l : List (ApkAssets κ)) (a : ApkAssets κ) :
    apk_assets_cookies (l ++ [a]) =
      (a.addr, l.length) :: (apk_assets_cookies l).filter (fun e => e.1 != a.addr) := by
  have h1 : (l ++ [a]).get? l.length = some a := by
    rw [List.get?_eq_getElem?, List.getElem?_append_right (le_refl _)]
    simp
  unfold apk_assets_cookies
  rw [List.length_append, List.length_singleton, List.range_succ, List.foldl_append]
  simp only [List.foldl_cons, List.foldl_nil, h1]
  congr 2
  apply foldl_range_congr
  intro i hi m
  have : (l ++ [a]).get? i = l.get? i := by
    rw [List.get?_eq_getElem?, List.get?_eq_getElem?, List.getElem?_append_left hi]
  rw [this]

theorem lookup_filter_ne (m : List (Nat × Nat)) (x y : Nat) (h : x ≠ y) :
    (m.filter (fun e => e.1 != y)).lookup x = m.lookup x := by
  induction m with
  | nil => rfl
  | cons e rest ih =>
    obtain ⟨k, v⟩ := e
    by_cases hk : k = y
    · subst hk
      have h1 : (k != k) = false := by simp
      have h2 : (x == k) = false := by simpa using h
      simp only [List.filter_cons, h1, Bool.false_eq_true, if_false, List.lookup_cons, h2]
      exact ih
    · have h1 : (k != y) = true := by simpa using hk
      simp only [List.filter_cons, h1, if_true, List.lookup_cons, ih]

theorem apk_assets_cookies_lt {κ : Type} (x : Nat) :
    ∀ (l : List (ApkAssets κ)) (c : Nat), (apk_assets_cookies l).lookup x = some c →
      c < l.length := by
  intro l
  induction l using List.reverseRecOn with
  | nil => intro c h; simp [apk_assets_cookies] at h
  | append_singleton l a ih =>
    intro c h
    rw [apk_assets_cookies_snoc, List.lookup_cons] at h
    rw [List.length_append, List.length_singleton]
    by_cases hx : x = a.addr
    · have : (x == a.addr) = true := by simpa using hx
      rw [this] at h
      simp only [Option.some.injEq] at h
      omega
    · have : (x == a.addr) = false := by simpa using hx
      rw [this] at h
      simp only at h
      rw [lookup_filter_ne _ _ _ hx] at h
      have := ih c h
      omega

theorem apk_assets_cookies_insert {κ : Type} (pre : List (ApkAssets κ)) (O : ApkAssets κ)
    (x : Nat) (hx : x ≠ O.addr) :
    ∀ post : List (ApkAssets κ),
      (apk_assets_cookies (pre ++ O :: post)).lookup x =
        ((apk_assets_cookies (pre ++ post)).lookup x).map (shiftCookie pre.length) := by
  intro post
  induction post using List.reverseRecOn with
  | nil =>
    have hx' : (x == O.addr) = false := by simpa using hx
    rw [List.append_nil, apk_assets_cookies_snoc, List.lookup_cons, hx']
    simp only
    rw [lookup_filter_ne _ _ _ hx]
    cases h : (apk_assets_cookies pre).lookup x with
    | none => rfl
    | some c =>
      have := apk_assets_cookies_lt x pre c h
      simp [shiftCookie, this]
  | append_singleton post b ih =>
    have e1 : pre ++ O :: (post ++ [b]) = (pre ++ O :: post) ++ [b] := by simp
    have e2 : pre ++ (post ++ [b]) = (pre ++ post) ++ [b] := by simp
    rw [e1, e2, apk_assets_cookies_snoc, apk_assets_cookies_snoc, List.lookup_cons,
      List.lookup_cons]
    by_cases hb : x = b.addr
    · have : (x == b.addr) = true := by simpa using hb
      rw [this]
      simp [shiftCookie]
      omega
    · have : (x == b.addr) = false := by simpa using hb
      rw [this]
      simp only
      rw [lookup_filter_ne _ _ _ hb, lookup_filter_ne _ _ _ hb, ih]

theorem processingOrder_insert {κ : Type} (pre post : List (ApkAssets κ)) (O : ApkAssets κ)
    (hov : O.IsOverlay = true) (hpost : ∀ a ∈ post, a.IsOverlay = false) :
    processingOrder (pre ++ O :: post) =
      processingOrder (pre ++ post) ++ O.packages.map (fun p => (O, p)) := by
  have h1 : post.filter (fun a => a.IsOverlay) = [] := by
    rw [List.filter_eq_nil_iff]
    intro a ha
    simp [hpost a ha]
  unfold processingOrder sortedApkAssets
  simp only [List.filter_append, List.filter_cons, hov, h1, Bool.not_true, Bool.false_eq_true,
    if_false, if_true, List.append_nil, List.flatMap_append, List.flatMap_cons,
    List.flatMap_nil, List.append_assoc]

theorem get?_insert {α : Type} (pre post : List α) (x : α) (c : Nat) :
    (pre ++ x :: post).get? (shiftCookie pre.length c) = (pre ++ post).get? c := by
  unfold shiftCookie
  simp only [List.get?_eq_getElem?]
  by_cases h : c < pre.length
  · rw [if_pos h, List.getElem?_append_left h, List.getElem?_append_left h]
  · rw [if_neg h, List.getElem?_append_right (by omega), List.getElem?_append_right (by omega)]
    have : c + 1 - pre.length = (c - pre.length) + 1 := by omega
    rw [this, List.getElem?_cons_succ]

/-! ## The registry loop under a renaming of cookies -/

theorem modifyAt_map {α : Type} (f f' : α → α) (r : α → α) (h : ∀ x, f (r x) = r (f' x))
    (i : Nat) (l : List α) : modifyAt f i (l.map r) = (modifyAt f' i l).map r := by
  unfold modifyAt
  rw [List.get?_eq_getElem?, List.get?_eq_getElem?, List.getElem?_map]
  cases hl : l[i]? with
  | none => rfl
  | some a =>
    simp only [Option.map_some', List.map_set, h]

theorem BuildState.eq_of_fields {κ : Type} {s t : BuildState κ}
    (h1 : s.package_groups_ = t.package_groups_) (h2 : s.package_ids_ = t.package_ids_)
    (h3 : s.apk_assets_package_ids = t.apk_assets_package_ids)
    (h4 : s.next_package_id = t.next_package_id) : s = t := by
  cases s; cases t
  simp only at h1 h2 h3 h4
  subst h1; subst h2; subst h3; subst h4
  rfl

theorem pushGroup_rename {κ : Type} (σ : Nat → Nat) (c : Nat) (a : ApkAssets κ) (pid : Nat)
    (st : BuildState κ) :
    pushGroup (σ c) a pid (renameState σ st) =
      (pushGroup c a pid st).map (renameGroup σ) := by
  unfold pushGroup
  cases a.loaded_idmap with
  | none => simp [renameState, renameGroup]
  | some im =>
    simp only [renameState, List.length_map]
    cases st.apk_assets_package_ids.lookup im.target_apk_path with
    | none => simp [renameGroup]
    | some tid =>
      simp only []
      have e0 : st.package_groups_.map (renameGroup σ) ++
          [(⟨[], [], [], DynamicRefTable.new⟩ : PackageGroup κ)] =
          (st.package_groups_ ++
            [(⟨[], [], [], DynamicRefTable.new⟩ : PackageGroup κ)]).map (renameGroup σ) := by
        simp [renameGroup]
      rw [e0,
        modifyAt_map
          (fun g : PackageGroup κ => { g with
            dynamic_ref_table := im.GetOverlayDynamicRefTable tid })
          (fun g : PackageGroup κ => { g with
            dynamic_ref_table := im.GetOverlayDynamicRefTable tid })
          (renameGroup σ) (fun x => rfl),
        modifyAt_map
          (fun g : PackageGroup κ => { g with overlays_ := g.overlays_ ++
            [overlayLink im tid st.package_groups_.length (σ c)] })
          (fun g : PackageGroup κ => { g with overlays_ := g.overlays_ ++
            [overlayLink im tid st.package_groups_.length c] })
          (renameGroup σ) (fun x => by simp [renameGroup, overlayLink])]

theorem addPackage_rename {κ : Type} (σ : Nat → Nat) (cw cv : List (Nat × Nat))
    (a : ApkAssets κ) (p : LoadedPackage κ) (st : BuildState κ)
    (h : (cw.lookup a.addr).getD 0 = σ ((cv.lookup a.addr).getD 0)) :
    addPackage cw a p (renameState σ st) = renameState σ (addPackage cv a p st) := by
  apply BuildState.eq_of_fields
  · by_cases h0 : st.package_ids_.getD (st.packageId p) 0xff = 0xff
    · rw [addPackage_groups_new _ _ _ _ (by simpa [renameState, BuildState.packageId] using h0)]
      simp only [renameState]
      rw [addPackage_groups_new _ _ _ _ h0, h]
      have := pushGroup_rename σ ((cv.lookup a.addr).getD 0) a (st.packageId p) st
      simp only [renameState] at this
      simp only [List.length_map, BuildState.packageId] at this ⊢
      rw [this, modifyAt_map
          (setAssigned (if p.dynamic then st.next_package_id else p.package_id) p)
          (setAssigned (if p.dynamic then st.next_package_id else p.package_id) p)
          (renameGroup σ) (fun x => rfl),
        modifyAt_map (joinGroup (σ ((cv.lookup a.addr).getD 0)) p)
          (joinGroup ((cv.lookup a.addr).getD 0) p) (renameGroup σ)
          (fun x => by simp [renameGroup, joinGroup])]
    · rw [addPackage_groups_old _ _ _ _ (by simpa [renameState, BuildState.packageId] using h0)]
      simp only [renameState]
      rw [addPackage_groups_old _ _ _ _ h0, h]
      simp only [BuildState.packageId]
      rw [modifyAt_map (joinGroup (σ ((cv.lookup a.addr).getD 0)) p)
          (joinGroup ((cv.lookup a.addr).getD 0) p) (renameGroup σ)
          (fun x => by simp [renameGroup, joinGroup])]
  · rw [addPackage_package_ids]
    simp only [renameState]
    rw [addPackage_package_ids]
    simp [BuildState.packageId]
  · rw [addPackage_paths]
    simp only [renameState]
    rw [addPackage_paths]
    simp [BuildState.packageId]
  · rw [addPackage_next]
    simp only [renameState]
    rw [addPackage_next]

theorem buildState_rename {κ : Type} (σ : Nat → Nat) (cw cv : List (Nat × Nat)) :
    ∀ (done : List (ApkAssets κ × LoadedPackage κ)),
      (∀ x ∈ done, (cw.lookup x.1.addr).getD 0 = σ ((cv.lookup x.1.addr).getD 0)) →
      buildState cw done = renameState σ (buildState cv done) := by
  intro done
  induction done using List.reverseRecOn with
  | nil => intro _; rfl
  | append_singleton done x ih =>
    intro h
    rw [buildState_snoc, buildState_snoc,
      ih (fun y hy => h y (List.mem_append_left _ hy)),
      addPackage_rename σ cw cv x.1 x.2 _ (h x (by simp))]

/-! ## The registry loop over a bundle with package ids of its own -/

theorem mem_runtimeIdsFrom {κ : Type} :
    ∀ (pre done post : List (ApkAssets κ × LoadedPackage κ))
      (x : ApkAssets κ × LoadedPackage κ),
      assignedId (done ++ pre) x.2 ∈ runtimeIdsFrom done (pre ++ x :: post) := by
  intro pre
  induction pre with
  | nil =>
    intro done post x
    simp [runtimeIdsFrom]
  | cons y pre ih =>
    intro done post x
    simp only [List.cons_append, runtimeIdsFrom, List.mem_cons]
    right
    have := ih (done ++ [y]) post x
    simpa using this

theorem RegInv.fresh {κ : Type} {st : BuildState κ}
    {done : List (ApkAssets κ × LoadedPackage κ)} (hinv : RegInv st done) (p : Nat)
    (hp : p ∉ runtimeIdsFrom [] done) : st.package_ids_.getD p 0xff = 0xff := by
  by_contra hne
  have hlt : p < 256 := by
    by_contra hge
    apply hne
    rw [List.getD_eq_getElem?_getD, List.getElem?_eq_none (by rw [hinv.ids_length]; omega)]
    rfl
  obtain ⟨g, hg, hid⟩ := hinv.ids_group p hlt hne
  have hnonempty := hinv.nonempty _ g hg
  obtain ⟨cp, hcp⟩ := List.exists_mem_of_ne_nil _ hnonempty
  obtain ⟨pre, x, post, hsplit, -, hasg⟩ := hinv.members _ g hg cp hcp
  apply hp
  rw [← hid, hasg, hsplit]
  have := mem_runtimeIdsFrom pre [] post x
  simpa using this

theorem appended_init {κ : Type} {base : BuildState κ}
    {done : List (ApkAssets κ × LoadedPackage κ)} (hinv : RegInv base done)
    (hp : PathInv base done) (hlen : done.length ≤ 255) (ids : List Nat) (O : ApkAssets κ)
    (hfresh : ∀ id ∈ ids, id ∉ runtimeIdsFrom [] done)
    (htarget : ∀ im, O.loaded_idmap = some im → ∀ y ∈ done, y.1.path ≠ im.target_apk_path) :
    Appended base base ids O := by
  have hle := hinv.groups_le
  refine ⟨le_refl _, fun _ _ => rfl, fun _ _ => rfl, ?_, ?_⟩
  · intro p hpi
    rw [hinv.fresh p (hfresh p hpi)]
    omega
  · intro im him tid hl
    obtain ⟨pre, y, post, hsplit, hpath, -, -⟩ := hp.first _ _ hl
    exact absurd hpath (htarget im him y (by rw [hsplit]; simp))

theorem appended_step {κ : Type} (cookies : List (Nat × Nat)) {base st : BuildState κ}
    {done : List (ApkAssets κ × LoadedPackage κ)} {ids : List Nat} (O : ApkAssets κ)
    (q : LoadedPackage κ) (hinv : RegInv st done) (hwf : RegistryBounds (done ++ [(O, q)]))
    (hmem : assignedId done q ∈ ids) (h : Appended base st ids O) :
    Appended base (addPackage cookies O q st) ids O := by
  have hlen : st.package_groups_.length < 255 := by
    have h1 := hinv.groups_le
    have h2 := hwf.2.2
    rw [List.length_append, List.length_singleton] at h2
    omega
  have hmod : st.package_groups_.length % 256 = st.package_groups_.length := by omega
  have hpid : st.packageId q = assignedId done q := by
    unfold BuildState.packageId assignedId
    rw [hinv.next]
  have hlt : assignedId done q < 256 := assignedId_lt hwf
  have hm := h.length_le
  have hidx := h.ids_new _ hmem
  -- the registry after the step
  have hids : ∀ p, base.package_groups_.length ≤ st.package_ids_.getD p 0xff →
      base.package_groups_.length ≤
        (addPackage cookies O q st).package_ids_.getD p 0xff := by
    intro p hp
    rw [addPackage_package_ids]
    split
    · rw [getD_set_eq]
      split
      · omega
      · exact hp
    · exact hp
  have hpidx : base.package_groups_.length ≤
      (addPackage cookies O q st).package_ids_.getD (assignedId done q) 0xff :=
    hids _ hidx
  refine ⟨?_, ?_, ?_, ?_, ?_⟩
  · rw [addPackage_length]
    split <;> omega
  · intro j hj
    rw [← h.old j hj]
    by_cases h0 : st.package_ids_.getD (st.packageId q) 0xff = 0xff
    · rw [addPackage_groups_new cookies O q st h0, getElem?_modifyAt, getElem?_modifyAt]
      have hne : ¬ j = st.package_groups_.length := by omega
      have hne2 : ¬ j = st.package_groups_.length % 256 := by omega
      simp only [hne, hne2, if_false]
      have happ : (st.package_groups_ ++
          [(⟨[], [], [], DynamicRefTable.new⟩ : PackageGroup κ)])[j]? = st.package_groups_[j]? :=
        List.getElem?_append_left (by omega)
      unfold pushGroup
      cases him : O.loaded_idmap with
      | none => exact happ
      | some im =>
        simp only []
        cases hl : st.apk_assets_package_ids.lookup im.target_apk_path with
        | none => exact happ
        | some tid =>
          simp only []
          have ht := h.target im him tid hl
          have hne3 : ¬ j = (st.package_ids_.set (st.packageId q)
              (st.package_groups_.length % 256)).getD tid 0xff := by
            rw [getD_set_eq]
            split <;> omega
          rw [getElem?_modifyAt, getElem?_modifyAt]
          simp only [hne, hne3, if_false]
          exact happ
    · rw [addPackage_groups_old cookies O q st h0, getElem?_modifyAt]
      rw [hpid] at h0 ⊢
      have hne : ¬ j = st.package_ids_.getD (assignedId done q) 0xff := by omega
      simp only [hne, if_false]
  · intro p hp
    rw [← h.ids_same p hp, addPackage_package_ids]
    split
    · rw [getD_set_eq]
      have : ¬ (p = st.packageId q ∧ st.packageId q < st.package_ids_.length) := by
        rintro ⟨rfl, -⟩
        exact hp (hpid ▸ hmem)
      simp only [this, if_false]
    · rfl
  · intro p hp
    exact hids p (h.ids_new p hp)
  · intro im him tid hl
    rw [addPackage_paths] at hl
    split at hl
    · exact hids tid (h.target im him tid hl)
    · rw [lookup_append_singleton] at hl
      cases hold : st.apk_assets_package_ids.lookup im.target_apk_path with
      | some w =>
        rw [hold] at hl
        simp only [Option.some.injEq] at hl
        subst hl
        exact hids _ (h.target im him _ hold)
      | none =>
        rw [hold] at hl
        simp only at hl
        split at hl
        · simp only [Option.some.injEq] at hl
          rw [← hl, hpid, Nat.mod_eq_of_lt hlt]
          exact hpidx
        · exact absurd hl (by simp)

theorem appended_buildState {κ : Type} (cookies : List (Nat × Nat)) (base : BuildState κ)
    (ids : List Nat) (O : ApkAssets κ) :
    ∀ (qs : List (LoadedPackage κ)) (done : List (ApkAssets κ × LoadedPackage κ)),
      RegistryBounds (done ++ qs.map (fun q => (O, q))) →
      Appended base (buildState cookies done) ids O →
      (∀ id ∈ runtimeIdsFrom done (qs.map (fun q => (O, q))), id ∈ ids) →
      Appended base (buildState cookies (done ++ qs.map (fun q => (O, q)))) ids O := by
  intro qs
  induction qs with
  | nil => intro done _ h _; simpa using h
  | cons q rest ih =>
    intro done hwf h hids
    have e : done ++ (q :: rest).map (fun q => (O, q)) =
        (done ++ [(O, q)]) ++ rest.map (fun q => (O, q)) := by simp
    rw [e] at hwf ⊢
    apply ih (done ++ [(O, q)]) hwf
    · rw [buildState_snoc]
      exact appended_step cookies O q (regInv_buildState cookies done hwf.of_append.of_append)
        hwf.of_append (hids _ (by simp [runtimeIdsFrom])) h
    · intro id hid
      exact hids id (by simp only [List.map_cons, runtimeIdsFrom, List.mem_cons]; exact Or.inr hid)

/-! ## The engine SetApkAssets builds -/

theorem modifyAt_map_frame {α β : Type} (f : α → α) (r : α → β) (h : ∀ x, r (f x) = r x)
    (i : Nat) (l : List α) : (modifyAt f i l).map r = l.map r := by
  apply List.ext_getElem?
  intro k
  rw [List.getElem?_map, List.getElem?_map, getElem?_modifyAt]
  split
  · cases l[k]? with
    | none => rfl
    | some a => simp [h]
  · rfl

theorem addMappings_frame {κ : Type} (dops : DynamicRefTableOps)
    (groups : List (PackageGroup κ)) :
    (addMappings dops groups).map (fun g => (g.packages_, g.cookies_, g.overlays_)) =
      groups.map (fun g => (g.packages_, g.cookies_, g.overlays_)) := by
  unfold addMappings
  apply foldl_invariant (fun gs : List (PackageGroup κ) =>
    gs.map (fun g => (g.packages_, g.cookies_, g.overlays_)) =
      groups.map (fun g => (g.packages_, g.cookies_, g.overlays_)))
  · rfl
  · intro gs i hP
    apply foldl_invariant (fun gs : List (PackageGroup κ) =>
      gs.map (fun g => (g.packages_, g.cookies_, g.overlays_)) =
        groups.map (fun g => (g.packages_, g.cookies_, g.overlays_)))
    · exact hP
    · intro gs2 j hP2
      cases hi : gs2.get? i with
      | none => simpa only [hi] using hP2
      | some iter =>
        simp only []
        refine Eq.trans (modifyAt_map_frame _ _ ?_ j gs2) hP2
        intro x
        rfl

theorem SetApkAssets_fields {κ : Type} (ops : ResTable_configOps κ) (dops : DynamicRefTableOps)
    (am : AssetManager2 κ) (apks : List (ApkAssets κ)) (inv f : Bool) :
    (SetApkAssets ops dops am apks inv f).apk_assets_ = apks ∧
      (SetApkAssets ops dops am apks inv f).configuration_ = am.configuration_ ∧
      (SetApkAssets ops dops am apks inv f).package_ids_ =
        (buildState (apk_assets_cookies apks) (processingOrder apks)).package_ids_ ∧
      (SetApkAssets ops dops am apks inv f).package_groups_.map
          (fun g => (g.packages_, g.cookies_, g.overlays_)) =
        (buildState (apk_assets_cookies apks) (processingOrder apks)).package_groups_.map
          (fun g => (g.packages_.map (refilter ops am.configuration_ f), g.cookies_,
            g.overlays_)) := by
  have hg : ((addMappings dops
      (buildState (apk_assets_cookies apks) (processingOrder apks)).package_groups_).map
        (fun group : PackageGroup κ =>
          { group with
            packages_ := group.packages_.map (fun impl : ConfiguredPackage κ =>
              { impl with
                filtered_configs_ := filterPackage ops am.configuration_ f
                  impl.loaded_package_ }) })).map
        (fun g => (g.packages_, g.cookies_, g.overlays_)) =
      (buildState (apk_assets_cookies apks) (processingOrder apks)).package_groups_.map
        (fun g => (g.packages_.map (refilter ops am.configuration_ f), g.cookies_,
          g.overlays_)) := by
    have h := addMappings_frame dops
      (buildState (apk_assets_cookies apks) (processingOrder apks)).package_groups_
    have h2 := congrArg (List.map (fun x : List (ConfiguredPackage κ) × List Nat ×
      List ConfiguredOverlay => (x.1.map (refilter ops am.configuration_ f), x.2.1, x.2.2))) h
    simp only [List.map_map] at h2 ⊢
    exact h2
  refine ⟨?_, ?_, ?_, ?_⟩
  · cases inv <;> rfl
  · cases inv <;> rfl
  · cases inv <;>
      simp only [SetApkAssets, InvalidateCaches, RebuildFilterList, BuildDynamicRefTable_eq,
        if_true, beq_self_eq_true, Bool.false_eq_true, if_false]
  · cases inv <;>
      simp only [SetApkAssets, InvalidateCaches, RebuildFilterList, BuildDynamicRefTable_eq,
        if_true, beq_self_eq_true, Bool.false_eq_true, if_false] <;>
      exact hg

theorem lookup_mem_entries (entries : List (Nat × IdmapResult)) (r : Nat) (x : IdmapResult)
    (h : entries.lookup r = some x) : (r, x) ∈ entries := by
  induction entries with
  | nil => simp at h
  | cons e rest ih =>
    obtain ⟨k, v⟩ := e
    rw [List.lookup_cons] at h
    by_cases hk : r = k
    · have : (r == k) = true := by simpa using hk
      rw [this] at h
      simp only [Option.some.injEq] at h
      subst hk; subst h
      exact List.mem_cons_self _ _
    · have : (r == k) = false := by simpa using hk
      rw [this] at h
      exact List.mem_cons_of_mem _ (ih h)

theorem apk_assets_cookies_some {κ : Type} :
    ∀ (l : List (ApkAssets κ)) (a : ApkAssets κ), a ∈ l →
      ∃ c, (apk_assets_cookies l).lookup a.addr = some c := by
  intro l
  induction l using List.reverseRecOn with
  | nil => intro a h; simp at h
  | append_singleton l b ih =>
    intro a ha
    rw [apk_assets_cookies_snoc, List.lookup_cons]
    by_cases hx : a.addr = b.addr
    · have : (a.addr == b.addr) = true := by simpa using hx
      rw [this]
      exact ⟨_, rfl⟩
    · have : (a.addr == b.addr) = false := by simpa using hx
      rw [this]
      simp only
      rw [lookup_filter_ne _ _ _ hx]
      rcases List.mem_append.1 ha with h | h
      · exact ih a h
      · simp only [List.mem_singleton] at h
        exact absurd (by rw [h]) hx

theorem mem_processingOrder {κ : Type} (apks : List (ApkAssets κ))
    (x : ApkAssets κ × LoadedPackage κ) (h : x ∈ processingOrder apks) : x.1 ∈ apks := by
  unfold processingOrder sortedApkAssets at h
  rw [List.mem_flatMap] at h
  obtain ⟨a, ha, hx⟩ := h
  rw [List.mem_map] at hx
  obtain ⟨p, -, rfl⟩ := hx
  rcases List.mem_append.1 ha with h | h
  · exact (List.mem_filter.1 h).1
  · exact (List.mem_filter.1 h).1

/-! ## The engine with an untargeted overlay simulates the engine without it -/

theorem RegInv.lt_of_ne {κ : Type} {st : BuildState κ}
    {done : List (ApkAssets κ × LoadedPackage κ)} (hinv : RegInv st done) (p : Nat)
    (hne : st.package_ids_.getD p 0xff ≠ 0xff) : p < 256 := by
  by_contra hge
  apply hne
  rw [List.getD_eq_getElem?_getD, List.getElem?_eq_none (by rw [hinv.ids_length]; omega)]
  rfl

theorem Simulates.of_insert {κ : Type} (ops : ResTable_configOps κ) (dops : DynamicRefTableOps)
    (am : AssetManager2 κ) (pre post : List (ApkAssets κ)) (O : ApkAssets κ) (inv f : Bool)
    (hovl : O.IsOverlay = true) (hpost : ∀ a ∈ post, a.IsOverlay = false)
    (haddr : ∀ a ∈ pre ++ post, a.addr ≠ O.addr)
    (hwf : RegistryBounds (processingOrder (pre ++ O :: post)))
    (htarget : ∀ im, O.loaded_idmap = some im →
      ∀ y ∈ processingOrder (pre ++ post), y.1.path ≠ im.target_apk_path)
    (hfresh : ∀ id ∈ runtimeIdsFrom (processingOrder (pre ++ post))
        (O.packages.map (fun p => (O, p))),
      id ∉ runtimeIdsFrom [] (processingOrder (pre ++ post)))
    (hlinks : ∀ g ∈ (SetApkAssets ops dops am (pre ++ post) inv f).package_groups_,
      ∀ link ∈ g.overlays_, ∀ e ∈ link.overlay_res_maps_.entries,
      ∀ id ∈ runtimeIdsFrom (processingOrder (pre ++ post)) (O.packages.map (fun p => (O, p))),
        e.2.refersTo id = false) :
    Simulates (runtimeIdsFrom (processingOrder (pre ++ post)) (O.packages.map (fun p => (O, p))))
      (shiftCookie pre.length) (SetApkAssets ops dops am (pre ++ O :: post) inv f)
      (SetApkAssets ops dops am (pre ++ post) inv f) := by
  have hord := processingOrder_insert pre post O hovl hpost
  rw [hord] at hwf
  have hwfA : RegistryBounds (processingOrder (pre ++ post)) := hwf.of_append
  obtain ⟨hWa, hWc, hWi, hWg⟩ := SetApkAssets_fields ops dops am (pre ++ O :: post) inv f
  obtain ⟨hVa, hVc, hVi, hVg⟩ := SetApkAssets_fields ops dops am (pre ++ post) inv f
  rw [hord] at hWi hWg
  have hren : buildState (apk_assets_cookies (pre ++ O :: post)) (processingOrder (pre ++ post)) =
      renameState (shiftCookie pre.length)
        (buildState (apk_assets_cookies (pre ++ post)) (processingOrder (pre ++ post))) := by
    apply buildState_rename
    intro x hx
    have hmem := mem_processingOrder _ x hx
    obtain ⟨c, hc⟩ := apk_assets_cookies_some (pre ++ post) x.1 hmem
    rw [apk_assets_cookies_insert pre O x.1.addr (haddr x.1 hmem) post, hc]
    rfl
  have hinvV := regInv_buildState (apk_assets_cookies (pre ++ post)) _ hwfA
  have hinvA := regInv_buildState (apk_assets_cookies (pre ++ O :: post)) _ hwfA
  have hpA := pathInv_buildState (apk_assets_cookies (pre ++ O :: post)) _ hwfA
  have happ := appended_buildState (apk_assets_cookies (pre ++ O :: post))
    (buildState (apk_assets_cookies (pre ++ O :: post)) (processingOrder (pre ++ post)))
    (runtimeIdsFrom (processingOrder (pre ++ post)) (O.packages.map (fun p => (O, p)))) O
    O.packages (processingOrder (pre ++ post)) hwf
    (appended_init hinvA hpA hwfA.2.2 _ O hfresh htarget) (fun id h => h)
  refine ⟨hWc.trans hVc.symm, ?_, ?_, ?_⟩
  · intro c
    unfold IsLoaderCookie
    rw [hWa, hVa, get?_insert]
  · intro p hp
    have hidW : (SetApkAssets ops dops am (pre ++ O :: post) inv f).package_ids_.getD p 0xff =
        (buildState (apk_assets_cookies (pre ++ post))
          (processingOrder (pre ++ post))).package_ids_.getD p 0xff := by
      rw [hWi, happ.ids_same p hp, hren]
      rfl
    have hidV : (SetApkAssets ops dops am (pre ++ post) inv f).package_ids_.getD p 0xff =
        (buildState (apk_assets_cookies (pre ++ post))
          (processingOrder (pre ++ post))).package_ids_.getD p 0xff := by
      rw [hVi]
    by_cases h0 : (buildState (apk_assets_cookies (pre ++ post))
        (processingOrder (pre ++ post))).package_ids_.getD p 0xff = 0xff
    · left
      unfold AssetManager2.groupOf
      rw [hidW, hidV, h0]
      exact ⟨rfl, rfl⟩
    · right
      obtain ⟨g, hg, -⟩ := hinvV.ids_group p (hinvV.lt_of_ne p h0) h0
      have hj := getElem?_some_lt hg
      have hgA : (buildState (apk_assets_cookies (pre ++ O :: post))
          (processingOrder (pre ++ post))).package_groups_[
            (buildState (apk_assets_cookies (pre ++ post))
              (processingOrder (pre ++ post))).package_ids_.getD p 0xff]? =
          some (renameGroup (shiftCookie pre.length) g) := by
        rw [hren]
        simp only [renameState, List.getElem?_map, hg, Option.map_some']
      have hgW := happ.old _ (getElem?_some_lt hgA)
      rw [hgA] at hgW
      have hW1 := congrArg (fun l => l[(buildState (apk_assets_cookies (pre ++ post))
          (processingOrder (pre ++ post))).package_ids_.getD p 0xff]?) hWg
      have hV1 := congrArg (fun l => l[(buildState (apk_assets_cookies (pre ++ post))
          (processingOrder (pre ++ post))).package_ids_.getD p 0xff]?) hVg
      simp only [List.getElem?_map, hgW, hg, Option.map_some'] at hW1 hV1
      have h0' : ((buildState (apk_assets_cookies (pre ++ post))
          (processingOrder (pre ++ post))).package_ids_.getD p 0xff == 0xff) = false := by
        simpa using h0
      cases hgw : (SetApkAssets ops dops am (pre ++ O :: post) inv f).package_groups_[
          (buildState (apk_assets_cookies (pre ++ post))
            (processingOrder (pre ++ post))).package_ids_.getD p 0xff]? with
      | none => rw [hgw] at hW1; simp at hW1
      | some gw =>
        cases hgv : (SetApkAssets ops dops am (pre ++ post) inv f).package_groups_[
            (buildState (apk_assets_cookies (pre ++ post))
              (processingOrder (pre ++ post))).package_ids_.getD p 0xff]? with
        | none => rw [hgv] at hV1; simp at hV1
        | some gv =>
          rw [hgw] at hW1
          rw [hgv] at hV1
          simp only [Option.map_some', Option.some.injEq, Prod.mk.injEq] at hW1 hV1
          obtain ⟨w1, w2, w3⟩ := hW1
          obtain ⟨v1, v2, v3⟩ := hV1
          refine ⟨gw, gv, ?_, ?_, ?_, ?_, ?_⟩
          · unfold AssetManager2.groupOf
            rw [hidW, h0', List.get?_eq_getElem?, hgw]
            rfl
          · unfold AssetManager2.groupOf
            rw [hidV, h0', List.get?_eq_getElem?, hgv]
            rfl
          · rw [w1, v1]
            rfl
          · rw [w2, v2]
            rfl
          · rw [w3, v3]
            simp [renameGroup]
  · intro p hp gv hgv link hl r r' hlk hin
    have hmem : gv ∈ (SetApkAssets ops dops am (pre ++ post) inv f).package_groups_ := by
      unfold AssetManager2.groupOf at hgv
      split at hgv
      · exact absurd hgv (by simp)
      · exact mem_of_get?_eq_some hgv
    have := hlinks gv hmem link hl (r, IdmapResult.resource r') (lookup_mem_entries _ _ _ hlk)
      _ hin
    simp [IdmapResult.refersTo] at this

/-! ## C20: an overlay without a loaded target -/

/-- C20, as amended (an overlay without a loaded target, processed last and with package ids
of its own, is inert).  Let the overlay bundle `O` be followed in the bundle list only by
bundles that are not overlays, so that it is processed last; let its declared target path be
the path of no bundle processed before it, let the runtime ids its packages receive be the
runtime ids of no package processed before it, and let no id-map of the engine without `O`
map a resource to one of these ids; let `O` be a different object from the other bundles and
let the registry stay within its 8-bit bounds.  Then for every resource id whose package id is
not one of the ids of `O`, `FindEntry` on the engine `SetApkAssets` builds from the list with
`O` and on the engine it builds from the list without `O` return the same outcome for every
call-depth budget: both run out of budget, or both miss, or both return the same value, winning
configuration, flags and names, with the cookie of the same bundle. -/
theorem SetApkAssets_untargeted_overlay_inert {κ : Type} (ops : ResTable_configOps κ)
    (dops : DynamicRefTableOps) (am : AssetManager2 κ) (pre post : List (ApkAssets κ))
    (O : ApkAssets κ) (im : LoadedIdmap) (invalidate_caches filter_incompatible_configs : Bool)
    (fuel resid density_override : Nat) (ignore_configuration : Bool) (lw lv : Resolution κ)
    (hov : O.loaded_idmap = some im) (hpost : ∀ a ∈ post, a.IsOverlay = false)
    (haddr : ∀ a ∈ pre ++ post, a.addr ≠ O.addr)
    (hwf : RegistryBounds (processingOrder (pre ++ O :: post)))
    (htarget : ∀ y ∈ processingOrder (pre ++ post), y.1.path ≠ im.target_apk_path)
    (hfresh : ∀ id ∈ runtimeIdsFrom (processingOrder (pre ++ post))
        (O.packages.map (fun p => (O, p))),
      id ∉ runtimeIdsFrom [] (processingOrder (pre ++ post)))
    (hlinks : ∀ g ∈ (SetApkAssets ops dops am (pre ++ post) invalidate_caches
        filter_incompatible_configs).package_groups_,
      ∀ link ∈ g.overlays_, ∀ e ∈ link.overlay_res_maps_.entries,
      ∀ id ∈ runtimeIdsFrom (processingOrder (pre ++ post)) (O.packages.map (fun p => (O, p))),
        e.2.refersTo id = false)
    (hres : get_package_id resid ∉
      runtimeIdsFrom (processingOrder (pre ++ post)) (O.packages.map (fun p => (O, p)))) :
    (FindEntry ops
        (SetApkAssets ops dops am (pre ++ O :: post) invalidate_caches
          filter_incompatible_configs)
        fuel resid density_override ignore_configuration lw).map (lookupView id) =
      (FindEntry ops
        (SetApkAssets ops dops am (pre ++ post) invalidate_caches filter_incompatible_configs)
        fuel resid density_override ignore_configuration lv).map
          (lookupView (shiftCookie pre.length)) :=
  FindEntry_sim ops _ (shiftCookie pre.length) _ _
    (Simulates.of_insert ops dops am pre post O invalidate_caches filter_incompatible_configs
      (by simp [ApkAssets.IsOverlay, hov]) hpost haddr hwf
      (fun im' him y hy => by
        rw [hov] at him
        simp only [Option.some.injEq] at him
        subst him
        exact htarget y hy)
      hfresh hlinks)
    fuel resid density_override ignore_configuration lw lv hres

theorem sampleBounds_stray :
    RegistryBounds (processingOrder
      ([sampleTargetApk, sampleOverlayApk] ++ sampleStrayApk :: [sampleApk])) := by
  refine ⟨by decide, by decide, by decide⟩

/-- Witness of C20 as amended: with the sample target, its overlay, the stray overlay and the
sample package, in this order, `string/1` of the target resolves, with and without the stray
overlay, to the value 301 its overlay gives it for locale 33 and density 240. -/
theorem SetApkAssets_untargeted_overlay_inert_witness :
    (FindEntry sampleOps
        (SetApkAssets sampleOps sampleRefOps
          (SetConfiguration sampleOps (AssetManager2.new sampleOps) ⟨33, 240⟩)
          ([sampleTargetApk, sampleOverlayApk] ++ sampleStrayApk :: [sampleApk]) true true)
        3 0x7f010001 0 false ResetResourceResolution).map (lookupView id) =
      (FindEntry sampleOps
        (SetApkAssets sampleOps sampleRefOps
          (SetConfiguration sampleOps (AssetManager2.new sampleOps) ⟨33, 240⟩)
          ([sampleTargetApk, sampleOverlayApk] ++ [sampleApk]) true true)
        3 0x7f010001 0 false ResetResourceResolution).map
          (lookupView (shiftCookie [sampleTargetApk, sampleOverlayApk].length)) ∧
    (FindEntry sampleOps
        (SetApkAssets sampleOps sampleRefOps
          (SetConfiguration sampleOps (AssetManager2.new sampleOps) ⟨33, 240⟩)
          ([sampleTargetApk, sampleOverlayApk] ++ [sampleApk]) true true)
        3 0x7f010001 0 false ResetResourceResolution).map
          (lookupView (shiftCookie [sampleTargetApk, sampleOverlayApk].length)) =
      some (some (1, EntryVariant.value ⟨TYPE_STRING, 301⟩, ⟨33, 240⟩, 0x0004, "target",
        ⟨["string"], 0⟩, ⟨["first", "second"], 1⟩)) :=
  ⟨SetApkAssets_untargeted_overlay_inert sampleOps sampleRefOps
      (SetConfiguration sampleOps (AssetManager2.new sampleOps) ⟨33, 240⟩)
      [sampleTargetApk, sampleOverlayApk] [sampleApk] sampleStrayApk sampleStrayIdmap true true
      3 0x7f010001 0 false ResetResourceResolution ResetResourceResolution rfl (by decide)
      (by decide) sampleBounds_stray (by decide) (by decide) (by decide) (by decide),
    by rfl⟩

/-- Counterexample to C20 as stated: the target path of the stray overlay is the path of no
bundle, and the overlay's dynamic package receives the runtime id 2, which the vendor package
declares.  For locale 33 the resource `0x02010000` of the vendor package resolves to the value
900 of the overlay's package when the overlay is in the bundle list, and to the value 500 of
the vendor package when it is removed. -/
theorem SetApkAssets_untargeted_overlay_counterexample :
    (∀ a ∈ [sampleVendorApk, sampleStrayApk], a.path ≠ sampleStrayIdmap.target_apk_path) ∧
    (FindEntry sampleOps
        (SetApkAssets sampleOps sampleRefOps
          (SetConfiguration sampleOps (AssetManager2.new sampleOps) ⟨33, 0⟩)
          [sampleVendorApk, sampleStrayApk] true true)
        2 0x02010000 0 false ResetResourceResolution).map
          (fun r => r.2.map (fun x => (x.2.entry, x.2.config, x.2.package_name))) =
      some (some (EntryVariant.value ⟨TYPE_STRING, 900⟩, ⟨33, 0⟩, "stray")) ∧
    (FindEntry sampleOps
        (SetApkAssets sampleOps sampleRefOps
          (SetConfiguration sampleOps (AssetManager2.new sampleOps) ⟨33, 0⟩)
          [sampleVendorApk] true true)
        2 0x02010000 0 false ResetResourceResolution).map
          (fun r => r.2.map (fun x => (x.2.entry, x.2.config, x.2.package_name))) =
      some (some (EntryVariant.value ⟨TYPE_STRING, 500⟩, ⟨0, 0⟩, "vendor")) := by
  decide

/-! ## C22: GetBag on a scalar -/

/-- C22, amended (`GetBag` on a scalar fails cleanly).  Let no bag be cached for `resid`, and
let `FindEntry` return for `resid` a miss or an entry that is a scalar value.  Then
`GetBag(resid)` returns, its result is no bag (`nullptr`), and the bag cache afterwards is the
bag cache before the call. -/
theorem GetBag_scalar_fails {κ : Type} (ops : ResTable_configOps κ) (dops : DynamicRefTableOps)
    (fuel : Nat) (am : AssetManager2 κ) (resid : Nat) (log : Resolution κ)
    (r : Option (Nat × FindEntryResult κ))
    (hcache : am.cached_bags_.lookup resid = none)
    (hfind : FindEntry ops am (fuel + 1) resid 0 false am.last_resolution_ = some (log, r))
    (hscalar : ∀ cookie entry, r = some (cookie, entry) →
      ∃ v, entry.entry = EntryVariant.value v) :
    ∃ am1, GetBag ops dops (fuel + 1) am resid = some (am1, none) ∧
      am1.cached_bags_ = am.cached_bags_ := by
  have hrec : GetBagRec ops dops (fuel + 1) am resid [] =
      some ({ am with last_resolution_ := log }, [], none) := by
    rw [GetBagRec]
    simp only [hcache, hfind]
    cases r with
    | none => rfl
    | some x =>
      obtain ⟨cookie, entry⟩ := x
      obtain ⟨v, hv⟩ := hscalar cookie entry rfl
      simp only [hv]
  unfold GetBag
  rw [hrec]
  simp only []
  cases am.cached_bag_resid_stacks_.lookup resid with
  | none => exact ⟨_, rfl, rfl⟩
  | some s => exact ⟨_, rfl, rfl⟩

/-- Witness of the amended C22: in `sampleEngine` no bag is cached and the identifier
`0x7f010000` is a string; `GetBag` returns no bag and leaves the bag cache as it was. -/
theorem GetBag_scalar_fails_witness :
    ∃ am1, GetBag sampleOps sampleRefOps 1 sampleEngine 0x7f010000 = some (am1, none) ∧
      am1.cached_bags_ = sampleEngine.cached_bags_ :=
  GetBag_scalar_fails sampleOps sampleRefOps 0 sampleEngine 0x7f010000
    sampleEngine.last_resolution_ (some (0, sampleResult)) (by rfl) (by rfl)
    (fun cookie entry h => by
      simp only [Option.some.injEq, Prod.mk.injEq] at h
      obtain ⟨-, rfl⟩ := h
      exact ⟨⟨TYPE_STRING, 200⟩, rfl⟩)

/-! ## C29: variance flags accumulate over all packages -/

theorem fastScan_type_flags {κ : Type} (ops : ResTable_configOps κ) (l : Bool) (d : κ) (e : Nat)
    (p : LoadedPackage κ) (c : Nat) (cands : List (κ × ResTable_type κ)) :
    ∀ st : ScanState κ, (fastScan ops l d e p c cands st).type_flags = st.type_flags := by
  induction cands with
  | nil => intro st; rfl
  | cons x rest ih =>
    intro st
    obtain ⟨cfg, ty⟩ := x
    simp only [fastScan]
    cases classifyCandidate ops d p.custom_loader cfg st.best with
    | none =>
      simp only []
      rw [ih]
      cases l <;> rfl
    | some rt =>
      simp only []
      by_cases ho : (GetEntryOffset ty e == NO_ENTRY) = true
      · simp only [ho, if_true]
        rw [ih]
        cases l <;> rfl
      · simp only [ho, Bool.false_eq_true, if_false]
        rw [ih]
        cases l <;> rfl

theorem slowScan_type_flags {κ : Type} (ops : ResTable_configOps κ) (l i : Bool) (d : κ)
    (e : Nat) (p : LoadedPackage κ) (c : Nat) (types : List (ResTable_type κ)) :
    ∀ st : ScanState κ, (slowScan ops l i d e p c types st).type_flags = st.type_flags := by
  induction types with
  | nil => intro st; rfl
  | cons ty rest ih =>
    intro st
    simp only [slowScan]
    cases i with
    | true =>
      simp only [Bool.not_true, Bool.false_eq_true, if_false, if_true]
      by_cases ho : (GetEntryOffset ty e == NO_ENTRY) = true
      · simp only [ho, if_true]
        exact ih _
      · simp only [ho]
        rfl
    | false =>
      simp only [Bool.not_false, Bool.false_eq_true, if_false, if_true]
      by_cases hm : ops.isMatch ty.config d = true
      · simp only [hm, Bool.not_true]
        cases hc : classifyCandidate ops d p.custom_loader ty.config st.best with
        | none => exact ih _
        | some rt =>
          simp only [Bool.false_eq_true, if_false]
          by_cases ho : (GetEntryOffset ty e == NO_ENTRY) = true
          · simp only [ho, if_true]
            rw [ih]
          · simp only [ho, Bool.false_eq_true, if_false]
            rw [ih]
            cases l <;> rfl
      · simp only [hm]
        exact ih _

theorem packageScan_type_flags {κ : Type} (ops : ResTable_configOps κ) (l i u : Bool) (d : κ)
    (ti e : Nat) (pkgs : List (ConfiguredPackage κ × Nat)) :
    ∀ st : ScanState κ,
      (packageScan ops l i u d ti e pkgs st).type_flags =
        (pkgs.map (fun x => x.1)).foldl
          (fun flags impl =>
            match impl.loaded_package_.GetTypeSpecByTypeIndex ti with
            | none => flags
            | some type_spec => flags ||| type_spec.GetFlagsForEntryIndex e)
          st.type_flags := by
  induction pkgs with
  | nil => intro st; rfl
  | cons x rest ih =>
    intro st
    obtain ⟨impl, c⟩ := x
    simp only [packageScan, List.map_cons, List.foldl_cons]
    cases hs : impl.loaded_package_.GetTypeSpecByTypeIndex ti with
    | none => exact ih _
    | some spec =>
      simp only []
      rw [ih]
      cases u with
      | true =>
        simp only [if_true]
        rw [fastScan_type_flags]
      | false =>
        simp only [Bool.false_eq_true, if_false]
        rw [slowScan_type_flags]

/-- C29 (variance flags accumulate over all packages).  In a package group whose vectors
`packages_` and `cookies_` have the same length, when `FindEntryInternal` succeeds the
`type_flags` of its result are the bitwise or, over every package of the group that has a type
spec for the type index, of that type spec's flags for the entry index: every such package
contributes, whichever package's candidate won, whether its configurations matched and
whether it has a live entry. -/
theorem FindEntryInternal_type_flags {κ : Type} (ops : ResTable_configOps κ)
    (am : AssetManager2 κ) (g : PackageGroup κ) (type_idx entry_idx : Nat)
    (desired_config : ConfigRef κ) (ignore_configuration : Bool) (log : Resolution κ)
    (cookie : Nat) (res : FindEntryResult κ)
    (hlen : g.packages_.length = g.cookies_.length)
    (h : (FindEntryInternal ops am g type_idx entry_idx desired_config ignore_configuration
      log).2 = some (cookie, res)) :
    res.type_flags = groupTypeFlags type_idx entry_idx g.packages_ := by
  have hmap : (g.packages_.zip g.cookies_).map (fun x => x.1) = g.packages_ := by
    have := List.map_fst_zip g.packages_ g.cookies_ (le_of_eq hlen)
    simpa using this
  have hflags := packageScan_type_flags ops am.resource_resolution_logging_enabled_
    ignore_configuration (!ignore_configuration && desired_config.isConfiguration_)
    (desired_config.deref am) type_idx entry_idx (g.packages_.zip g.cookies_)
    ⟨none, 0, StepType.NO_ENTRY, [], log.steps⟩
  rw [hmap] at hflags
  unfold FindEntryInternal at h
  simp only at h
  split at h
  · exact absurd h (by simp)
  · split at h
    · exact absurd h (by simp)
    · simp only [Option.some.injEq, Prod.mk.injEq] at h
      obtain ⟨-, rfl⟩ := h
      exact hflags

/-- Witness of C29: in `sampleMixedGroup` the request for locale 33 is won by the locale-33
entry of `samplePackage`; the density-240 entry of `sampleOverlayPackage` does not match, and
the flags returned are `0x0004 | 0x0100`. -/
theorem FindEntryInternal_type_flags_witness :
    (FindEntryInternal sampleOps sampleEngine sampleMixedGroup 0 0 (ConfigRef.other ⟨33, 0⟩)
        false sampleEngine.last_resolution_).2 =
      some (0, { sampleResult with
        type_flags := 0x0104, dynamic_ref_table := DynamicRefTable.new }) ∧
    (0x0104 : Nat) = groupTypeFlags 0 0 sampleMixedGroup.packages_ :=
  ⟨by rfl,
    FindEntryInternal_type_flags sampleOps sampleEngine sampleMixedGroup 0 0
      (ConfigRef.other ⟨33, 0⟩) false sampleEngine.last_resolution_ 0
      { sampleResult with type_flags := 0x0104, dynamic_ref_table := DynamicRefTable.new }
      (by rfl) (by rfl)⟩

/-! ## C30: loader tie-break -/

theorem tieWinner_nil {κ : Type} (best : Option (BestEntry κ)) : tieWinner best [] = best := by
  cases best <;> rfl

theorem slowScan_step {κ : Type} (ops : ResTable_configOps κ) (l : Bool) (d : κ) (e : Nat)
    (p : LoadedPackage κ) (c : Nat) (ty : ResTable_type κ) (rest : List (ResTable_type κ))
    (st : ScanState κ) :
    ∃ st1 : ScanState κ,
      slowScan ops l false d e p c (ty :: rest) st = slowScan ops l false d e p c rest st1 ∧
      st1.best =
        if isCandidateType ops false d e ty = true ∧
            classifyCandidate ops d p.custom_loader ty.config st.best ≠ none then
          some (candidateOf e p c ty)
        else st.best := by
  simp only [slowScan, Bool.not_false, Bool.false_eq_true, if_false, if_true,
    isCandidateType, Bool.false_or, Bool.and_eq_true, bne_iff_ne, ne_eq]
  by_cases hm : ops.isMatch ty.config d = true
  · simp only [hm, Bool.not_true, Bool.false_eq_true, if_false, true_and]
    cases hc : classifyCandidate ops d p.custom_loader ty.config st.best with
    | none => exact ⟨st, rfl, by simp⟩
    | some rt =>
      simp only []
      by_cases ho : (GetEntryOffset ty e == NO_ENTRY) = true
      · simp only [ho, if_true]
        have ho' : GetEntryOffset ty e = NO_ENTRY := by simpa using ho
        exact ⟨_, rfl, by simp [ho']⟩
      · simp only [ho, Bool.false_eq_true, if_false]
        have ho' : ¬ GetEntryOffset ty e = NO_ENTRY := by simpa using ho
        refine ⟨_, rfl, ?_⟩
        cases l <;> simp [ho', candidateOf]
  · simp only [hm, Bool.not_false, if_true, false_and, if_false]
    exact ⟨st, rfl, rfl⟩

theorem tieWinner_cons {κ : Type} (best : Option (BestEntry κ)) (x : BestEntry κ)
    (cs : List (BestEntry κ)) :
    tieWinner best (x :: cs) =
      tieWinner (if x.package.custom_loader = true then some x else
        match best with
        | some b => some b
        | none => some x) cs := by
  unfold tieWinner
  by_cases hx : x.package.custom_loader = true
  · simp only [List.filter_cons, hx, if_true]
    cases hF : (cs.filter (fun y => y.package.custom_loader)) with
    | nil => simp
    | cons y F =>
      rw [List.getLast?_cons_cons]
      cases hL : (y :: F).getLast? with
      | none => simp [List.getLast?_eq_none_iff] at hL
      | some z => rfl
  · simp only [List.filter_cons, hx, Bool.false_eq_true, if_false]
    cases (cs.filter (fun y => y.package.custom_loader)).getLast? with
    | some y => rfl
    | none => cases best <;> rfl

theorem tieWinner_append {κ : Type} (cs rest : List (BestEntry κ)) :
    ∀ best : Option (BestEntry κ),
      tieWinner (tieWinner best cs) rest = tieWinner best (cs ++ rest) := by
  induction cs with
  | nil => intro best; rw [tieWinner_nil]; rfl
  | cons x cs ih =>
    intro best
    rw [List.cons_append, tieWinner_cons, tieWinner_cons, ih]

theorem tieWinner_mem {κ : Type} (cs : List (BestEntry κ)) :
    ∀ (best : Option (BestEntry κ)) (w : BestEntry κ),
      tieWinner best cs = some w → best = some w ∨ w ∈ cs := by
  induction cs with
  | nil => intro best w h; rw [tieWinner_nil] at h; exact Or.inl h
  | cons x cs ih =>
    intro best w h
    rw [tieWinner_cons] at h
    rcases ih _ w h with h1 | h1
    · split at h1
      · simp only [Option.some.injEq] at h1
        exact Or.inr (by rw [← h1]; exact List.mem_cons_self _ _)
      · cases best with
        | none =>
          simp only [Option.some.injEq] at h1
          exact Or.inr (by rw [← h1]; exact List.mem_cons_self _ _)
        | some b => exact Or.inl h1
    · exact Or.inr (List.mem_cons_of_mem _ h1)

theorem classifyCandidate_tie {κ : Type} (ops : ResTable_configOps κ) (d c0 : κ)
    (hirr : ops.isBetterThan c0 c0 d = false) (hcmp : ops.compare c0 c0 = 0) (loader : Bool)
    (best : Option (BestEntry κ)) (hbest : ∀ b, best = some b → b.config = c0) :
    classifyCandidate ops d loader c0 best ≠ none ↔ (best = none ∨ loader = true) := by
  cases best with
  | none => simp [classifyCandidate]
  | some b =>
    have hb := hbest b rfl
    simp only [classifyCandidate, hb, hirr, hcmp, Bool.false_eq_true, if_false, beq_self_eq_true,
      Bool.and_true]
    cases loader <;> simp

theorem slowScan_tie {κ : Type} (ops : ResTable_configOps κ) (l : Bool) (d c0 : κ) (e : Nat)
    (hirr : ops.isBetterThan c0 c0 d = false) (hcmp : ops.compare c0 c0 = 0)
    (p : LoadedPackage κ) (c : Nat) (types : List (ResTable_type κ)) :
    ∀ st : ScanState κ,
      (∀ t ∈ types, isCandidateType ops false d e t = true → t.config = c0) →
      (∀ b, st.best = some b → b.config = c0) →
      (slowScan ops l false d e p c types st).best =
        tieWinner st.best
          ((types.filter (isCandidateType ops false d e)).map (candidateOf e p c)) := by
  induction types with
  | nil => intro st _ _; rw [List.filter_nil, List.map_nil, tieWinner_nil]; rfl
  | cons ty rest ih =>
    intro st hall hbest
    obtain ⟨st1, h1, h2⟩ := slowScan_step ops l d e p c ty rest st
    have hall' : ∀ t ∈ rest, isCandidateType ops false d e t = true → t.config = c0 :=
      fun t ht => hall t (List.mem_cons_of_mem _ ht)
    by_cases hc : isCandidateType ops false d e ty = true
    · have hcfg := hall ty (List.mem_cons_self _ _) hc
      have hcl := classifyCandidate_tie ops d c0 hirr hcmp p.custom_loader st.best hbest
      rw [hcfg] at h2
      have hbest1 : ∀ b, st1.best = some b → b.config = c0 := by
        intro b hb
        rw [h2] at hb
        split at hb
        · simp only [Option.some.injEq] at hb
          rw [← hb]
          exact hcfg
        · exact hbest b hb
      rw [h1, ih st1 hall' hbest1, List.filter_cons_of_pos hc, List.map_cons, tieWinner_cons, h2]
      congr 1
      by_cases hl : p.custom_loader = true
      · have : classifyCandidate ops d p.custom_loader c0 st.best ≠ none := hcl.2 (Or.inr hl)
        rw [if_pos ⟨hc, this⟩]
        simp [candidateOf, hl]
      · by_cases hb : st.best = none
        · have : classifyCandidate ops d p.custom_loader c0 st.best ≠ none :=
            hcl.2 (Or.inl hb)
          rw [if_pos ⟨hc, this⟩, hb]
          simp [candidateOf, hl]
        · obtain ⟨b, hb'⟩ := Option.ne_none_iff_exists'.1 hb
          have : ¬ classifyCandidate ops d p.custom_loader c0 st.best ≠ none := by
            rw [hcl]
            simp [hb, hl]
          rw [if_neg (fun h => this h.2), hb']
          simp [candidateOf, hl]
    · have hbest1 : ∀ b, st1.best = some b → b.config = c0 := by
        intro b hb
        rw [h2] at hb
        simp only [hc, false_and, if_false] at hb
        exact hbest b hb
      rw [h1, ih st1 hall' hbest1, List.filter_cons_of_neg hc, h2]
      simp [hc]

theorem packageScan_tie {κ : Type} (ops : ResTable_configOps κ) (l : Bool) (d c0 : κ)
    (ti e : Nat) (hirr : ops.isBetterThan c0 c0 d = false) (hcmp : ops.compare c0 c0 = 0)
    (pkgs : List (ConfiguredPackage κ × Nat)) :
    ∀ st : ScanState κ,
      (∀ x ∈ groupCandidates ops d ti e pkgs, x.config = c0) →
      (∀ b, st.best = some b → b.config = c0) →
      (packageScan ops l false false d ti e pkgs st).best =
        tieWinner st.best (groupCandidates ops d ti e pkgs) := by
  induction pkgs with
  | nil => intro st _ _; rw [groupCandidates, tieWinner_nil]; rfl
  | cons x rest ih =>
    intro st hall hbest
    obtain ⟨impl, c⟩ := x
    simp only [packageScan, groupCandidates] at hall ⊢
    cases hs : impl.loaded_package_.GetTypeSpecByTypeIndex ti with
    | none =>
      rw [hs] at hall
      simp only [List.nil_append] at hall ⊢
      exact ih st hall hbest
    | some spec =>
      rw [hs] at hall
      simp only [Bool.false_eq_true, if_false] at hall ⊢
      have hS := slowScan_tie ops l d c0 e hirr hcmp impl.loaded_package_ c spec.types
        { st with type_flags := st.type_flags ||| spec.GetFlagsForEntryIndex e }
        (fun t ht hc => hall _ (List.mem_append_left _
          (List.mem_map_of_mem _ (List.mem_filter.2 ⟨ht, hc⟩))))
        hbest
      rw [ih _ (fun y hy => hall y (List.mem_append_right _ hy)) ?_, hS, tieWinner_append]
      intro b hb
      rw [hS] at hb
      rcases tieWinner_mem _ _ b hb with h1 | h1
      · exact hbest b h1
      · exact hall b (List.mem_append_left _ h1)

theorem FindEntryInternal_of_best {κ : Type} (ops : ResTable_configOps κ)
    (am : AssetManager2 κ) (g : PackageGroup κ) (ti e : Nat) (desired_config : ConfigRef κ)
    (i : Bool) (log : Resolution κ) :
    (FindEntryInternal ops am g ti e desired_config i log).2.map
        (fun r => (r.1, r.2.entry, r.2.config, r.2.package_name)) =
      (packageScan ops am.resource_resolution_logging_enabled_ i
          (!i && desired_config.isConfiguration_) (desired_config.deref am) ti e
          (g.packages_.zip g.cookies_) ⟨none, 0, StepType.NO_ENTRY, [], log.steps⟩).best.bind
        (fun w => (GetEntryFromOffset w.type w.offset).map
          (fun be => (w.cookie, decodeEntry be, w.config, w.package.package_name))) := by
  simp only [FindEntryInternal]
  cases (packageScan ops am.resource_resolution_logging_enabled_ i
      (!i && desired_config.isConfiguration_) (desired_config.deref am) ti e
      (g.packages_.zip g.cookies_) ⟨none, 0, StepType.NO_ENTRY, [], log.steps⟩).best with
  | none => rfl
  | some b =>
    simp only [Option.some_bind]
    cases GetEntryFromOffset b.type b.offset <;> rfl

/-- C30 (loader tie-break).  In the scan of `FindEntryInternal`, on the slow path and on the
fast path, a candidate with a live entry that meets an incumbent replaces it exactly when its
configuration `isBetterThan` the incumbent's, or when its package is a custom loader and its
configuration compares equal to the incumbent's; a candidate of a package that is not a custom
loader thus replaces the incumbent only if it is better.  Hence, when all candidates of a
lookup offer one and the same configuration `c0` (which is not better than itself and compares
equal to itself), the lookup returns the last candidate of a custom-loader package if the
group has one, whatever was loaded before it, and otherwise the first candidate in load
order.  On the fast path the filtered lists are assumed to be the ones `RebuildFilterList`
computes for the current configuration. -/
theorem FindEntryInternal_loader_tie_break {κ : Type} (ops : ResTable_configOps κ)
    (am : AssetManager2 κ) (g : PackageGroup κ) (type_idx entry_idx : Nat)
    (desired_config : ConfigRef κ) (log : Resolution κ) (c0 : κ)
    (hfast : desired_config.isConfiguration_ = true →
      FiltersRebuilt ops am ∧ g ∈ am.package_groups_)
    (hirr : ops.isBetterThan c0 c0 (desired_config.deref am) = false)
    (hcmp : ops.compare c0 c0 = 0)
    (heq : ∀ x ∈ groupCandidates ops (desired_config.deref am) type_idx entry_idx
      (g.packages_.zip g.cookies_), x.config = c0) :
    (∀ (l : Bool) (d : κ) (p : LoadedPackage κ) (c : Nat) (ty : ResTable_type κ)
        (st : ScanState κ) (b : BestEntry κ), st.best = some b →
        isCandidateType ops false d entry_idx ty = true →
        (slowScan ops l false d entry_idx p c [ty] st).best =
          if ops.isBetterThan ty.config b.config d = true ∨
              (p.custom_loader = true ∧ ops.compare ty.config b.config = 0) then
            some (candidateOf entry_idx p c ty)
          else some b) ∧
    (∀ (l : Bool) (d : κ) (p : LoadedPackage κ) (c : Nat) (ty : ResTable_type κ)
        (st : ScanState κ) (b : BestEntry κ), st.best = some b →
        GetEntryOffset ty entry_idx ≠ NO_ENTRY →
        (fastScan ops l d entry_idx p c [(ty.config, ty)] st).best =
          if ops.isBetterThan ty.config b.config d = true ∨
              (p.custom_loader = true ∧ ops.compare ty.config b.config = 0) then
            some (candidateOf entry_idx p c ty)
          else some b) ∧
    (FindEntryInternal ops am g type_idx entry_idx desired_config false log).2.map
        (fun r => (r.1, r.2.entry, r.2.config, r.2.package_name)) =
      (tieWinner none (groupCandidates ops (desired_config.deref am) type_idx entry_idx
          (g.packages_.zip g.cookies_))).bind
        (fun w => (GetEntryFromOffset w.type w.offset).map
          (fun be => (w.cookie, decodeEntry be, w.config, w.package.package_name))) := by
  refine ⟨?_, ?_, ?_⟩
  · intro l d p c ty st b hb hc
    obtain ⟨st1, h1, h2⟩ := slowScan_step ops l d entry_idx p c ty [] st
    rw [h1]
    simp only [slowScan]
    rw [h2, hb]
    by_cases h : ops.isBetterThan ty.config b.config d = true
    · simp [classifyCandidate, hc, h]
    · by_cases hl : p.custom_loader = true
      · by_cases hz : ops.compare ty.config b.config = 0
        · simp [classifyCandidate, hc, h, hl, hz]
        · simp [classifyCandidate, hc, h, hl, hz]
      · simp [classifyCandidate, hc, h, hl]
  · intro l d p c ty st b hb ho
    have ho' : (GetEntryOffset ty entry_idx == NO_ENTRY) = false := by simpa using ho
    simp only [fastScan, hb, classifyCandidate]
    by_cases h : ops.isBetterThan ty.config b.config d = true
    · simp only [h, if_true, ho', Bool.false_eq_true, if_false, true_or]
      cases l <;> simp [hb, candidateOf]
    · by_cases hl : p.custom_loader = true
      · by_cases hz : ops.compare ty.config b.config = 0
        · simp only [h, hl, hz, Bool.false_eq_true, if_false, if_true, ho', Bool.true_and,
            beq_self_eq_true, and_self, or_true]
          cases l <;> simp [hb, candidateOf]
        · have hz' : (ops.compare ty.config b.config == 0) = false := by simpa using hz
          simp only [h, hl, hz, hz', Bool.false_eq_true, if_false, Bool.and_false, and_false,
            or_false]
          cases l <;> simp [hb, candidateOf]
      · have hl' : p.custom_loader = false := by simpa using hl
        simp only [h, hl', Bool.false_eq_true, if_false, Bool.false_and, false_and, or_false]
        cases l <;> simp [hb, candidateOf]
  · rw [FindEntryInternal_of_best]
    have hslow := packageScan_tie ops am.resource_resolution_logging_enabled_
      (desired_config.deref am) c0 type_idx entry_idx hirr hcmp (g.packages_.zip g.cookies_)
      ⟨none, 0, StepType.NO_ENTRY, [], log.steps⟩ heq (fun b hb => by simp at hb)
    cases hconf : desired_config.isConfiguration_ with
    | false =>
      simp only [Bool.not_false, Bool.true_and]
      rw [hslow]
    | true =>
      obtain ⟨hfilters, hg⟩ := hfast hconf
      have hd : desired_config.deref am = am.configuration_ := by
        cases desired_config with
        | configuration_ => rfl
        | other c => simp [ConfigRef.isConfiguration_] at hconf
      have hcons : ∀ x ∈ g.packages_.zip g.cookies_,
          x.1.filtered_configs_ =
            filterPackage ops (desired_config.deref am) true x.1.loaded_package_ := by
        intro x hx
        rw [hd]
        exact hfilters g hg x.1 (List.of_mem_zip hx).1
      have hag := packageScan_fast_slow_agree ops am.resource_resolution_logging_enabled_
        am.resource_resolution_logging_enabled_ (desired_config.deref am) type_idx entry_idx
        (g.packages_.zip g.cookies_) hcons ⟨none, 0, StepType.NO_ENTRY, [], log.steps⟩
        ⟨none, 0, StepType.NO_ENTRY, [], log.steps⟩ ⟨rfl, rfl⟩
      simp only [Bool.not_false, Bool.true_and]
      rw [hag.1, hslow]

/-- Witness of C30: in `sampleLoaderGroup` the three packages offer `string/0` for locale 33;
the lookup returns the entry of the custom-loader package (cookie 1, value 700), which was
loaded after the target package and before the stray package. -/
theorem FindEntryInternal_loader_tie_break_witness :
    (FindEntryInternal sampleOps sampleEngine sampleLoaderGroup 0 0 (ConfigRef.other ⟨33, 0⟩)
          false sampleEngine.last_resolution_).2.map
        (fun r => (r.1, r.2.entry, r.2.config, r.2.package_name)) =
      (tieWinner none (groupCandidates sampleOps
          ((ConfigRef.other ⟨33, 0⟩ : ConfigRef SampleConfig).deref sampleEngine) 0 0
          (sampleLoaderGroup.packages_.zip sampleLoaderGroup.cookies_))).bind
        (fun w => (GetEntryFromOffset w.type w.offset).map
          (fun be => (w.cookie, decodeEntry be, w.config, w.package.package_name))) ∧
    (FindEntryInternal sampleOps sampleEngine sampleLoaderGroup 0 0 (ConfigRef.other ⟨33, 0⟩)
          false sampleEngine.last_resolution_).2.map
        (fun r => (r.1, r.2.entry, r.2.config, r.2.package_name)) =
      some (1, EntryVariant.value ⟨TYPE_STRING, 700⟩, ⟨33, 0⟩, "loader") :=
  ⟨(FindEntryInternal_loader_tie_break sampleOps sampleEngine sampleLoaderGroup 0 0
      (ConfigRef.other ⟨33, 0⟩) sampleEngine.last_resolution_ ⟨33, 0⟩
      (fun h => absurd h (by decide)) (by decide) (by decide) (by decide)).2.2,
    by rfl⟩

/-! ## C28: bag flag mask -/

theorem and_or_self_right (p e : Nat) : p &&& (e ||| p) = p := by
  apply Nat.eq_of_testBit_eq
  intro i
  rw [Nat.testBit_and, Nat.testBit_or]
  cases p.testBit i <;> cases e.testBit i <;> rfl

theorem and_or_ne_zero (diff e p : Nat) (h : diff &&& p ≠ 0) : diff &&& (e ||| p) ≠ 0 := by
  intro h0
  apply h
  apply Nat.eq_of_testBit_eq
  intro i
  have := congrArg (fun n => n.testBit i) h0
  simp only [Nat.testBit_and, Nat.testBit_or, Nat.zero_testBit] at this ⊢
  revert this
  cases diff.testBit i <;> cases e.testBit i <;> cases p.testBit i <;> simp

theorem InvalidateCaches_evicts_superset {κ : Type} (am : AssetManager2 κ) (diff : Nat)
    (rp rc : Nat) (parent_bag bag : ResolvedBag) (e : Nat)
    (hflags : bag.type_spec_flags = e ||| parent_bag.type_spec_flags)
    (hin : (rp, parent_bag) ∈ am.cached_bags_)
    (hout : (rp, parent_bag) ∉ (InvalidateCaches am diff).cached_bags_) :
    (rc, bag) ∉ (InvalidateCaches am diff).cached_bags_ := by
  simp only [InvalidateCaches] at hout ⊢
  by_cases hd : (diff == 0xffffffff) = true
  · simp only [hd, if_true]
    exact List.not_mem_nil _
  · simp only [hd, Bool.false_eq_true, if_false] at hout ⊢
    rw [purgeBags_eq_filter] at hout ⊢
    intro hc
    have hc2 := (List.mem_filter.1 hc).2
    apply hout
    refine List.mem_filter.2 ⟨hin, ?_⟩
    simp only [beq_iff_eq] at hc2 ⊢
    by_contra hne
    exact and_or_ne_zero diff e parent_bag.type_spec_flags hne (hflags ▸ hc2)

/-- C28 (bag flag mask).  Let a bag `resid` that is not cached resolve to a complex entry and
let `GetBag` return the bag `bag` for it.  When the entry declares no parent, or its parent is
on the visited chain, the flag mask of `bag` is the variance flags of the resolved entry.
Otherwise the recursive call for the parent returned a bag `parent_bag`, and the flag mask of
`bag` is the entry's flags or-ed with the flag mask of `parent_bag`: it contains the parent's
mask, and every `InvalidateCaches(diff)` that evicts `parent_bag` from a bag cache evicts `bag`
from it as well. -/
theorem GetBag_flag_mask {κ : Type} (ops : ResTable_configOps κ) (dops : DynamicRefTableOps)
    (fuel : Nat) (am : AssetManager2 κ) (resid : Nat) (child_resids : List Nat)
    (log : Resolution κ) (cookie : Nat) (entry : FindEntryResult κ) (map : ResTable_entry)
    (bag : ResolvedBag)
    (hcache : am.cached_bags_.lookup resid = none)
    (hfind : FindEntry ops am (fuel + 1) resid 0 false am.last_resolution_ =
      some (log, some (cookie, entry)))
    (hmap : entry.entry = EntryVariant.map_entry map)
    (hres : (GetBagRec ops dops (fuel + 1) am resid child_resids).map (fun r => r.2.2) =
      some (some bag)) :
    ((map.parent = 0 ∨ map.parent ∈ child_resids ++ [resid]) →
      bag.type_spec_flags = entry.type_flags) ∧
    (map.parent ≠ 0 → map.parent ∉ child_resids ++ [resid] →
      ∃ am2 child_resids2 parent_bag,
        GetBagRec ops dops fuel { am with last_resolution_ := log }
            ((dops.lookupResourceId entry.dynamic_ref_table map.parent).getD map.parent)
            (child_resids ++ [resid]) = some (am2, child_resids2, some parent_bag) ∧
          bag.type_spec_flags = entry.type_flags ||| parent_bag.type_spec_flags ∧
          parent_bag.type_spec_flags &&& bag.type_spec_flags = parent_bag.type_spec_flags ∧
          ∀ (am' : AssetManager2 κ) (diff rp rc : Nat), (rp, parent_bag) ∈ am'.cached_bags_ →
            (rp, parent_bag) ∉ (InvalidateCaches am' diff).cached_bags_ →
              (rc, bag) ∉ (InvalidateCaches am' diff).cached_bags_) := by
  rw [GetBagRec] at hres
  simp only [hcache, hfind, hmap] at hres
  constructor
  · intro hp
    have hnc : (map.parent == 0 || (child_resids ++ [resid]).contains map.parent) = true := by
      rcases hp with h | h
      · simp [h]
      · simp only [Bool.or_eq_true]
        right
        simpa using h
    simp only [hnc, if_true] at hres
    cases hcopy : copyEntries dops entry.dynamic_ref_table cookie resid map.maps [] false with
    | none => rw [hcopy] at hres; simp at hres
    | some w =>
      rw [hcopy] at hres
      simp only [Option.map_some', Option.some.injEq] at hres
      rw [← hres]
  · intro hp0 hpc
    have hnc : (map.parent == 0 || (child_resids ++ [resid]).contains map.parent) = false := by
      simp only [Bool.or_eq_false_iff, beq_eq_false_iff_ne, ne_eq]
      refine ⟨hp0, ?_⟩
      rw [Bool.eq_false_iff]
      intro hcon
      exact hpc (by simpa using hcon)
    simp only [hnc, Bool.false_eq_true, if_false] at hres
    cases hrec : GetBagRec ops dops fuel { am with last_resolution_ := log }
        ((dops.lookupResourceId entry.dynamic_ref_table map.parent).getD map.parent)
        (child_resids ++ [resid]) with
    | none => rw [hrec] at hres; simp at hres
    | some x =>
      obtain ⟨am2, cr2, pb⟩ := x
      rw [hrec] at hres
      cases pb with
      | none => simp at hres
      | some parent_bag =>
        simp only at hres
        cases hme : mergeEntries dops entry.dynamic_ref_table cookie resid map.maps
            parent_bag.entries with
        | none => rw [hme] at hres; simp at hres
        | some entries =>
          rw [hme] at hres
          simp only [Option.map_some', Option.some.injEq] at hres
          have hflags : bag.type_spec_flags =
              entry.type_flags ||| parent_bag.type_spec_flags := by rw [← hres]
          refine ⟨am2, cr2, parent_bag, rfl, hflags, ?_, ?_⟩
          · rw [hflags]
            exact and_or_self_right _ _
          · intro am' diff rp rc hin hout
            exact InvalidateCaches_evicts_superset am' diff rp rc parent_bag bag
              entry.type_flags hflags hin hout

/-- Witness of C28: the child style `0x7f020001` of `sampleStylePackage` varies with the
density (flags `0x0100`), its parent `0x7f020000` with the locale (flags `0x0004`); the bag of
the child has the mask `0x0104`. -/
theorem GetBag_flag_mask_witness :
    ∃ am2 child_resids2 parent_bag,
      GetBagRec sampleOps sampleRefOps 1
          { sampleStyleEngine with last_resolution_ := sampleStyleEngine.last_resolution_ }
          ((sampleRefOps.lookupResourceId sampleChildEntry.dynamic_ref_table
            0x7f020000).getD 0x7f020000)
          ([] ++ [0x7f020001]) = some (am2, child_resids2, some parent_bag) ∧
        (0x0104 : Nat) = sampleChildEntry.type_flags ||| parent_bag.type_spec_flags ∧
        parent_bag.type_spec_flags &&& 0x0104 = parent_bag.type_spec_flags ∧
        ∀ (am' : AssetManager2 SampleConfig) (diff rp rc : Nat),
          (rp, parent_bag) ∈ am'.cached_bags_ →
          (rp, parent_bag) ∉ (InvalidateCaches am' diff).cached_bags_ →
            (rc, (⟨0x0104,
              [⟨0x7f010001, ⟨16, 11⟩, 0, 0x7f020000⟩, ⟨0x7f010002, ⟨16, 22⟩, 0, 0x7f020001⟩,
                ⟨0x7f010003, ⟨16, 23⟩, 0, 0x7f020001⟩,
                ⟨0x7f010005, ⟨16, 15⟩, 0, 0x7f020000⟩]⟩ : ResolvedBag)) ∉
              (InvalidateCaches am' diff).cached_bags_ :=
  (GetBag_flag_mask sampleOps sampleRefOps 1 sampleStyleEngine 0x7f020001 []
    sampleStyleEngine.last_resolution_ 0 sampleChildEntry
    (sampleStyle 1 0x7f020000 [⟨0x7f010002, ⟨16, 22⟩⟩, ⟨0x7f010003, ⟨16, 23⟩⟩])
    ⟨0x0104,
      [⟨0x7f010001, ⟨16, 11⟩, 0, 0x7f020000⟩, ⟨0x7f010002, ⟨16, 22⟩, 0, 0x7f020001⟩,
        ⟨0x7f010003, ⟨16, 23⟩, 0, 0x7f020001⟩, ⟨0x7f010005, ⟨16, 15⟩, 0, 0x7f020000⟩]⟩
    (by rfl) (by rfl) (by rfl) (by rfl)).2 (by decide) (by decide)

/-! ## C27: every bag is sorted -/

theorem keysSorted_snoc {written : List BagEntry} {x : BagEntry} (h : KeysSorted written)
    (ho : outOfOrder written x = false) : KeysSorted (written ++ [x]) := by
  unfold KeysSorted
  rw [List.pairwise_append]
  refine ⟨h, List.pairwise_singleton _ _, ?_⟩
  intro w hw b hb
  simp only [List.mem_singleton] at hb
  subst hb
  unfold outOfOrder at ho
  cases hl : written.getLast? with
  | none =>
    rw [List.getLast?_eq_none_iff] at hl
    rw [hl] at hw
    simp at hw
  | some prev =>
    rw [hl] at ho
    simp only [decide_eq_false_iff_not, not_lt] at ho
    exact le_trans (h.le_getLast hl w hw) ho

theorem copyEntries_sorted (dops : DynamicRefTableOps) (table : DynamicRefTable)
    (cookie resid : Nat) (maps : List ResTable_map) :
    ∀ (written : List BagEntry) (s : Bool) (w' : List BagEntry) (s' : Bool),
      copyEntries dops table cookie resid maps written s = some (w', s') →
      (s = false → KeysSorted written) → (s' = false → KeysSorted w') := by
  induction maps with
  | nil =>
    intro written s w' s' h hs
    simp only [copyEntries, Option.some.injEq, Prod.mk.injEq] at h
    obtain ⟨rfl, rfl⟩ := h
    exact hs
  | cons m rest ih =>
    intro written s w' s' h hs
    simp only [copyEntries] at h
    cases hk : rewriteKey dops table m.name with
    | none => rw [hk] at h; simp at h
    | some key =>
      rw [hk] at h
      simp only at h
      cases hv : dops.lookupResourceValue table m.value with
      | none => rw [hv] at h; simp at h
      | some value =>
        rw [hv] at h
        simp only at h
        refine ih _ _ w' s' h ?_
        intro hf
        simp only [Bool.or_eq_false_iff] at hf
        exact keysSorted_snoc (hs hf.1) hf.2

theorem mergeLoop_sorted (dops : DynamicRefTableOps) (table : DynamicRefTable)
    (cookie resid : Nat) (n : Nat) :
    ∀ (maps : List ResTable_map) (parents written : List BagEntry) (s : Bool)
      (maps1 : List ResTable_map) (parents1 w1 : List BagEntry) (s1 : Bool),
      mergeLoop dops table cookie resid n maps parents written s =
        some (maps1, parents1, w1, s1) →
      KeysSorted parents → (s = false → KeysSorted written) →
      (∀ w ∈ written, ∀ q ∈ parents, w.key ≤ q.key) →
      KeysSorted parents1 ∧ (s1 = false → KeysSorted w1) ∧
        (∀ w ∈ w1, ∀ q ∈ parents1, w.key ≤ q.key) ∧
        (maps.length + parents.length ≤ n → maps1 = [] ∨ parents1 = []) := by
  induction n with
  | zero =>
    intro maps parents written s maps1 parents1 w1 s1 h hp hs hb
    simp only [mergeLoop, Option.some.injEq, Prod.mk.injEq] at h
    obtain ⟨rfl, rfl, rfl, rfl⟩ := h
    refine ⟨hp, hs, hb, ?_⟩
    intro hlen
    left
    exact List.length_eq_zero.1 (by omega)
  | succ n ih =>
    intro maps parents written s maps1 parents1 w1 s1 h hp hs hb
    cases maps with
    | nil =>
      simp only [mergeLoop, Option.some.injEq, Prod.mk.injEq] at h
      obtain ⟨rfl, rfl, rfl, rfl⟩ := h
      exact ⟨hp, hs, hb, fun _ => Or.inl rfl⟩
    | cons m maps =>
      cases parents with
      | nil =>
        simp only [mergeLoop, Option.some.injEq, Prod.mk.injEq] at h
        obtain ⟨rfl, rfl, rfl, rfl⟩ := h
        exact ⟨hp, hs, hb, fun _ => Or.inr rfl⟩
      | cons p parents =>
        simp only [mergeLoop] at h
        have hp2 : KeysSorted parents := (List.pairwise_cons.1 hp).2
        have hple : ∀ q ∈ parents, p.key ≤ q.key := (List.pairwise_cons.1 hp).1
        cases hk : rewriteKey dops table m.name with
        | none => rw [hk] at h; simp at h
        | some child_key =>
          rw [hk] at h
          simp only at h
          by_cases hle : child_key ≤ p.key
          · simp only [hle, if_true] at h
            cases hv : dops.lookupResourceValue table m.value with
            | none => rw [hv] at h; simp at h
            | some value =>
              rw [hv] at h
              simp only at h
              by_cases hge : child_key ≥ p.key
              · simp only [hge, if_true] at h
                have hkey : child_key = p.key := le_antisymm hle hge
                obtain ⟨r1, r2, r3, r4⟩ := ih maps parents _ _ maps1 parents1 w1 s1 h hp2
                  (fun hf => by
                    simp only [Bool.or_eq_false_iff] at hf
                    exact keysSorted_snoc (hs hf.1) hf.2)
                  (fun w hw q hq => by
                    rcases List.mem_append.1 hw with hw | hw
                    · exact hb w hw q (List.mem_cons_of_mem _ hq)
                    · simp only [List.mem_singleton] at hw
                      subst hw
                      simp only [hkey]
                      exact hple q hq)
                refine ⟨r1, r2, r3, fun hlen => r4 ?_⟩
                simp only [List.length_cons] at hlen
                omega
              · simp only [hge, if_false] at h
                obtain ⟨r1, r2, r3, r4⟩ := ih maps (p :: parents) _ _ maps1 parents1 w1 s1 h hp
                  (fun hf => by
                    simp only [Bool.or_eq_false_iff] at hf
                    exact keysSorted_snoc (hs hf.1) hf.2)
                  (fun w hw q hq => by
                    rcases List.mem_append.1 hw with hw | hw
                    · exact hb w hw q hq
                    · simp only [List.mem_singleton] at hw
                      subst hw
                      simp only
                      rcases List.mem_cons.1 hq with rfl | hq
                      · exact hle
                      · exact le_trans hle (hple q hq))
                refine ⟨r1, r2, r3, fun hlen => r4 ?_⟩
                simp only [List.length_cons] at hlen ⊢
                omega
          · simp only [hle, if_false] at h
            have hge : child_key ≥ p.key := by omega
            simp only [hge, if_true] at h
            obtain ⟨r1, r2, r3, r4⟩ := ih (m :: maps) parents _ _ maps1 parents1 w1 s1 h hp2
              (fun hf => by
                simp only [Bool.or_eq_false_iff] at hf
                exact keysSorted_snoc (hs hf.1) hf.2)
              (fun w hw q hq => by
                rcases List.mem_append.1 hw with hw | hw
                · exact hb w hw q (List.mem_cons_of_mem _ hq)
                · simp only [List.mem_singleton] at hw
                  subst hw
                  exact hple q hq)
            refine ⟨r1, r2, r3, fun hlen => r4 ?_⟩
            simp only [List.length_cons] at hlen ⊢
            omega

theorem mergeEntries_sorted (dops : DynamicRefTableOps) (table : DynamicRefTable)
    (cookie resid : Nat) (maps : List ResTable_map) (parents entries : List BagEntry)
    (h : mergeEntries dops table cookie resid maps parents = some entries)
    (hp : KeysSorted parents) : KeysSorted entries := by
  unfold mergeEntries at h
  cases hm : mergeLoop dops table cookie resid (maps.length + parents.length) maps parents []
      false with
  | none => rw [hm] at h; simp at h
  | some x =>
    obtain ⟨maps1, parents1, w1, s1⟩ := x
    rw [hm] at h
    simp only at h
    obtain ⟨r1, r2, r3, r4⟩ := mergeLoop_sorted dops table cookie resid _ maps parents [] false
      maps1 parents1 w1 s1 hm hp (fun _ => List.Pairwise.nil) (fun w hw => by simp at hw)
    cases hc : copyEntries dops table cookie resid maps1 w1 s1 with
    | none => rw [hc] at h; simp at h
    | some y =>
      obtain ⟨w2, s2⟩ := y
      rw [hc] at h
      simp only [Option.some.injEq] at h
      cases s2 with
      | true =>
        simp only [if_true] at h
        rw [← h]
        exact sortEntries_sorted _
      | false =>
        simp only [Bool.false_eq_true, if_false] at h
        rw [← h]
        have hw2 := copyEntries_sorted dops table cookie resid maps1 w1 s1 w2 false hc r2 rfl
        rcases r4 (le_refl _) with hnil | hnil
        · subst hnil
          simp only [copyEntries, Option.some.injEq, Prod.mk.injEq] at hc
          obtain ⟨rfl, rfl⟩ := hc
          unfold KeysSorted
          rw [List.pairwise_append]
          exact ⟨hw2, r1, r3⟩
        · subst hnil
          simpa using hw2

theorem lookup_mem_bags (l : List (Nat × ResolvedBag)) (k : Nat) (b : ResolvedBag)
    (h : l.lookup k = some b) : (k, b) ∈ l := by
  induction l with
  | nil => simp at h
  | cons e rest ih =>
    obtain ⟨k', v⟩ := e
    rw [List.lookup_cons] at h
    by_cases hk : k = k'
    · have : (k == k') = true := by simpa using hk
      rw [this] at h
      simp only [Option.some.injEq] at h
      subst hk; subst h
      exact List.mem_cons_self _ _
    · have : (k == k') = false := by simpa using hk
      rw [this] at h
      exact List.mem_cons_of_mem _ (ih h)

theorem cacheSorted_cacheBag {κ : Type} {am : AssetManager2 κ} (h : CacheSorted am)
    (resid : Nat) (bag : ResolvedBag) (hb : KeysSorted bag.entries) :
    CacheSorted { am with cached_bags_ := cacheBag am.cached_bags_ resid bag } := by
  intro e he
  have he' : e = (resid, bag) ∨ e ∈ am.cached_bags_.filter (fun x => x.1 != resid) :=
    List.mem_cons.1 he
  cases he' with
  | inl h1 =>
    rw [h1]
    exact hb
  | inr h1 => exact h e (List.mem_filter.1 h1).1

theorem GetBagRec_sorted {κ : Type} (ops : ResTable_configOps κ) (dops : DynamicRefTableOps)
    (fuel : Nat) :
    ∀ (am : AssetManager2 κ) (resid : Nat) (child_resids : List Nat) (r : BagResult κ),
      GetBagRec ops dops fuel am resid child_resids = some r → CacheSorted am →
      CacheSorted r.1 ∧ ∀ bag, r.2.2 = some bag → KeysSorted bag.entries := by
  induction fuel with
  | zero => intro am resid cr r h; simp [GetBagRec] at h
  | succ n ih =>
    intro am resid cr r h hc
    rw [GetBagRec] at h
    cases hl : am.cached_bags_.lookup resid with
    | some bag =>
      rw [hl] at h
      simp only [Option.some.injEq] at h
      subst h
      exact ⟨hc, fun b hb => by
        simp only [Option.some.injEq] at hb
        subst hb
        exact hc _ (lookup_mem_bags _ _ _ hl)⟩
    | none =>
      rw [hl] at h
      simp only at h
      cases hf : FindEntry ops am (n + 1) resid 0 false am.last_resolution_ with
      | none => rw [hf] at h; simp at h
      | some x =>
        obtain ⟨log, res⟩ := x
        rw [hf] at h
        have hc1 : CacheSorted { am with last_resolution_ := log } := hc
        cases res with
        | none =>
          simp only [Option.some.injEq] at h
          subst h
          exact ⟨hc1, fun b hb => by simp at hb⟩
        | some ce =>
          obtain ⟨cookie, entry⟩ := ce
          simp only at h
          cases he : entry.entry with
          | value v =>
            rw [he] at h
            simp only [Option.some.injEq] at h
            subst h
            exact ⟨hc1, fun b hb => by simp at hb⟩
          | map_entry map =>
            rw [he] at h
            simp only at h
            split at h
            · cases hcopy : copyEntries dops entry.dynamic_ref_table cookie resid map.maps []
                  false with
              | none =>
                rw [hcopy] at h
                simp only [Option.some.injEq] at h
                subst h
                exact ⟨hc1, fun b hb => by simp at hb⟩
              | some ws =>
                obtain ⟨written, s⟩ := ws
                rw [hcopy] at h
                simp only [Option.some.injEq] at h
                subst h
                have hsorted : KeysSorted (if s = true then sortEntries written else written) := by
                  cases s with
                  | true => exact sortEntries_sorted _
                  | false =>
                    exact copyEntries_sorted dops entry.dynamic_ref_table cookie resid map.maps
                      [] false written false hcopy (fun _ => List.Pairwise.nil) rfl
                exact ⟨cacheSorted_cacheBag hc1 resid _ hsorted, fun b hb => by
                  simp only [Option.some.injEq] at hb
                  subst hb
                  exact hsorted⟩
            · cases hrec : GetBagRec ops dops n { am with last_resolution_ := log }
                  ((dops.lookupResourceId entry.dynamic_ref_table map.parent).getD map.parent)
                  (cr ++ [resid]) with
              | none => rw [hrec] at h; simp at h
              | some y =>
                obtain ⟨am2, cr2, pb⟩ := y
                rw [hrec] at h
                obtain ⟨hc2, hpb⟩ := ih _ _ _ _ hrec hc1
                cases pb with
                | none =>
                  simp only [Option.some.injEq] at h
                  subst h
                  exact ⟨hc2, fun b hb => by simp at hb⟩
                | some parent_bag =>
                  simp only at h
                  cases hme : mergeEntries dops entry.dynamic_ref_table cookie resid map.maps
                      parent_bag.entries with
                  | none =>
                    rw [hme] at h
                    simp only [Option.some.injEq] at h
                    subst h
                    exact ⟨hc2, fun b hb => by simp at hb⟩
                  | some entries =>
                    rw [hme] at h
                    simp only [Option.some.injEq] at h
                    subst h
                    have hsorted := mergeEntries_sorted dops entry.dynamic_ref_table cookie
                      resid map.maps parent_bag.entries entries hme (hpb parent_bag rfl)
                    exact ⟨cacheSorted_cacheBag hc2 resid _ hsorted, fun b hb => by
                      simp only [Option.some.injEq] at hb
                      subst hb
                      exact hsorted⟩

/-- C27 (every bag is sorted).  In an engine whose cached bags have their keys in
non-decreasing order (as in an engine whose bag cache is empty), every bag `GetBag` returns
has its keys in non-decreasing order, whatever the order in which the pairs of the entry are
declared, and so has every bag in the bag cache after the call. -/
theorem GetBag_sorted {κ : Type} (ops : ResTable_configOps κ) (dops : DynamicRefTableOps)
    (fuel : Nat) (am : AssetManager2 κ) (resid : Nat) (r : AssetManager2 κ × Option ResolvedBag)
    (hcache : CacheSorted am) (h : GetBag ops dops fuel am resid = some r) :
    (∀ bag, r.2 = some bag → KeysSorted bag.entries) ∧ CacheSorted r.1 := by
  unfold GetBag at h
  cases hrec : GetBagRec ops dops fuel am resid [] with
  | none => rw [hrec] at h; simp at h
  | some x =>
    obtain ⟨am1, found, bag⟩ := x
    rw [hrec] at h
    obtain ⟨hc1, hb⟩ := GetBagRec_sorted ops dops fuel am resid [] _ hrec hcache
    simp only at h
    split at h
    · simp only [Option.some.injEq] at h
      subst h
      exact ⟨hb, hc1⟩
    · simp only [Option.some.injEq] at h
      subst h
      exact ⟨hb, hc1⟩

/-- Witness of C27: the style `0x7f020001` of `sampleUnorderedPackage` declares the keys
ending in 5, 2 and inherits the keys ending in 2, 3; `GetBag` returns the keys ending in
2, 2, 3, 5. -/
theorem GetBag_sorted_witness :
    ∃ r, GetBag sampleOps sampleRefOps 2 sampleUnorderedEngine 0x7f020001 = some r ∧
      r.2.map (fun bag => bag.entries.map (fun x => x.key)) =
        some [0x7f010002, 0x7f010002, 0x7f010003, 0x7f010005] ∧
      (∀ bag, r.2 = some bag → KeysSorted bag.entries) ∧ CacheSorted r.1 := by
  have hs : (GetBag sampleOps sampleRefOps 2 sampleUnorderedEngine 0x7f020001).map
      (fun r => r.2.map (fun bag => bag.entries.map (fun x => x.key))) =
      some (some [0x7f010002, 0x7f010002, 0x7f010003, 0x7f010005]) := by rfl
  cases h : GetBag sampleOps sampleRefOps 2 sampleUnorderedEngine 0x7f020001 with
  | none => rw [h] at hs; simp at hs
  | some r =>
    rw [h] at hs
    simp only [Option.map_some', Option.some.injEq] at hs
    exact ⟨r, rfl, hs,
      GetBag_sorted sampleOps sampleRefOps 2 sampleUnorderedEngine 0x7f020001 r
        (fun e he => by
          have : sampleUnorderedEngine.cached_bags_ = [] := rfl
          rw [this] at he
          simp at he) h⟩

/-! ## C26: forward merge and reverse merge -/

theorem specReverseMergeLoop_spec (n : Nat) :
    ∀ (cs ps : List BagEntry), cs.length + ps.length ≤ n →
      cs.Pairwise (fun a b => b.key < a.key) → ps.Pairwise (fun a b => b.key < a.key) →
      (specReverseMergeLoop n cs ps).Pairwise (fun a b => b.key < a.key) ∧
        ∀ x, x ∈ specReverseMergeLoop n cs ps ↔
          x ∈ cs ∨ (x ∈ ps ∧ ∀ c ∈ cs, c.key ≠ x.key) := by
  induction n with
  | zero =>
    intro cs ps hlen hc hp
    have h1 : cs = [] := List.length_eq_zero.1 (by omega)
    have h2 : ps = [] := List.length_eq_zero.1 (by omega)
    subst h1; subst h2
    simp [specReverseMergeLoop]
  | succ n ih =>
    intro cs ps hlen hc hp
    cases cs with
    | nil =>
      simp only [specReverseMergeLoop]
      exact ⟨hp, fun x => by simp⟩
    | cons c cs =>
      cases ps with
      | nil =>
        simp only [specReverseMergeLoop]
        exact ⟨hc, fun x => by simp⟩
      | cons p ps =>
        have hc1 := (List.pairwise_cons.1 hc).1
        have hc2 := (List.pairwise_cons.1 hc).2
        have hp1 := (List.pairwise_cons.1 hp).1
        have hp2 := (List.pairwise_cons.1 hp).2
        simp only [List.length_cons] at hlen
        simp only [specReverseMergeLoop]
        by_cases h1 : p.key < c.key
        · simp only [h1, if_true]
          obtain ⟨i1, i2⟩ := ih cs (p :: ps) (by simp only [List.length_cons]; omega) hc2 hp
          refine ⟨List.pairwise_cons.2 ⟨?_, i1⟩, ?_⟩
          · intro x hx
            rcases (i2 x).1 hx with h | ⟨h, -⟩
            · exact hc1 x h
            · rcases List.mem_cons.1 h with rfl | h
              · exact h1
              · exact lt_trans (hp1 x h) h1
          · intro x
            rw [List.mem_cons, i2 x]
            constructor
            · rintro (rfl | h | ⟨h, hne⟩)
              · exact Or.inl (List.mem_cons_self _ _)
              · exact Or.inl (List.mem_cons_of_mem _ h)
              · refine Or.inr ⟨h, ?_⟩
                intro c' hc'
                rcases List.mem_cons.1 hc' with rfl | hc'
                · rcases List.mem_cons.1 h with rfl | h
                  · omega
                  · have := hp1 x h
                    omega
                · exact hne c' hc'
            · rintro (h | ⟨h, hne⟩)
              · rcases List.mem_cons.1 h with rfl | h
                · exact Or.inl rfl
                · exact Or.inr (Or.inl h)
              · exact Or.inr (Or.inr ⟨h, fun c' hc' => hne c' (List.mem_cons_of_mem _ hc')⟩)
        · simp only [h1, if_false]
          by_cases h2 : c.key = p.key
          · simp only [h2, if_true]
            obtain ⟨i1, i2⟩ := ih cs ps (by omega) hc2 hp2
            refine ⟨List.pairwise_cons.2 ⟨?_, i1⟩, ?_⟩
            · intro x hx
              rcases (i2 x).1 hx with h | ⟨h, -⟩
              · exact hc1 x h
              · have := hp1 x h
                omega
            · intro x
              rw [List.mem_cons, i2 x]
              constructor
              · rintro (rfl | h | ⟨h, hne⟩)
                · exact Or.inl (List.mem_cons_self _ _)
                · exact Or.inl (List.mem_cons_of_mem _ h)
                · refine Or.inr ⟨List.mem_cons_of_mem _ h, ?_⟩
                  intro c' hc'
                  rcases List.mem_cons.1 hc' with rfl | hc'
                  · have := hp1 x h
                    omega
                  · exact hne c' hc'
              · rintro (h | ⟨h, hne⟩)
                · rcases List.mem_cons.1 h with rfl | h
                  · exact Or.inl rfl
                  · exact Or.inr (Or.inl h)
                · rcases List.mem_cons.1 h with rfl | h
                  · exact absurd h2 (hne c (List.mem_cons_self _ _))
                  · exact Or.inr (Or.inr ⟨h, fun c' hc' =>
                      hne c' (List.mem_cons_of_mem _ hc')⟩)
          · simp only [h2, if_false]
            have h3 : c.key < p.key := by omega
            obtain ⟨i1, i2⟩ := ih (c :: cs) ps (by simp only [List.length_cons]; omega) hc hp2
            refine ⟨List.pairwise_cons.2 ⟨?_, i1⟩, ?_⟩
            · intro x hx
              rcases (i2 x).1 hx with h | ⟨h, -⟩
              · rcases List.mem_cons.1 h with rfl | h
                · exact h3
                · exact lt_trans (hc1 x h) h3
              · exact hp1 x h
            · intro x
              rw [List.mem_cons, i2 x]
              constructor
              · rintro (rfl | h | ⟨h, hne⟩)
                · refine Or.inr ⟨List.mem_cons_self _ _, ?_⟩
                  intro c' hc'
                  rcases List.mem_cons.1 hc' with rfl | hc'
                  · omega
                  · have := hc1 c' hc'
                    omega
                · exact Or.inl h
                · exact Or.inr ⟨List.mem_cons_of_mem _ h, hne⟩
              · rintro (h | ⟨h, hne⟩)
                · exact Or.inr (Or.inl h)
                · rcases List.mem_cons.1 h with rfl | h
                  · exact Or.inl rfl
                  · exact Or.inr (Or.inr ⟨h, hne⟩)

theorem specReverseMerge_spec (cs ps : List BagEntry) (hc : KeysAscending cs)
    (hp : KeysAscending ps) :
    KeysAscending (specReverseMerge cs ps) ∧
      ∀ x, x ∈ specReverseMerge cs ps ↔ x ∈ cs ∨ (x ∈ ps ∧ ∀ c ∈ cs, c.key ≠ x.key) := by
  obtain ⟨h1, h2⟩ := specReverseMergeLoop_spec (cs.length + ps.length) cs.reverse ps.reverse
    (by simp) (List.pairwise_reverse.2 hc) (List.pairwise_reverse.2 hp)
  refine ⟨?_, ?_⟩
  · unfold KeysAscending specReverseMerge
    rw [List.pairwise_reverse]
    exact h1
  · intro x
    unfold specReverseMerge
    rw [List.mem_reverse, h2 x]
    simp only [List.mem_reverse]

theorem keysAscending_ext {l1 l2 : List BagEntry} (h1 : KeysAscending l1)
    (h2 : KeysAscending l2) (h : ∀ x, x ∈ l1 ↔ x ∈ l2) : l1 = l2 := by
  haveI : IsAntisymm BagEntry (fun a b => a.key < b.key) :=
    ⟨fun a b hab hba => absurd hab (by omega)⟩
  have n1 : l1.Nodup := List.Pairwise.imp (fun {a b} hab heq => by subst heq; omega) h1
  have n2 : l2.Nodup := List.Pairwise.imp (fun {a b} hab heq => by subst heq; omega) h2
  exact List.eq_of_perm_of_sorted ((List.perm_ext_iff_of_nodup n1 n2).2 h) h1 h2

/-- C26, amended (forward merge and reverse merge).  Under the hypotheses of the inheritance
merge (the bag is not cached, its entry is complex with a parent that is not null and not on
the visited list, the recursive call returns `parent_bag`, the pairs resolve to `cs`), if the
keys of `cs` and the keys of `parent_bag` are strictly ascending, `GetBag` returns and caches a
bag whose entry sequence is the one the reverse merge of the specification produces from `cs`
and the parent's entries. -/
theorem GetBag_forward_eq_reverse_merge {κ : Type} (ops : ResTable_configOps κ)
    (dops : DynamicRefTableOps) (fuel : Nat) (am : AssetManager2 κ) (resid : Nat)
    (child_resids : List Nat) (log : Resolution κ) (cookie : Nat) (entry : FindEntryResult κ)
    (map : ResTable_entry) (am2 : AssetManager2 κ) (child_resids2 : List Nat)
    (parent_bag : ResolvedBag) (cs : List BagEntry)
    (hcache : am.cached_bags_.lookup resid = none)
    (hfind : FindEntry ops am (fuel + 1) resid 0 false am.last_resolution_ =
      some (log, some (cookie, entry)))
    (hmap : entry.entry = EntryVariant.map_entry map)
    (hparent : map.parent ≠ 0) (hcycle : map.parent ∉ child_resids ++ [resid])
    (hrec : GetBagRec ops dops fuel { am with last_resolution_ := log }
      ((dops.lookupResourceId entry.dynamic_ref_table map.parent).getD map.parent)
      (child_resids ++ [resid]) = some (am2, child_resids2, some parent_bag))
    (hres : ResolvesTo dops entry.dynamic_ref_table cookie resid map.maps cs)
    (hchild : KeysAscending cs) (hpar : KeysAscending parent_bag.entries) :
    ∃ bag, GetBagRec ops dops (fuel + 1) am resid child_resids =
        some ({ am2 with cached_bags_ := cacheBag am2.cached_bags_ resid bag }, child_resids2,
          some bag) ∧
      bag.entries = specReverseMerge cs parent_bag.entries := by
  obtain ⟨merged, hm1, hm2, hm3⟩ := mergeLoop_ascending dops entry.dynamic_ref_table cookie resid
    (map.maps.length + parent_bag.entries.length) map.maps cs parent_bag.entries [] (le_refl _)
    hres (by simpa using hchild) (by simpa using hpar)
  have hme : mergeEntries dops entry.dynamic_ref_table cookie resid map.maps parent_bag.entries =
      some merged := by
    rw [mergeEntries_eq_finishMerge, hm1]
    simp
  obtain ⟨hs1, hs2⟩ := specReverseMerge_spec cs parent_bag.entries hchild hpar
  refine ⟨⟨entry.type_flags ||| parent_bag.type_spec_flags, merged⟩, ?_, ?_⟩
  · have hnc : (map.parent == 0 || (child_resids ++ [resid]).contains map.parent) = false := by
      simp only [Bool.or_eq_false_iff, beq_eq_false_iff_ne, ne_eq]
      refine ⟨hparent, ?_⟩
      rw [Bool.eq_false_iff]
      intro hcon
      exact hcycle (by simpa using hcon)
    rw [GetBagRec]
    simp only [hcache, hfind, hmap, hnc, hrec, hme, Bool.false_eq_true, if_false]
  · exact keysAscending_ext (by simpa using hm2) hs1 (fun x => (hm3 x).trans (hs2 x).symm)

/-- Witness of the amended C26: for the child `0x7f020001` (keys ending in 2, 3) and the
parent `0x7f020000` (keys ending in 1, 3, 5) of `sampleStyleEngine` the bag of `GetBag` is the
reverse merge of the two entry sequences. -/
theorem GetBag_forward_eq_reverse_merge_witness :
    ∃ bag, GetBagRec sampleOps sampleRefOps 2 sampleStyleEngine 0x7f020001 [] =
        some ({ sampleStyleEngine with
                cached_bags_ := cacheBag [(0x7f020000, sampleParentBag)] 0x7f020001 bag },
          [0x7f020001, 0x7f020000], some bag) ∧
      bag.entries = specReverseMerge sampleChildEntries sampleParentBag.entries :=
  GetBag_forward_eq_reverse_merge sampleOps sampleRefOps 1 sampleStyleEngine 0x7f020001 []
    sampleStyleEngine.last_resolution_ 0 sampleChildEntry
    (sampleStyle 1 0x7f020000 [⟨0x7f010002, ⟨16, 22⟩⟩, ⟨0x7f010003, ⟨16, 23⟩⟩])
    { sampleStyleEngine with cached_bags_ := [(0x7f020000, sampleParentBag)] }
    [0x7f020001, 0x7f020000] sampleParentBag sampleChildEntries
    (by rfl) (by rfl) (by rfl) (by decide) (by decide) (by rfl)
    (List.Forall₂.cons (by rfl) (List.Forall₂.cons (by rfl) List.Forall₂.nil))
    (by unfold KeysAscending sampleChildEntries; decide)
    (by unfold KeysAscending sampleParentBag; decide)

/-- Counterexample to C26: the style `0x7f020002` of `sampleUnorderedEngine` declares the one
key ending in 2 (ascending) and inherits from `0x7f020001`, whose bag is sorted and holds the
key ending in 2 twice.  The forward merge of `GetBag` replaces the first of the two parent
entries by the child's entry, the reverse merge of the specification the second. -/
theorem GetBag_reverse_merge_counterexample :
    (GetBag sampleOps sampleRefOps 3 sampleUnorderedEngine 0x7f020001).map (fun r => r.2) =
        some (some sampleUnorderedParentBag) ∧
      KeysSorted sampleUnorderedParentBag.entries ∧
      ResolvesTo sampleRefOps
        ((sampleUnorderedEngine.package_groups_.map (fun g => g.dynamic_ref_table)).headD
          DynamicRefTable.new)
        0 0x7f020002 [⟨0x7f010002, ⟨16, 32⟩⟩] [⟨0x7f010002, ⟨16, 32⟩, 0, 0x7f020002⟩] ∧
      KeysAscending [(⟨0x7f010002, ⟨16, 32⟩, 0, 0x7f020002⟩ : BagEntry)] ∧
      (GetBag sampleOps sampleRefOps 3 sampleUnorderedEngine 0x7f020002).map
          (fun r => r.2.map (fun bag => bag.entries)) =
        some (some [⟨0x7f010002, ⟨16, 32⟩, 0, 0x7f020002⟩,
          ⟨0x7f010002, ⟨16, 22⟩, 0, 0x7f020001⟩, ⟨0x7f010003, ⟨16, 13⟩, 0, 0x7f020000⟩,
          ⟨0x7f010005, ⟨16, 25⟩, 0, 0x7f020001⟩]) ∧
      specReverseMerge [⟨0x7f010002, ⟨16, 32⟩, 0, 0x7f020002⟩]
          sampleUnorderedParentBag.entries =
        [⟨0x7f010002, ⟨16, 12⟩, 0, 0x7f020000⟩, ⟨0x7f010002, ⟨16, 32⟩, 0, 0x7f020002⟩,
          ⟨0x7f010003, ⟨16, 13⟩, 0, 0x7f020000⟩, ⟨0x7f010005, ⟨16, 25⟩, 0, 0x7f020001⟩] ∧
      (GetBag sampleOps sampleRefOps 3 sampleUnorderedEngine 0x7f020002).map
          (fun r => r.2.map (fun bag => bag.entries)) ≠
        some (some (specReverseMerge [⟨0x7f010002, ⟨16, 32⟩, 0, 0x7f020002⟩]
          sampleUnorderedParentBag.entries)) := by
  refine ⟨by rfl, ?_, ?_, ?_, by rfl, by rfl, ?_⟩
  · unfold KeysSorted sampleUnorderedParentBag
    decide
  · exact List.Forall₂.cons (by rfl) List.Forall₂.nil
  · unfold KeysAscending
    decide
  · have h1 : (GetBag sampleOps sampleRefOps 3 sampleUnorderedEngine 0x7f020002).map
          (fun r => r.2.map (fun bag => bag.entries)) =
        some (some [⟨0x7f010002, ⟨16, 32⟩, 0, 0x7f020002⟩,
          ⟨0x7f010002, ⟨16, 22⟩, 0, 0x7f020001⟩, ⟨0x7f010003, ⟨16, 13⟩, 0, 0x7f020000⟩,
          ⟨0x7f010005, ⟨16, 25⟩, 0, 0x7f020001⟩]) := by rfl
    have h2 : specReverseMerge [⟨0x7f010002, ⟨16, 32⟩, 0, 0x7f020002⟩]
          sampleUnorderedParentBag.entries =
        [⟨0x7f010002, ⟨16, 12⟩, 0, 0x7f020000⟩, ⟨0x7f010002, ⟨16, 32⟩, 0, 0x7f020002⟩,
          ⟨0x7f010003, ⟨16, 13⟩, 0, 0x7f020000⟩, ⟨0x7f010005, ⟨16, 25⟩, 0, 0x7f020001⟩] := by
      rfl
    rw [h1, h2]
    intro h
    simp only [Option.some.injEq, List.cons.injEq, BagEntry.mk.injEq, Res_value.mk.injEq] at h
    omega

/-! ## C21: cookies are load-order positions -/

theorem modifyAt_forall {α : Type} (P : α → Prop) (f : α → α) (hf : ∀ x, P x → P (f x))
    (i : Nat) (l : List α) (h : ∀ x ∈ l, P x) : ∀ x ∈ modifyAt f i l, P x := by
  unfold modifyAt
  cases hg : l.get? i with
  | none => exact h
  | some a =>
    intro x hx
    simp only at hx
    rcases List.mem_or_eq_of_mem_set hx with h1 | h1
    · exact h x h1
    · rw [h1]
      exact hf a (h a (List.get?_mem hg))

theorem pushGroup_cookiesFrom {κ : Type} (cookies : List (Nat × Nat)) (apks : List (ApkAssets κ))
    (a : ApkAssets κ) (pid : Nat) (st : BuildState κ) (ha : a ∈ apks)
    (h : ∀ g ∈ st.package_groups_, CookiesFrom cookies apks g) :
    ∀ g ∈ pushGroup ((cookies.lookup a.addr).getD 0) a pid st, CookiesFrom cookies apks g := by
  have hpush : ∀ g ∈ st.package_groups_ ++ [(⟨[], [], [], DynamicRefTable.new⟩ : PackageGroup κ)],
      CookiesFrom cookies apks g := by
    intro g hg
    rcases List.mem_append.1 hg with h1 | h1
    · exact h g h1
    · simp only [List.mem_singleton] at h1
      rw [h1]
      exact ⟨List.Forall₂.nil, fun o ho => by simp at ho⟩
  unfold pushGroup
  cases him : a.loaded_idmap with
  | none => exact hpush
  | some im =>
    simp only
    cases hl : st.apk_assets_package_ids.lookup im.target_apk_path with
    | none => exact hpush
    | some tid =>
      simp only
      apply modifyAt_forall
      · intro g hg
        refine ⟨hg.1, ?_⟩
        intro o ho
        rcases List.mem_append.1 ho with h1 | h1
        · exact hg.2 o h1
        · simp only [List.mem_singleton] at h1
          rw [h1]
          exact ⟨a, ha, im, tid, him, rfl, rfl⟩
      · apply modifyAt_forall
        · intro g hg
          exact hg
        · exact hpush

theorem joinGroup_cookiesFrom {κ : Type} (cookies : List (Nat × Nat))
    (apks : List (ApkAssets κ)) (a : ApkAssets κ) (p : LoadedPackage κ) (ha : a ∈ apks)
    (hp : p ∈ a.packages) (g : PackageGroup κ) (hg : CookiesFrom cookies apks g) :
    CookiesFrom cookies apks (joinGroup ((cookies.lookup a.addr).getD 0) p g) := by
  refine ⟨?_, hg.2⟩
  exact List.rel_append hg.1 (List.Forall₂.cons ⟨a, ha, hp, rfl⟩ List.Forall₂.nil)

theorem addPackage_cookiesFrom {κ : Type} (cookies : List (Nat × Nat))
    (apks : List (ApkAssets κ)) (a : ApkAssets κ) (p : LoadedPackage κ) (st : BuildState κ)
    (ha : a ∈ apks) (hp : p ∈ a.packages)
    (h : ∀ g ∈ st.package_groups_, CookiesFrom cookies apks g) :
    ∀ g ∈ (addPackage cookies a p st).package_groups_, CookiesFrom cookies apks g := by
  by_cases h0 : st.package_ids_.getD (st.packageId p) 0xff = 0xff
  · rw [addPackage_groups_new cookies a p st h0]
    apply modifyAt_forall _ _ (joinGroup_cookiesFrom cookies apks a p ha hp)
    apply modifyAt_forall
    · intro g hg
      exact hg
    · exact pushGroup_cookiesFrom cookies apks a _ st ha h
  · rw [addPackage_groups_old cookies a p st h0]
    exact modifyAt_forall _ _ (joinGroup_cookiesFrom cookies apks a p ha hp) _ _ h

theorem buildState_cookiesFrom {κ : Type} (cookies : List (Nat × Nat))
    (apks : List (ApkAssets κ)) :
    ∀ done : List (ApkAssets κ × LoadedPackage κ),
      (∀ x ∈ done, x.1 ∈ apks ∧ x.2 ∈ x.1.packages) →
      ∀ g ∈ (buildState cookies done).package_groups_, CookiesFrom cookies apks g := by
  intro done
  induction done using List.reverseRecOn with
  | nil =>
    intro _ g hg
    have : (buildState cookies ([] : List (ApkAssets κ × LoadedPackage κ))).package_groups_ =
        [] := rfl
    rw [this] at hg
    exact absurd hg (List.not_mem_nil g)
  | append_singleton done x ih =>
    intro hx
    rw [buildState_snoc]
    have hx1 := hx x (List.mem_append_right _ (List.mem_singleton_self x))
    exact addPackage_cookiesFrom cookies apks x.1 x.2 _ hx1.1 hx1.2
      (ih (fun y hy => hx y (List.mem_append_left _ hy)))

theorem mem_processingOrder_packages {κ : Type} (apks : List (ApkAssets κ))
    (x : ApkAssets κ × LoadedPackage κ) (h : x ∈ processingOrder apks) :
    x.2 ∈ x.1.packages := by
  unfold processingOrder sortedApkAssets at h
  rw [List.mem_flatMap] at h
  obtain ⟨a, -, hx⟩ := h
  rw [List.mem_map] at hx
  obtain ⟨p, hp, rfl⟩ := hx
  exact hp

theorem apk_assets_cookies_position {κ : Type} :
    ∀ (l : List (ApkAssets κ)), (l.map (fun a => a.addr)).Nodup → ∀ a ∈ l,
      ∃ k, (apk_assets_cookies l).lookup a.addr = some k ∧ l[k]? = some a := by
  intro l
  induction l using List.reverseRecOn with
  | nil => intro _ a h; simp at h
  | append_singleton l b ih =>
    intro hnd a ha
    rw [List.map_append, List.nodup_append] at hnd
    obtain ⟨hnd1, -, hdis⟩ := hnd
    rw [apk_assets_cookies_snoc, List.lookup_cons]
    by_cases hx : a.addr = b.addr
    · have hab : a = b := by
        rcases List.mem_append.1 ha with h | h
        · exfalso
          exact hdis (List.mem_map.2 ⟨a, h, rfl⟩) (by simp [hx])
        · simpa using h
      have : (a.addr == b.addr) = true := by simpa using hx
      rw [this]
      exact ⟨l.length, rfl, by simp [hab]⟩
    · have : (a.addr == b.addr) = false := by simpa using hx
      rw [this]
      simp only
      rw [lookup_filter_ne _ _ _ hx]
      have hal : a ∈ l := by
        rcases List.mem_append.1 ha with h | h
        · exact h
        · simp only [List.mem_singleton] at h
          exact absurd (by rw [h]) hx
      obtain ⟨k, hk1, hk2⟩ := ih hnd1 a hal
      refine ⟨k, hk1, ?_⟩
      rw [List.getElem?_append_left (getElem?_some_lt hk2)]
      exact hk2

theorem forall₂_getElem? {α β : Type} (R : α → β → Prop) :
    ∀ (l1 : List α) (l2 : List β), List.Forall₂ R l1 l2 →
      ∀ (i : Nat) (x : α) (y : β), l1[i]? = some x → l2[i]? = some y → R x y := by
  intro l1 l2 h
  induction h with
  | nil => intro i x y hx; simp at hx
  | cons hab _ ih =>
    intro i x y hx hy
    cases i with
    | zero =>
      simp only [List.getElem?_cons_zero, Option.some.injEq] at hx hy
      rw [← hx, ← hy]
      exact hab
    | succ i =>
      simp only [List.getElem?_cons_succ] at hx hy
      exact ih i x y hx hy

/-- C21 (cookies are load-order positions).  For every engine whose bundle list holds no
bundle object twice, every package group of the engine after `BuildDynamicRefTable` has
`packages_` and `cookies_` of equal length; the cookie at position `i` is a position of the
bundle list, and the bundle at that position contains the package at position `i`; the cookie
of every overlay link is a position of the bundle list, and the bundle at that position is the
overlay whose id-map the link carries. -/
theorem BuildDynamicRefTable_cookies {κ : Type} (dops : DynamicRefTableOps)
    (am : AssetManager2 κ) (hnd : (am.apk_assets_.map (fun a => a.addr)).Nodup) :
    ∀ g ∈ (BuildDynamicRefTable dops am).package_groups_,
      g.packages_.length = g.cookies_.length ∧
      (∀ (i : Nat) (pkg : ConfiguredPackage κ) (c : Nat),
        g.packages_[i]? = some pkg → g.cookies_[i]? = some c →
        ∃ a, am.apk_assets_[c]? = some a ∧ pkg.loaded_package_ ∈ a.packages) ∧
      (∀ o ∈ g.overlays_, ∃ a im tid, am.apk_assets_[o.cookie]? = some a ∧
        a.loaded_idmap = some im ∧
        o.overlay_res_maps_.entries = im.GetTargetResourcesMap tid) := by
  intro g hg
  rw [BuildDynamicRefTable_eq] at hg
  simp only at hg
  have hmem : (g.packages_, g.cookies_, g.overlays_) ∈
      (addMappings dops (buildState (apk_assets_cookies am.apk_assets_)
        (processingOrder am.apk_assets_)).package_groups_).map
        (fun g => (g.packages_, g.cookies_, g.overlays_)) := List.mem_map.2 ⟨g, hg, rfl⟩
  rw [addMappings_frame] at hmem
  obtain ⟨g0, hg0, heq⟩ := List.mem_map.1 hmem
  simp only [Prod.mk.injEq] at heq
  obtain ⟨e1, e2, e3⟩ := heq
  have hinv := buildState_cookiesFrom (apk_assets_cookies am.apk_assets_) am.apk_assets_
    (processingOrder am.apk_assets_)
    (fun x hx => ⟨mem_processingOrder am.apk_assets_ x hx,
      mem_processingOrder_packages am.apk_assets_ x hx⟩) g0 hg0
  rw [← e1, ← e2, ← e3]
  refine ⟨hinv.1.length_eq, ?_, ?_⟩
  · intro i pkg c hp hc
    obtain ⟨a, ha, hpa, hca⟩ := forall₂_getElem? _ _ _ hinv.1 i pkg c hp hc
    obtain ⟨k, hk1, hk2⟩ := apk_assets_cookies_position am.apk_assets_ hnd a ha
    rw [hk1] at hca
    simp only [Option.getD_some] at hca
    rw [hca]
    exact ⟨a, hk2, hpa⟩
  · intro o ho
    obtain ⟨a, ha, im, tid, him, hent, hca⟩ := hinv.2 o ho
    obtain ⟨k, hk1, hk2⟩ := apk_assets_cookies_position am.apk_assets_ hnd a ha
    rw [hk1] at hca
    simp only [Option.getD_some] at hca
    rw [hca]
    exact ⟨a, im, tid, hk2, him, hent⟩

/-- Witness of C21: for the bundle list `[sampleOverlayApk, sampleTargetApk]` the overlay is
processed after its target, the group of the target has the cookie 1 and an overlay link with
the cookie 0, and the group of the overlay has the cookie 0. -/
theorem BuildDynamicRefTable_cookies_witness :
    (sampleOverlayFirst.map (fun a => a.addr)).Nodup ∧
      (BuildDynamicRefTable sampleRefOps
          { AssetManager2.new sampleOps with apk_assets_ := sampleOverlayFirst }).package_groups_.map
        (fun g => (g.cookies_, g.overlays_.map (fun o => o.cookie))) = [([1], [0]), ([0], [])] ∧
      ∀ g ∈ (BuildDynamicRefTable sampleRefOps
          { AssetManager2.new sampleOps with apk_assets_ := sampleOverlayFirst }).package_groups_,
        g.packages_.length = g.cookies_.length ∧
        (∀ (i : Nat) (pkg : ConfiguredPackage SampleConfig) (c : Nat),
          g.packages_[i]? = some pkg → g.cookies_[i]? = some c →
          ∃ a, sampleOverlayFirst[c]? = some a ∧ pkg.loaded_package_ ∈ a.packages) ∧
        (∀ o ∈ g.overlays_, ∃ a im tid, sampleOverlayFirst[o.cookie]? = some a ∧
          a.loaded_idmap = some im ∧
          o.overlay_res_maps_.entries = im.GetTargetResourcesMap tid) :=
  ⟨by decide, by rfl,
    BuildDynamicRefTable_cookies sampleRefOps
      { AssetManager2.new sampleOps with apk_assets_ := sampleOverlayFirst } (by decide)⟩

/-! ## C23, C24, C25: Theme::SetTo -/

theorem findSamePath_none {κ : Type} (path : String) :
    ∀ (l : List (ApkAssets κ)) (j : Nat),
      findSamePath path l j = none ↔ ∀ d ∈ l, d.path ≠ path := by
  intro l
  induction l with
  | nil => intro j; simp [findSamePath]
  | cons x rest ih =>
    intro j
    unfold findSamePath
    by_cases hx : path = x.path
    · have : (path == x.path) = true := by simpa using hx
      rw [if_pos this]
      constructor
      · intro h; simp at h
      · intro h
        exact absurd hx.symm (h x (List.mem_cons_self _ _))
    · have : ¬ (path == x.path) = true := by simpa using hx
      rw [if_neg this, ih (j + 1)]
      constructor
      · intro h d hd
        rcases List.mem_cons.1 hd with rfl | hd
        · exact fun h' => hx h'.symm
        · exact h d hd
      · intro h d hd
        exact h d (List.mem_cons_of_mem _ hd)

theorem findSamePath_some {κ : Type} (path : String) :
    ∀ (l : List (ApkAssets κ)) (j0 j : Nat) (d : ApkAssets κ),
      findSamePath path l j0 = some (j, d) →
      j0 ≤ j ∧ l[j - j0]? = some d ∧ d.path = path ∧
        ∀ k, k < j - j0 → ∀ d', l[k]? = some d' → d'.path ≠ path := by
  intro l
  induction l with
  | nil => intro j0 j d h; simp [findSamePath] at h
  | cons x rest ih =>
    intro j0 j d h
    unfold findSamePath at h
    by_cases hx : path = x.path
    · have : (path == x.path) = true := by simpa using hx
      rw [if_pos this] at h
      simp only [Option.some.injEq, Prod.mk.injEq] at h
      obtain ⟨h1, h2⟩ := h
      subst h1
      subst h2
      refine ⟨le_refl _, by simp, hx.symm, ?_⟩
      intro k hk
      omega
    · have : ¬ (path == x.path) = true := by simpa using hx
      rw [if_neg this] at h
      obtain ⟨h1, h2, h3, h4⟩ := ih (j0 + 1) j d h
      have hj : j - j0 = (j - (j0 + 1)) + 1 := by omega
      refine ⟨by omega, ?_, h3, ?_⟩
      · rw [hj, List.getElem?_cons_succ]
        exact h2
      · intro k hk d' hd'
        cases k with
        | zero =>
          simp only [List.getElem?_cons_zero, Option.some.injEq] at hd'
          rw [← hd']
          exact fun h' => hx h'.symm
        | succ k =>
          rw [List.getElem?_cons_succ] at hd'
          exact h4 k (by omega) d' hd'

theorem mapInsert_lookup {β : Type} (m : List (Nat × β)) (k : Nat) (v : β)
    (h : m.lookup k = none) (c : Nat) :
    (mapInsert m k v).lookup c = if c = k then some v else m.lookup c := by
  unfold mapInsert
  rw [h]
  simp only [List.lookup_cons]
  by_cases hc : c = k
  · have : (c == k) = true := by simpa using hc
    rw [this, if_pos hc]
  · have : (c == k) = false := by simpa using hc
    rw [this, if_neg hc]

theorem matchBundles_lookup {κ : Type} [DecidableEq κ] (src_am dest_am : AssetManager2 κ) :
    ∀ (l : List (ApkAssets κ)) (i : Nat) (maps maps1 : CookieMaps),
      matchBundles src_am dest_am l i maps = some maps1 →
      (∀ k, i ≤ k → maps.src_to_dest_asset_cookies.lookup k = none ∧
        maps.src_asset_cookie_id_map.lookup k = none) →
      ∀ c,
        maps1.src_to_dest_asset_cookies.lookup c =
          (if c < i then maps.src_to_dest_asset_cookies.lookup c
            else l[c - i]?.bind (fun a =>
              (findSamePath a.path dest_am.apk_assets_ 0).map (fun jd => jd.1))) ∧
        maps1.src_asset_cookie_id_map.lookup c =
          (if c < i then maps.src_asset_cookie_id_map.lookup c
            else l[c - i]?.bind (fun a =>
              (findSamePath a.path dest_am.apk_assets_ 0).bind
                (fun jd => buildPackageMap src_am dest_am a jd.2))) := by
  intro l
  induction l with
  | nil =>
    intro i maps maps1 h hk c
    simp only [matchBundles, Option.some.injEq] at h
    subst h
    by_cases hc : c < i
    · simp only [hc, if_true, and_self]
    · simp only [hc, if_false, List.getElem?_nil, Option.none_bind]
      exact hk c (by omega)
  | cons a rest ih =>
    intro i maps maps1 h hk c
    unfold matchBundles at h
    cases hf : findSamePath a.path dest_am.apk_assets_ 0 with
    | none =>
      rw [hf] at h
      simp only at h
      obtain ⟨i1, i2⟩ := ih (i + 1) maps maps1 h (fun k hk' => hk k (by omega)) c
      rw [i1, i2]
      by_cases hc : c < i
      · have : c < i + 1 := by omega
        simp only [hc, this, if_true, and_self]
      · by_cases hci : c = i
        · subst hci
          have h1 : c < c + 1 := by omega
          have h2 : ¬ c < c := by omega
          simp only [h1, h2, if_true, if_false, Nat.sub_self, List.getElem?_cons_zero,
            Option.some_bind, hf, Option.map_none', Option.none_bind]
          exact hk c (le_refl _)
        · have h1 : ¬ c < i + 1 := by omega
          have h3 : c - i = (c - (i + 1)) + 1 := by omega
          simp only [hc, h1, if_false]
          rw [h3, List.getElem?_cons_succ]
          exact ⟨rfl, rfl⟩
    | some jd =>
      obtain ⟨j, d⟩ := jd
      rw [hf] at h
      simp only at h
      cases hb : buildPackageMap src_am dest_am a d with
      | none =>
        rw [hb] at h
        simp at h
      | some package_map =>
        rw [hb] at h
        simp only at h
        have hki := hk i (le_refl _)
        obtain ⟨i1, i2⟩ := ih (i + 1) _ maps1 h
          (fun k hk' => by
            have hne : ¬ k = i := by omega
            rw [mapInsert_lookup _ _ _ hki.1, mapInsert_lookup _ _ _ hki.2, if_neg hne,
              if_neg hne]
            exact hk k (by omega)) c
        rw [i1, i2, mapInsert_lookup _ _ _ hki.1, mapInsert_lookup _ _ _ hki.2]
        by_cases hc : c < i
        · have h1 : c < i + 1 := by omega
          have h2 : ¬ c = i := by omega
          simp only [hc, h1, h2, if_true, if_false, and_self]
        · by_cases hci : c = i
          · subst hci
            have h1 : c < c + 1 := by omega
            have h2 : ¬ c < c := by omega
            simp only [h1, h2, if_true, if_false, Nat.sub_self, List.getElem?_cons_zero,
              Option.some_bind, hf, Option.map_some', hb, and_self]
          · have h1 : ¬ c < i + 1 := by omega
            have h3 : c - i = (c - (i + 1)) + 1 := by omega
            simp only [hc, h1, if_false]
            rw [h3, List.getElem?_cons_succ]
            exact ⟨rfl, rfl⟩

theorem matchBundles_total {κ : Type} [DecidableEq κ] (src_am dest_am : AssetManager2 κ) :
    ∀ (l : List (ApkAssets κ)) (i : Nat) (maps maps1 : CookieMaps),
      matchBundles src_am dest_am l i maps = some maps1 →
      ∀ a ∈ l, ∀ j d, findSamePath a.path dest_am.apk_assets_ 0 = some (j, d) →
        ∃ m, buildPackageMap src_am dest_am a d = some m := by
  intro l
  induction l with
  | nil => intro i maps maps1 _ a ha; simp at ha
  | cons x rest ih =>
    intro i maps maps1 h a ha j d hf
    unfold matchBundles at h
    rcases List.mem_cons.1 ha with rfl | ha
    · rw [hf] at h
      simp only at h
      cases hb : buildPackageMap src_am dest_am a d with
      | none => rw [hb] at h; simp at h
      | some m => exact ⟨m, rfl⟩
    · cases hx : findSamePath x.path dest_am.apk_assets_ 0 with
      | none =>
        rw [hx] at h
        exact ih (i + 1) maps maps1 h a ha j d hf
      | some jd =>
        obtain ⟨j1, d1⟩ := jd
        rw [hx] at h
        simp only at h
        cases hb : buildPackageMap src_am dest_am x d1 with
        | none => rw [hb] at h; simp at h
        | some m =>
          rw [hb] at h
          exact ih (i + 1) _ maps1 h a ha j d hf

theorem matchBundles_maps {κ : Type} [DecidableEq κ] (src_am dest_am : AssetManager2 κ)
    (maps : CookieMaps)
    (h : matchBundles src_am dest_am src_am.apk_assets_ 0 ⟨[], []⟩ = some maps) (c : Nat) :
    maps.src_to_dest_asset_cookies.lookup c =
        src_am.apk_assets_[c]?.bind (fun a =>
          (findSamePath a.path dest_am.apk_assets_ 0).map (fun jd => jd.1)) ∧
      maps.src_asset_cookie_id_map.lookup c =
        src_am.apk_assets_[c]?.bind (fun a =>
          (findSamePath a.path dest_am.apk_assets_ 0).bind
            (fun jd => buildPackageMap src_am dest_am a jd.2)) := by
  have := matchBundles_lookup src_am dest_am src_am.apk_assets_ 0 ⟨[], []⟩ maps h
    (fun k _ => ⟨rfl, rfl⟩) c
  simpa using this

theorem packageMapLoop_eq {κ : Type} [DecidableEq κ] (src_am dest_am : AssetManager2 κ) :
    ∀ (ss ds : List (LoadedPackage κ)) (acc m : List (Nat × Nat)),
      packageMapLoop src_am dest_am ss ds acc = some m →
      m = ((ss.zip ds).map (fun x =>
        (GetAssignedPackageId src_am x.1, GetAssignedPackageId dest_am x.2))).reverse ++ acc := by
  intro ss
  induction ss with
  | nil =>
    intro ds acc m h
    simp only [packageMapLoop, Option.some.injEq] at h
    simp [h]
  | cons x rest ih =>
    intro ds acc m h
    cases ds with
    | nil =>
      simp only [packageMapLoop, Option.some.injEq] at h
      simp [h]
    | cons y ds1 =>
      simp only [packageMapLoop] at h
      split at h
      · simp at h
      · have := ih ds1 _ m h
        rw [this]
        simp

theorem lookup_reverse_some (key v : Nat) :
    ∀ l : List (Nat × Nat), l.reverse.lookup key = some v →
      ∃ k, l[k]? = some (key, v) ∧
        ∀ (k1 : Nat) (x : Nat × Nat), k < k1 → l[k1]? = some x → x.1 ≠ key := by
  intro l
  induction l using List.reverseRecOn with
  | nil => intro h; simp at h
  | append_singleton l x ih =>
    intro h
    rw [List.reverse_append, List.reverse_singleton, List.singleton_append,
      List.lookup_cons] at h
    by_cases hk : key = x.1
    · have : (key == x.1) = true := by simpa using hk
      rw [this] at h
      simp only [Option.some.injEq] at h
      refine ⟨l.length, ?_, ?_⟩
      · rw [List.getElem?_append_right (le_refl _)]
        simp only [Nat.sub_self, List.getElem?_cons_zero, Option.some.injEq]
        rw [hk, ← h]
      · intro k1 y hlt hy
        have : (l ++ [x])[k1]? = none := by
          apply List.getElem?_eq_none
          simp only [List.length_append, List.length_singleton]
          omega
        rw [this] at hy
        exact absurd hy (by simp)
    · have : (key == x.1) = false := by simpa using hk
      rw [this] at h
      simp only at h
      obtain ⟨k, h1, h2⟩ := ih h
      have hlt := getElem?_some_lt h1
      refine ⟨k, ?_, ?_⟩
      · rw [List.getElem?_append_left hlt]
        exact h1
      · intro k1 y hk1 hy
        by_cases hl : k1 < l.length
        · rw [List.getElem?_append_left hl] at hy
          exact h2 k1 y hk1 hy
        · by_cases he : k1 = l.length
          · subst he
            rw [List.getElem?_append_right (le_refl _)] at hy
            simp only [Nat.sub_self, List.getElem?_cons_zero, Option.some.injEq] at hy
            rw [← hy]
            exact fun h' => hk h'.symm
          · have : (l ++ [x])[k1]? = none := by
              apply List.getElem?_eq_none
              simp only [List.length_append, List.length_singleton]
              omega
            rw [this] at hy
            exact absurd hy (by simp)

theorem lookup_none_of_keys (key : Nat) :
    ∀ l : List (Nat × Nat), (∀ x ∈ l, x.1 ≠ key) → l.lookup key = none := by
  intro l
  induction l with
  | nil => intro _; rfl
  | cons x rest ih =>
    intro h
    rw [List.lookup_cons]
    have hx : (key == x.1) = false := by
      have := h x (List.mem_cons_self _ _)
      simpa using fun h' : key = x.1 => this h'.symm
    rw [hx]
    exact ih (fun y hy => h y (List.mem_cons_of_mem _ hy))

theorem buildPackageMap_some {κ : Type} [DecidableEq κ] (src_am dest_am : AssetManager2 κ)
    (a d : ApkAssets κ) (m : List (Nat × Nat)) (key v : Nat)
    (hb : buildPackageMap src_am dest_am a d = some m) (hl : m.lookup key = some v) :
    ∃ k s dk, a.packages[k]? = some s ∧ d.packages[k]? = some dk ∧
      GetAssignedPackageId src_am s = key ∧ GetAssignedPackageId dest_am dk = v ∧
      ∀ (k1 : Nat) (s1 : LoadedPackage κ), k < k1 → a.packages[k1]? = some s1 →
        GetAssignedPackageId src_am s1 ≠ key := by
  unfold buildPackageMap at hb
  split at hb
  · simp at hb
  · rename_i hlen
    have hlen1 : a.packages.length = d.packages.length := by simpa using hlen
    have hm := packageMapLoop_eq src_am dest_am _ _ _ _ hb
    rw [List.append_nil] at hm
    rw [hm] at hl
    obtain ⟨k, h1, h2⟩ := lookup_reverse_some key v _ hl
    rw [List.getElem?_map] at h1
    cases hz : (a.packages.zip d.packages)[k]? with
    | none => rw [hz] at h1; simp at h1
    | some sd =>
      obtain ⟨s0, dk⟩ := sd
      rw [hz] at h1
      simp only [Option.map_some', Option.some.injEq, Prod.mk.injEq] at h1
      rw [List.getElem?_zip_eq_some] at hz
      refine ⟨k, s0, dk, hz.1, hz.2, h1.1, h1.2, ?_⟩
      intro k1 s1 hk1 hs1
      have hlt1 := getElem?_some_lt hs1
      cases hd : d.packages[k1]? with
      | none =>
        rw [List.getElem?_eq_none_iff] at hd
        omega
      | some d1 =>
        have hz1 : (a.packages.zip d.packages)[k1]? = some (s1, d1) :=
          List.getElem?_zip_eq_some.2 ⟨hs1, hd⟩
        have := h2 k1 (GetAssignedPackageId src_am s1, GetAssignedPackageId dest_am d1) hk1
          (by rw [List.getElem?_map, hz1]; rfl)
        exact this

theorem buildPackageMap_none {κ : Type} [DecidableEq κ] (src_am dest_am : AssetManager2 κ)
    (a d : ApkAssets κ) (m : List (Nat × Nat)) (key : Nat)
    (hb : buildPackageMap src_am dest_am a d = some m)
    (hk : ∀ s ∈ a.packages, GetAssignedPackageId src_am s ≠ key) : m.lookup key = none := by
  unfold buildPackageMap at hb
  split at hb
  · simp at hb
  · have hm := packageMapLoop_eq src_am dest_am _ _ _ _ hb
    rw [List.append_nil] at hm
    rw [hm]
    apply lookup_none_of_keys
    intro x hx
    rw [List.mem_reverse, List.mem_map] at hx
    obtain ⟨sd, hsd, rfl⟩ := hx
    exact hk sd.1 (List.of_mem_zip hsd).1

theorem GetAssignedPackageId_lt {κ : Type} [DecidableEq κ] (am : AssetManager2 κ)
    (package : LoadedPackage κ) : GetAssignedPackageId am package < 256 := by
  unfold GetAssignedPackageId
  split
  · exact Nat.mod_lt _ (by norm_num)
  · norm_num

theorem fix_package_id_fields (resid package_id : Nat) (h : package_id < 256) :
    get_package_id (fix_package_id resid package_id) = package_id ∧
      get_type_id (fix_package_id resid package_id) = get_type_id resid ∧
      get_entry_id (fix_package_id resid package_id) = get_entry_id resid := by
  unfold get_package_id get_type_id get_entry_id fix_package_id
  norm_num
  omega

theorem zeroedBlock_length (uninit n : Nat) : (zeroedBlock uninit n).length = n := by
  cases n with
  | zero => rfl
  | succ n => simp [zeroedBlock]

theorem writeEntry_entryAt (uninit : Nat → Nat → Nat) (theme : Theme) (q t e : Nat)
    (type : ThemeType) (x : ThemeEntry) (he : e < type.entries.length) :
    (theme.writeEntry uninit q t e type x).entryAt q t e = some x := by
  unfold Theme.writeEntry Theme.entryAt Theme.setType
  simp only [if_true, Option.some_bind, List.get?_eq_getElem?]
  apply List.getElem?_set_eq_of_lt
  cases ((theme.packages_ q).getD ⟨fun _ => none⟩).types t with
  | none =>
    simp only [zeroedBlock_length]
    exact he
  | some dest_type =>
    simp only
    split
    · rename_i hlt
      simp only [List.length_append, List.length_take, List.length_drop, zeroedBlock_length]
      omega
    · omega

theorem lookup_some_of_key (key : Nat) :
    ∀ l : List (Nat × Nat), (∃ x ∈ l, x.1 = key) → ∃ v, l.lookup key = some v := by
  intro l
  induction l with
  | nil => intro h; obtain ⟨x, hx, -⟩ := h; simp at hx
  | cons y rest ih =>
    intro h
    rw [List.lookup_cons]
    by_cases hy : key = y.1
    · have : (key == y.1) = true := by simpa using hy
      rw [this]
      exact ⟨y.2, rfl⟩
    · have : (key == y.1) = false := by simpa using hy
      rw [this]
      obtain ⟨x, hx, hk⟩ := h
      rcases List.mem_cons.1 hx with rfl | hx
      · exact absurd hk.symm hy
      · exact ih ⟨x, hx, hk⟩

theorem buildPackageMap_key {κ : Type} [DecidableEq κ] (src_am dest_am : AssetManager2 κ)
    (a d : ApkAssets κ) (m : List (Nat × Nat)) (key : Nat)
    (hb : buildPackageMap src_am dest_am a d = some m)
    (hk : ∃ s ∈ a.packages, GetAssignedPackageId src_am s = key) :
    ∃ v, m.lookup key = some v := by
  unfold buildPackageMap at hb
  split at hb
  · simp at hb
  · rename_i hlen
    have hlen1 : a.packages.length = d.packages.length := by simpa using hlen
    have hm := packageMapLoop_eq src_am dest_am _ _ _ _ hb
    rw [List.append_nil] at hm
    rw [hm]
    apply lookup_some_of_key
    obtain ⟨s0, hs, hkey⟩ := hk
    obtain ⟨k, hk1⟩ := List.mem_iff_getElem?.1 hs
    have hlt := getElem?_some_lt hk1
    have hd : d.packages[k]? = some (d.packages.get ⟨k, by omega⟩) := by
      rw [List.getElem?_eq_getElem (by omega)]
      rfl
    have hz : (a.packages.zip d.packages)[k]? = some (s0, d.packages.get ⟨k, by omega⟩) :=
      List.getElem?_zip_eq_some.2 ⟨hk1, hd⟩
    refine ⟨(GetAssignedPackageId src_am s0,
      GetAssignedPackageId dest_am (d.packages.get ⟨k, by omega⟩)), ?_, hkey⟩
    rw [List.mem_reverse, List.mem_map]
    exact ⟨_, List.mem_iff_getElem?.2 ⟨k, hz⟩, rfl⟩

theorem get_package_id_lt (resid : Nat) : get_package_id resid < 256 :=
  Nat.mod_lt _ (by norm_num)

theorem get_type_id_lt (resid : Nat) : get_type_id resid < 256 :=
  Nat.mod_lt _ (by norm_num)

theorem getAttributeLoop_congr (a b : Theme) (h : ∀ resid, a.slot resid = b.slot resid)
    (ov : Res_value) (ofl : Nat) :
    ∀ cnt resid flags, getAttributeLoop a ov ofl cnt resid flags =
      getAttributeLoop b ov ofl cnt resid flags := by
  intro cnt
  induction cnt with
  | zero =>
    intro resid flags
    cases hs : b.slot resid with
    | none =>
      rw [getAttributeLoop_slot_none a ov ofl 0 resid flags ((h resid).trans hs),
        getAttributeLoop_slot_none b ov ofl 0 resid flags hs]
    | some entry =>
      rw [getAttributeLoop_slot_some a ov ofl 0 resid flags entry ((h resid).trans hs),
        getAttributeLoop_slot_some b ov ofl 0 resid flags entry hs]
  | succ n ih =>
    intro resid flags
    cases hs : b.slot resid with
    | none =>
      rw [getAttributeLoop_slot_none a ov ofl (n + 1) resid flags ((h resid).trans hs),
        getAttributeLoop_slot_none b ov ofl (n + 1) resid flags hs]
    | some entry =>
      rw [getAttributeLoop_slot_some a ov ofl (n + 1) resid flags entry ((h resid).trans hs),
        getAttributeLoop_slot_some b ov ofl (n + 1) resid flags entry hs]
      simp only [ih]

theorem copyFrom_types (dst src : Theme) (p t : Nat) (hp : p < kPackageCount)
    (ht : t < kTypeCount) :
    ((dst.copyFrom src).packages_ p).bind (fun package => package.types t) =
      (src.packages_ p).bind (fun package => package.types t) := by
  unfold Theme.copyFrom
  simp only [hp, if_true]
  cases src.packages_ p with
  | none => rfl
  | some package =>
    show (if t < kTypeCount then package.types t else _) = package.types t
    exact if_pos ht

theorem slot_eq_bind (theme : Theme) (resid : Nat) :
    theme.slot resid =
      ((theme.packages_ (get_package_id resid)).bind
        (fun package => package.types (get_type_id resid))).bind
        (fun type => type.entries.get? (get_entry_id resid)) := by
  unfold Theme.slot
  cases theme.packages_ (get_package_id resid) with
  | none => rfl
  | some package =>
    cases ht : package.types (get_type_id resid) with
    | none => simp [ht]
    | some type => simp [ht]

/-- C25 (same-engine `SetTo` is an exact copy).  `SetTo` called on `dst` with a theme `src` of
the same engine returns; afterwards the flag mask of `dst` is the one of `src`, `GetAttribute`
on `dst` returns for every identifier what it returns on `src`, every type array of `dst` is
the one of `src` (so nothing `dst` held before is left, whatever it was), and `dst` has a
package exactly where `src` has one.  `SetTo` called with the theme itself returns the theme
unchanged.  The argument is read only: the function returns the new state of `dst` alone. -/
theorem SetTo_same_asset_manager {κ : Type} [DecidableEq κ] (ops : ResTable_configOps κ)
    (fuel : Nat) (uninit : Nat → Nat → Nat) (am : AssetManager2 κ) (dst src : Theme) :
    ∃ dst1, SetTo ops fuel uninit am dst (ThemeRef.same_asset_manager src) =
        some (dst1, am.last_resolution_) ∧
      dst1.type_spec_flags_ = src.type_spec_flags_ ∧
      (∀ resid out_value out_flags,
        GetAttribute dst1 resid out_value out_flags =
          GetAttribute src resid out_value out_flags) ∧
      (∀ p t, p < kPackageCount → t < kTypeCount →
        (dst1.packages_ p).bind (fun package => package.types t) =
          (src.packages_ p).bind (fun package => package.types t)) ∧
      (∀ p, p < kPackageCount → (dst1.packages_ p).isSome = (src.packages_ p).isSome) ∧
      (∀ dst2, ∃ dst3, SetTo ops fuel uninit am dst2 (ThemeRef.same_asset_manager src) =
          some (dst3, am.last_resolution_) ∧
        ∀ resid, dst3.slot resid = dst1.slot resid) ∧
      SetTo ops fuel uninit am dst ThemeRef.this = some (dst, am.last_resolution_) := by
  have hslot : ∀ d : Theme, ∀ resid, (d.copyFrom src).slot resid = src.slot resid := by
    intro d resid
    rw [slot_eq_bind, slot_eq_bind,
      copyFrom_types d src _ _ (get_package_id_lt resid) (get_type_id_lt resid)]
  refine ⟨dst.copyFrom src, rfl, rfl, ?_, ?_, ?_, ?_, rfl⟩
  · intro resid ov ofl
    unfold GetAttribute
    exact getAttributeLoop_congr _ _ (hslot dst) ov ofl 20 resid 0
  · intro p t hp ht
    exact copyFrom_types dst src p t hp ht
  · intro p hp
    unfold Theme.copyFrom
    simp only [hp, if_true]
    cases src.packages_ p with
    | none => rfl
    | some package => rfl
  · intro dst2
    exact ⟨dst2.copyFrom src, rfl, fun resid => (hslot dst2 resid).trans (hslot dst resid).symm⟩

/-- One iteration of the loop of the cross-engine `SetTo` for an entry whose owner is missing
in the destination.  Let `maps` be the maps `SetTo` builds from the engine `src_am` of the argument to the engine `am`, and let `entry`, the slot `e` of
the type `t` of the package `p` of the source theme, be set and owned by a bundle (its cookie)
for which `am` holds no bundle of the same path.  The loop iteration for the entry leaves the
destination theme as it is when the value is a reference or a string.  For any other value:
when `p` is `0x01` the iteration writes the slot `e` of type `t` of package `0x01` with the
cookie 0, the flags and the value of the entry; when `p` is not `0x01` and `FindEntry` of the
source engine returns, the iteration writes that slot of the package `q` if the bundle in
which the attribute was found has a package map that sends `p` to `q`, and leaves the theme
as it is otherwise.  The last part describes the maps by the two bundle lists. -/
theorem setToEntry_missing_owner {κ : Type} [DecidableEq κ] (ops : ResTable_configOps κ)
    (src_am am : AssetManager2 κ) (fuel : Nat) (uninit : Nat → Nat → Nat) (maps : CookieMaps)
    (p t : Nat) (type : ThemeType) (e : Nat) (entry : ThemeEntry) (st : Theme × Resolution κ)
    (hmaps : matchBundles src_am am src_am.apk_assets_ 0 ⟨[], []⟩ = some maps)
    (he : type.entries.get? e = some entry)
    (hset : ¬ (entry.value.dataType = TYPE_NULL ∧ entry.value.data ≠ DATA_NULL_EMPTY))
    (hown : ∀ a, src_am.apk_assets_[entry.cookie]? = some a →
      ∀ d ∈ am.apk_assets_, d.path ≠ a.path) :
    ((is_reference entry.value = true ∨ entry.value.dataType = TYPE_STRING) →
      setToEntry ops src_am fuel uninit maps p t type e entry st = some st) ∧
    (is_reference entry.value = false → entry.value.dataType ≠ TYPE_STRING →
      (p = 1 →
        setToEntry ops src_am fuel uninit maps p t type e entry st =
            some (st.1.writeEntry uninit 1 t e type ⟨0, entry.type_spec_flags, entry.value⟩,
              st.2) ∧
          (st.1.writeEntry uninit 1 t e type ⟨0, entry.type_spec_flags, entry.value⟩).entryAt
            1 t e = some ⟨0, entry.type_spec_flags, entry.value⟩) ∧
      (p ≠ 1 → ∀ log r,
        FindEntry ops src_am fuel (make_resid p t e) 0 true st.2 = some (log, r) →
        (∀ q, (r.bind (fun x => maps.src_asset_cookie_id_map.lookup x.1)).bind
            (fun m => m.lookup p) = some q →
          setToEntry ops src_am fuel uninit maps p t type e entry st =
              some (st.1.writeEntry uninit q t e type ⟨0, entry.type_spec_flags, entry.value⟩,
                log) ∧
            (st.1.writeEntry uninit q t e type ⟨0, entry.type_spec_flags, entry.value⟩).entryAt
              q t e = some ⟨0, entry.type_spec_flags, entry.value⟩) ∧
        ((r.bind (fun x => maps.src_asset_cookie_id_map.lookup x.1)).bind
            (fun m => m.lookup p) = none →
          setToEntry ops src_am fuel uninit maps p t type e entry st = some (st.1, log)))) ∧
    (∀ c, maps.src_to_dest_asset_cookies.lookup c =
        src_am.apk_assets_[c]?.bind (fun a =>
          (findSamePath a.path am.apk_assets_ 0).map (fun jd => jd.1)) ∧
      maps.src_asset_cookie_id_map.lookup c =
        src_am.apk_assets_[c]?.bind (fun a =>
          (findSamePath a.path am.apk_assets_ 0).bind
            (fun jd => buildPackageMap src_am am a jd.2))) := by
  have hlt : e < type.entries.length := by
    rw [List.get?_eq_getElem?] at he
    exact getElem?_some_lt he
  have hch := matchBundles_maps src_am am maps hmaps
  have hnone : ∀ a, src_am.apk_assets_[entry.cookie]? = some a →
      findSamePath a.path am.apk_assets_ 0 = none :=
    fun a ha => (findSamePath_none a.path am.apk_assets_ 0).2 (hown a ha)
  have hc1 : maps.src_to_dest_asset_cookies.lookup entry.cookie = none := by
    rw [(hch entry.cookie).1]
    cases ha : src_am.apk_assets_[entry.cookie]? with
    | none => rfl
    | some a => simp only [Option.some_bind, hnone a ha, Option.map_none']
  have hc2 : maps.src_asset_cookie_id_map.lookup entry.cookie = none := by
    rw [(hch entry.cookie).2]
    cases ha : src_am.apk_assets_[entry.cookie]? with
    | none => rfl
    | some a => simp only [Option.some_bind, hnone a ha, Option.none_bind]
  have hset1 : (entry.value.dataType == TYPE_NULL && entry.value.data != DATA_NULL_EMPTY) =
      false := by
    rw [Bool.eq_false_iff]
    intro hc
    simp only [Bool.and_eq_true, beq_iff_eq, bne_iff_ne, ne_eq] at hc
    exact hset hc
  refine ⟨?_, ?_, hch⟩
  · intro h
    unfold setToEntry
    rw [hset1]
    simp only [Bool.false_eq_true, if_false]
    cases hr : is_reference entry.value with
    | true => simp only [attributeData, hr, if_true, hc2]
    | false =>
      have hs : entry.value.dataType = TYPE_STRING := by
        rcases h with h | h
        · rw [hr] at h; exact absurd h (by simp)
        · exact h
      simp only [attributeData, hr, Bool.false_eq_true, if_false, dataDestCookie, hc1, hs,
        beq_self_eq_true, Bool.or_true, if_true]
  · intro hr hs
    have hs1 : (entry.value.dataType == TYPE_STRING) = false := by simpa using hs
    refine ⟨?_, ?_⟩
    · intro hp
      subst hp
      refine ⟨?_, writeEntry_entryAt uninit st.1 1 t e type _ hlt⟩
      unfold setToEntry
      rw [hset1]
      simp only [Bool.false_eq_true, if_false, attributeData, hr, dataDestCookie, hc1, hs1,
        Bool.or_false, attributeDestPackageId, bne_self_eq_false]
    · intro hp log r hfind
      have hp1 : (p != 1) = true := by simpa using hp
      refine ⟨?_, ?_⟩
      · intro q hq
        refine ⟨?_, writeEntry_entryAt uninit st.1 q t e type _ hlt⟩
        unfold setToEntry
        rw [hset1]
        simp only [Bool.false_eq_true, if_false, attributeData, hr, dataDestCookie, hc1, hs1,
          Bool.or_false, attributeDestPackageId, hp1, if_true, hfind]
        cases r with
        | none => simp at hq
        | some x =>
          obtain ⟨c, res⟩ := x
          simp only [Option.some_bind] at hq
          simp only
          cases hm : maps.src_asset_cookie_id_map.lookup c with
          | none => rw [hm] at hq; simp at hq
          | some m =>
            rw [hm] at hq
            simp only [Option.some_bind] at hq
            simp only [hq]
      · intro hq
        unfold setToEntry
        rw [hset1]
        simp only [Bool.false_eq_true, if_false, attributeData, hr, dataDestCookie, hc1, hs1,
          Bool.or_false, attributeDestPackageId, hp1, if_true, hfind]
        cases r with
        | none => rfl
        | some x =>
          obtain ⟨c, res⟩ := x
          simp only [Option.some_bind] at hq
          simp only
          cases hm : maps.src_asset_cookie_id_map.lookup c with
          | none => rfl
          | some m =>
            rw [hm] at hq
            simp only [Option.some_bind] at hq
            simp only [hq]

/-- One iteration of the loop of the cross-engine `SetTo` for an entry whose owner has a
bundle of the same path in the destination.  Let `maps` be the maps `SetTo` builds from the
engine `src_am` of the argument to the engine `am`, let `entry`, the slot `e` of the type `t`
of the package `p` of the source theme, be set and owned by the bundle `a`, let `d` at the
position `j` be the first bundle of `am` with the path of `a`, and let the search for the
destination package of the attribute return `dp`.  If the value is a reference and its
package id is not the assigned id of a package of `a`, the loop iteration leaves the
destination theme as it is.  If it is the assigned id of a package of `a`, the value written
has the data type, the type id and the entry id of the source value, and its package id is
the id `am` assigns to the package of `d` at the position of the last package of `a` with that
assigned id; the iteration writes it, with the cookie `j` and the flags of the entry, to the
slot `e` of type `t` of the package `dp`, and writes nothing when there is no such package.
A value that is not a reference is written unchanged. -/
theorem setToEntry_value_remap {κ : Type} [DecidableEq κ] (ops : ResTable_configOps κ)
    (src_am am : AssetManager2 κ) (fuel : Nat) (uninit : Nat → Nat → Nat) (maps : CookieMaps)
    (p t : Nat) (type : ThemeType) (e : Nat) (entry : ThemeEntry) (st : Theme × Resolution κ)
    (a : ApkAssets κ) (j : Nat) (d : ApkAssets κ) (log : Resolution κ) (dp : Option Nat)
    (hmaps : matchBundles src_am am src_am.apk_assets_ 0 ⟨[], []⟩ = some maps)
    (he : type.entries.get? e = some entry)
    (hset : ¬ (entry.value.dataType = TYPE_NULL ∧ entry.value.data ≠ DATA_NULL_EMPTY))
    (ha : src_am.apk_assets_[entry.cookie]? = some a)
    (hmatch : findSamePath a.path am.apk_assets_ 0 = some (j, d))
    (hattr : attributeDestPackageId ops src_am fuel maps p t e st.2 = some (log, dp)) :
    (am.apk_assets_[j]? = some d ∧ d.path = a.path ∧
      ∀ (k : Nat) (d1 : ApkAssets κ), k < j → am.apk_assets_[k]? = some d1 →
        d1.path ≠ a.path) ∧
    (is_reference entry.value = true →
      ((∀ s ∈ a.packages, GetAssignedPackageId src_am s ≠ get_package_id entry.value.data) →
        setToEntry ops src_am fuel uninit maps p t type e entry st = some st) ∧
      ((∃ s ∈ a.packages, GetAssignedPackageId src_am s = get_package_id entry.value.data) →
        ∃ (k : Nat) (s dk : LoadedPackage κ) (data1 : Nat),
          a.packages[k]? = some s ∧ d.packages[k]? = some dk ∧
          GetAssignedPackageId src_am s = get_package_id entry.value.data ∧
          (∀ (k1 : Nat) (s1 : LoadedPackage κ), k < k1 → a.packages[k1]? = some s1 →
            GetAssignedPackageId src_am s1 ≠ get_package_id entry.value.data) ∧
          get_package_id data1 = GetAssignedPackageId am dk ∧
          get_type_id data1 = get_type_id entry.value.data ∧
          get_entry_id data1 = get_entry_id entry.value.data ∧
          setToEntry ops src_am fuel uninit maps p t type e entry st =
            some
              (match dp with
                | none => st.1
                | some q => st.1.writeEntry uninit q t e type
                    ⟨j, entry.type_spec_flags, ⟨entry.value.dataType, data1⟩⟩,
                log) ∧
          ∀ q, dp = some q →
            (st.1.writeEntry uninit q t e type
              ⟨j, entry.type_spec_flags, ⟨entry.value.dataType, data1⟩⟩).entryAt q t e =
              some ⟨j, entry.type_spec_flags, ⟨entry.value.dataType, data1⟩⟩)) ∧
    (is_reference entry.value = false →
      setToEntry ops src_am fuel uninit maps p t type e entry st =
          some
            (match dp with
              | none => st.1
              | some q => st.1.writeEntry uninit q t e type
                  ⟨j, entry.type_spec_flags, entry.value⟩,
              log) ∧
        ∀ q, dp = some q →
          (st.1.writeEntry uninit q t e type ⟨j, entry.type_spec_flags, entry.value⟩).entryAt
            q t e = some ⟨j, entry.type_spec_flags, entry.value⟩) := by
  have hlt : e < type.entries.length := by
    rw [List.get?_eq_getElem?] at he
    exact getElem?_some_lt he
  have hch := matchBundles_maps src_am am maps hmaps entry.cookie
  obtain ⟨m, hm⟩ := matchBundles_total src_am am src_am.apk_assets_ 0 ⟨[], []⟩ maps hmaps a
    (List.mem_iff_getElem?.2 ⟨entry.cookie, ha⟩) j d hmatch
  have hc1 : maps.src_to_dest_asset_cookies.lookup entry.cookie = some j := by
    rw [hch.1, ha]
    simp only [Option.some_bind, hmatch, Option.map_some']
  have hc2 : maps.src_asset_cookie_id_map.lookup entry.cookie = some m := by
    rw [hch.2, ha]
    simp only [Option.some_bind, hmatch, hm]
  have hset1 : (entry.value.dataType == TYPE_NULL && entry.value.data != DATA_NULL_EMPTY) =
      false := by
    rw [Bool.eq_false_iff]
    intro hc
    simp only [Bool.and_eq_true, beq_iff_eq, bne_iff_ne, ne_eq] at hc
    exact hset hc
  obtain ⟨f1, f2, f3, f4⟩ := findSamePath_some a.path am.apk_assets_ 0 j d hmatch
  refine ⟨⟨f2, f3, fun k d1 hk hd1 => f4 k hk d1 hd1⟩, ?_, ?_⟩
  · intro hr
    refine ⟨?_, ?_⟩
    · intro hno
      have hl := buildPackageMap_none src_am am a d m _ hm hno
      unfold setToEntry
      rw [hset1]
      simp only [Bool.false_eq_true, if_false, attributeData, hr, if_true, hc2, hl]
    · intro hex
      obtain ⟨v, hv⟩ := buildPackageMap_key src_am am a d m _ hm hex
      obtain ⟨k, s0, dk, h1, h2, h3, h4, h5⟩ := buildPackageMap_some src_am am a d m _ v hm hv
      have hvlt : v < 256 := by
        rw [← h4]
        exact GetAssignedPackageId_lt am dk
      obtain ⟨g1, g2, g3⟩ := fix_package_id_fields entry.value.data v hvlt
      refine ⟨k, s0, dk, fix_package_id entry.value.data v, h1, h2, h3, h5, ?_, g2, g3, ?_, ?_⟩
      · rw [g1, h4]
      · unfold setToEntry
        rw [hset1]
        simp only [Bool.false_eq_true, if_false, attributeData, hr, if_true, hc2, hv,
          dataDestCookie, hc1, hattr]
        cases dp with
        | none => rfl
        | some q => rfl
      · intro q _
        exact writeEntry_entryAt uninit st.1 q t e type _ hlt
  · intro hr
    refine ⟨?_, fun q _ => writeEntry_entryAt uninit st.1 q t e type _ hlt⟩
    unfold setToEntry
    rw [hset1]
    simp only [Bool.false_eq_true, if_false, attributeData, hr, dataDestCookie, hc1, hattr]
    cases dp with
    | none => rfl
    | some q => rfl

/-- The iteration for the integer 42 of `sampleSourceTheme`: it is owned by the helper,
which `sampleLibraryEngine` does not hold; the iteration writes it with the cookie 0. -/
theorem setToEntry_missing_owner_example :
    ((is_reference (⟨16, 42⟩ : Res_value) = true ∨
        (⟨16, 42⟩ : Res_value).dataType = TYPE_STRING) →
      setToEntry sampleOps sampleSourceEngine 2 (fun _ _ => 0) sampleMaps 1 1
        ⟨sampleSourceSlots⟩ 2 ⟨0, 0, ⟨16, 42⟩⟩ sampleSetToStart = some sampleSetToStart) ∧
    (is_reference (⟨16, 42⟩ : Res_value) = false →
        (⟨16, 42⟩ : Res_value).dataType ≠ TYPE_STRING →
      ((1 : Nat) = 1 →
        setToEntry sampleOps sampleSourceEngine 2 (fun _ _ => 0) sampleMaps 1 1
            ⟨sampleSourceSlots⟩ 2 ⟨0, 0, ⟨16, 42⟩⟩ sampleSetToStart =
            some (sampleSetToStart.1.writeEntry (fun _ _ => 0) 1 1 2 ⟨sampleSourceSlots⟩
              ⟨0, 0, ⟨16, 42⟩⟩, sampleSetToStart.2) ∧
          (sampleSetToStart.1.writeEntry (fun _ _ => 0) 1 1 2 ⟨sampleSourceSlots⟩
            ⟨0, 0, ⟨16, 42⟩⟩).entryAt 1 1 2 = some ⟨0, 0, ⟨16, 42⟩⟩) ∧
      ((1 : Nat) ≠ 1 → ∀ log r,
        FindEntry sampleOps sampleSourceEngine 2 (make_resid 1 1 2) 0 true sampleSetToStart.2 =
          some (log, r) →
        (∀ q, (r.bind (fun x => sampleMaps.src_asset_cookie_id_map.lookup x.1)).bind
            (fun m => m.lookup 1) = some q →
          setToEntry sampleOps sampleSourceEngine 2 (fun _ _ => 0) sampleMaps 1 1
              ⟨sampleSourceSlots⟩ 2 ⟨0, 0, ⟨16, 42⟩⟩ sampleSetToStart =
              some (sampleSetToStart.1.writeEntry (fun _ _ => 0) q 1 2 ⟨sampleSourceSlots⟩
                ⟨0, 0, ⟨16, 42⟩⟩, log) ∧
            (sampleSetToStart.1.writeEntry (fun _ _ => 0) q 1 2 ⟨sampleSourceSlots⟩
              ⟨0, 0, ⟨16, 42⟩⟩).entryAt q 1 2 = some ⟨0, 0, ⟨16, 42⟩⟩) ∧
        ((r.bind (fun x => sampleMaps.src_asset_cookie_id_map.lookup x.1)).bind
            (fun m => m.lookup 1) = none →
          setToEntry sampleOps sampleSourceEngine 2 (fun _ _ => 0) sampleMaps 1 1
            ⟨sampleSourceSlots⟩ 2 ⟨0, 0, ⟨16, 42⟩⟩ sampleSetToStart =
            some (sampleSetToStart.1, log)))) ∧
    (∀ c, sampleMaps.src_to_dest_asset_cookies.lookup c =
        sampleSourceEngine.apk_assets_[c]?.bind (fun a =>
          (findSamePath a.path sampleLibraryEngine.apk_assets_ 0).map (fun jd => jd.1)) ∧
      sampleMaps.src_asset_cookie_id_map.lookup c =
        sampleSourceEngine.apk_assets_[c]?.bind (fun a =>
          (findSamePath a.path sampleLibraryEngine.apk_assets_ 0).bind
            (fun jd => buildPackageMap sampleSourceEngine sampleLibraryEngine a jd.2))) :=
  setToEntry_missing_owner sampleOps sampleSourceEngine sampleLibraryEngine 2 (fun _ _ => 0)
    sampleMaps 1 1 ⟨sampleSourceSlots⟩ 2 ⟨0, 0, ⟨16, 42⟩⟩ sampleSetToStart (by rfl) (by rfl)
    (by decide)
    (by
      intro a ha d hd
      have h1 : sampleSourceEngine.apk_assets_ = [sampleHelperApk, sampleLibraryApk] := rfl
      have h2 : sampleLibraryEngine.apk_assets_ = [sampleLibraryApk] := rfl
      rw [h1] at ha
      rw [h2] at hd
      simp only [List.getElem?_cons_zero, Option.some.injEq] at ha
      simp only [List.mem_singleton] at hd
      rw [← ha, hd]
      decide)

set_option maxRecDepth 8000 in
/-- Counterexample to C23: the slot 1 of type 1 of package `0x01` of `sampleSourceTheme` holds
a string owned by the helper (cookie 0 of `sampleSourceEngine`), for which
`sampleLibraryEngine` holds no bundle of the same path.  The entry is set and is not a
reference, yet its loop iteration leaves the destination theme as it is, and after `SetTo`
the slot of the destination theme is zero-filled and `GetAttribute` finds nothing there.
The second part is about `sampleMixedTheme` of `sampleMixedEngine`, copied into a theme of
`sampleRenumberedEngine`, which does not hold the helper: the packages `0x01` and `0x7f` of the
theme are both sent to the destination package `0x01`.  Copied alone, the two integers of
package `0x01`, owned by the helper, are stored in the slots 0 and 1.  After `SetTo` of the
whole theme the slot 1 holds, with the cookie of the source, the string of package `0x7f`
that is owned by the helper. -/
theorem SetTo_string_counterexample :
    matchBundles sampleSourceEngine sampleLibraryEngine sampleSourceEngine.apk_assets_ 0
        ⟨[], []⟩ = some sampleMaps ∧
      sampleSourceTheme.entryAt 1 1 1 = some ⟨0, 0, ⟨TYPE_STRING, 7⟩⟩ ∧
      is_reference (⟨TYPE_STRING, 7⟩ : Res_value) = false ∧
      sampleSourceEngine.apk_assets_[0]? = some sampleHelperApk ∧
      (∀ d ∈ sampleLibraryEngine.apk_assets_, d.path ≠ sampleHelperApk.path) ∧
      setToEntry sampleOps sampleSourceEngine 2 (fun _ _ => 0) sampleMaps 1 1
        ⟨sampleSourceSlots⟩ 1 ⟨0, 0, ⟨TYPE_STRING, 7⟩⟩ sampleSetToStart =
        some sampleSetToStart ∧
      (SetTo sampleOps 2 (fun _ _ => 0) sampleLibraryEngine Theme.new
          (ThemeRef.other_asset_manager sampleSourceTheme sampleSourceEngine)).map
        (fun r => (r.1.entryAt 1 1 1, (GetAttribute r.1 0x01010001 ⟨0, 0⟩ 0).1)) =
        some (some ThemeEntry.zero, none) ∧
      matchBundles sampleMixedEngine sampleRenumberedEngine sampleMixedEngine.apk_assets_ 0
        ⟨[], []⟩ = some ⟨[(1, 0)], [(1, [(0x7f, 0x01)])]⟩ ∧
      sampleMixedEngine.apk_assets_ = [sampleHelperApk, sampleApk] ∧
      sampleRenumberedEngine.apk_assets_ = [sampleRenumberedApk] ∧
      sampleRenumberedApk.path ≠ sampleHelperApk.path ∧
      DestinationsDisjoint sampleOps sampleMixedEngine 1 ⟨[(1, 0)], [(1, [(0x7f, 0x01)])]⟩
        sampleMixedTheme = false ∧
      destPackage sampleOps sampleMixedEngine 1 ⟨[(1, 0)], [(1, [(0x7f, 0x01)])]⟩ 0x01 1 1 =
        some (some 0x01) ∧
      destPackage sampleOps sampleMixedEngine 1 ⟨[(1, 0)], [(1, [(0x7f, 0x01)])]⟩ 0x7f 1 0 =
        some (some 0x01) ∧
      sampleMixedTheme.entryAt 0x01 1 1 = some ⟨0, 0, ⟨16, 2⟩⟩ ∧
      sampleMixedTheme.entryAt 0x7f 1 1 = some ⟨0, 0, ⟨TYPE_STRING, 7⟩⟩ ∧
      (SetTo sampleOps 1 (fun _ _ => 0) sampleRenumberedEngine Theme.new
          (ThemeRef.other_asset_manager sampleMixedFrameworkTheme sampleMixedEngine)).map
        (fun r => (r.1.entryAt 0x01 1 0, r.1.entryAt 0x01 1 1)) =
          some (some ⟨0, 0, ⟨16, 1⟩⟩, some ⟨0, 0, ⟨16, 2⟩⟩) ∧
      (SetTo sampleOps 1 (fun _ _ => 0) sampleRenumberedEngine Theme.new
          (ThemeRef.other_asset_manager sampleMixedTheme sampleMixedEngine)).map
        (fun r => (r.1.entryAt 0x01 1 0, r.1.entryAt 0x01 1 1)) =
          some (some ⟨0, 0, ⟨16, 7⟩⟩, some ⟨0, 0, ⟨TYPE_STRING, 7⟩⟩) := by
  refine ⟨by rfl, by rfl, by rfl, by rfl, ?_, by rfl, by rfl, by rfl, by rfl, by rfl,
    by decide, by rfl, by rfl, by rfl, by rfl, by rfl, by rfl, by rfl⟩
  intro d hd
  have h2 : sampleLibraryEngine.apk_assets_ = [sampleLibraryApk] := rfl
  rw [h2] at hd
  simp only [List.mem_singleton] at hd
  rw [hd]
  decide

/-- The iteration for a reference: the slot 0 of type 1 of package `0x01` of
`sampleSourceTheme` holds a reference to `0x03020000` owned by the library, which is the bundle 1 of `sampleSourceEngine`
and the bundle 0 of `sampleLibraryEngine`; the library has the assigned id 3 in the former
and 2 in the latter, and the iteration writes a reference to `0x02020000` with the cookie 0;
after `SetTo` the slot holds it. -/
theorem setToEntry_value_remap_example :
    (SetTo sampleOps 2 (fun _ _ => 0) sampleLibraryEngine Theme.new
        (ThemeRef.other_asset_manager sampleSourceTheme sampleSourceEngine)).map
      (fun r => r.1.entryAt 1 1 0) = some (some ⟨0, 0x0004, ⟨TYPE_REFERENCE, 0x02020000⟩⟩) ∧
    ((sampleLibraryEngine.apk_assets_[0]? = some sampleLibraryApk ∧
      sampleLibraryApk.path = sampleLibraryApk.path ∧
      ∀ (k : Nat) (d1 : ApkAssets SampleConfig), k < 0 →
        sampleLibraryEngine.apk_assets_[k]? = some d1 → d1.path ≠ sampleLibraryApk.path) ∧
    (is_reference (⟨TYPE_REFERENCE, 0x03020000⟩ : Res_value) = true →
      ((∀ s ∈ sampleLibraryApk.packages, GetAssignedPackageId sampleSourceEngine s ≠
          get_package_id (⟨TYPE_REFERENCE, 0x03020000⟩ : Res_value).data) →
        setToEntry sampleOps sampleSourceEngine 2 (fun _ _ => 0) sampleMaps 1 1
          ⟨sampleSourceSlots⟩ 0 ⟨1, 0x0004, ⟨TYPE_REFERENCE, 0x03020000⟩⟩
          sampleSetToStart = some sampleSetToStart) ∧
      ((∃ s ∈ sampleLibraryApk.packages, GetAssignedPackageId sampleSourceEngine s =
          get_package_id (⟨TYPE_REFERENCE, 0x03020000⟩ : Res_value).data) →
        ∃ (k : Nat) (s dk : LoadedPackage SampleConfig) (data1 : Nat),
          sampleLibraryApk.packages[k]? = some s ∧ sampleLibraryApk.packages[k]? = some dk ∧
          GetAssignedPackageId sampleSourceEngine s =
            get_package_id (⟨TYPE_REFERENCE, 0x03020000⟩ : Res_value).data ∧
          (∀ (k1 : Nat) (s1 : LoadedPackage SampleConfig), k < k1 →
            sampleLibraryApk.packages[k1]? = some s1 →
            GetAssignedPackageId sampleSourceEngine s1 ≠
              get_package_id (⟨TYPE_REFERENCE, 0x03020000⟩ : Res_value).data) ∧
          get_package_id data1 = GetAssignedPackageId sampleLibraryEngine dk ∧
          get_type_id data1 = get_type_id (⟨TYPE_REFERENCE, 0x03020000⟩ : Res_value).data ∧
          get_entry_id data1 = get_entry_id (⟨TYPE_REFERENCE, 0x03020000⟩ : Res_value).data ∧
          setToEntry sampleOps sampleSourceEngine 2 (fun _ _ => 0) sampleMaps 1 1
              ⟨sampleSourceSlots⟩ 0 ⟨1, 0x0004, ⟨TYPE_REFERENCE, 0x03020000⟩⟩ sampleSetToStart =
            some
              (match (some 1 : Option Nat) with
                | none => sampleSetToStart.1
                | some q => sampleSetToStart.1.writeEntry (fun _ _ => 0) q 1 0
                    ⟨sampleSourceSlots⟩ ⟨0, 0x0004, ⟨TYPE_REFERENCE, data1⟩⟩,
                sampleSetToStart.2) ∧
          ∀ q, (some 1 : Option Nat) = some q →
            (sampleSetToStart.1.writeEntry (fun _ _ => 0) q 1 0 ⟨sampleSourceSlots⟩
              ⟨0, 0x0004, ⟨TYPE_REFERENCE, data1⟩⟩).entryAt q 1 0 =
              some ⟨0, 0x0004, ⟨TYPE_REFERENCE, data1⟩⟩)) ∧
    (is_reference (⟨TYPE_REFERENCE, 0x03020000⟩ : Res_value) = false →
      setToEntry sampleOps sampleSourceEngine 2 (fun _ _ => 0) sampleMaps 1 1
          ⟨sampleSourceSlots⟩ 0 ⟨1, 0x0004, ⟨TYPE_REFERENCE, 0x03020000⟩⟩ sampleSetToStart =
          some
            (match (some 1 : Option Nat) with
              | none => sampleSetToStart.1
              | some q => sampleSetToStart.1.writeEntry (fun _ _ => 0) q 1 0
                  ⟨sampleSourceSlots⟩ ⟨0, 0x0004, ⟨TYPE_REFERENCE, 0x03020000⟩⟩,
              sampleSetToStart.2) ∧
        ∀ q, (some 1 : Option Nat) = some q →
          (sampleSetToStart.1.writeEntry (fun _ _ => 0) q 1 0 ⟨sampleSourceSlots⟩
            ⟨0, 0x0004, ⟨TYPE_REFERENCE, 0x03020000⟩⟩).entryAt q 1 0 =
            some ⟨0, 0x0004, ⟨TYPE_REFERENCE, 0x03020000⟩⟩)) :=
  ⟨by rfl,
    setToEntry_value_remap sampleOps sampleSourceEngine sampleLibraryEngine 2 (fun _ _ => 0)
      sampleMaps 1 1 ⟨sampleSourceSlots⟩ 0 ⟨1, 0x0004, ⟨TYPE_REFERENCE, 0x03020000⟩⟩
      sampleSetToStart sampleLibraryApk 0 sampleLibraryApk sampleSetToStart.2 (some 1)
      (by rfl) (by rfl) (by decide) (by rfl) (by rfl) (by rfl)⟩

/-! ## C31, C32, C39: the overlay loop of FindEntry -/

/-- The result of `FindEntry` without the trace, once the scan of the package group is known:
the scan's result when its bundle is a loader, and otherwise what the overlay loop makes of
it. -/
theorem FindEntry_of_internal {κ : Type} (ops : ResTable_configOps κ)
    (am : AssetManager2 κ) (fuel resid density_override : Nat) (ignore_configuration : Bool)
    (log log1 : Resolution κ) (g : PackageGroup κ) (cookieP : Nat) (resP : FindEntryResult κ)
    (hvalid : is_valid_resid resid = true)
    (hidx : am.package_ids_.getD (get_package_id resid) 0xff ≠ 0xff)
    (hg : am.package_groups_.get? (am.package_ids_.getD (get_package_id resid) 0xff) = some g)
    (hP : (FindEntryInternal ops am g (get_type_id resid - 1) (get_entry_id resid)
      (selectDesiredConfig ops am density_override) ignore_configuration log).2 =
        some (cookieP, resP)) :
    (FindEntry ops am (fuel + 1) resid density_override ignore_configuration log).map Prod.snd =
      if IsLoaderCookie am cookieP then some (some (cookieP, resP))
      else
        (overlayScan ops am am.resource_resolution_logging_enabled_
          (fun r l => FindEntry ops am fuel r density_override ignore_configuration l) resid
          ((selectDesiredConfig ops am density_override).deref am) g.overlays_ cookieP resP
          log1).map (fun x => some x.2) := by
  have hidx' : (am.package_ids_.getD (get_package_id resid) 0xff == 0xff) = false := by
    simpa using hidx
  simp only [FindEntry, hvalid, hidx', hg, Bool.not_true, Bool.false_eq_true, if_false]
  have hP' := (FindEntryInternal_snd_eq ops am am rfl g (get_type_id resid - 1)
    (get_entry_id resid) (selectDesiredConfig ops am density_override) ignore_configuration log
    (if am.resource_resolution_logging_enabled_ = true then
      { (ResetResourceResolution : Resolution κ) with resid := resid } else log)).trans hP
  revert hP'
  generalize FindEntryInternal ops am g (get_type_id resid - 1) (get_entry_id resid)
    (selectDesiredConfig ops am density_override) ignore_configuration _ = X
  intro hP'
  obtain ⟨l1, r1⟩ := X
  simp only at hP'
  subst hP'
  cases hl : IsLoaderCookie am cookieP with
  | true => simp [hl]
  | false =>
    simp only [hl, Bool.not_false, if_true, Bool.false_eq_true, if_false]
    have hs := overlayScan_snd_eq ops am am rfl am.resource_resolution_logging_enabled_
      am.resource_resolution_logging_enabled_
      (fun r l => FindEntry ops am fuel r density_override ignore_configuration l)
      (fun r l => FindEntry ops am fuel r density_override ignore_configuration l)
      (fun r lg lg' => FindEntry_snd_eq ops am am ⟨rfl, rfl, rfl, rfl⟩ fuel r density_override
        ignore_configuration lg lg')
      resid ((selectDesiredConfig ops am density_override).deref am) g.overlays_ cookieP resP
      log1 l1
    revert hs
    generalize overlayScan ops am am.resource_resolution_logging_enabled_
      (fun r l => FindEntry ops am fuel r density_override ignore_configuration l) resid
      ((selectDesiredConfig ops am density_override).deref am) g.overlays_ cookieP resP l1 = Y
    generalize overlayScan ops am am.resource_resolution_logging_enabled_
      (fun r l => FindEntry ops am fuel r density_override ignore_configuration l) resid
      ((selectDesiredConfig ops am density_override).deref am) g.overlays_ cookieP resP log1 = Z
    intro hs
    cases Y with
    | none =>
      cases Z with
      | none => rfl
      | some z => simp at hs
    | some y =>
      cases Z with
      | none => simp at hs
      | some z =>
        simp only [Option.map_some', Option.some.injEq] at hs
        obtain ⟨ly, cy, ry⟩ := y
        obtain ⟨lz, cz, rz⟩ := z
        simp only [Prod.mk.injEq] at hs
        obtain ⟨h1, h2⟩ := hs
        subst h1
        subst h2
        rfl

theorem IsLoaderCookie_congr {κ : Type} (am am1 : AssetManager2 κ)
    (h : am1.apk_assets_ = am.apk_assets_) (cookie : Nat) :
    IsLoaderCookie am1 cookie = IsLoaderCookie am cookie := by
  unfold IsLoaderCookie
  rw [h]

theorem selectDesiredConfig_congr {κ : Type} (ops : ResTable_configOps κ)
    (am am1 : AssetManager2 κ) (h : am1.configuration_ = am.configuration_)
    (density_override : Nat) :
    selectDesiredConfig ops am1 density_override = selectDesiredConfig ops am density_override := by
  simp [selectDesiredConfig, h]

/-- C31 (loader entries are not overlaid).  Let `resid` be a valid identifier whose package
group is `g`, and let the scan of `g` select the entry `resP` with the cookie `cookieP` of a
bundle flagged as a loader.  `FindEntry(resid)` returns `cookieP` and `resP` unchanged, and so
it does in every engine with the same bundles and configuration in which the group carries any
other list of overlay links. -/
theorem FindEntry_loader_not_overlaid {κ : Type} (ops : ResTable_configOps κ)
    (am : AssetManager2 κ) (fuel resid density_override : Nat) (ignore_configuration : Bool)
    (log : Resolution κ) (g : PackageGroup κ) (cookieP : Nat) (resP : FindEntryResult κ)
    (hvalid : is_valid_resid resid = true)
    (hidx : am.package_ids_.getD (get_package_id resid) 0xff ≠ 0xff)
    (hg : am.package_groups_.get? (am.package_ids_.getD (get_package_id resid) 0xff) = some g)
    (hP : (FindEntryInternal ops am g (get_type_id resid - 1) (get_entry_id resid)
      (selectDesiredConfig ops am density_override) ignore_configuration log).2 =
        some (cookieP, resP))
    (hloader : IsLoaderCookie am cookieP = true) :
    (FindEntry ops am (fuel + 1) resid density_override ignore_configuration log).map Prod.snd =
        some (some (cookieP, resP)) ∧
      ∀ (am1 : AssetManager2 κ) (ovs : List ConfiguredOverlay),
        am1.apk_assets_ = am.apk_assets_ → am1.configuration_ = am.configuration_ →
        am1.package_ids_.getD (get_package_id resid) 0xff ≠ 0xff →
        am1.package_groups_.get? (am1.package_ids_.getD (get_package_id resid) 0xff) =
          some { g with overlays_ := ovs } →
        (FindEntry ops am1 (fuel + 1) resid density_override ignore_configuration log).map
          Prod.snd = some (some (cookieP, resP)) := by
  refine ⟨?_, ?_⟩
  · rw [FindEntry_of_internal ops am fuel resid density_override ignore_configuration log log g
      cookieP resP hvalid hidx hg hP, hloader]
    rfl
  · intro am1 ovs hapk hcfg hidx1 hg1
    have hP1 : (FindEntryInternal ops am1 { g with overlays_ := ovs } (get_type_id resid - 1)
        (get_entry_id resid) (selectDesiredConfig ops am1 density_override)
        ignore_configuration log).2 = some (cookieP, resP) := by
      rw [FindEntryInternal_overlays_irrelevant, selectDesiredConfig_congr ops am am1 hcfg,
        FindEntryInternal_snd_eq ops am am1 hcfg g _ _ _ _ log log]
      exact hP
    rw [FindEntry_of_internal ops am1 fuel resid density_override ignore_configuration log log
      { g with overlays_ := ovs } cookieP resP hvalid hidx1 hg1 hP1,
      IsLoaderCookie_congr am am1 hapk, hloader]
    rfl

theorem overlayScan_skip {κ : Type} (ops : ResTable_configOps κ) (am : AssetManager2 κ)
    (l : Bool) (f : Nat → Resolution κ → Option (FindResult κ)) (resid : Nat) (d : κ)
    (skipped rest : List ConfiguredOverlay)
    (h : ∀ link ∈ skipped, link.overlay_res_maps_.Lookup resid = none) (c : Nat)
    (out : FindEntryResult κ) (log : Resolution κ) :
    overlayScan ops am l f resid d (skipped ++ rest) c out log =
      overlayScan ops am l f resid d rest c out log := by
  induction skipped with
  | nil => rfl
  | cons o tl ih =>
    rw [List.cons_append, overlayScan, h o (List.mem_cons_self _ _)]
    exact ih (fun link hl => h link (List.mem_cons_of_mem _ hl))

theorem overlayScan_accept {κ : Type} (ops : ResTable_configOps κ) (am : AssetManager2 κ)
    (l : Bool) (f : Nat → Resolution κ → Option (FindResult κ)) (resid : Nat) (d : κ)
    (link : ConfiguredOverlay) (rest : List ConfiguredOverlay) (r1 : Nat) (c : Nat)
    (out : FindEntryResult κ) (log : Resolution κ) (oc : Nat) (ores : FindEntryResult κ)
    (hmap : link.overlay_res_maps_.Lookup resid = some (IdmapResult.resource r1))
    (hf : (f r1 log).map Prod.snd = some (some (oc, ores)))
    (hok : ops.isBetterThan ores.config out.config d = true ∨
      ops.compare ores.config out.config = 0) :
    ∃ log2, overlayScan ops am l f resid d (link :: rest) c out log =
      overlayScan ops am l f resid d rest oc
        { out with
          entry := ores.entry
          config := ores.config
          dynamic_ref_table := link.overlay_res_maps_.GetOverlayDynamicRefTable am } log2 := by
  obtain ⟨l1, hf1⟩ := FindEntry_eq_of_snd hf
  have hcond : (!ops.isBetterThan ores.config out.config d &&
      ops.compare ores.config out.config != 0) = false := by
    rcases hok with h | h
    · simp [h]
    · simp [h]
  simp only [overlayScan, hmap, hf1, hcond, Bool.false_eq_true, if_false]
  exact ⟨_, rfl⟩

/-- C32, amended (the overlay attached last wins among equals).  Let `resid` be a valid
identifier whose package group `g` has the overlay links `link1` and, later in the list,
`link2`, the only links whose id-maps hold `resid`; let the scan of `g` select the target's
entry `resP` in a bundle that is not a loader, and let the lookups of the two overlay
resources return entries whose configuration is the target's winning configuration.  If
`compare` finds that configuration equal to itself, `FindEntry(resid)` returns the cookie,
the entry and the configuration of the lookup through `link2`. -/
theorem FindEntry_last_overlay_wins {κ : Type} (ops : ResTable_configOps κ)
    (am : AssetManager2 κ) (fuel resid density_override : Nat) (ignore_configuration : Bool)
    (log : Resolution κ) (g : PackageGroup κ) (before between after : List ConfiguredOverlay)
    (link1 link2 : ConfiguredOverlay) (r1 r2 : Nat) (cookieP : Nat) (resP : FindEntryResult κ)
    (cookie1 : Nat) (res1 : FindEntryResult κ) (cookie2 : Nat) (res2 : FindEntryResult κ)
    (hvalid : is_valid_resid resid = true)
    (hidx : am.package_ids_.getD (get_package_id resid) 0xff ≠ 0xff)
    (hg : am.package_groups_.get? (am.package_ids_.getD (get_package_id resid) 0xff) = some g)
    (hP : (FindEntryInternal ops am g (get_type_id resid - 1) (get_entry_id resid)
      (selectDesiredConfig ops am density_override) ignore_configuration log).2 =
        some (cookieP, resP))
    (hloader : IsLoaderCookie am cookieP = false)
    (hlinks : g.overlays_ = before ++ link1 :: (between ++ link2 :: after))
    (hbefore : ∀ link ∈ before, link.overlay_res_maps_.Lookup resid = none)
    (hbetween : ∀ link ∈ between, link.overlay_res_maps_.Lookup resid = none)
    (hafter : ∀ link ∈ after, link.overlay_res_maps_.Lookup resid = none)
    (hmap1 : link1.overlay_res_maps_.Lookup resid = some (IdmapResult.resource r1))
    (hmap2 : link2.overlay_res_maps_.Lookup resid = some (IdmapResult.resource r2))
    (hO1 : (FindEntry ops am fuel r1 density_override ignore_configuration log).map Prod.snd =
      some (some (cookie1, res1)))
    (hO2 : (FindEntry ops am fuel r2 density_override ignore_configuration log).map Prod.snd =
      some (some (cookie2, res2)))
    (hc1 : res1.config = resP.config) (hc2 : res2.config = resP.config)
    (hcmp : ops.compare resP.config resP.config = 0) :
    (FindEntry ops am (fuel + 1) resid density_override ignore_configuration log).map Prod.snd =
      some (some (cookie2,
        { resP with
          entry := res2.entry
          config := res2.config
          dynamic_ref_table := link2.overlay_res_maps_.GetOverlayDynamicRefTable am })) := by
  rw [FindEntry_of_internal ops am fuel resid density_override ignore_configuration log log g
    cookieP resP hvalid hidx hg hP, hloader, hlinks]
  simp only [Bool.false_eq_true, if_false]
  have hany : ∀ (r : Nat) (x : Option (Nat × FindEntryResult κ)),
      (FindEntry ops am fuel r density_override ignore_configuration log).map Prod.snd =
        some x → ∀ lg,
      (FindEntry ops am fuel r density_override ignore_configuration lg).map Prod.snd =
        some x := fun r x h lg =>
    (FindEntry_snd_eq ops am am ⟨rfl, rfl, rfl, rfl⟩ fuel r density_override
      ignore_configuration log lg).trans h
  rw [overlayScan_skip _ _ _ _ _ _ before _ hbefore]
  obtain ⟨log2, h1⟩ := overlayScan_accept ops am am.resource_resolution_logging_enabled_
    (fun r l => FindEntry ops am fuel r density_override ignore_configuration l) resid
    ((selectDesiredConfig ops am density_override).deref am) link1
    (between ++ link2 :: after) r1 cookieP resP log cookie1 res1 hmap1 (hany r1 _ hO1 log)
    (Or.inr (by rw [hc1]; exact hcmp))
  rw [h1, overlayScan_skip _ _ _ _ _ _ between _ hbetween]
  obtain ⟨log3, h2⟩ := overlayScan_accept ops am am.resource_resolution_logging_enabled_
    (fun r l => FindEntry ops am fuel r density_override ignore_configuration l) resid
    ((selectDesiredConfig ops am density_override).deref am) link2 after r2 cookie1
    { resP with
      entry := res1.entry
      config := res1.config
      dynamic_ref_table := link1.overlay_res_maps_.GetOverlayDynamicRefTable am }
    log2 cookie2 res2 hmap2 (hany r2 _ hO2 log2)
    (Or.inr (by
      show ops.compare res2.config res1.config = 0
      rw [hc1, hc2]; exact hcmp))
  rw [h2]
  have h3 := overlayScan_skip ops am am.resource_resolution_logging_enabled_
    (fun r l => FindEntry ops am fuel r density_override ignore_configuration l) resid
    ((selectDesiredConfig ops am density_override).deref am) after [] hafter cookie2
    { resP with
      entry := res2.entry
      config := res2.config
      dynamic_ref_table := link2.overlay_res_maps_.GetOverlayDynamicRefTable am } log3
  rw [List.append_nil] at h3
  rw [h3]
  rfl

/-- Witness of C31: in `sampleLoaderOverlayEngine` the loader's `string/0` wins the tie with
the target's, and `FindEntry` returns it although two overlay links map the resource. -/
theorem FindEntry_loader_not_overlaid_witness :
    (sampleGroupAt sampleLoaderOverlayEngine 0).overlays_.map
        (fun l => (l.overlay_res_maps_.Lookup 0x7f010000, l.cookie)) =
      [(some (IdmapResult.resource 0x02010000), 2),
        (some (IdmapResult.resource 0x03010000), 3)] ∧
    (FindEntry sampleOps sampleLoaderOverlayEngine 2 0x7f010000 0 false
        sampleLoaderOverlayEngine.last_resolution_).map Prod.snd =
      some (some (1, sampleStringResult (sampleGroupAt sampleLoaderOverlayEngine 0) "loader"
        ["first"] 0x0004 700)) :=
  ⟨by decide,
    (FindEntry_loader_not_overlaid sampleOps sampleLoaderOverlayEngine 1 0x7f010000 0 false
      sampleLoaderOverlayEngine.last_resolution_ (sampleGroupAt sampleLoaderOverlayEngine 0) 1
      (sampleStringResult (sampleGroupAt sampleLoaderOverlayEngine 0) "loader" ["first"] 0x0004
        700)
      (by decide) (by decide) (by rfl) (by rfl) (by rfl)).1⟩

/-- Witness of the amended C32: in `sampleTwoOverlayEngine` both overlays define `string/0`
for the target's winning configuration (locale 33), and `FindEntry` returns the value 820 of
the overlay attached second, with its cookie 2. -/
theorem FindEntry_last_overlay_wins_witness :
    (FindEntry sampleOps sampleTwoOverlayEngine 2 0x7f010000 0 false
        sampleTwoOverlayEngine.last_resolution_).map Prod.snd =
      some (some (2,
        { sampleStringResult (sampleGroupAt sampleTwoOverlayEngine 0) "target"
            ["first", "second"] 0x0004 100 with
          entry := EntryVariant.value ⟨TYPE_STRING, 820⟩
          config := ⟨33, 0⟩
          dynamic_ref_table := (sampleGroupAt sampleTwoOverlayEngine 2).dynamic_ref_table })) :=
  FindEntry_last_overlay_wins sampleOps sampleTwoOverlayEngine 1 0x7f010000 0 false
    sampleTwoOverlayEngine.last_resolution_ (sampleGroupAt sampleTwoOverlayEngine 0) [] [] []
    ⟨⟨[(0x7f010000, IdmapResult.resource 0x02010000)], 1⟩, 1⟩
    ⟨⟨[(0x7f010000, IdmapResult.resource 0x03010000)], 2⟩, 2⟩ 0x02010000 0x03010000 0
    (sampleStringResult (sampleGroupAt sampleTwoOverlayEngine 0) "target" ["first", "second"]
      0x0004 100)
    1 (sampleStringResult (sampleGroupAt sampleTwoOverlayEngine 1) "first" ["first"] 0x0100 810)
    2 (sampleStringResult (sampleGroupAt sampleTwoOverlayEngine 2) "second" ["first"] 0x0100 820)
    (by decide) (by decide) (by rfl) (by rfl) (by rfl) (by rfl)
    (by intro l hl; simp at hl) (by intro l hl; simp at hl) (by intro l hl; simp at hl)
    (by rfl) (by rfl) (by rfl) (by rfl) (by rfl) (by rfl) (by rfl)

/-- Counterexample to C32: in `sampleLoaderOverlayEngine` the two overlay links of the group
of `0x7f` map `string/0` to overlay entries that resolve with the configuration (locale 33)
of the winning entry of the group, the loader's.  `FindEntry` returns the loader's value 700
with the cookie 1, not the value 820 and the cookie 3 of the link attached later. -/
theorem FindEntry_last_overlay_loader_counterexample :
    (sampleGroupAt sampleLoaderOverlayEngine 0).overlays_.map
        (fun l => (l.overlay_res_maps_.Lookup 0x7f010000, l.cookie)) =
      [(some (IdmapResult.resource 0x02010000), 2),
        (some (IdmapResult.resource 0x03010000), 3)] ∧
    (FindEntryInternal sampleOps sampleLoaderOverlayEngine
        (sampleGroupAt sampleLoaderOverlayEngine 0) 0 0
        (selectDesiredConfig sampleOps sampleLoaderOverlayEngine 0) false
        sampleLoaderOverlayEngine.last_resolution_).2.map (fun x => (x.1, x.2.config)) =
      some (1, ⟨33, 0⟩) ∧
    (FindEntry sampleOps sampleLoaderOverlayEngine 1 0x02010000 0 false
        sampleLoaderOverlayEngine.last_resolution_).map
          (fun r => r.2.map (fun x => (x.1, x.2.entry, x.2.config))) =
      some (some (2, EntryVariant.value ⟨TYPE_STRING, 810⟩, ⟨33, 0⟩)) ∧
    (FindEntry sampleOps sampleLoaderOverlayEngine 1 0x03010000 0 false
        sampleLoaderOverlayEngine.last_resolution_).map
          (fun r => r.2.map (fun x => (x.1, x.2.entry, x.2.config))) =
      some (some (3, EntryVariant.value ⟨TYPE_STRING, 820⟩, ⟨33, 0⟩)) ∧
    (FindEntry sampleOps sampleLoaderOverlayEngine 2 0x7f010000 0 false
        sampleLoaderOverlayEngine.last_resolution_).map
          (fun r => r.2.map (fun x => (x.1, x.2.entry, x.2.config))) =
      some (some (1, EntryVariant.value ⟨TYPE_STRING, 700⟩, ⟨33, 0⟩)) := by
  refine ⟨by decide, by rfl, by rfl, by rfl, by rfl⟩

/-! ## C33, C35, C36: what ApplyStyle writes -/

theorem Theme.ensurePackage_slot_eq (theme : Theme) (p k : Nat) :
    (theme.ensurePackage p).slot k = theme.slot k := by
  unfold Theme.ensurePackage
  cases hp : theme.packages_ p with
  | some pkg => rfl
  | none =>
    by_cases hk : get_package_id k = p
    · simp only [Theme.slot, hk, hp, if_true]
    · simp only [Theme.slot, hk, if_false]

theorem Theme.ensurePackage_flags (theme : Theme) (p : Nat) :
    (theme.ensurePackage p).type_spec_flags_ = theme.type_spec_flags_ := by
  unfold Theme.ensurePackage
  cases theme.packages_ p <;> rfl

theorem Theme.ensureType_flags (theme : Theme) (p t e : Nat) (pkg : ThemePackage) :
    (theme.ensureType p t e pkg).type_spec_flags_ = theme.type_spec_flags_ := by
  unfold Theme.ensureType
  cases pkg.types t with
  | none => rfl
  | some ty =>
    simp only
    split <;> rfl

theorem get?_replicate_zero (n i : Nat) :
    (List.replicate n ThemeEntry.zero).get? i = none ∨
      (List.replicate n ThemeEntry.zero).get? i = some ThemeEntry.zero := by
  by_cases h : i < n
  · right
    rw [List.get?_eq_getElem?, List.getElem?_replicate]
    simp [h]
  · left
    exact List.get?_eq_none.2 (by simp; omega)

theorem Theme.ensureType_slot_cases (theme : Theme) (p t e k : Nat) (pkg : ThemePackage)
    (hpkg : theme.packages_ p = some pkg) :
    (theme.ensureType p t e pkg).slot k = theme.slot k ∨
      (theme.slot k = none ∧ (theme.ensureType p t e pkg).slot k = some ThemeEntry.zero) := by
  cases hs : theme.slot k with
  | some x => exact Or.inl (Theme.ensureType_slot theme p t e k pkg x hpkg hs)
  | none =>
    by_cases hk : get_package_id k = p ∧ get_type_id k = t
    · obtain ⟨hk1, hk2⟩ := hk
      unfold Theme.ensureType
      cases hty : pkg.types t with
      | none =>
        simp only
        rw [Theme.setType_slot_same _ _ _ _ _ _ hk1 hk2]
        rcases get?_replicate_zero (e + 1) (get_entry_id k) with h | h
        · exact Or.inl h
        · refine Or.inr ⟨?_, h⟩
          first | rfl | trivial
      | some ty =>
        have hs' : ty.entries.get? (get_entry_id k) = none := by
          simpa only [Theme.slot, hk1, hpkg, hk2, hty] using hs
        have hlen : ty.entries.length ≤ get_entry_id k := List.get?_eq_none.1 hs'
        simp only
        split
        · rw [Theme.setType_slot_same _ _ _ _ _ _ hk1 hk2]
          simp only [List.get?_eq_getElem?]
          rw [List.getElem?_append_right hlen]
          rcases get?_replicate_zero (e + 1 - ty.entries.length)
            (get_entry_id k - ty.entries.length) with h | h
          · left
            simpa only [List.get?_eq_getElem?] using h
          · refine Or.inr ⟨?_, by simpa only [List.get?_eq_getElem?] using h⟩
            first | rfl | trivial
        · exact Or.inl hs
    · have hk' : get_package_id k ≠ p ∨ get_type_id k ≠ t := by
        by_cases h1 : get_package_id k = p
        · right; exact fun h2 => hk ⟨h1, h2⟩
        · left; exact h1
      left
      unfold Theme.ensureType
      cases hty : pkg.types t with
      | none =>
        simp only
        rw [Theme.setType_slot_other _ _ _ _ _ _ hpkg hk']
        exact hs
      | some ty =>
        simp only
        split
        · rw [Theme.setType_slot_other _ _ _ _ _ _ hpkg hk']
          exact hs
        · exact hs

theorem ApplyState.selectPackage_flags (st : ApplyState) (p : Nat) :
    (st.selectPackage p).theme.type_spec_flags_ = st.theme.type_spec_flags_ := by
  unfold ApplyState.selectPackage
  split
  · exact Theme.ensurePackage_flags _ _
  · rfl

theorem ApplyState.selectType_flags (st : ApplyState) (p t e : Nat) (pkg : ThemePackage) :
    (st.selectType p t e pkg).theme.type_spec_flags_ = st.theme.type_spec_flags_ := by
  unfold ApplyState.selectType
  split
  · exact Theme.ensureType_flags _ _ _ _ _
  · rfl

/-- What one iteration of the loop of `ApplyStyle` does to the theme: the slot of the key is
written, or kept, according to `force` and to what it held, every other slot is as it was or
is a zero-filled slot the growth of the array has exposed, and the flag mask of the theme is
not touched. -/
theorem applyEntry_effect (force : Bool) (flags : Nat) (e : BagEntry) (st st3 : ApplyState)
    (h : applyEntry force flags e st = some st3) :
    st3.theme.slot e.key =
        some (if force || (st.theme.slotOrZero e.key).isUnset then
          ⟨e.cookie, (st.theme.slotOrZero e.key).type_spec_flags ||| flags, e.value⟩
          else st.theme.slotOrZero e.key) ∧
      (∀ k, ¬ sameSlot e.key k →
        st3.theme.slot k = st.theme.slot k ∨
          (st.theme.slot k = none ∧ st3.theme.slot k = some ThemeEntry.zero)) ∧
      st3.theme.type_spec_flags_ = st.theme.type_spec_flags_ := by
  obtain ⟨pkg1, pkg2, ty, entry, hp1, hp2, hty, hen, h3⟩ :=
    applyEntry_some force flags e st st3 h
  -- the theme after the two conditionals
  have hsel1 : ∀ k, (st.selectPackage (get_package_id e.key)).theme.slot k = st.theme.slot k := by
    intro k
    unfold ApplyState.selectPackage
    split
    · exact Theme.ensurePackage_slot_eq _ _ _
    · rfl
  have hsel2 : ∀ k,
      ((st.selectPackage (get_package_id e.key)).selectType (get_package_id e.key)
        (get_type_id e.key) (get_entry_id e.key) pkg1).theme.slot k = st.theme.slot k ∨
      (st.theme.slot k = none ∧
        ((st.selectPackage (get_package_id e.key)).selectType (get_package_id e.key)
          (get_type_id e.key) (get_entry_id e.key) pkg1).theme.slot k =
            some ThemeEntry.zero) := by
    intro k
    unfold ApplyState.selectType
    split
    · have := Theme.ensureType_slot_cases
        (st.selectPackage (get_package_id e.key)).theme (get_package_id e.key)
        (get_type_id e.key) (get_entry_id e.key) k pkg1 hp1
      rw [hsel1 k] at this
      exact this
    · exact Or.inl (hsel1 k)
  have hflags2 :
      ((st.selectPackage (get_package_id e.key)).selectType (get_package_id e.key)
        (get_type_id e.key) (get_entry_id e.key) pkg1).theme.type_spec_flags_ =
        st.theme.type_spec_flags_ := by
    rw [ApplyState.selectType_flags, ApplyState.selectPackage_flags]
  have hacc :
      ((st.selectPackage (get_package_id e.key)).selectType (get_package_id e.key)
        (get_type_id e.key) (get_entry_id e.key) pkg1).theme.slot e.key = some entry := by
    simp only [Theme.slot, hp2, hty]
    exact hen
  have hold : entry = st.theme.slotOrZero e.key := by
    unfold Theme.slotOrZero
    rcases hsel2 e.key with h1 | ⟨h1, h2⟩
    · rw [← h1, hacc]; rfl
    · rw [h1]
      rw [hacc] at h2
      simp only [Option.some.injEq] at h2
      rw [h2]; rfl
  have hlt : get_entry_id e.key < ty.entries.length := by
    by_contra hc
    rw [List.get?_eq_none.2 (by omega)] at hen
    exact absurd hen (by simp)
  rcases h3 with ⟨hc, h3⟩ | ⟨hc, h3⟩
  · have hc' : (force || (st.theme.slotOrZero e.key).isUnset) = true := by rw [← hold]; exact hc
    refine ⟨?_, ?_, ?_⟩
    · rw [h3, if_pos hc', ← hold]
      simp only
      rw [Theme.setType_slot_same _ _ _ _ _ _ rfl rfl]
      simp only [List.get?_eq_getElem?]
      rw [List.getElem?_set_self hlt]
    · intro k hk
      have hfr : st3.theme.slot k =
          ((st.selectPackage (get_package_id e.key)).selectType (get_package_id e.key)
            (get_type_id e.key) (get_entry_id e.key) pkg1).theme.slot k := by
        rw [h3]
        simp only
        by_cases hpt : get_package_id k = get_package_id e.key ∧
            get_type_id k = get_type_id e.key
        · obtain ⟨hk1, hk2⟩ := hpt
          rw [Theme.setType_slot_same _ _ _ _ _ _ hk1 hk2]
          have hke : get_entry_id e.key ≠ get_entry_id k :=
            fun hh => hk ⟨hk1.symm, hk2.symm, hh⟩
          simp only [Theme.slot, hk1, hp2, hk2, hty, List.get?_eq_getElem?]
          rw [List.getElem?_set_ne hke]
        · have hk' : get_package_id k ≠ get_package_id e.key ∨
              get_type_id k ≠ get_type_id e.key := by
            by_cases h1 : get_package_id k = get_package_id e.key
            · right; exact fun h2 => hpt ⟨h1, h2⟩
            · left; exact h1
          rw [Theme.setType_slot_other _ _ _ _ _ _ hp2 hk']
      rw [hfr]
      exact hsel2 k
    · rw [h3]
      exact hflags2
  · have hc' : ¬ (force || (st.theme.slotOrZero e.key).isUnset) = true := by
      rw [← hold, hc]; simp
    refine ⟨?_, ?_, ?_⟩
    · rw [h3, if_neg hc', ← hold]
      exact hacc
    · intro k _
      rw [h3]
      exact hsel2 k
    · rw [h3]
      exact hflags2

theorem applyEntries_effect (force : Bool) (flags : Nat) :
    ∀ (l : List BagEntry) (st : ApplyState) (r : Theme × Bool),
      applyEntries force flags l st = some r →
      r.1.type_spec_flags_ = st.theme.type_spec_flags_ ∧
        ∀ k, (∀ e ∈ l, ¬ sameSlot e.key k) →
          r.1.slot k = st.theme.slot k ∨
            (st.theme.slot k = none ∧ r.1.slot k = some ThemeEntry.zero) := by
  intro l
  induction l with
  | nil =>
    intro st r h
    simp only [applyEntries, Option.some.injEq] at h
    subst h
    exact ⟨rfl, fun k _ => Or.inl rfl⟩
  | cons a rest ih =>
    intro st r h
    rw [applyEntries] at h
    split at h
    · simp only [Option.some.injEq] at h
      subst h
      exact ⟨rfl, fun k _ => Or.inl rfl⟩
    · split at h
      · exact absurd h (by simp)
      · rename_i st3 hst
        obtain ⟨-, e2, e3⟩ := applyEntry_effect force flags a st st3 hst
        obtain ⟨i1, i2⟩ := ih st3 r h
        refine ⟨i1.trans e3, ?_⟩
        intro k hk
        have s1 := e2 k (hk a (List.mem_cons_self _ _))
        have s2 := i2 k (fun e he => hk e (List.mem_cons_of_mem _ he))
        rcases s1 with s1 | ⟨s1, s1'⟩
        · rw [s1] at s2
          exact s2
        · rcases s2 with s2 | ⟨s2, -⟩
          · exact Or.inr ⟨s1, s2.trans s1'⟩
          · rw [s1'] at s2
            exact absurd s2 (by simp)

theorem applyEntries_written (force : Bool) (flags : Nat) :
    ∀ (l : List BagEntry) (st : ApplyState) (th : Theme),
      applyEntries force flags l st = some (th, true) →
      l.Pairwise (fun a b => ¬ sameSlot a.key b.key) →
      ∀ e ∈ l, th.slot e.key =
        some (if force || (st.theme.slotOrZero e.key).isUnset then
          ⟨e.cookie, (st.theme.slotOrZero e.key).type_spec_flags ||| flags, e.value⟩
          else st.theme.slotOrZero e.key) := by
  intro l
  induction l with
  | nil => intro st th _ _ e he; simp at he
  | cons a rest ih =>
    intro st th h hd e he
    rw [applyEntries] at h
    split at h
    · simp at h
    · split at h
      · exact absurd h (by simp)
      · rename_i st3 hst
        obtain ⟨e1, e2, -⟩ := applyEntry_effect force flags a st st3 hst
        have hd1 := (List.pairwise_cons.1 hd).1
        rcases List.mem_cons.1 he with rfl | he'
        · obtain ⟨-, i2⟩ := applyEntries_effect force flags rest st3 (th, true) h
          rcases i2 e.key (fun x hx hs => hd1 x hx ⟨hs.1.symm, hs.2.1.symm, hs.2.2.symm⟩)
            with s | ⟨s, -⟩
          · rw [s]; exact e1
          · rw [e1] at s
            exact absurd s (by simp)
        · have hz : st3.theme.slotOrZero e.key = st.theme.slotOrZero e.key := by
            unfold Theme.slotOrZero
            rcases e2 e.key (hd1 e he') with s | ⟨s, s'⟩
            · rw [s]
            · rw [s, s']; rfl
          rw [← hz]
          exact ih st3 th h (List.pairwise_cons.1 hd).2 e he'

theorem not_sameSlot_of_ne (l : List BagEntry)
    (hd : l.Pairwise (fun a b => a.key ≠ b.key)) (hb : ∀ e ∈ l, e.key < 2 ^ 32) :
    l.Pairwise (fun a b => ¬ sameSlot a.key b.key) := by
  induction l with
  | nil => exact List.Pairwise.nil
  | cons a rest ih =>
    refine List.pairwise_cons.2 ⟨?_, ih (List.pairwise_cons.1 hd).2
      (fun e he => hb e (List.mem_cons_of_mem _ he))⟩
    intro b hbm hs
    exact (List.pairwise_cons.1 hd).1 b hbm
      (sameSlot_eq _ _ (hb a (List.mem_cons_self _ _)) (hb b (List.mem_cons_of_mem _ hbm)) hs)

theorem GetAttribute_zero (theme : Theme) (resid : Nat) (out_value : Res_value)
    (out_flags : Nat) (h : theme.slot resid = some ThemeEntry.zero) :
    GetAttribute theme resid out_value out_flags = (none, out_value, out_flags) := by
  unfold GetAttribute
  rw [getAttributeLoop_slot_some theme out_value out_flags 20 resid 0 ThemeEntry.zero h]
  rfl

/-- C33, amended (what a theme write stores).  When `ApplyStyle` returns, the overall flag
mask of the theme is its previous mask or-ed with the mask of the bag of the style.  When it
returns true and the keys of the bag, 32-bit values, are pairwise distinct, then for every
entry of the bag: if `force` is set or the slot of the key held the unset marker (a slot the
theme did not have counts as zero-filled), the slot afterwards holds the cookie and the value
of the entry and the flag mask it had before or-ed with the mask of the bag; otherwise it
holds what it held. -/
theorem ApplyStyle_write_stores {κ : Type} (ops : ResTable_configOps κ)
    (dops : DynamicRefTableOps) (fuel : Nat) (am am0 am1 : AssetManager2 κ)
    (theme theme1 : Theme) (resid : Nat) (force result : Bool) (bag : ResolvedBag)
    (h : ApplyStyle ops dops fuel am theme resid force = some (am1, theme1, result))
    (hbag : GetBag ops dops fuel am resid = some (am0, some bag)) :
    theme1.type_spec_flags_ = theme.type_spec_flags_ ||| bag.type_spec_flags ∧
      (result = true → bag.entries.Pairwise (fun a b => a.key ≠ b.key) →
        (∀ e ∈ bag.entries, e.key < 2 ^ 32) →
        ∀ e ∈ bag.entries,
          ((force || (theme.slotOrZero e.key).isUnset) = true →
            theme1.slot e.key =
              some ⟨e.cookie, (theme.slotOrZero e.key).type_spec_flags ||| bag.type_spec_flags,
                e.value⟩) ∧
          ((force || (theme.slotOrZero e.key).isUnset) = false →
            theme1.slot e.key = some (theme.slotOrZero e.key))) := by
  unfold ApplyStyle at h
  rw [hbag] at h
  simp only at h
  split at h
  · exact absurd h (by simp)
  · rename_i th res happ
    simp only [Option.some.injEq, Prod.mk.injEq] at h
    obtain ⟨-, rfl, rfl⟩ := h
    obtain ⟨f1, -⟩ := applyEntries_effect force bag.type_spec_flags _ _ _ happ
    refine ⟨f1, ?_⟩
    intro hres hd hb e he
    subst hres
    have hw := applyEntries_written force bag.type_spec_flags bag.entries.reverse _ th happ
      (List.pairwise_reverse.2
        ((not_sameSlot_of_ne bag.entries hd hb).imp
          (fun {a b} hab hs => hab ⟨hs.1.symm, hs.2.1.symm, hs.2.2.symm⟩)))
      e (List.mem_reverse.2 he)
    have hz : ∀ k, Theme.slotOrZero
        { theme with type_spec_flags_ := theme.type_spec_flags_ ||| bag.type_spec_flags } k =
        theme.slotOrZero k := fun k => rfl
    rw [hz] at hw
    refine ⟨fun hc => ?_, fun hc => ?_⟩
    · rw [hw, if_pos hc]
    · rw [hw, if_neg (by rw [hc]; simp)]

/-- C35 (`ApplyStyle` touches only the keys of the bag).  When `ApplyStyle` returns and the
style has no bag, the theme is the one before the call.  When the style has a bag whose keys
are 32-bit values, every slot whose identifier (a 32-bit value) is not a key of the bag either
is as before the call, or did not exist before and is zero-filled now, and then `GetAttribute`
on it returns `kInvalidCookie`.  The allocation or growth of the array of a type keeps every
slot the theme had. -/
theorem ApplyStyle_frame {κ : Type} (ops : ResTable_configOps κ)
    (dops : DynamicRefTableOps) (fuel : Nat) (am am1 : AssetManager2 κ)
    (theme theme1 : Theme) (resid : Nat) (force result : Bool)
    (h : ApplyStyle ops dops fuel am theme resid force = some (am1, theme1, result)) :
    (∀ am0, GetBag ops dops fuel am resid = some (am0, none) → theme1 = theme) ∧
      (∀ am0 bag, GetBag ops dops fuel am resid = some (am0, some bag) →
        (∀ e ∈ bag.entries, e.key < 2 ^ 32) →
        ∀ k, k < 2 ^ 32 → (∀ e ∈ bag.entries, e.key ≠ k) →
          theme1.slot k = theme.slot k ∨
            (theme.slot k = none ∧ theme1.slot k = some ThemeEntry.zero ∧
              ∀ out_value out_flags,
                GetAttribute theme1 k out_value out_flags = (none, out_value, out_flags))) ∧
      (∀ (th : Theme) (p t e k : Nat) (package : ThemePackage) (x : ThemeEntry),
        th.packages_ p = some package → th.slot k = some x →
        (th.ensureType p t e package).slot k = some x) := by
  refine ⟨?_, ?_, fun th p t e k package x hp hs =>
    Theme.ensureType_slot th p t e k package x hp hs⟩
  · intro am0 hbag
    unfold ApplyStyle at h
    rw [hbag] at h
    simp only [Option.some.injEq, Prod.mk.injEq] at h
    exact h.2.1.symm
  · intro am0 bag hbag hb k hk hne
    unfold ApplyStyle at h
    rw [hbag] at h
    simp only at h
    split at h
    · exact absurd h (by simp)
    · rename_i th res happ
      simp only [Option.some.injEq, Prod.mk.injEq] at h
      obtain ⟨-, rfl, -⟩ := h
      obtain ⟨-, f2⟩ := applyEntries_effect force bag.type_spec_flags _ _ _ happ
      have := f2 k (fun e he hs =>
        hne e (List.mem_reverse.1 he) (sameSlot_eq _ _ (hb e (List.mem_reverse.1 he)) hk hs))
      rcases this with s | ⟨s, s'⟩
      · exact Or.inl s
      · exact Or.inr ⟨s, s', fun ov ofl => GetAttribute_zero th k ov ofl s'⟩

theorem applyEntries_valid (force : Bool) (flags : Nat) :
    ∀ (l : List BagEntry) (st : ApplyState) (r : Theme × Bool),
      (∀ e ∈ l, is_valid_resid e.key = true) →
      applyEntries force flags l st = some r → r.2 = true := by
  intro l
  induction l with
  | nil =>
    intro st r _ h
    simp only [applyEntries, Option.some.injEq] at h
    rw [← h]
  | cons a rest ih =>
    intro st r hv h
    rw [applyEntries] at h
    have ha := hv a (List.mem_cons_self _ _)
    simp only [ha, Bool.not_true, Bool.false_eq_true, if_false] at h
    split at h
    · exact absurd h (by simp)
    · rename_i st3 _
      exact ih st3 r (fun e he => hv e (List.mem_cons_of_mem _ he)) h

theorem applyEntries_invalid (force : Bool) (flags : Nat) (bad : BagEntry)
    (hbad : is_valid_resid bad.key = false) (rest : List BagEntry) :
    ∀ (l : List BagEntry) (st : ApplyState),
      (∀ e ∈ l, is_valid_resid e.key = true) →
      applyEntries force flags (l ++ bad :: rest) st =
        (applyEntries force flags l st).map (fun r => (r.1, false)) := by
  intro l
  induction l with
  | nil =>
    intro st _
    simp only [List.nil_append, applyEntries, hbad, Bool.not_false, if_true, Option.map_some']
  | cons a tl ih =>
    intro st hv
    have ha := hv a (List.mem_cons_self _ _)
    simp only [List.cons_append, applyEntries, ha, Bool.not_true, Bool.false_eq_true, if_false]
    cases applyEntry force flags a st with
    | none => rfl
    | some st3 => exact ih st3 (fun e he => hv e (List.mem_cons_of_mem _ he))

/-- C36, amended (`ApplyStyle` returning false).  When the style has no bag, `ApplyStyle`
returns false and the theme is exactly the one before the call.  When the bag holds a key
that is not a valid resource identifier, and `high` are the entries after the last such key,
`ApplyStyle` applies the entries of `high` like the loop on these entries alone and then
returns false: the theme is the one that loop leaves, with the overall flag mask or-ed with
the mask of the bag. -/
theorem ApplyStyle_returns_false {κ : Type} (ops : ResTable_configOps κ)
    (dops : DynamicRefTableOps) (fuel : Nat) (am am0 : AssetManager2 κ) (theme : Theme)
    (resid : Nat) (force : Bool) :
    (GetBag ops dops fuel am resid = some (am0, none) →
      ApplyStyle ops dops fuel am theme resid force = some (am0, theme, false)) ∧
    (∀ (bag : ResolvedBag) (low high : List BagEntry) (bad : BagEntry),
      GetBag ops dops fuel am resid = some (am0, some bag) →
      bag.entries = low ++ bad :: high → is_valid_resid bad.key = false →
      (∀ e ∈ high, is_valid_resid e.key = true) →
      ApplyStyle ops dops fuel am theme resid force =
          (applyEntries force bag.type_spec_flags high.reverse
            ⟨{ theme with type_spec_flags_ := theme.type_spec_flags_ ||| bag.type_spec_flags },
              none, none⟩).map (fun r => (am0, r.1, false)) ∧
        ∀ am1 theme1 result,
          ApplyStyle ops dops fuel am theme resid force = some (am1, theme1, result) →
          result = false ∧
            theme1.type_spec_flags_ = theme.type_spec_flags_ ||| bag.type_spec_flags) := by
  refine ⟨?_, ?_⟩
  · intro hbag
    unfold ApplyStyle
    rw [hbag]
  · intro bag low high bad hbag hsplit hbad hhigh
    have hrev : bag.entries.reverse = high.reverse ++ bad :: low.reverse := by
      rw [hsplit]
      simp
    have hrun : ApplyStyle ops dops fuel am theme resid force =
        (applyEntries force bag.type_spec_flags high.reverse
          ⟨{ theme with type_spec_flags_ := theme.type_spec_flags_ ||| bag.type_spec_flags },
            none, none⟩).map (fun r => (am0, r.1, false)) := by
      unfold ApplyStyle
      rw [hbag]
      simp only
      rw [hrev, applyEntries_invalid force bag.type_spec_flags bad hbad low.reverse
        high.reverse _ (fun e he => hhigh e (List.mem_reverse.1 he))]
      cases applyEntries force bag.type_spec_flags high.reverse
          ⟨{ theme with type_spec_flags_ := theme.type_spec_flags_ ||| bag.type_spec_flags },
            none, none⟩ with
      | none => rfl
      | some r => rfl
    refine ⟨hrun, ?_⟩
    intro am1 theme1 result h
    rw [hrun] at h
    cases happ : applyEntries force bag.type_spec_flags high.reverse
        ⟨{ theme with type_spec_flags_ := theme.type_spec_flags_ ||| bag.type_spec_flags },
          none, none⟩ with
    | none => rw [happ] at h; simp at h
    | some r =>
      rw [happ] at h
      simp only [Option.map_some', Option.some.injEq, Prod.mk.injEq] at h
      obtain ⟨-, h2, h3⟩ := h
      obtain ⟨f1, -⟩ := applyEntries_effect force bag.type_spec_flags _ _ _ happ
      exact ⟨h3.symm, by rw [← h2]; exact f1⟩

/-- Witness of the amended C33: applying the child style `0x7f020001` (mask `0x0104`) with
force to the sample theme gives the theme the mask `0x0104` and the slot `0x7f010003`, which
held the flags `0x0004`, the value 23 with the flags `0x0104`. -/
theorem ApplyStyle_write_stores_witness :
    ∃ (am1 : AssetManager2 SampleConfig) (theme1 : Theme),
      ApplyStyle sampleOps sampleRefOps 2 sampleStyleEngine sampleTheme 0x7f020001 true =
        some (am1, theme1, true) ∧
      theme1.type_spec_flags_ = 0x0104 ∧
      theme1.slot 0x7f010003 = some ⟨0, 0x0104, ⟨16, 23⟩⟩ :=
  have h := ApplyStyle_write_stores sampleOps sampleRefOps 2 sampleStyleEngine _ _ sampleTheme _
    0x7f020001 true true sampleChildBag rfl rfl
  ⟨_, _, rfl, h.1,
    ((h.2 rfl (by decide) (by decide) ⟨0x7f010003, ⟨16, 23⟩, 0, 0x7f020001⟩
      (by decide)).1 (by decide))⟩

/-- Counterexample to C33: a new theme of `sampleStyleEngine` to which the child style
`0x7f020001` (mask `0x0104`) and then the parent style `0x7f020000` (mask `0x0004`) are
applied with force.  The second call writes the slot `0x7f010003`, which afterwards holds the
parent's value 13 with the flag mask `0x0104`, not the mask `0x0004` of the bag applied. -/
theorem ApplyStyle_slot_flags_counterexample :
    ∃ (am1 am2 am3 : AssetManager2 SampleConfig) (theme1 theme2 : Theme)
      (bag : ResolvedBag),
      ApplyStyle sampleOps sampleRefOps 2 sampleStyleEngine Theme.new 0x7f020001 true =
        some (am1, theme1, true) ∧
      GetBag sampleOps sampleRefOps 2 am1 0x7f020000 = some (am2, some bag) ∧
      bag.type_spec_flags = 0x0004 ∧
      ApplyStyle sampleOps sampleRefOps 2 am1 theme1 0x7f020000 true =
        some (am3, theme2, true) ∧
      theme1.slot 0x7f010003 = some ⟨0, 0x0104, ⟨16, 23⟩⟩ ∧
      theme2.slot 0x7f010003 = some ⟨0, 0x0104, ⟨16, 13⟩⟩ :=
  ⟨_, _, _, _, _, _, rfl, rfl, by rfl, rfl, by rfl, by rfl⟩

/-- Witness of C35: applying the child style `0x7f020001` to a new theme allocates six slots
for the attributes of package `0x7f`; the slot `0x7f010004`, which is not a key of the bag,
did not exist and is zero-filled afterwards, and `GetAttribute` finds nothing there. -/
theorem ApplyStyle_frame_witness :
    ∃ (am1 : AssetManager2 SampleConfig) (theme1 : Theme),
      ApplyStyle sampleOps sampleRefOps 2 sampleStyleEngine Theme.new 0x7f020001 false =
        some (am1, theme1, true) ∧
      theme1.slot 0x7f010004 = some ThemeEntry.zero ∧
      (theme1.slot 0x7f010004 = Theme.new.slot 0x7f010004 ∨
        (Theme.new.slot 0x7f010004 = none ∧ theme1.slot 0x7f010004 = some ThemeEntry.zero ∧
          ∀ out_value out_flags, GetAttribute theme1 0x7f010004 out_value out_flags =
            (none, out_value, out_flags))) :=
  ⟨_, _, rfl, by rfl,
    (ApplyStyle_frame sampleOps sampleRefOps 2 sampleStyleEngine _ Theme.new _ 0x7f020001 false
      true rfl).2.1 _ sampleChildBag rfl (by decide) 0x7f010004 (by decide) (by decide)⟩

/-- Witness of the amended C36: the bag of the style `0x7f020000` of `sampleInternalEngine`
holds the invalid key `0x01000000` before the key `0x7f010001`; `ApplyStyle` applies the
entry of the latter and returns false. -/
theorem ApplyStyle_returns_false_witness :
    ∃ am0,
      GetBag sampleOps sampleRefOps 1 sampleInternalEngine 0x7f020000 =
        some (am0, some sampleInternalBag) ∧
      ApplyStyle sampleOps sampleRefOps 1 sampleInternalEngine Theme.new 0x7f020000 false =
        (applyEntries false 0x0004 [⟨0x7f010001, ⟨16, 71⟩, 0, 0x7f020000⟩]
          ⟨{ Theme.new with type_spec_flags_ := Theme.new.type_spec_flags_ ||| 0x0004 },
            none, none⟩).map (fun r => (am0, r.1, false)) :=
  ⟨_, rfl,
    ((ApplyStyle_returns_false sampleOps sampleRefOps 1 sampleInternalEngine _ Theme.new
      0x7f020000 false).2 sampleInternalBag [] [⟨0x7f010001, ⟨16, 71⟩, 0, 0x7f020000⟩]
      ⟨0x01000000, ⟨16, 1⟩, 0, 0x7f020000⟩ rfl rfl (by decide) (by decide)).1⟩

/-- Counterexample to C36: `ApplyStyle` of the style `0x7f020000` of `sampleInternalEngine`
on a new theme returns false, because the bag holds the key `0x01000000`, yet afterwards the
overall flag mask is `0x0004` and the slot `0x7f010001`, which the theme did not have, holds
the value 71. -/
theorem ApplyStyle_partial_counterexample :
    ∃ (am1 : AssetManager2 SampleConfig) (theme1 : Theme),
      ApplyStyle sampleOps sampleRefOps 1 sampleInternalEngine Theme.new 0x7f020000 false =
        some (am1, theme1, false) ∧
      Theme.new.type_spec_flags_ = 0 ∧ theme1.type_spec_flags_ = 0x0004 ∧
      Theme.new.slot 0x7f010001 = none ∧
      theme1.slot 0x7f010001 = some ⟨0, 0x0004, ⟨16, 71⟩⟩ :=
  ⟨_, _, rfl, by rfl, by rfl, by rfl, by rfl⟩

/-! ## C34: ApplyStyle grows each array once -/

theorem ApplyState.selectPackage_last (st : ApplyState) (p : Nat) :
    (st.selectPackage p).last_package_idx = some p := by
  unfold ApplyState.selectPackage
  split
  · rfl
  · rename_i h
    simpa using h

theorem ApplyState.selectPackage_same (st : ApplyState) (p : Nat)
    (h : st.last_package_idx = some p) : st.selectPackage p = st := by
  unfold ApplyState.selectPackage
  rw [h]
  simp

theorem ApplyState.selectPackage_other (st : ApplyState) (p : Nat)
    (h : st.last_package_idx ≠ some p) :
    st.selectPackage p = ⟨st.theme.ensurePackage p, some p, none⟩ := by
  unfold ApplyState.selectPackage
  have : (st.last_package_idx != some p) = true := by simpa using h
  rw [if_pos this]

theorem ApplyState.selectType_same (st : ApplyState) (p t e : Nat) (pkg : ThemePackage)
    (h : st.last_type_idx = some t) : st.selectType p t e pkg = st := by
  unfold ApplyState.selectType
  rw [h]
  simp

theorem ApplyState.selectType_other (st : ApplyState) (p t e : Nat) (pkg : ThemePackage)
    (h : st.last_type_idx ≠ some t) :
    st.selectType p t e pkg = ⟨st.theme.ensureType p t e pkg, st.last_package_idx, some t⟩ := by
  unfold ApplyState.selectType
  have : (st.last_type_idx != some t) = true := by simpa using h
  rw [if_pos this]

theorem Theme.ensureType_contains (theme : Theme) (p t e : Nat) (pkg : ThemePackage)
    (hpkg : theme.packages_ p = some pkg) :
    ∃ pkg2 ty, (theme.ensureType p t e pkg).packages_ p = some pkg2 ∧
      pkg2.types t = some ty ∧ e < ty.entries.length := by
  unfold Theme.ensureType
  cases hty : pkg.types t with
  | none =>
    refine ⟨⟨fun t2 => if t2 = t then some ⟨List.replicate (e + 1) ThemeEntry.zero⟩
      else pkg.types t2⟩, ⟨List.replicate (e + 1) ThemeEntry.zero⟩, ?_, ?_, ?_⟩
    · simp only [Theme.setType, if_true]
    · simp only [if_true]
    · simp
  | some ty =>
    simp only
    split
    · rename_i hge
      refine ⟨⟨fun t2 => if t2 = t then
          some ⟨ty.entries ++ List.replicate (e + 1 - ty.entries.length) ThemeEntry.zero⟩
        else pkg.types t2⟩,
        ⟨ty.entries ++ List.replicate (e + 1 - ty.entries.length) ThemeEntry.zero⟩,
        ?_, ?_, ?_⟩
      · simp only [Theme.setType, if_true]
      · simp only [if_true]
      · simp only [List.length_append, List.length_replicate]
        omega
    · rename_i hlt
      exact ⟨pkg, ty, hpkg, hty, by omega⟩

/-- One iteration of the loop of `ApplyStyle` stays in bounds and leaves the pointers at the
slot of its key, provided that, when the package and the type are the ones of the previous
iteration, the array of the type contains the slot. -/
theorem applyEntry_step (force : Bool) (flags : Nat) (e : BagEntry) (st : ApplyState)
    (hpre1 : st.last_package_idx = some (get_package_id e.key) →
      ∃ pkg, st.theme.packages_ (get_package_id e.key) = some pkg)
    (hpre2 : st.last_package_idx = some (get_package_id e.key) →
      st.last_type_idx = some (get_type_id e.key) →
      ∃ pkg ty, st.theme.packages_ (get_package_id e.key) = some pkg ∧
        pkg.types (get_type_id e.key) = some ty ∧ get_entry_id e.key < ty.entries.length) :
    ∃ st3, applyEntry force flags e st = some st3 ∧ st3.At e.key := by
  -- the state after the first conditional
  have h1 : ∃ pkg1, (st.selectPackage (get_package_id e.key)).theme.packages_
      (get_package_id e.key) = some pkg1 := by
    by_cases hp : st.last_package_idx = some (get_package_id e.key)
    · rw [ApplyState.selectPackage_same st _ hp]
      exact hpre1 hp
    · rw [ApplyState.selectPackage_other st _ hp]
      exact Theme.ensurePackage_some _ _
  obtain ⟨pkg1, hp1⟩ := h1
  -- the state after the second conditional
  have h2 : ((st.selectPackage (get_package_id e.key)).selectType (get_package_id e.key)
        (get_type_id e.key) (get_entry_id e.key) pkg1).last_package_idx =
        some (get_package_id e.key) ∧
      ((st.selectPackage (get_package_id e.key)).selectType (get_package_id e.key)
        (get_type_id e.key) (get_entry_id e.key) pkg1).last_type_idx =
        some (get_type_id e.key) ∧
      ∃ pkg2 ty, ((st.selectPackage (get_package_id e.key)).selectType (get_package_id e.key)
          (get_type_id e.key) (get_entry_id e.key) pkg1).theme.packages_
          (get_package_id e.key) = some pkg2 ∧
        pkg2.types (get_type_id e.key) = some ty ∧ get_entry_id e.key < ty.entries.length := by
    by_cases ht : (st.selectPackage (get_package_id e.key)).last_type_idx =
        some (get_type_id e.key)
    · rw [ApplyState.selectType_same _ _ _ _ _ ht]
      refine ⟨ApplyState.selectPackage_last st _, ht, ?_⟩
      by_cases hp : st.last_package_idx = some (get_package_id e.key)
      · rw [ApplyState.selectPackage_same st _ hp] at ht ⊢
        exact hpre2 hp ht
      · rw [ApplyState.selectPackage_other st _ hp] at ht
        simp at ht
    · rw [ApplyState.selectType_other _ _ _ _ _ ht]
      exact ⟨ApplyState.selectPackage_last st _, rfl,
        Theme.ensureType_contains _ _ _ _ pkg1 hp1⟩
  obtain ⟨l1, l2, pkg2, ty, hp2, hty, hlt⟩ := h2
  have hget : ty.entries.get? (get_entry_id e.key) =
      some (ty.entries.get ⟨get_entry_id e.key, hlt⟩) := List.get?_eq_get hlt
  unfold applyEntry
  simp only [hp1, hp2, hty, hget]
  split
  · refine ⟨_, rfl, l1, l2, ?_⟩
    simp only [Theme.setType, if_true]
    refine ⟨_, ⟨ty.entries.set (get_entry_id e.key)
      ⟨e.cookie, (ty.entries.get ⟨get_entry_id e.key, hlt⟩).type_spec_flags ||| flags,
        e.value⟩⟩, rfl, ?_, ?_⟩
    · simp only [if_true]
    · simp only [List.length_set]
      exact hlt
  · exact ⟨_, rfl, l1, l2, pkg2, ty, hp2, hty, hlt⟩

theorem allocations_here (st : ApplyState) (p t e : Nat)
    (hp : st.last_package_idx = some p) (ht : st.last_type_idx = some t) :
    (match (st.selectPackage p).theme.packages_ p with
      | none => ([] : List (Nat × Nat))
      | some last_package =>
        if (st.selectPackage p).allocates t e last_package then [(p, t)] else []) = [] := by
  rw [ApplyState.selectPackage_same st p hp]
  cases st.theme.packages_ p with
  | none => rfl
  | some pkg =>
    simp only [ApplyState.allocates, ht, bne_self_eq_false, Bool.false_and, Bool.false_eq_true,
      if_false]

theorem ids_of_le (a b : Nat) (ha : a < 2 ^ 32) (hb : b < 2 ^ 32) (hab : a ≤ b)
    (hp : get_package_id a = get_package_id b) (ht : get_type_id a = get_type_id b) :
    get_entry_id a ≤ get_entry_id b := by
  simp only [get_package_id, get_type_id, get_entry_id] at *
  norm_num at *
  omega

theorem ids_between (a b c : Nat) (ha : a < 2 ^ 32) (hb : b < 2 ^ 32) (hc : c < 2 ^ 32)
    (hab : a ≤ b) (hbc : b ≤ c)
    (hp : get_package_id a = get_package_id c) (ht : get_type_id a = get_type_id c) :
    get_package_id b = get_package_id c ∧ get_type_id b = get_type_id c := by
  simp only [get_package_id, get_type_id] at *
  norm_num at *
  omega

/-- The loop of `ApplyStyle` on entries whose keys do not increase: every slot access is in
bounds, and no array is allocated or reallocated twice.  `prev` is the key of the previous
iteration, if there was one. -/
theorem applyEntries_descending (force : Bool) (flags : Nat) :
    ∀ (l : List BagEntry) (st : ApplyState) (prev : Option Nat),
      (match prev with
        | none => st.last_package_idx = none ∧ st.last_type_idx = none
        | some kp => kp < 2 ^ 32 ∧ st.At kp ∧ ∀ e ∈ l, e.key ≤ kp) →
      (∀ e ∈ l, e.key < 2 ^ 32) → l.Pairwise (fun a b => b.key ≤ a.key) →
      (∃ r, applyEntries force flags l st = some r) ∧
        (allocations force flags l st).Nodup ∧
        ∀ x ∈ allocations force flags l st, ∃ e ∈ l,
          x = (get_package_id e.key, get_type_id e.key) ∧
            ∀ kp, prev = some kp →
              ¬ (get_package_id e.key = get_package_id kp ∧
                get_type_id e.key = get_type_id kp) := by
  intro l
  induction l with
  | nil =>
    intro st prev _ _ _
    exact ⟨⟨_, rfl⟩, List.nodup_nil, fun x hx => by simp [allocations] at hx⟩
  | cons a rest ih =>
    intro st prev hinv hbits hsorted
    have ha := hbits a (List.mem_cons_self _ _)
    by_cases hv : is_valid_resid a.key = true
    · -- the preconditions of the iteration
      have hpre : (st.last_package_idx = some (get_package_id a.key) →
            ∃ pkg, st.theme.packages_ (get_package_id a.key) = some pkg) ∧
          (st.last_package_idx = some (get_package_id a.key) →
            st.last_type_idx = some (get_type_id a.key) →
            ∃ pkg ty, st.theme.packages_ (get_package_id a.key) = some pkg ∧
              pkg.types (get_type_id a.key) = some ty ∧
              get_entry_id a.key < ty.entries.length) := by
        cases prev with
        | none =>
          obtain ⟨h1, -⟩ := hinv
          refine ⟨fun h => ?_, fun h => ?_⟩
          · rw [h1] at h; exact absurd h (by simp)
          · rw [h1] at h; exact absurd h (by simp)
        | some kp =>
          obtain ⟨hkp, ⟨q1, q2, pkg, ty, q3, q4, q5⟩, hle⟩ := hinv
          refine ⟨fun h => ?_, fun h h' => ?_⟩
          · rw [q1] at h
            simp only [Option.some.injEq] at h
            rw [← h]
            exact ⟨pkg, q3⟩
          · rw [q1] at h
            rw [q2] at h'
            simp only [Option.some.injEq] at h h'
            have hle1 := ids_of_le a.key kp ha hkp (hle a (List.mem_cons_self _ _)) h.symm
              h'.symm
            rw [← h, ← h']
            exact ⟨pkg, ty, q3, q4, by omega⟩
      obtain ⟨st3, hst3, hat⟩ := applyEntry_step force flags a st hpre.1 hpre.2
      have hrest := ih st3 (some a.key)
        ⟨ha, hat, fun e he => (List.pairwise_cons.1 hsorted).1 e he⟩
        (fun e he => hbits e (List.mem_cons_of_mem _ he)) (List.pairwise_cons.1 hsorted).2
      obtain ⟨⟨r, hr⟩, hnd, hall⟩ := hrest
      have happ : applyEntries force flags (a :: rest) st = some r := by
        rw [applyEntries]
        simp only [hv, Bool.not_true, Bool.false_eq_true, if_false, hst3]
        exact hr
      have halloc : allocations force flags (a :: rest) st =
          (match (st.selectPackage (get_package_id a.key)).theme.packages_
              (get_package_id a.key) with
            | none => ([] : List (Nat × Nat))
            | some last_package =>
              if (st.selectPackage (get_package_id a.key)).allocates (get_type_id a.key)
                  (get_entry_id a.key) last_package then
                [(get_package_id a.key, get_type_id a.key)]
              else []) ++ allocations force flags rest st3 := by
        rw [allocations]
        simp only [hv, Bool.not_true, Bool.false_eq_true, if_false, hst3]
      -- what the iteration itself allocates
      have hhere : ∀ x ∈ (match (st.selectPackage (get_package_id a.key)).theme.packages_
              (get_package_id a.key) with
            | none => ([] : List (Nat × Nat))
            | some last_package =>
              if (st.selectPackage (get_package_id a.key)).allocates (get_type_id a.key)
                  (get_entry_id a.key) last_package then
                [(get_package_id a.key, get_type_id a.key)]
              else []),
          x = (get_package_id a.key, get_type_id a.key) ∧
            ∀ kp, prev = some kp →
              ¬ (get_package_id a.key = get_package_id kp ∧
                get_type_id a.key = get_type_id kp) := by
        intro x hx
        refine ⟨?_, ?_⟩
        · revert hx
          cases (st.selectPackage (get_package_id a.key)).theme.packages_
              (get_package_id a.key) with
          | none => intro hx; simp at hx
          | some pkg =>
            simp only
            split
            · intro hx; simpa using hx
            · intro hx; simp at hx
        · intro kp hprev hsame
          subst hprev
          obtain ⟨hkp, ⟨q1, q2, -⟩, -⟩ := hinv
          rw [allocations_here st _ _ (get_entry_id a.key) (by rw [q1, hsame.1])
            (by rw [q2, hsame.2])] at hx
          simp at hx
      have hnodup_here : (match (st.selectPackage (get_package_id a.key)).theme.packages_
              (get_package_id a.key) with
            | none => ([] : List (Nat × Nat))
            | some last_package =>
              if (st.selectPackage (get_package_id a.key)).allocates (get_type_id a.key)
                  (get_entry_id a.key) last_package then
                [(get_package_id a.key, get_type_id a.key)]
              else []).Nodup := by
        cases (st.selectPackage (get_package_id a.key)).theme.packages_
            (get_package_id a.key) with
        | none => exact List.nodup_nil
        | some pkg =>
          simp only
          split
          · exact List.nodup_singleton _
          · exact List.nodup_nil
      refine ⟨⟨r, happ⟩, ?_, ?_⟩
      · rw [halloc]
        refine List.Nodup.append hnodup_here hnd ?_
        intro x hx1 hx2
        obtain ⟨e, he, hxe, hne⟩ := hall x hx2
        have hxa := (hhere x hx1).1
        rw [hxa] at hxe
        simp only [Prod.mk.injEq] at hxe
        exact hne a.key rfl ⟨hxe.1.symm, hxe.2.symm⟩
      · intro x hx
        rw [halloc] at hx
        rcases List.mem_append.1 hx with hx1 | hx2
        · exact ⟨a, List.mem_cons_self _ _, hhere x hx1⟩
        · obtain ⟨e, he, hxe, -⟩ := hall x hx2
          refine ⟨e, List.mem_cons_of_mem _ he, hxe, ?_⟩
          intro kp hprev hsame
          subst hprev
          obtain ⟨hkp, -, hle⟩ := hinv
          have hea := (List.pairwise_cons.1 hsorted).1 e he
          have hbetween := ids_between e.key a.key kp
            (hbits e (List.mem_cons_of_mem _ he)) ha hkp hea
            (hle a (List.mem_cons_self _ _)) hsame.1 hsame.2
          obtain ⟨e', he', hxe', hne'⟩ := hall x hx2
          -- the allocation belongs to an entry whose type is the one of `a`
          rw [hxe] at hxe'
          simp only [Prod.mk.injEq] at hxe'
          exact hne' a.key rfl
            ⟨by rw [← hxe'.1, hsame.1, hbetween.1], by rw [← hxe'.2, hsame.2, hbetween.2]⟩
    · have hv' : is_valid_resid a.key = false := by simpa using hv
      refine ⟨⟨(st.theme, false), by rw [applyEntries]; simp only [hv', Bool.not_false, if_true]⟩,
        ?_, ?_⟩
      · rw [allocations]
        simp only [hv', Bool.not_false, if_true]
        exact List.nodup_nil
      · intro x hx
        rw [allocations] at hx
        simp only [hv', Bool.not_false, if_true] at hx
        simp at hx

/-- C34: given that the entries of the bag are in non-decreasing key order (and the keys are
32-bit identifiers), a call of `Theme::ApplyStyle` that obtains the bag returns, which in this
model means that every access `entries[entry_idx]` of the loop lies inside the array
`last_type` refers to at that time, and no (package, type) array is allocated or reallocated
twice during the call. -/
theorem ApplyStyle_grows_once {κ : Type} (ops : ResTable_configOps κ) (dops : DynamicRefTableOps)
    (fuel : Nat) (am am0 : AssetManager2 κ) (theme : Theme) (resid : Nat) (force : Bool)
    (bag : ResolvedBag)
    (hbag : GetBag ops dops fuel am resid = some (am0, some bag))
    (hsorted : KeysSorted bag.entries) (hbits : ∀ e ∈ bag.entries, e.key < 2 ^ 32) :
    (∃ theme1 result, ApplyStyle ops dops fuel am theme resid force =
        some (am0, theme1, result)) ∧
      (allocations force bag.type_spec_flags bag.entries.reverse
        ⟨{ theme with type_spec_flags_ := theme.type_spec_flags_ ||| bag.type_spec_flags },
          none, none⟩).Nodup := by
  have hmain := applyEntries_descending force bag.type_spec_flags bag.entries.reverse
    ⟨{ theme with type_spec_flags_ := theme.type_spec_flags_ ||| bag.type_spec_flags },
      none, none⟩ none ⟨rfl, rfl⟩
    (fun e he => hbits e (List.mem_reverse.1 he))
    (List.pairwise_reverse.2 hsorted)
  obtain ⟨⟨r, hr⟩, hnd, -⟩ := hmain
  refine ⟨⟨r.1, r.2, ?_⟩, hnd⟩
  unfold ApplyStyle
  simp only [hbag, hr]

/-- Witness of C34: the bag of the child style `0x7f020001` of `sampleStyleEngine` is sorted,
and applying it to a new theme returns and allocates the array of the attributes of package
`0x7f` once. -/
theorem ApplyStyle_grows_once_witness :
    ∃ am0 : AssetManager2 SampleConfig,
      GetBag sampleOps sampleRefOps 2 sampleStyleEngine 0x7f020001 =
        some (am0, some sampleChildBag) ∧
      KeysSorted sampleChildBag.entries ∧
      allocations false sampleChildBag.type_spec_flags sampleChildBag.entries.reverse
        ⟨{ Theme.new with
            type_spec_flags_ := Theme.new.type_spec_flags_ ||| sampleChildBag.type_spec_flags },
          none, none⟩ = [(0x7f, 1)] ∧
      ((∃ theme1 result, ApplyStyle sampleOps sampleRefOps 2 sampleStyleEngine Theme.new
          0x7f020001 false = some (am0, theme1, result)) ∧
        (allocations false sampleChildBag.type_spec_flags sampleChildBag.entries.reverse
          ⟨{ Theme.new with
              type_spec_flags_ := Theme.new.type_spec_flags_ ||| sampleChildBag.type_spec_flags },
            none, none⟩).Nodup) :=
  ⟨_, rfl, by unfold KeysSorted; decide, by rfl,
    ApplyStyle_grows_once sampleOps sampleRefOps 2 sampleStyleEngine _ Theme.new 0x7f020001
      false sampleChildBag rfl (by unfold KeysSorted; decide) (by decide)⟩

/-! ## C38: merged bags and duplicate keys -/

theorem KeysAscending.of_sorted_distinct {l : List BagEntry} (hs : KeysSorted l)
    (hd : l.Pairwise (fun a b => a.key ≠ b.key)) : KeysAscending l := by
  unfold KeysAscending
  unfold KeysSorted at hs
  refine List.Pairwise.imp ?_ (List.Pairwise.and hs hd)
  intro a b h
  omega

theorem KeysAscending.keys_nodup {l : List BagEntry} (h : KeysAscending l) :
    (l.map (fun x => x.key)).Nodup := by
  unfold KeysAscending at h
  unfold List.Nodup
  rw [List.pairwise_map]
  refine List.Pairwise.imp ?_ h
  intro a b hab
  omega

/-- C38, amended: the child declares its keys in ascending order.  Let a bag `resid` that is
not cached, in an engine whose cached bags are sorted (as in an engine whose bag cache is
empty), resolve to a complex entry with a parent that is not null and not `resid` itself, let
the pairs of the entry resolve to the entries `cs` with strictly ascending keys, and let the
bag of the parent have pairwise distinct keys.  Then `GetBag` returns a bag that contains each
key at most once, that contains every key the child declares, and in which the entry of a key
the child declares is the child's entry (the child's value, not the parent's). -/
theorem GetBag_unique_keys {κ : Type} (ops : ResTable_configOps κ) (dops : DynamicRefTableOps)
    (fuel : Nat) (am : AssetManager2 κ) (resid : Nat) (log : Resolution κ) (cookie : Nat)
    (entry : FindEntryResult κ) (map : ResTable_entry) (am2 : AssetManager2 κ)
    (child_resids2 : List Nat) (parent_bag : ResolvedBag) (cs : List BagEntry)
    (hsorted : CacheSorted am)
    (hcache : am.cached_bags_.lookup resid = none)
    (hfind : FindEntry ops am (fuel + 1) resid 0 false am.last_resolution_ =
      some (log, some (cookie, entry)))
    (hmap : entry.entry = EntryVariant.map_entry map)
    (hparent : map.parent ≠ 0) (hcycle : map.parent ≠ resid)
    (hrec : GetBagRec ops dops fuel { am with last_resolution_ := log }
      ((dops.lookupResourceId entry.dynamic_ref_table map.parent).getD map.parent)
      [resid] = some (am2, child_resids2, some parent_bag))
    (hres : ResolvesTo dops entry.dynamic_ref_table cookie resid map.maps cs)
    (hchild : KeysAscending cs)
    (hpar : parent_bag.entries.Pairwise (fun a b => a.key ≠ b.key)) :
    ∃ am3 bag, GetBag ops dops (fuel + 1) am resid = some (am3, some bag) ∧
      (bag.entries.map (fun x => x.key)).Nodup ∧
      (∀ c ∈ cs, c ∈ bag.entries) ∧
      ∀ x ∈ bag.entries, ∀ c ∈ cs, x.key = c.key → x = c ∧ x.value = c.value := by
  have hps : KeysSorted parent_bag.entries :=
    (GetBagRec_sorted ops dops fuel { am with last_resolution_ := log } _ [resid] _ hrec
      hsorted).2 parent_bag rfl
  have hpasc : KeysAscending parent_bag.entries := KeysAscending.of_sorted_distinct hps hpar
  obtain ⟨merged, hm1, hm2, hm3⟩ := mergeLoop_ascending dops entry.dynamic_ref_table cookie resid
    (map.maps.length + parent_bag.entries.length) map.maps cs parent_bag.entries [] (le_refl _)
    hres (by simpa using hchild) (by simpa using hpasc)
  have hme : mergeEntries dops entry.dynamic_ref_table cookie resid map.maps parent_bag.entries =
      some merged := by
    rw [mergeEntries_eq_finishMerge, hm1]
    simp
  have hnc : (map.parent == 0 || ([] ++ [resid]).contains map.parent) = false := by
    simp only [Bool.or_eq_false_iff, beq_eq_false_iff_ne, ne_eq]
    refine ⟨hparent, ?_⟩
    rw [Bool.eq_false_iff]
    intro hcon
    exact hcycle (by simpa using hcon)
  have hrecEq : GetBagRec ops dops (fuel + 1) am resid [] =
      some ({ am2 with
          cached_bags_ := (cacheBag am2.cached_bags_ resid
            (ResolvedBag.mk (entry.type_flags ||| parent_bag.type_spec_flags) merged)) },
        child_resids2,
        some ⟨entry.type_flags ||| parent_bag.type_spec_flags, merged⟩) := by
    rw [GetBagRec]
    simp only [hcache, hfind, hmap, hnc, Bool.false_eq_true, if_false]
    have hnil : ([] : List Nat) ++ [resid] = [resid] := rfl
    rw [hnil, hrec]
    simp only [hme]
  have hget : ∃ am3, GetBag ops dops (fuel + 1) am resid =
      some (am3, some ⟨entry.type_flags ||| parent_bag.type_spec_flags, merged⟩) := by
    unfold GetBag
    rw [hrecEq]
    simp only
    split
    · exact ⟨_, rfl⟩
    · exact ⟨_, rfl⟩
  obtain ⟨am3, hget⟩ := hget
  refine ⟨am3, _, hget, ?_, ?_, ?_⟩
  · exact KeysAscending.keys_nodup (by simpa using hm2)
  · intro c hc
    exact (hm3 c).2 (Or.inl hc)
  · intro x hx c hc hk
    have hxc : x = c := by
      rcases (hm3 x).1 hx with h | ⟨_, h⟩
      · exact KeysAscending.eq_of_key_eq hchild h hc hk
      · exact absurd hk.symm (h c hc)
    subst hxc
    exact ⟨rfl, rfl⟩

/-- Witness of the amended C38: the child style `0x7f020001` of `sampleStyleEngine` declares
the keys ending in 2, 3 in ascending order and inherits the keys ending in 1, 3, 5; the bag
`GetBag` returns has four distinct keys, and the key ending in 3 carries the child's value
23. -/
theorem GetBag_unique_keys_witness :
    ∃ (am3 : AssetManager2 SampleConfig) (bag : ResolvedBag),
      GetBag sampleOps sampleRefOps 2 sampleStyleEngine 0x7f020001 = some (am3, some bag) ∧
      (bag.entries.map (fun x => x.key)).Nodup ∧
      (∀ c ∈ sampleChildEntries, c ∈ bag.entries) ∧
      ∀ x ∈ bag.entries, ∀ c ∈ sampleChildEntries, x.key = c.key → x = c ∧ x.value = c.value :=
  GetBag_unique_keys sampleOps sampleRefOps 1 sampleStyleEngine 0x7f020001
    sampleStyleEngine.last_resolution_ 0 sampleChildEntry
    (sampleStyle 1 0x7f020000 [⟨0x7f010002, ⟨16, 22⟩⟩, ⟨0x7f010003, ⟨16, 23⟩⟩])
    { sampleStyleEngine with cached_bags_ := [(0x7f020000, sampleParentBag)] }
    [0x7f020001, 0x7f020000] sampleParentBag sampleChildEntries
    (fun e he => by
      have : sampleStyleEngine.cached_bags_ = [] := rfl
      rw [this] at he
      simp at he)
    (by rfl) (by rfl) (by rfl) (by decide) (by decide) (by rfl)
    (List.Forall₂.cons (by rfl) (List.Forall₂.cons (by rfl) List.Forall₂.nil))
    (by unfold KeysAscending sampleChildEntries; decide)
    (by unfold sampleParentBag; decide)

/-- Counterexample to C38: the style `0x7f020001` of `sampleUnorderedEngine` declares the two
distinct keys `0x7f010005`, `0x7f010002`, in this order, and its parent `0x7f020000` has a bag
with the two distinct keys `0x7f010002`, `0x7f010003`.  The bag `GetBag` returns for
`0x7f020001` contains the key `0x7f010002` twice: once with the child's value 22 and once
with the parent's value 12. -/
theorem GetBag_duplicate_key_counterexample :
    ∃ (am1 am2 : AssetManager2 SampleConfig) (parent_bag bag : ResolvedBag)
      (entry : FindEntryResult SampleConfig) (map : ResTable_entry),
      (FindEntry sampleOps sampleUnorderedEngine 2 0x7f020001 0 false
          sampleUnorderedEngine.last_resolution_).map Prod.snd = some (some (0, entry)) ∧
      entry.entry = EntryVariant.map_entry map ∧
      map.parent = 0x7f020000 ∧
      map.maps.map (fun m => m.name) = [0x7f010005, 0x7f010002] ∧
      (map.maps.map (fun m => m.name)).Nodup ∧
      GetBag sampleOps sampleRefOps 2 sampleUnorderedEngine 0x7f020000 =
        some (am1, some parent_bag) ∧
      parent_bag.entries.map (fun x => x.key) = [0x7f010002, 0x7f010003] ∧
      (parent_bag.entries.map (fun x => x.key)).Nodup ∧
      GetBag sampleOps sampleRefOps 2 sampleUnorderedEngine 0x7f020001 = some (am2, some bag) ∧
      ¬ (bag.entries.map (fun x => x.key)).Nodup ∧
      (⟨0x7f010002, ⟨16, 22⟩, 0, 0x7f020001⟩ : BagEntry) ∈ bag.entries ∧
      (⟨0x7f010002, ⟨16, 12⟩, 0, 0x7f020000⟩ : BagEntry) ∈ bag.entries :=
  ⟨_, _, _, _, _, _, rfl, rfl, by rfl, by rfl, by decide, rfl, by rfl, by decide, rfl,
    by decide, by decide, by decide⟩

/-! ## C40: the stack of a cached bag -/

/-- C40 fails on the code: a bag found in the bag cache is returned before its identifier is
pushed on the list (source lines 997-1001 and 1025), so the list `GetBagResIdStack` returns
stops at the first cached bag.  In `sampleStyleEngine` the style `0x7f020001` has the parent
`0x7f020000`, which has no parent.  With empty caches `GetBagResIdStack` returns
`[0x7f020000]` for the parent and `[0x7f020001, 0x7f020000]` for the child.  After
`GetBag(0x7f020001)`, which caches the bags of both styles and the stack of the child only,
`GetBagResIdStack(0x7f020000)` returns the empty list, stores it, and returns it again on the
next call; after `GetBag(0x7f020000)` in the engine with empty caches and a change of the
density, which keeps the bag of the parent (`InvalidateCaches` clears every stack, source lines
1294-1296, and the bags that vary with the density), `GetBagResIdStack(0x7f020001)` returns
`[0x7f020001]`, without the parent. -/
theorem GetBagResIdStack_cached_bag_counterexample :
    ∃ (am1 am2 am3 am4 am5 am6 am7 : AssetManager2 SampleConfig) (bag parent_bag : ResolvedBag),
      -- empty caches: the chains
      GetBagResIdStack sampleOps sampleRefOps 2 sampleStyleEngine 0x7f020000 =
        some (am1, [0x7f020000]) ∧
      GetBagResIdStack sampleOps sampleRefOps 2 sampleStyleEngine 0x7f020001 =
        some (am2, [0x7f020001, 0x7f020000]) ∧
      -- the bag of the parent is in the bag cache
      GetBag sampleOps sampleRefOps 2 sampleStyleEngine 0x7f020001 = some (am3, some bag) ∧
      am3.cached_bags_.lookup 0x7f020000 = some parent_bag ∧
      am3.cached_bag_resid_stacks_.lookup 0x7f020000 = none ∧
      GetBagResIdStack sampleOps sampleRefOps 2 am3 0x7f020000 = some (am4, []) ∧
      GetBagResIdStack sampleOps sampleRefOps 2 am4 0x7f020000 = some (am4, []) ∧
      -- the bag of an ancestor is in the bag cache
      GetBag sampleOps sampleRefOps 2 sampleStyleEngine 0x7f020000 =
        some (am5, some parent_bag) ∧
      am6 = SetConfiguration sampleOps am5 ⟨0, 160⟩ ∧
      am6.cached_bags_.lookup 0x7f020000 = some parent_bag ∧
      am6.cached_bags_.lookup 0x7f020001 = none ∧
      GetBagResIdStack sampleOps sampleRefOps 2 am6 0x7f020001 = some (am7, [0x7f020001]) :=
  ⟨_, _, _, _, _, _, _, _, _, rfl, rfl, rfl, by rfl, by rfl, rfl, by rfl, rfl, rfl, by rfl,
    by rfl, by rfl⟩

/-! ## C37: GetBag and the lookup history -/

theorem overlayScan_mono {κ : Type} (ops : ResTable_configOps κ) (am : AssetManager2 κ)
    (l : Bool) (f f' : Nat → Resolution κ → Option (FindResult κ))
    (hf : ∀ r log x, f r log = some x → f' r log = some x) (resid : Nat) (d : κ)
    (ovs : List ConfiguredOverlay) :
    ∀ (c : Nat) (out : FindEntryResult κ) (log : Resolution κ)
      (y : Resolution κ × Nat × FindEntryResult κ),
      overlayScan ops am l f resid d ovs c out log = some y →
        overlayScan ops am l f' resid d ovs c out log = some y := by
  induction ovs with
  | nil => intro c out log y h; exact h
  | cons o rest ih =>
    intro c out log y h
    simp only [overlayScan] at h ⊢
    cases hl : o.overlay_res_maps_.Lookup resid with
    | none => rw [hl] at h; exact ih _ _ _ _ h
    | some r =>
      rw [hl] at h
      cases r with
      | inline v => exact ih _ _ _ _ h
      | resource r' =>
        simp only [] at h ⊢
        cases hx : f r' log with
        | none => rw [hx] at h; simp at h
        | some x =>
          rw [hx] at h
          rw [hf r' log x hx]
          obtain ⟨l1, r1⟩ := x
          cases r1 with
          | none => exact ih _ _ _ _ h
          | some cr =>
            obtain ⟨oc, ores⟩ := cr
            simp only [] at h ⊢
            split
            · rename_i hc
              rw [if_pos hc] at h
              exact ih _ _ _ _ h
            · rename_i hc
              rw [if_neg hc] at h
              exact ih _ _ _ _ h

theorem FindEntry_fuel_succ {κ : Type} (ops : ResTable_configOps κ) (am : AssetManager2 κ) :
    ∀ (n r d : Nat) (i : Bool) (l : Resolution κ) (x : FindResult κ),
      FindEntry ops am n r d i l = some x → FindEntry ops am (n + 1) r d i l = some x := by
  intro n
  induction n with
  | zero => intro r d i l x h; simp [FindEntry] at h
  | succ n ih =>
    intro r d i l x h
    rw [FindEntry] at h ⊢
    simp only [] at h ⊢
    by_cases hv : is_valid_resid r = true
    · simp only [hv, Bool.not_true, Bool.false_eq_true, if_false] at h ⊢
      by_cases hp : (am.package_ids_.getD (get_package_id r) 0xff == 0xff) = true
      · simp only [hp, if_true] at h ⊢
        exact h
      · simp only [hp, Bool.false_eq_true, if_false] at h ⊢
        cases hgr : am.package_groups_.get? (am.package_ids_.getD (get_package_id r) 0xff) with
        | none =>
          simp only [hgr] at h ⊢
          exact h
        | some g =>
          simp only [hgr] at h ⊢
          revert h
          generalize FindEntryInternal ops am g (get_type_id r - 1) (get_entry_id r) _ i _ = X
          obtain ⟨lx, rx⟩ := X
          cases rx with
          | none => exact id
          | some cr =>
            obtain ⟨c0, out0⟩ := cr
            simp only []
            cases hlc : IsLoaderCookie am c0 with
            | true => exact id
            | false =>
              simp only [Bool.not_false, if_true]
              intro h
              cases hov : overlayScan ops am am.resource_resolution_logging_enabled_
                  (fun r l => FindEntry ops am n r d i l) r
                  ((selectDesiredConfig ops am d).deref am) g.overlays_ c0 out0 lx with
              | none => rw [hov] at h; simp at h
              | some y =>
                rw [hov] at h
                rw [overlayScan_mono ops am _ _ (fun r l => FindEntry ops am (n + 1) r d i l)
                  (fun r' log x hx => ih r' d i log x hx) r _ _ _ _ _ y hov]
                exact h
    · have hv' : is_valid_resid r = false := by simpa using hv
      simp only [hv', Bool.not_false, if_true] at h ⊢
      exact h

theorem FindEntry_fuel_le {κ : Type} (ops : ResTable_configOps κ) (am : AssetManager2 κ)
    (r d : Nat) (i : Bool) (l : Resolution κ) (x : FindResult κ) :
    ∀ (n m : Nat), n ≤ m → FindEntry ops am n r d i l = some x →
      FindEntry ops am m r d i l = some x := by
  intro n m hnm
  induction hnm with
  | refl => exact id
  | step _ ih => exact fun h => FindEntry_fuel_succ ops am _ r d i l x (ih h)

/-- The cookie and the entry `FindEntry` returns do not change when the recursion bound
grows. -/
theorem FindEntry_snd_fuel_le {κ : Type} (ops : ResTable_configOps κ) (am : AssetManager2 κ)
    (r d : Nat) (i : Bool) (l : Resolution κ) (n m : Nat) (hnm : n ≤ m)
    (p : Option (Nat × FindEntryResult κ))
    (h : (FindEntry ops am n r d i l).map Prod.snd = some p) :
    (FindEntry ops am m r d i l).map Prod.snd = some p := by
  cases hx : FindEntry ops am n r d i l with
  | none => rw [hx] at h; simp at h
  | some x =>
    rw [hx] at h
    rw [FindEntry_fuel_le ops am r d i l x n m hnm hx]
    exact h

theorem freshBag_fuel_succ {κ : Type} (ops : ResTable_configOps κ) (dops : DynamicRefTableOps)
    (am : AssetManager2 κ) :
    ∀ (n r : Nat) (x : Option ResolvedBag),
      freshBag ops dops am n r = some x → freshBag ops dops am (n + 1) r = some x := by
  intro n
  induction n with
  | zero => intro r x h; simp [freshBag] at h
  | succ n ih =>
    intro r x h
    rw [freshBag] at h ⊢
    cases hp : (FindEntry ops am (n + 1) r 0 false am.last_resolution_).map Prod.snd with
    | none => rw [hp] at h; simp at h
    | some p =>
      rw [hp] at h
      rw [FindEntry_snd_fuel_le ops am r 0 false _ (n + 1) (n + 1 + 1) (Nat.le_succ _) p hp]
      cases p with
      | none => exact h
      | some ce =>
        obtain ⟨cookie, entry⟩ := ce
        simp only [] at h ⊢
        cases he : entry.entry with
        | value v => rw [he] at h; exact h
        | map_entry map =>
          rw [he] at h
          simp only [] at h ⊢
          by_cases hpar : (map.parent == 0) = true
          · rw [if_pos hpar] at h ⊢
            exact h
          · rw [if_neg hpar] at h ⊢
            cases hrec : freshBag ops dops am n
                ((dops.lookupResourceId entry.dynamic_ref_table map.parent).getD map.parent) with
            | none => rw [hrec] at h; simp at h
            | some y =>
              rw [hrec] at h
              rw [ih _ y hrec]
              exact h

theorem freshBag_fuel_le {κ : Type} (ops : ResTable_configOps κ) (dops : DynamicRefTableOps)
    (am : AssetManager2 κ) (r : Nat) (x : Option ResolvedBag) :
    ∀ (n m : Nat), n ≤ m → freshBag ops dops am n r = some x →
      freshBag ops dops am m r = some x := by
  intro n m hnm
  induction hnm with
  | refl => exact id
  | step _ ih => exact fun h => freshBag_fuel_succ ops dops am _ r x (ih h)

theorem freshBag_unique {κ : Type} (ops : ResTable_configOps κ) (dops : DynamicRefTableOps)
    (am : AssetManager2 κ) (r : Nat) (x y : Option ResolvedBag) (n m : Nat)
    (hx : freshBag ops dops am n r = some x) (hy : freshBag ops dops am m r = some y) :
    x = y := by
  have h1 := freshBag_fuel_le ops dops am r x n (max n m) (le_max_left _ _) hx
  have h2 := freshBag_fuel_le ops dops am r y m (max n m) (le_max_right _ _) hy
  rw [h1] at h2
  exact Option.some.inj h2

theorem ParentsRanked_spec {κ : Type} (ops : ResTable_configOps κ) (dops : DynamicRefTableOps)
    (am : AssetManager2 κ) (fuel : Nat) (ρ : Nat → Nat) (ids : List Nat)
    (h : ParentsRanked ops dops am fuel ρ ids = true) :
    ∀ x ∈ ids, ∀ (cookie : Nat) (entry : FindEntryResult κ) (map : ResTable_entry),
      (FindEntry ops am fuel x 0 false am.last_resolution_).map Prod.snd =
        some (some (cookie, entry)) →
      entry.entry = EntryVariant.map_entry map → map.parent ≠ 0 →
      ρ map.parent < ρ x ∧
        ρ ((dops.lookupResourceId entry.dynamic_ref_table map.parent).getD map.parent) < ρ x ∧
        (dops.lookupResourceId entry.dynamic_ref_table map.parent).getD map.parent ∈ ids := by
  intro x hx cookie entry map hp he hpar
  unfold ParentsRanked at h
  rw [List.all_eq_true] at h
  have hx' := h x hx
  simp only [hp, he] at hx'
  have hne : (map.parent == 0) = false := by simpa using hpar
  simp only [hne, Bool.false_or, Bool.and_eq_true, decide_eq_true_eq] at hx'
  exact ⟨hx'.1.1, hx'.1.2, by simpa using hx'.2⟩

theorem cacheBag_lookup_ne (cache : List (Nat × ResolvedBag)) (resid r : Nat)
    (bag : ResolvedBag) (h : r ≠ resid) :
    (cacheBag cache resid bag).lookup r = cache.lookup r := by
  have hne : (r == resid) = false := by simpa using h
  simp only [cacheBag, List.lookup, hne]
  induction cache with
  | nil => rfl
  | cons e rest ih =>
    obtain ⟨k, b⟩ := e
    by_cases hk : k = resid
    · subst hk
      simp only [List.filter, bne_self_eq_false, List.lookup, hne]
      exact ih
    · have hk' : (k != resid) = true := by simpa using hk
      simp only [List.filter, hk', List.lookup]
      cases hrk : (r == k) with
      | true => rfl
      | false => exact ih

theorem CacheFaithful_cacheBag {κ : Type} (ops : ResTable_configOps κ)
    (dops : DynamicRefTableOps) (am0 am am1 : AssetManager2 κ) (resid : Nat)
    (bag : ResolvedBag) (f : Nat)
    (hf : CacheFaithful ops dops am0 am)
    (hb : freshBag ops dops am0 f resid = some (some bag))
    (hc : am1.cached_bags_ = cacheBag am.cached_bags_ resid bag) :
    CacheFaithful ops dops am0 am1 := by
  intro r b hl
  rw [hc] at hl
  by_cases hr : r = resid
  · subst hr
    rw [cacheBag_lookup] at hl
    simp only [Option.some.injEq] at hl
    subst hl
    exact ⟨f, hb⟩
  · rw [cacheBag_lookup_ne _ _ _ _ hr] at hl
    exact hf r b hl

theorem freshBag_succ_none {κ : Type} (ops : ResTable_configOps κ) (dops : DynamicRefTableOps)
    (am0 : AssetManager2 κ) (f r : Nat)
    (hp : (FindEntry ops am0 (f + 1) r 0 false am0.last_resolution_).map Prod.snd = some none) :
    freshBag ops dops am0 (f + 1) r = some none := by
  rw [freshBag]
  simp only [hp]

theorem freshBag_succ_value {κ : Type} (ops : ResTable_configOps κ) (dops : DynamicRefTableOps)
    (am0 : AssetManager2 κ) (f r cookie : Nat) (entry : FindEntryResult κ) (v : Res_value)
    (hp : (FindEntry ops am0 (f + 1) r 0 false am0.last_resolution_).map Prod.snd =
      some (some (cookie, entry)))
    (he : entry.entry = EntryVariant.value v) :
    freshBag ops dops am0 (f + 1) r = some none := by
  rw [freshBag]
  simp only [hp, he]

theorem freshBag_succ_root {κ : Type} (ops : ResTable_configOps κ) (dops : DynamicRefTableOps)
    (am0 : AssetManager2 κ) (f r cookie : Nat) (entry : FindEntryResult κ)
    (map : ResTable_entry)
    (hp : (FindEntry ops am0 (f + 1) r 0 false am0.last_resolution_).map Prod.snd =
      some (some (cookie, entry)))
    (he : entry.entry = EntryVariant.map_entry map) (hpar : map.parent = 0) :
    freshBag ops dops am0 (f + 1) r =
      match copyEntries dops entry.dynamic_ref_table cookie r map.maps [] false with
      | none => some none
      | some (written, sort_entries) =>
        some (some ⟨entry.type_flags, if sort_entries then sortEntries written else written⟩) := by
  rw [freshBag]
  simp only [hp, he, hpar, beq_self_eq_true, if_true]

theorem freshBag_succ_child {κ : Type} (ops : ResTable_configOps κ) (dops : DynamicRefTableOps)
    (am0 : AssetManager2 κ) (f r cookie : Nat) (entry : FindEntryResult κ)
    (map : ResTable_entry)
    (hp : (FindEntry ops am0 (f + 1) r 0 false am0.last_resolution_).map Prod.snd =
      some (some (cookie, entry)))
    (he : entry.entry = EntryVariant.map_entry map) (hpar : map.parent ≠ 0) :
    freshBag ops dops am0 (f + 1) r =
      match freshBag ops dops am0 f
          ((dops.lookupResourceId entry.dynamic_ref_table map.parent).getD map.parent) with
      | none => none
      | some none => some none
      | some (some parent_bag) =>
        match mergeEntries dops entry.dynamic_ref_table cookie r map.maps
            parent_bag.entries with
        | none => some none
        | some entries =>
          some (some ⟨entry.type_flags ||| parent_bag.type_spec_flags, entries⟩) := by
  have hne : (map.parent == 0) = false := by simpa using hpar
  rw [freshBag]
  simp only [hp, he, hne, Bool.false_eq_true, if_false]

theorem not_cut_of_ranked (ρ : Nat → Nat) (r parent : Nat) (v : List Nat)
    (hpar : parent ≠ 0) (hlt : ρ parent < ρ r) (hv : ∀ y ∈ v, ρ r < ρ y) :
    (parent == 0 || (v ++ [r]).contains parent) = false := by
  simp only [Bool.or_eq_false_iff, beq_eq_false_iff_ne, ne_eq]
  refine ⟨hpar, ?_⟩
  rw [Bool.eq_false_iff]
  intro hcon
  have hmem : parent ∈ v ++ [r] := by simpa using hcon
  rcases List.mem_append.1 hmem with h | h
  · have := hv parent h
    omega
  · simp only [List.mem_singleton] at h
    subst h
    omega

/-- A call of the recursive `GetBag` in an engine whose cache is faithful, for an identifier
whose rank is below the ranks of the visited identifiers, returns the bag computed from the
bundles alone and leaves the cache faithful.  When no bag of rank up to the rank of the
identifier is cached, the call needs the same bound as the computation from the bundles. -/
theorem GetBagRec_fresh {κ : Type} (ops : ResTable_configOps κ) (dops : DynamicRefTableOps)
    (am0 : AssetManager2 κ) (F : Nat) (ρ : Nat → Nat) (ids : List Nat)
    (hrank : ParentsRanked ops dops am0 F ρ ids = true) :
    ∀ (f : Nat) (am : AssetManager2 κ) (r : Nat) (v : List Nat) (res : BagResult κ),
      f ≤ F → SameBundles am0 am → CacheFaithful ops dops am0 am → r ∈ ids →
      (∀ y ∈ v, ρ r < ρ y) → GetBagRec ops dops f am r v = some res →
      CacheFaithful ops dops am0 res.1 ∧
        ∃ f', freshBag ops dops am0 f' r = some res.2.2 ∧
          ((∀ y, ρ y ≤ ρ r → am.cached_bags_.lookup y = none) → f' = f) := by
  intro f
  induction f with
  | zero => intro am r v res _ _ _ _ _ h; simp [GetBagRec] at h
  | succ f ih =>
    intro am r v res hle hsame hfaith hr hv h
    rw [GetBagRec] at h
    cases hc : am.cached_bags_.lookup r with
    | some bag =>
      rw [hc] at h
      simp only [Option.some.injEq] at h
      subst h
      obtain ⟨f', hf'⟩ := hfaith r bag hc
      refine ⟨hfaith, f', hf', ?_⟩
      intro hno
      rw [hno r (le_refl _)] at hc
      exact absurd hc (by simp)
    | none =>
      rw [hc] at h
      simp only [] at h
      cases hfe : FindEntry ops am (f + 1) r 0 false am.last_resolution_ with
      | none => rw [hfe] at h; simp at h
      | some x =>
        obtain ⟨log, p⟩ := x
        rw [hfe] at h
        have hp0 : (FindEntry ops am0 (f + 1) r 0 false am0.last_resolution_).map Prod.snd =
            some p := by
          rw [← FindEntry_snd_eq ops am0 am hsame (f + 1) r 0 false am0.last_resolution_
            am.last_resolution_, hfe]
          rfl
        have hfaith1 : CacheFaithful ops dops am0 { am with last_resolution_ := log } :=
          fun r b hl => hfaith r b hl
        cases p with
        | none =>
          simp only [Option.some.injEq] at h
          subst h
          exact ⟨hfaith1, f + 1, freshBag_succ_none ops dops am0 f r hp0, fun _ => rfl⟩
        | some ce =>
          obtain ⟨cookie, entry⟩ := ce
          simp only [] at h
          cases he : entry.entry with
          | value val =>
            rw [he] at h
            simp only [Option.some.injEq] at h
            subst h
            exact ⟨hfaith1, f + 1, freshBag_succ_value ops dops am0 f r cookie entry val hp0 he,
              fun _ => rfl⟩
          | map_entry map =>
            rw [he] at h
            simp only [] at h
            by_cases hpar : map.parent = 0
            · have hcut : (map.parent == 0 || (v ++ [r]).contains map.parent) = true := by
                simp [hpar]
              rw [if_pos hcut] at h
              have hroot := freshBag_succ_root ops dops am0 f r cookie entry map hp0 he hpar
              cases hcopy : copyEntries dops entry.dynamic_ref_table cookie r map.maps []
                  false with
              | none =>
                rw [hcopy] at h hroot
                simp only [Option.some.injEq] at h
                subst h
                exact ⟨hfaith1, f + 1, hroot, fun _ => rfl⟩
              | some ws =>
                obtain ⟨written, s⟩ := ws
                rw [hcopy] at h hroot
                simp only [Option.some.injEq] at h
                subst h
                exact ⟨CacheFaithful_cacheBag ops dops am0 { am with last_resolution_ := log } _
                  r _ (f + 1) hfaith1 hroot rfl, f + 1, hroot, fun _ => rfl⟩
            · have hF : (FindEntry ops am0 F r 0 false am0.last_resolution_).map Prod.snd =
                  some (some (cookie, entry)) :=
                FindEntry_snd_fuel_le ops am0 r 0 false _ (f + 1) F hle _ hp0
              obtain ⟨hr1, hr2, hr3⟩ :=
                ParentsRanked_spec ops dops am0 F ρ ids hrank r hr cookie entry map hF he hpar
              rw [if_neg (by rw [not_cut_of_ranked ρ r map.parent v hpar hr1 hv]; simp)] at h
              cases hrec : GetBagRec ops dops f { am with last_resolution_ := log }
                  ((dops.lookupResourceId entry.dynamic_ref_table map.parent).getD map.parent)
                  (v ++ [r]) with
              | none => rw [hrec] at h; simp at h
              | some y =>
                obtain ⟨am2, v2, pb⟩ := y
                rw [hrec] at h
                have hv1 : ∀ y ∈ v ++ [r],
                    ρ ((dops.lookupResourceId entry.dynamic_ref_table map.parent).getD
                      map.parent) < ρ y := by
                  intro y hy
                  rcases List.mem_append.1 hy with hy | hy
                  · have := hv y hy
                    omega
                  · simp only [List.mem_singleton] at hy
                    subst hy
                    exact hr2
                obtain ⟨hfaith2, f2, hf2, hexact⟩ := ih { am with last_resolution_ := log } _ _
                  _ (Nat.le_of_succ_le hle)
                  (SameBundles.trans hsame ⟨rfl, rfl, rfl, rfl⟩) hfaith1 hr3 hv1 hrec
                have hpm : (FindEntry ops am0 (max f f2 + 1) r 0 false
                    am0.last_resolution_).map Prod.snd = some (some (cookie, entry)) :=
                  FindEntry_snd_fuel_le ops am0 r 0 false _ (f + 1) (max f f2 + 1)
                    (Nat.succ_le_succ (le_max_left _ _)) _ hp0
                have hchild := freshBag_succ_child ops dops am0 (max f f2) r cookie entry map
                  hpm he hpar
                rw [freshBag_fuel_le ops dops am0 _ _ f2 (max f f2) (le_max_right _ _) hf2]
                  at hchild
                have hex : (∀ y, ρ y ≤ ρ r → am.cached_bags_.lookup y = none) →
                    max f f2 + 1 = f + 1 := by
                  intro hno
                  have : f2 = f := hexact (fun y hy => hno y (by omega))
                  rw [this, max_self]
                cases pb with
                | none =>
                  simp only [Option.some.injEq] at h
                  subst h
                  exact ⟨hfaith2, max f f2 + 1, hchild, hex⟩
                | some parent_bag =>
                  simp only [] at h hchild
                  cases hme : mergeEntries dops entry.dynamic_ref_table cookie r map.maps
                      parent_bag.entries with
                  | none =>
                    rw [hme] at h hchild
                    simp only [Option.some.injEq] at h
                    subst h
                    exact ⟨hfaith2, max f f2 + 1, hchild, hex⟩
                  | some entries =>
                    rw [hme] at h hchild
                    simp only [Option.some.injEq] at h
                    subst h
                    exact ⟨CacheFaithful_cacheBag ops dops am0 am2 _ r _ (max f f2 + 1)
                      hfaith2 hchild rfl, max f f2 + 1, hchild, hex⟩

/-- When the computation from the bundles alone gives a result within the bound `f`, a call of
the recursive `GetBag` with the same bound in an engine whose cache is faithful, for an
identifier whose rank is below the ranks of the visited identifiers, returns that result. -/
theorem GetBagRec_of_fresh {κ : Type} (ops : ResTable_configOps κ) (dops : DynamicRefTableOps)
    (am0 : AssetManager2 κ) (F : Nat) (ρ : Nat → Nat) (ids : List Nat)
    (hrank : ParentsRanked ops dops am0 F ρ ids = true) :
    ∀ (f : Nat) (am : AssetManager2 κ) (r : Nat) (v : List Nat) (x : Option ResolvedBag),
      f ≤ F → SameBundles am0 am → CacheFaithful ops dops am0 am → r ∈ ids →
      (∀ y ∈ v, ρ r < ρ y) → freshBag ops dops am0 f r = some x →
      ∃ am1 v1, GetBagRec ops dops f am r v = some (am1, v1, x) := by
  intro f
  induction f with
  | zero => intro am r v x _ _ _ _ _ h; simp [freshBag] at h
  | succ f ih =>
    intro am r v x hle hsame hfaith hr hv h
    rw [GetBagRec]
    cases hc : am.cached_bags_.lookup r with
    | some bag =>
      obtain ⟨f', hf'⟩ := hfaith r bag hc
      have := freshBag_unique ops dops am0 r _ _ _ _ h hf'
      subst this
      exact ⟨am, v, rfl⟩
    | none =>
      simp only []
      cases hp0 : (FindEntry ops am0 (f + 1) r 0 false am0.last_resolution_).map Prod.snd with
      | none =>
        rw [freshBag] at h
        simp only [hp0] at h
        exact absurd h (by simp)
      | some p =>
        have hp : (FindEntry ops am (f + 1) r 0 false am.last_resolution_).map Prod.snd =
            some p := by
          rw [FindEntry_snd_eq ops am0 am hsame (f + 1) r 0 false am0.last_resolution_
            am.last_resolution_, hp0]
        cases hfe : FindEntry ops am (f + 1) r 0 false am.last_resolution_ with
        | none => rw [hfe] at hp; simp at hp
        | some y =>
          obtain ⟨log, p1⟩ := y
          rw [hfe] at hp
          simp only [Option.map_some', Option.some.injEq] at hp
          subst hp
          have hfaith1 : CacheFaithful ops dops am0 { am with last_resolution_ := log } :=
            fun r b hl => hfaith r b hl
          cases p1 with
          | none =>
            rw [freshBag_succ_none ops dops am0 f r hp0] at h
            simp only [Option.some.injEq] at h
            subst h
            exact ⟨_, _, rfl⟩
          | some ce =>
            obtain ⟨cookie, entry⟩ := ce
            simp only []
            cases he : entry.entry with
            | value val =>
              rw [freshBag_succ_value ops dops am0 f r cookie entry val hp0 he] at h
              simp only [Option.some.injEq] at h
              subst h
              exact ⟨_, _, rfl⟩
            | map_entry map =>
              simp only []
              by_cases hpar : map.parent = 0
              · have hcut : (map.parent == 0 || (v ++ [r]).contains map.parent) = true := by
                  simp [hpar]
                rw [if_pos hcut]
                rw [freshBag_succ_root ops dops am0 f r cookie entry map hp0 he hpar] at h
                cases hcopy : copyEntries dops entry.dynamic_ref_table cookie r map.maps []
                    false with
                | none =>
                  rw [hcopy] at h
                  simp only [Option.some.injEq] at h
                  subst h
                  exact ⟨_, _, rfl⟩
                | some ws =>
                  obtain ⟨written, s⟩ := ws
                  rw [hcopy] at h
                  simp only [Option.some.injEq] at h
                  subst h
                  exact ⟨_, _, rfl⟩
              · have hF : (FindEntry ops am0 F r 0 false am0.last_resolution_).map Prod.snd =
                    some (some (cookie, entry)) :=
                  FindEntry_snd_fuel_le ops am0 r 0 false _ (f + 1) F hle _ hp0
                obtain ⟨hr1, hr2, hr3⟩ :=
                  ParentsRanked_spec ops dops am0 F ρ ids hrank r hr cookie entry map hF he hpar
                rw [if_neg (by rw [not_cut_of_ranked ρ r map.parent v hpar hr1 hv]; simp)]
                rw [freshBag_succ_child ops dops am0 f r cookie entry map hp0 he hpar] at h
                have hv1 : ∀ y ∈ v ++ [r],
                    ρ ((dops.lookupResourceId entry.dynamic_ref_table map.parent).getD
                      map.parent) < ρ y := by
                  intro y hy
                  rcases List.mem_append.1 hy with hy | hy
                  · have := hv y hy
                    omega
                  · simp only [List.mem_singleton] at hy
                    subst hy
                    exact hr2
                cases hfresh : freshBag ops dops am0 f
                    ((dops.lookupResourceId entry.dynamic_ref_table map.parent).getD
                      map.parent) with
                | none => rw [hfresh] at h; simp at h
                | some pb =>
                  rw [hfresh] at h
                  obtain ⟨am2, v2, hrec⟩ := ih { am with last_resolution_ := log } _ (v ++ [r])
                    pb (Nat.le_of_succ_le hle)
                    (SameBundles.trans hsame ⟨rfl, rfl, rfl, rfl⟩) hfaith1 hr3 hv1 hfresh
                  rw [hrec]
                  cases pb with
                  | none =>
                    simp only [Option.some.injEq] at h
                    subst h
                    exact ⟨_, _, rfl⟩
                  | some parent_bag =>
                    simp only [] at h ⊢
                    cases hme : mergeEntries dops entry.dynamic_ref_table cookie r map.maps
                        parent_bag.entries with
                    | none =>
                      rw [hme] at h
                      simp only [Option.some.injEq] at h
                      subst h
                      exact ⟨_, _, rfl⟩
                    | some entries =>
                      rw [hme] at h
                      simp only [Option.some.injEq] at h
                      subst h
                      exact ⟨_, _, rfl⟩

theorem GetBag_of_rec {κ : Type} (ops : ResTable_configOps κ) (dops : DynamicRefTableOps)
    (fuel : Nat) (am am1 : AssetManager2 κ) (resid : Nat) (v : List Nat)
    (bag : Option ResolvedBag)
    (h : GetBagRec ops dops fuel am resid [] = some (am1, v, bag)) :
    ∃ am2, GetBag ops dops fuel am resid = some (am2, bag) ∧
      am2.cached_bags_ = am1.cached_bags_ := by
  unfold GetBag
  rw [h]
  simp only []
  split
  · exact ⟨_, rfl, rfl⟩
  · exact ⟨_, rfl, rfl⟩

theorem GetBag_rec_of {κ : Type} (ops : ResTable_configOps κ) (dops : DynamicRefTableOps)
    (fuel : Nat) (am am2 : AssetManager2 κ) (resid : Nat) (bag : Option ResolvedBag)
    (h : GetBag ops dops fuel am resid = some (am2, bag)) :
    ∃ am1 v, GetBagRec ops dops fuel am resid [] = some (am1, v, bag) ∧
      am2.cached_bags_ = am1.cached_bags_ := by
  unfold GetBag at h
  cases hrec : GetBagRec ops dops fuel am resid [] with
  | none => rw [hrec] at h; simp at h
  | some x =>
    obtain ⟨am1, v, b⟩ := x
    rw [hrec] at h
    simp only [] at h
    split at h
    · simp only [Option.some.injEq, Prod.mk.injEq] at h
      obtain ⟨h1, h2⟩ := h
      subst h1; subst h2
      exact ⟨_, _, rfl, rfl⟩
    · simp only [Option.some.injEq, Prod.mk.injEq] at h
      obtain ⟨h1, h2⟩ := h
      subst h1; subst h2
      exact ⟨_, _, rfl, rfl⟩

/-- A sequence of `GetBag` calls on ranked identifiers keeps the bundles and keeps the bag
cache faithful. -/
theorem getBagCalls_faithful {κ : Type} (ops : ResTable_configOps κ) (dops : DynamicRefTableOps)
    (am0 : AssetManager2 κ) (F : Nat) (ρ : Nat → Nat) (ids : List Nat)
    (hrank : ParentsRanked ops dops am0 F ρ ids = true) :
    ∀ (history : List Nat) (am am1 : AssetManager2 κ),
      (∀ r ∈ history, r ∈ ids) → SameBundles am0 am → CacheFaithful ops dops am0 am →
      getBagCalls ops dops F history am = some am1 →
      SameBundles am0 am1 ∧ CacheFaithful ops dops am0 am1 := by
  intro history
  induction history with
  | nil =>
    intro am am1 _ hsame hfaith h
    simp only [getBagCalls, Option.some.injEq] at h
    subst h
    exact ⟨hsame, hfaith⟩
  | cons r rest ih =>
    intro am am1 hids hsame hfaith h
    simp only [getBagCalls] at h
    cases hg : GetBag ops dops F am r with
    | none => rw [hg] at h; simp at h
    | some x =>
      obtain ⟨am2, bag⟩ := x
      rw [hg] at h
      simp only [] at h
      obtain ⟨am3, v, hrec, hcache⟩ := GetBag_rec_of ops dops F am am2 r bag hg
      have hA := GetBagRec_fresh ops dops am0 F ρ ids hrank F am r [] _ (le_refl _) hsame hfaith
        (hids r (List.mem_cons_self _ _)) (fun y hy => by simp at hy) hrec
      have hsame2 : SameBundles am0 am2 :=
        SameBundles.trans hsame (GetBag_sameBundles ops dops F am r _ hg)
      have hfaith2 : CacheFaithful ops dops am0 am2 := by
        intro r' b hl
        rw [hcache] at hl
        exact hA.1 r' b hl
      exact ih am2 am1 (fun r' hr' => hids r' (List.mem_cons_of_mem _ hr')) hsame2 hfaith2 h

/-- C37, amended: the parents of the bags looked up are ranked, that is, no chain of parents,
declared or rewritten, comes back to an identifier it has visited.  Let the bag cache of the
engine be empty (as after `SetApkAssets` or a full invalidation), let `GetBag(resid)` return
`bag` there, and let `am1` be the engine after `GetBag` was called on the identifiers of
`history`, in order.  Then `GetBag(resid)` returns the same bag (the same entries and flag
mask, or `nullptr` again) in `am1`, and every bag the cache of `am1` holds for an identifier
of the ranked list is the bag a direct `GetBag` call returns for it in the engine with the
empty cache. -/
theorem GetBag_history_independent {κ : Type} (ops : ResTable_configOps κ)
    (dops : DynamicRefTableOps) (fuel : Nat) (am am1 am2 : AssetManager2 κ) (ρ : Nat → Nat)
    (ids history : List Nat) (resid : Nat) (bag : Option ResolvedBag)
    (hrank : ParentsRanked ops dops am fuel ρ ids = true)
    (hempty : am.cached_bags_ = [])
    (hhist : ∀ r ∈ history, r ∈ ids) (hr : resid ∈ ids)
    (h1 : getBagCalls ops dops fuel history am = some am1)
    (h2 : GetBag ops dops fuel am resid = some (am2, bag)) :
    (∃ am3, GetBag ops dops fuel am1 resid = some (am3, bag)) ∧
      ∀ r ∈ ids, ∀ b, am1.cached_bags_.lookup r = some b →
        ∀ am4 b', GetBag ops dops fuel am r = some (am4, b') → b' = some b := by
  have hfaith0 : CacheFaithful ops dops am am := by
    intro r b hl
    rw [hempty] at hl
    simp at hl
  have hno : ∀ r y : Nat, ρ y ≤ ρ r → am.cached_bags_.lookup y = none := by
    intro r y _
    rw [hempty]
    rfl
  have hdirect : ∀ r ∈ ids, ∀ am4 b', GetBag ops dops fuel am r = some (am4, b') →
      freshBag ops dops am fuel r = some b' := by
    intro r hrid am4 b' hg
    obtain ⟨am5, v, hrec, -⟩ := GetBag_rec_of ops dops fuel am am4 r b' hg
    obtain ⟨-, f', hf', hex⟩ := GetBagRec_fresh ops dops am fuel ρ ids hrank fuel am r [] _
      (le_refl _) (SameBundles.refl am) hfaith0 hrid (fun y hy => by simp at hy) hrec
    rw [hex (hno r)] at hf'
    exact hf'
  obtain ⟨hsame1, hfaith1⟩ := getBagCalls_faithful ops dops am fuel ρ ids hrank history am am1
    hhist (SameBundles.refl am) hfaith0 h1
  constructor
  · obtain ⟨am3, v3, hrec⟩ := GetBagRec_of_fresh ops dops am fuel ρ ids hrank fuel am1 resid []
      bag (le_refl _) hsame1 hfaith1 hr (fun y hy => by simp at hy) (hdirect resid hr am2 bag h2)
    obtain ⟨am4, hg, -⟩ := GetBag_of_rec ops dops fuel am1 am3 resid v3 bag hrec
    exact ⟨am4, hg⟩
  · intro r hrid b hl am4 b' hg
    obtain ⟨f', hf'⟩ := hfaith1 r b hl
    exact freshBag_unique ops dops am r _ _ _ _ (hdirect r hrid am4 b' hg) hf'

/-- Witness of the amended C37: in `sampleUnorderedEngine` the style `0x7f020002` has the
parent `0x7f020001`, whose parent `0x7f020000` has none; the identifiers are their own ranks.
After `GetBag(0x7f020002)`, which resolves `0x7f020001` as a parent, `GetBag(0x7f020001)`
returns the bag it returns in the engine with the empty cache. -/
theorem GetBag_history_independent_witness :
    ∃ (am1 am2 : AssetManager2 SampleConfig),
      getBagCalls sampleOps sampleRefOps 3 [0x7f020002] sampleUnorderedEngine = some am1 ∧
      GetBag sampleOps sampleRefOps 3 sampleUnorderedEngine 0x7f020001 =
        some (am2, some sampleUnorderedParentBag) ∧
      am1.cached_bags_.lookup 0x7f020001 = some sampleUnorderedParentBag ∧
      ((∃ am3, GetBag sampleOps sampleRefOps 3 am1 0x7f020001 =
          some (am3, some sampleUnorderedParentBag)) ∧
        ∀ r ∈ [0x7f020000, 0x7f020001, 0x7f020002], ∀ b,
          am1.cached_bags_.lookup r = some b →
          ∀ am4 b', GetBag sampleOps sampleRefOps 3 sampleUnorderedEngine r = some (am4, b') →
            b' = some b) :=
  ⟨_, _, rfl, rfl, by rfl,
    GetBag_history_independent sampleOps sampleRefOps 3 sampleUnorderedEngine _ _ id
      [0x7f020000, 0x7f020001, 0x7f020002] [0x7f020002] 0x7f020001
      (some sampleUnorderedParentBag) (by rfl) (by rfl) (by decide) (by decide) rfl rfl⟩

/-- Counterexample to C37: in `sampleStylePackage` the style `0x7f020002` has the parent
`0x7f020003`, whose parent is `0x7f020002` again.  In the engine with empty caches
`GetBag(0x7f020003)` returns a bag with two entries: the style's own pair and the pair
inherited from `0x7f020002`.  After `GetBag(0x7f020002)`, which resolves `0x7f020003` as a
parent and cuts the cycle there, the cache holds for `0x7f020003` a bag with the style's own
pair only, and `GetBag(0x7f020003)` returns that bag. -/
theorem GetBag_history_cycle_counterexample :
    ∃ (am1 am2 am3 : AssetManager2 SampleConfig) (first : Option ResolvedBag),
      GetBag sampleOps sampleRefOps 3 sampleStyleEngine 0x7f020003 =
        some (am1, some ⟨0, [⟨0x7f010001, ⟨16, 31⟩, 0, 0x7f020002⟩,
          ⟨0x7f010002, ⟨16, 42⟩, 0, 0x7f020003⟩]⟩) ∧
      GetBag sampleOps sampleRefOps 3 sampleStyleEngine 0x7f020002 = some (am2, first) ∧
      GetBag sampleOps sampleRefOps 3 am2 0x7f020003 =
        some (am3, some ⟨0, [⟨0x7f010002, ⟨16, 42⟩, 0, 0x7f020003⟩]⟩) :=
  ⟨_, _, _, _, rfl, rfl, rfl⟩

/-! ## C22: a bag cached before the bundles were replaced -/

/-- Counterexample to C22: in `sampleStyleEngine` the identifier `0x7f020000` is a style, and
`GetBag` caches its bag.  `SetApkAssets` with `invalidate_caches = false` then replaces the
bundle list by `[sampleScalarApk]`, in which `0x7f020000` resolves to a string.  `GetBag`
returns the bag left in the cache, not `nullptr`. -/
theorem GetBag_stale_bag_counterexample :
    ∃ (am1 am2 am3 : AssetManager2 SampleConfig),
      GetBag sampleOps sampleRefOps 2 sampleStyleEngine 0x7f020000 =
        some (am1, some sampleParentBag) ∧
      am2 = SetApkAssets sampleOps sampleRefOps am1 [sampleScalarApk] false true ∧
      (FindEntry sampleOps am2 1 0x7f020000 0 false am2.last_resolution_).map
          (fun r => r.2.map (fun x => x.2.entry)) =
        some (some (EntryVariant.value ⟨TYPE_STRING, 5⟩)) ∧
      GetBag sampleOps sampleRefOps 2 am2 0x7f020000 = some (am3, some sampleParentBag) :=
  ⟨_, _, _, rfl, rfl, by rfl, by rfl⟩

/-! ## C39: overlay substitution -/

theorem overlayScan_append {κ : Type} (ops : ResTable_configOps κ) (am : AssetManager2 κ)
    (l : Bool) (f : Nat → Resolution κ → Option (FindResult κ)) (resid : Nat) (d : κ)
    (l1 l2 : List ConfiguredOverlay) :
    ∀ (c : Nat) (out : FindEntryResult κ) (log : Resolution κ),
      overlayScan ops am l f resid d (l1 ++ l2) c out log =
        (overlayScan ops am l f resid d l1 c out log).bind
          (fun x => overlayScan ops am l f resid d l2 x.2.1 x.2.2 x.1) := by
  induction l1 with
  | nil => intro c out log; rfl
  | cons o rest ih =>
    intro c out log
    rw [List.cons_append]
    simp only [overlayScan]
    cases o.overlay_res_maps_.Lookup resid with
    | none => exact ih _ _ _
    | some r =>
      cases r with
      | inline v => exact ih _ _ _
      | resource r1 =>
        simp only []
        cases f r1 log with
        | none => rfl
        | some x =>
          obtain ⟨log1, r⟩ := x
          cases r with
          | none => exact ih _ _ _
          | some cr =>
            obtain ⟨oc, ores⟩ := cr
            simp only []
            split
            · exact ih _ _ _
            · exact ih _ _ _

/-- Links that hold no overlay resource for `resid` leave the configuration of the entry. -/
theorem overlayScan_config_kept {κ : Type} (ops : ResTable_configOps κ) (am : AssetManager2 κ)
    (l : Bool) (f : Nat → Resolution κ → Option (FindResult κ)) (resid : Nat) (d : κ)
    (ovs : List ConfiguredOverlay)
    (h : ∀ link ∈ ovs, ∀ r1, link.overlay_res_maps_.Lookup resid ≠
      some (IdmapResult.resource r1)) :
    ∀ (c : Nat) (out : FindEntryResult κ) (log : Resolution κ)
      (x : Resolution κ × Nat × FindEntryResult κ),
      overlayScan ops am l f resid d ovs c out log = some x → x.2.2.config = out.config := by
  induction ovs with
  | nil =>
    intro c out log x hx
    simp only [overlayScan, Option.some.injEq] at hx
    subst hx
    rfl
  | cons o rest ih =>
    intro c out log x hx
    have ih' := ih (fun link hl => h link (List.mem_cons_of_mem _ hl))
    simp only [overlayScan] at hx
    cases hl : o.overlay_res_maps_.Lookup resid with
    | none =>
      simp only [hl] at hx
      exact ih' _ _ _ _ hx
    | some r =>
      cases r with
      | inline v =>
        simp only [hl] at hx
        have := ih' _ _ _ _ hx
        exact this
      | resource r1 => exact absurd hl (h o (List.mem_cons_self _ _) r1)

/-- C39, amended (overlay substitution replaces only value, owner and configuration).  Let
`resid` be a valid identifier whose package group is `g`, and let the scan of `g` select the
target's entry `resP` with the cookie `cookieP`.  Whatever `FindEntry(resid)` returns carries
the flag mask, the package name and the type and entry name references of `resP`.  Let the
bundle of `cookieP` be no loader, let `link` be the last overlay link of `g` whose id-map
holds `resid`, and let the overlay loop reach `link` with the cookie `cookieB` and the entry
`resB`, which carries the flag mask and the names of `resP`, and the configuration of `resP`
unless an earlier link holds an overlay resource for `resid`.  If the id-map of `link` holds an
inline value, `FindEntry` returns the cookie of the link and `resB` with the entry replaced by
the value and the dynamic reference table by the one of the id-map: the configuration is the
one the entry had before the link.  If it holds an overlay resource whose lookup returns
`resO` with a configuration better than or equal to the one of `resB`, `FindEntry` returns the
cookie of that lookup and `resB` with the entry and the configuration of `resO` and the
dynamic reference table of the id-map. -/
theorem FindEntry_overlay_substitution {κ : Type} (ops : ResTable_configOps κ)
    (am : AssetManager2 κ) (fuel resid density_override : Nat) (ignore_configuration : Bool)
    (log : Resolution κ) (g : PackageGroup κ) (cookieP : Nat) (resP : FindEntryResult κ)
    (hvalid : is_valid_resid resid = true)
    (hidx : am.package_ids_.getD (get_package_id resid) 0xff ≠ 0xff)
    (hg : am.package_groups_.get? (am.package_ids_.getD (get_package_id resid) 0xff) = some g)
    (hP : (FindEntryInternal ops am g (get_type_id resid - 1) (get_entry_id resid)
      (selectDesiredConfig ops am density_override) ignore_configuration log).2 =
        some (cookieP, resP)) :
    (∀ r, FindEntry ops am (fuel + 1) resid density_override ignore_configuration log = some r →
      ∃ c res, r.2 = some (c, res) ∧ res.type_flags = resP.type_flags ∧
        res.package_name = resP.package_name ∧ res.type_string_ref = resP.type_string_ref ∧
        res.entry_string_ref = resP.entry_string_ref) ∧
    (∀ (before : List ConfiguredOverlay) (link : ConfiguredOverlay)
        (after : List ConfiguredOverlay) (cookieB : Nat) (resB : FindEntryResult κ),
      IsLoaderCookie am cookieP = false → g.overlays_ = before ++ link :: after →
      (∀ l ∈ after, l.overlay_res_maps_.Lookup resid = none) →
      (overlayScan ops am am.resource_resolution_logging_enabled_
          (fun r l => FindEntry ops am fuel r density_override ignore_configuration l) resid
          ((selectDesiredConfig ops am density_override).deref am) before cookieP resP log).map
        (fun x => x.2) = some (cookieB, resB) →
      (resB.type_flags = resP.type_flags ∧ resB.package_name = resP.package_name ∧
        resB.type_string_ref = resP.type_string_ref ∧
        resB.entry_string_ref = resP.entry_string_ref) ∧
      ((∀ l ∈ before, ∀ r1, l.overlay_res_maps_.Lookup resid ≠
          some (IdmapResult.resource r1)) → resB.config = resP.config) ∧
      (∀ value, link.overlay_res_maps_.Lookup resid = some (IdmapResult.inline value) →
        (FindEntry ops am (fuel + 1) resid density_override ignore_configuration log).map
          Prod.snd =
          some (some (link.cookie,
            { resB with
              entry := EntryVariant.value value
              dynamic_ref_table := link.overlay_res_maps_.GetOverlayDynamicRefTable am }))) ∧
      (∀ overlay_resid cookieO resO,
        link.overlay_res_maps_.Lookup resid = some (IdmapResult.resource overlay_resid) →
        (FindEntry ops am fuel overlay_resid density_override ignore_configuration log).map
          Prod.snd = some (some (cookieO, resO)) →
        (ops.isBetterThan resO.config resB.config
            ((selectDesiredConfig ops am density_override).deref am) = true ∨
          ops.compare resO.config resB.config = 0) →
        (FindEntry ops am (fuel + 1) resid density_override ignore_configuration log).map
          Prod.snd =
          some (some (cookieO,
            { resB with
              entry := resO.entry
              config := resO.config
              dynamic_ref_table := link.overlay_res_maps_.GetOverlayDynamicRefTable am })))) := by
  refine ⟨?_, ?_⟩
  · intro r h
    obtain ⟨c, res, h1, h2, h3, h4, h5⟩ := FindEntry_names_of_internal ops am fuel resid
      density_override ignore_configuration log g hvalid hidx hg cookieP resP hP r h
    exact ⟨c, res, h1, h5, h2, h3, h4⟩
  · intro before link after cookieB resB hloader hlinks hafter hB
    cases hscan : overlayScan ops am am.resource_resolution_logging_enabled_
        (fun r l => FindEntry ops am fuel r density_override ignore_configuration l) resid
        ((selectDesiredConfig ops am density_override).deref am) before cookieP resP log with
    | none => rw [hscan] at hB; simp at hB
    | some x =>
      obtain ⟨logB, cB, rB⟩ := x
      rw [hscan] at hB
      simp only [Option.map_some', Option.some.injEq, Prod.mk.injEq] at hB
      obtain ⟨hc, hr⟩ := hB
      subst hc; subst hr
      have hnames := overlayScan_names ops am _ _ resid _ before cookieP resP log _ hscan
      have hfind := FindEntry_of_internal ops am fuel resid density_override
        ignore_configuration log log g cookieP resP hvalid hidx hg hP
      rw [hloader, hlinks, overlayScan_append, hscan] at hfind
      simp only [Bool.false_eq_true, if_false, Option.some_bind] at hfind
      have hskip : ∀ (c : Nat) (out : FindEntryResult κ) (lg : Resolution κ),
          overlayScan ops am am.resource_resolution_logging_enabled_
            (fun r l => FindEntry ops am fuel r density_override ignore_configuration l) resid
            ((selectDesiredConfig ops am density_override).deref am) after c out lg =
            some (lg, c, out) := by
        intro c out lg
        have := overlayScan_skip ops am am.resource_resolution_logging_enabled_
          (fun r l => FindEntry ops am fuel r density_override ignore_configuration l) resid
          ((selectDesiredConfig ops am density_override).deref am) after [] hafter c out lg
        rw [List.append_nil] at this
        rw [this]
        rfl
      refine ⟨⟨hnames.2.2.2, hnames.1, hnames.2.1, hnames.2.2.1⟩, ?_, ?_, ?_⟩
      · intro hno
        exact overlayScan_config_kept ops am _ _ resid _ before hno cookieP resP log _ hscan
      · intro value hmap
        rw [hfind]
        simp only [overlayScan, hmap]
        rw [hskip]
        rfl
      · intro overlay_resid cookieO resO hmap hO hok
        rw [hfind]
        have hO' : (FindEntry ops am fuel overlay_resid density_override ignore_configuration
            logB).map Prod.snd = some (some (cookieO, resO)) := by
          rw [FindEntry_snd_eq ops am am (SameBundles.refl am) fuel overlay_resid
            density_override ignore_configuration log logB]
          exact hO
        obtain ⟨log2, h1⟩ := overlayScan_accept ops am am.resource_resolution_logging_enabled_
          (fun r l => FindEntry ops am fuel r density_override ignore_configuration l) resid
          ((selectDesiredConfig ops am density_override).deref am) link after overlay_resid cB
          rB logB cookieO resO hmap hO' hok
        rw [h1, hskip]
        rfl

/-- Witness of the amended C39: in `sampleOverlayThenInlineEngine` the first overlay link
holds an overlay resource for `string/0`, defined for locale 33, which replaces the target's
entry, defined for the default configuration; the second link, the last one, holds an inline
value.  `FindEntry` returns the cookie 2 of the second link and the inline value with the
configuration of the first overlay, and the flag mask and the names of the target. -/
theorem FindEntry_overlay_substitution_witness :
    (sampleGroupAt sampleOverlayThenInlineEngine 0).overlays_.map
        (fun l => (l.overlay_res_maps_.Lookup 0x7f010000, l.cookie)) =
      [(some (IdmapResult.resource 0x02010000), 1), (some (IdmapResult.inline ⟨16, 55⟩), 2)] ∧
    (FindEntry sampleOps sampleOverlayThenInlineEngine 2 0x7f010000 0 false
        sampleOverlayThenInlineEngine.last_resolution_).map
          (fun r => r.2.map (fun x => (x.1, x.2.entry, x.2.config, x.2.type_flags,
            x.2.package_name))) =
      some (some (2, EntryVariant.value ⟨16, 55⟩, ⟨33, 0⟩, 0x0004, "target")) := by
  have hg : sampleOverlayThenInlineEngine.package_groups_.get?
      (sampleOverlayThenInlineEngine.package_ids_.getD (get_package_id 0x7f010000) 0xff) =
      some (sampleGroupAt sampleOverlayThenInlineEngine 0) := by rfl
  have h := (FindEntry_overlay_substitution sampleOps sampleOverlayThenInlineEngine 1
    0x7f010000 0 false sampleOverlayThenInlineEngine.last_resolution_
    (sampleGroupAt sampleOverlayThenInlineEngine 0) 0
    { sampleStringResult (sampleGroupAt sampleOverlayThenInlineEngine 0) "target" ["greeting"]
        0x0004 100 with config := ⟨0, 0⟩ }
    (by decide) (by decide) hg (by rfl)).2
    [⟨⟨[(0x7f010000, IdmapResult.resource 0x02010000)], 1⟩, 1⟩]
    ⟨⟨[(0x7f010000, IdmapResult.inline ⟨16, 55⟩)], 2⟩, 2⟩
    [] 1
    { sampleStringResult (sampleGroupAt sampleOverlayThenInlineEngine 0) "target" ["greeting"]
        0x0004 810 with
      dynamic_ref_table := (sampleGroupAt sampleOverlayThenInlineEngine 1).dynamic_ref_table }
    (by rfl) (by rfl) (fun l hl => by simp at hl) (by rfl)
  refine ⟨by rfl, ?_⟩
  have h3 := h.2.2.1 ⟨16, 55⟩ (by rfl)
  cases hx : FindEntry sampleOps sampleOverlayThenInlineEngine 2 0x7f010000 0 false
      sampleOverlayThenInlineEngine.last_resolution_ with
  | none => rw [hx] at h3; simp at h3
  | some r =>
    rw [hx] at h3
    simp only [Option.map_some', Option.some.injEq] at h3 ⊢
    rw [h3]
    rfl

/-- Counterexample to C39: in `sampleOverlayThenInlineEngine`, configured for locale 33, the
target's `string/0` is defined for the default configuration only.  The first overlay link
substitutes an overlay resource defined for locale 33, the second an inline value.  The
result of `FindEntry` is the inline value, and its configuration is the one of the first
overlay (locale 33), not the target's (the default configuration). -/
theorem FindEntry_inline_after_overlay_counterexample :
    (FindEntryInternal sampleOps sampleOverlayThenInlineEngine
        (sampleGroupAt sampleOverlayThenInlineEngine 0) 0 0
        (selectDesiredConfig sampleOps sampleOverlayThenInlineEngine 0) false
        sampleOverlayThenInlineEngine.last_resolution_).2.map (fun x => (x.1, x.2.config)) =
      some (0, ⟨0, 0⟩) ∧
    (sampleGroupAt sampleOverlayThenInlineEngine 0).overlays_.map
        (fun l => (l.overlay_res_maps_.Lookup 0x7f010000, l.cookie)) =
      [(some (IdmapResult.resource 0x02010000), 1), (some (IdmapResult.inline ⟨16, 55⟩), 2)] ∧
    (FindEntry sampleOps sampleOverlayThenInlineEngine 1 0x02010000 0 false
        sampleOverlayThenInlineEngine.last_resolution_).map
          (fun r => r.2.map (fun x => (x.1, x.2.config))) = some (some (1, ⟨33, 0⟩)) ∧
    (FindEntry sampleOps sampleOverlayThenInlineEngine 2 0x7f010000 0 false
        sampleOverlayThenInlineEngine.last_resolution_).map
          (fun r => r.2.map (fun x => (x.1, x.2.entry, x.2.config))) =
      some (some (2, EntryVariant.value ⟨16, 55⟩, ⟨33, 0⟩)) :=
  ⟨by rfl, by rfl, by rfl, by rfl⟩

/-! ## C23: the theme after the cross-engine SetTo -/

theorem setToRun_append {κ : Type} (ops : ResTable_configOps κ) (src_am : AssetManager2 κ)
    (fuel : Nat) (uninit : Nat → Nat → Nat) (maps : CookieMaps) (l1 l2 : List SetToSlot) :
    ∀ st, setToRun ops src_am fuel uninit maps (l1 ++ l2) st =
      (setToRun ops src_am fuel uninit maps l1 st).bind
        (setToRun ops src_am fuel uninit maps l2) := by
  induction l1 with
  | nil => intro st; rfl
  | cons s rest ih =>
    intro st
    rw [List.cons_append]
    simp only [setToRun]
    cases setToEntry ops src_am fuel uninit maps s.p s.t s.type s.e s.entry st with
    | none => rfl
    | some st1 => exact ih st1

theorem setToEntries_eq_run {κ : Type} (ops : ResTable_configOps κ) (src_am : AssetManager2 κ)
    (fuel : Nat) (uninit : Nat → Nat → Nat) (maps : CookieMaps) (p t : Nat)
    (type : ThemeType) :
    ∀ (l : List (Nat × ThemeEntry)) (st : Theme × Resolution κ),
      setToEntries ops src_am fuel uninit maps p t type l st =
        setToRun ops src_am fuel uninit maps (l.map (fun x => ⟨p, t, type, x.1, x.2⟩)) st := by
  intro l
  induction l with
  | nil => intro st; rfl
  | cons x rest ih =>
    intro st
    obtain ⟨e, entry⟩ := x
    simp only [setToEntries, List.map_cons, setToRun]
    cases setToEntry ops src_am fuel uninit maps p t type e entry st with
    | none => rfl
    | some st1 => exact ih st1

theorem setToTypes_eq_run {κ : Type} (ops : ResTable_configOps κ) (src_am : AssetManager2 κ)
    (fuel : Nat) (uninit : Nat → Nat → Nat) (maps : CookieMaps) (p : Nat)
    (package : ThemePackage) :
    ∀ (ts : List Nat) (st : Theme × Resolution κ),
      setToTypes ops src_am fuel uninit maps p package ts st =
        setToRun ops src_am fuel uninit maps
          (ts.flatMap (fun t =>
            match package.types t with
            | none => []
            | some type => type.entries.enum.map (fun x => ⟨p, t, type, x.1, x.2⟩))) st := by
  intro ts
  induction ts with
  | nil => intro st; rfl
  | cons t rest ih =>
    intro st
    rw [List.flatMap_cons, setToRun_append, setToTypes]
    cases ht : package.types t with
    | none =>
      simp only [setToRun, Option.some_bind]
      exact ih st
    | some type =>
      simp only []
      rw [setToEntries_eq_run]
      cases setToRun ops src_am fuel uninit maps
          (type.entries.enum.map (fun x => (⟨p, t, type, x.1, x.2⟩ : SetToSlot))) st with
      | none => rfl
      | some st1 =>
        simp only [Option.some_bind]
        exact ih st1

theorem setToPackages_eq_run {κ : Type} (ops : ResTable_configOps κ)
    (src_am : AssetManager2 κ) (fuel : Nat) (uninit : Nat → Nat → Nat) (maps : CookieMaps)
    (o : Theme) :
    ∀ (ps : List Nat) (st : Theme × Resolution κ),
      setToPackages ops src_am fuel uninit maps o ps st =
        setToRun ops src_am fuel uninit maps
          (ps.flatMap (fun p =>
            match o.packages_ p with
            | none => []
            | some package => package.setToPackageSlots p)) st := by
  intro ps
  induction ps with
  | nil => intro st; rfl
  | cons p rest ih =>
    intro st
    rw [List.flatMap_cons, setToRun_append, setToPackages]
    cases hp : o.packages_ p with
    | none =>
      simp only [setToRun, Option.some_bind]
      exact ih st
    | some package =>
      simp only []
      rw [setToTypes_eq_run]
      unfold ThemePackage.setToPackageSlots
      cases setToRun ops src_am fuel uninit maps
          ((List.range kTypeCount).flatMap (fun t =>
            match package.types t with
            | none => []
            | some type =>
              type.entries.enum.map (fun x => (⟨p, t, type, x.1, x.2⟩ : SetToSlot)))) st with
      | none => rfl
      | some st1 =>
        simp only [Option.some_bind]
        exact ih st1

/-- The copy of a theme of another engine is the loop body applied to the slots of the source
theme, in order. -/
theorem SetTo_eq_run {κ : Type} [DecidableEq κ] (ops : ResTable_configOps κ) (fuel : Nat)
    (uninit : Nat → Nat → Nat) (am src_am : AssetManager2 κ) (theme o : Theme)
    (maps : CookieMaps)
    (hmaps : matchBundles src_am am src_am.apk_assets_ 0 ⟨[], []⟩ = some maps) :
    SetTo ops fuel uninit am theme (ThemeRef.other_asset_manager o src_am) =
      setToRun ops src_am fuel uninit maps o.setToSlots
        ({ type_spec_flags_ := o.type_spec_flags_
           packages_ := fun p => if p < kPackageCount then none else theme.packages_ p },
          src_am.last_resolution_) := by
  unfold SetTo
  simp only [hmaps]
  rw [setToPackages_eq_run]
  rfl

theorem mem_setToSlots (o : Theme) (s : SetToSlot) :
    s ∈ o.setToSlots ↔
      s.p < kPackageCount ∧ s.t < kTypeCount ∧
        ∃ package, o.packages_ s.p = some package ∧ package.types s.t = some s.type ∧
          s.type.entries.get? s.e = some s.entry := by
  unfold Theme.setToSlots
  rw [List.mem_flatMap]
  constructor
  · rintro ⟨p, hp, hs⟩
    rw [List.mem_range] at hp
    cases hpk : o.packages_ p with
    | none => rw [hpk] at hs; simp at hs
    | some package =>
      rw [hpk] at hs
      simp only [ThemePackage.setToPackageSlots, List.mem_flatMap] at hs
      obtain ⟨t, ht, hs⟩ := hs
      rw [List.mem_range] at ht
      cases hty : package.types t with
      | none => rw [hty] at hs; simp at hs
      | some type =>
        rw [hty] at hs
        simp only [List.mem_map] at hs
        obtain ⟨x, hx, rfl⟩ := hs
        obtain ⟨e, entry⟩ := x
        rw [List.mk_mem_enum_iff_getElem?] at hx
        exact ⟨hp, ht, package, hpk, hty, by rw [List.get?_eq_getElem?]; exact hx⟩
  · rintro ⟨hp, ht, package, hpk, hty, he⟩
    refine ⟨s.p, List.mem_range.2 hp, ?_⟩
    rw [hpk]
    simp only [ThemePackage.setToPackageSlots, List.mem_flatMap]
    refine ⟨s.t, List.mem_range.2 ht, ?_⟩
    rw [hty]
    simp only [List.mem_map]
    refine ⟨(s.e, s.entry), ?_, rfl⟩
    rw [List.mk_mem_enum_iff_getElem?, ← List.get?_eq_getElem?]
    exact he

theorem entryAt_eq_typeAt (theme : Theme) (q t e : Nat) :
    theme.entryAt q t e = (theme.typeAt q t).bind (fun type => type.entries.get? e) := rfl

theorem attributeDestPackageId_log {κ : Type} (ops : ResTable_configOps κ)
    (src_am : AssetManager2 κ) (fuel : Nat) (maps : CookieMaps) (p t e : Nat)
    (log : Resolution κ) :
    (attributeDestPackageId ops src_am fuel maps p t e log).map Prod.snd =
      destPackage ops src_am fuel maps p t e := by
  unfold destPackage attributeDestPackageId
  by_cases hp : (p != 0x01) = true
  · simp only [hp, if_true]
    have h := FindEntry_snd_eq ops src_am src_am (SameBundles.refl src_am) fuel
      (make_resid p t e) 0 true src_am.last_resolution_ log
    cases h1 : FindEntry ops src_am fuel (make_resid p t e) 0 true log with
    | none =>
      rw [h1] at h
      cases h2 : FindEntry ops src_am fuel (make_resid p t e) 0 true
          src_am.last_resolution_ with
      | none => rfl
      | some y => rw [h2] at h; simp at h
    | some x =>
      rw [h1] at h
      cases h2 : FindEntry ops src_am fuel (make_resid p t e) 0 true
          src_am.last_resolution_ with
      | none => rw [h2] at h; simp at h
      | some y =>
        rw [h2] at h
        simp only [Option.map_some', Option.some.injEq] at h
        obtain ⟨l1, r1⟩ := x
        obtain ⟨l2, r2⟩ := y
        simp only at h
        subst h
        cases r1 with
        | none => rfl
        | some cr =>
          obtain ⟨c, res⟩ := cr
          simp only []
          cases maps.src_asset_cookie_id_map.lookup c with
          | none => rfl
          | some m =>
            simp only []
            cases m.lookup p <;> rfl
  · simp only [hp, Bool.false_eq_true, if_false, Option.map_some']

/-- What the loop body does for a slot: it leaves the theme, or it writes the slot `e` of the
type `t` of the destination package of the attribute. -/
theorem setToEntry_cases {κ : Type} (ops : ResTable_configOps κ) (src_am : AssetManager2 κ)
    (fuel : Nat) (uninit : Nat → Nat → Nat) (maps : CookieMaps) (p t : Nat) (type : ThemeType)
    (e : Nat) (entry : ThemeEntry) (st st1 : Theme × Resolution κ)
    (h : setToEntry ops src_am fuel uninit maps p t type e entry st = some st1) :
    st1.1 = st.1 ∨
      ∃ q c d, destPackage ops src_am fuel maps p t e = some (some q) ∧
        attributeData maps entry = some d ∧ dataDestCookie maps entry = some c ∧
        st1.1 = st.1.writeEntry uninit q t e type
          ⟨c, entry.type_spec_flags, ⟨entry.value.dataType, d⟩⟩ := by
  unfold setToEntry at h
  split at h
  · simp only [Option.some.injEq] at h
    subst h
    exact Or.inl rfl
  · cases hd : attributeData maps entry with
    | none =>
      rw [hd] at h
      simp only [Option.some.injEq] at h
      subst h
      exact Or.inl rfl
    | some d =>
      rw [hd] at h
      simp only [] at h
      cases hc : dataDestCookie maps entry with
      | none =>
        rw [hc] at h
        simp only [Option.some.injEq] at h
        subst h
        exact Or.inl rfl
      | some c =>
        rw [hc] at h
        simp only [] at h
        have hlog := attributeDestPackageId_log ops src_am fuel maps p t e st.2
        cases ha : attributeDestPackageId ops src_am fuel maps p t e st.2 with
        | none => rw [ha] at h; simp at h
        | some x =>
          obtain ⟨log, dp⟩ := x
          rw [ha] at h hlog
          cases dp with
          | none =>
            simp only [Option.some.injEq] at h
            subst h
            exact Or.inl rfl
          | some q =>
            simp only [Option.some.injEq] at h
            subst h
            exact Or.inr ⟨q, c, d, hlog.symm, rfl, rfl, rfl⟩

/-- The theme the loop body leaves does not depend on the recorded resolution. -/
theorem setToEntry_log {κ : Type} (ops : ResTable_configOps κ) (src_am : AssetManager2 κ)
    (fuel : Nat) (uninit : Nat → Nat → Nat) (maps : CookieMaps) (p t : Nat) (type : ThemeType)
    (e : Nat) (entry : ThemeEntry) (theme : Theme) (log log1 : Resolution κ) :
    (setToEntry ops src_am fuel uninit maps p t type e entry (theme, log)).map Prod.fst =
      (setToEntry ops src_am fuel uninit maps p t type e entry (theme, log1)).map Prod.fst := by
  unfold setToEntry
  split
  · rfl
  · cases attributeData maps entry with
    | none => rfl
    | some d =>
      simp only []
      cases dataDestCookie maps entry with
      | none => rfl
      | some c =>
        simp only []
        have h1 := attributeDestPackageId_log ops src_am fuel maps p t e log
        have h2 := attributeDestPackageId_log ops src_am fuel maps p t e log1
        rw [← h2] at h1
        cases ha : attributeDestPackageId ops src_am fuel maps p t e log with
        | none =>
          rw [ha] at h1
          cases hb : attributeDestPackageId ops src_am fuel maps p t e log1 with
          | none => rfl
          | some y => rw [hb] at h1; simp at h1
        | some x =>
          rw [ha] at h1
          cases hb : attributeDestPackageId ops src_am fuel maps p t e log1 with
          | none => rw [hb] at h1; simp at h1
          | some y =>
            rw [hb] at h1
            simp only [Option.map_some', Option.some.injEq] at h1
            obtain ⟨l1, r1⟩ := x
            obtain ⟨l2, r2⟩ := y
            simp only at h1
            subst h1
            cases r1 <;> rfl

theorem writeEntry_typeAt_other (uninit : Nat → Nat → Nat) (theme : Theme)
    (q1 t1 e1 : Nat) (type : ThemeType) (x : ThemeEntry) (q t : Nat)
    (h : ¬ (q1 = q ∧ t1 = t)) :
    (theme.writeEntry uninit q1 t1 e1 type x).typeAt q t = theme.typeAt q t := by
  unfold Theme.writeEntry Theme.typeAt Theme.setType
  by_cases hq : q = q1
  · subst hq
    have ht : ¬ t = t1 := fun ht => h ⟨rfl, ht.symm⟩
    simp only [if_true, Option.some_bind, ht, if_false]
    cases theme.packages_ q <;> rfl
  · simp only [hq, if_false]

theorem writeEntry_typeAt_same (uninit : Nat → Nat → Nat) (theme : Theme)
    (q t e : Nat) (type : ThemeType) (x : ThemeEntry) :
    (theme.writeEntry uninit q t e type x).typeAt q t =
      some ⟨(match theme.typeAt q t with
        | none => zeroedBlock (uninit q t) type.entries.length
        | some dest_type =>
          if dest_type.entries.length < type.entries.length then
            type.entries.take dest_type.entries.length ++
              (zeroedBlock (uninit q t) type.entries.length).drop dest_type.entries.length
          else dest_type.entries).set e x⟩ := by
  unfold Theme.writeEntry Theme.typeAt Theme.setType
  simp only [if_true, Option.some_bind]
  cases hp : theme.packages_ q with
  | none => rfl
  | some package =>
    simp only [Option.getD_some, Option.some_bind]
    cases package.types t with
    | none => rfl
    | some dest_type =>
      simp only []
      split <;> rfl

/-- A write that does not replace the type array by a larger one reads the length of the
source type only. -/
theorem writeEntry_congr (uninit : Nat → Nat → Nat) (theme : Theme)
    (q t e : Nat) (type type1 : ThemeType) (x : ThemeEntry)
    (hlen : type1.entries.length = type.entries.length)
    (h : ∀ dest_type, theme.typeAt q t = some dest_type →
      type.entries.length ≤ dest_type.entries.length) :
    theme.writeEntry uninit q t e type1 x = theme.writeEntry uninit q t e type x := by
  unfold Theme.typeAt at h
  unfold Theme.writeEntry
  rw [hlen]
  cases hp : theme.packages_ q with
  | none => rfl
  | some package =>
    simp only [Option.getD_some]
    cases ht : package.types t with
    | none => rfl
    | some dest_type =>
      have := h dest_type (by rw [hp]; simpa using ht)
      have hn : ¬ dest_type.entries.length < type.entries.length := by omega
      simp only [hn, if_false]

theorem destPackage_lt {κ : Type} [DecidableEq κ] (ops : ResTable_configOps κ)
    (src_am am : AssetManager2 κ) (fuel : Nat) (maps : CookieMaps)
    (hmaps : matchBundles src_am am src_am.apk_assets_ 0 ⟨[], []⟩ = some maps)
    (p t e q : Nat) (hp : p < kPackageCount)
    (h : destPackage ops src_am fuel maps p t e = some (some q)) : q < kPackageCount := by
  unfold destPackage attributeDestPackageId at h
  by_cases hp1 : (p != 0x01) = true
  · simp only [hp1, if_true] at h
    cases hf : FindEntry ops src_am fuel (make_resid p t e) 0 true src_am.last_resolution_ with
    | none => rw [hf] at h; simp at h
    | some x =>
      obtain ⟨log, r⟩ := x
      rw [hf] at h
      cases r with
      | none => simp at h
      | some cr =>
        obtain ⟨c, res⟩ := cr
        simp only [] at h
        cases hm : maps.src_asset_cookie_id_map.lookup c with
        | none => rw [hm] at h; simp at h
        | some m =>
          rw [hm] at h
          simp only [] at h
          cases hl : m.lookup p with
          | none => rw [hl] at h; simp at h
          | some v =>
            rw [hl] at h
            simp only [Option.map_some', Option.some.injEq] at h
            subst h
            have hch := (matchBundles_maps src_am am maps hmaps c).2
            rw [hm] at hch
            cases ha : src_am.apk_assets_[c]? with
            | none => rw [ha] at hch; simp at hch
            | some a =>
              rw [ha] at hch
              simp only [Option.some_bind] at hch
              cases hj : findSamePath a.path am.apk_assets_ 0 with
              | none => rw [hj] at hch; simp at hch
              | some jd =>
                rw [hj] at hch
                simp only [Option.some_bind] at hch
                obtain ⟨k, s0, dk, -, -, -, h4, -⟩ :=
                  buildPackageMap_some src_am am a jd.2 m p v hch.symm hl
                rw [← h4]
                exact GetAssignedPackageId_lt am dk
  · simp only [hp1, Bool.false_eq_true, if_false, Option.map_some', Option.some.injEq] at h
    subst h
    exact hp

theorem DestinationsDisjoint_spec {κ : Type} (ops : ResTable_configOps κ)
    (src_am : AssetManager2 κ) (fuel : Nat) (maps : CookieMaps) (o : Theme)
    (h : DestinationsDisjoint ops src_am fuel maps o = true) :
    ∀ s1 ∈ o.setToSlots, ∀ s2 ∈ o.setToSlots, s1.t = s2.t → ∀ q,
      destPackage ops src_am fuel maps s1.p s1.t s1.e = some (some q) →
      destPackage ops src_am fuel maps s2.p s2.t s2.e = some (some q) → s1.p = s2.p := by
  intro s1 h1 s2 h2 ht q hq1 hq2
  unfold DestinationsDisjoint at h
  rw [List.all_eq_true] at h
  have h' := h s1 h1
  rw [List.all_eq_true] at h'
  have h'' := h' s2 h2
  rw [hq1, hq2] at h''
  simp only [Bool.or_eq_true, beq_iff_eq, bne_iff_ne, ne_eq, not_true_eq_false, or_false] at h''
  rcases h'' with h3 | h3
  · exact h3
  · exact absurd ht h3

/-- The loop body writes the slot when the slot is set, its value and its cookie can be mapped
and its attribute has a destination package. -/
theorem setToEntry_write {κ : Type} (ops : ResTable_configOps κ) (src_am : AssetManager2 κ)
    (fuel : Nat) (uninit : Nat → Nat → Nat) (maps : CookieMaps) (p t : Nat) (type : ThemeType)
    (e : Nat) (entry : ThemeEntry) (st : Theme × Resolution κ) (q c d : Nat)
    (hset : (entry.value.dataType == TYPE_NULL && entry.value.data != DATA_NULL_EMPTY) = false)
    (hd : attributeData maps entry = some d) (hc : dataDestCookie maps entry = some c)
    (hq : destPackage ops src_am fuel maps p t e = some (some q)) :
    (setToEntry ops src_am fuel uninit maps p t type e entry st).map Prod.fst =
      some (st.1.writeEntry uninit q t e type
        ⟨c, entry.type_spec_flags, ⟨entry.value.dataType, d⟩⟩) := by
  have hlog := attributeDestPackageId_log ops src_am fuel maps p t e st.2
  rw [hq] at hlog
  unfold setToEntry
  simp only [hset, Bool.false_eq_true, if_false, hd, hc]
  cases ha : attributeDestPackageId ops src_am fuel maps p t e st.2 with
  | none => rw [ha] at hlog; simp at hlog
  | some x =>
    obtain ⟨log, dp⟩ := x
    rw [ha] at hlog
    simp only [Option.map_some', Option.some.injEq] at hlog
    subst hlog
    rfl

/-- The loop body does not read the content of the source type when the write does not
replace the destination type by a larger one. -/
theorem setToEntry_congr_type {κ : Type} (ops : ResTable_configOps κ)
    (src_am : AssetManager2 κ) (fuel : Nat) (uninit : Nat → Nat → Nat) (maps : CookieMaps)
    (p t : Nat) (type type1 : ThemeType) (e : Nat) (entry : ThemeEntry)
    (st : Theme × Resolution κ)
    (hlen : type1.entries.length = type.entries.length)
    (h : ∀ q, destPackage ops src_am fuel maps p t e = some (some q) →
      ∀ dest_type, st.1.typeAt q t = some dest_type →
        type.entries.length ≤ dest_type.entries.length) :
    setToEntry ops src_am fuel uninit maps p t type1 e entry st =
      setToEntry ops src_am fuel uninit maps p t type e entry st := by
  have hlog := attributeDestPackageId_log ops src_am fuel maps p t e st.2
  unfold setToEntry
  split
  · rfl
  · cases attributeData maps entry with
    | none => rfl
    | some d =>
      simp only []
      cases dataDestCookie maps entry with
      | none => rfl
      | some c =>
        simp only []
        cases ha : attributeDestPackageId ops src_am fuel maps p t e st.2 with
        | none => rfl
        | some x =>
          obtain ⟨log, dp⟩ := x
          rw [ha] at hlog
          cases dp with
          | none => rfl
          | some q =>
            simp only []
            rw [writeEntry_congr uninit st.1 q t e type type1 _ hlen (h q hlog.symm)]

theorem enum_set {α : Type} (z : α) (e : Nat) (l : List α) :
    (l.set e z).enum = l.enum.map (fun x => if x.1 = e then (x.1, z) else x) := by
  apply List.ext_getElem?
  intro i
  rw [List.getElem?_map, List.getElem?_enum, List.getElem?_enum, List.getElem?_set]
  by_cases hi : e = i
  · subst hi
    simp only [if_true]
    by_cases hlt : e < l.length
    · simp only [hlt, if_true, Option.map_some']
      rw [List.getElem?_eq_getElem hlt]
      simp
    · simp only [hlt, if_false, Option.map_none']
      rw [List.getElem?_eq_none (by omega)]
      rfl
  · simp only [hi, if_false]
    cases l[i]? with
    | none => rfl
    | some a =>
      have : ¬ i = e := fun h => hi h.symm
      simp [this]

theorem unsetSlot_setToSlots (o : Theme) (p t e : Nat) :
    (o.unsetSlot p t e).setToSlots = o.setToSlots.map (SetToSlot.unsetAt p t e) := by
  unfold Theme.setToSlots
  rw [List.map_flatMap]
  apply List.flatMap_congr
  intro p1 _
  by_cases hp : p1 = p
  · subst hp
    simp only [Theme.unsetSlot, if_true]
    cases o.packages_ p1 with
    | none => rfl
    | some package =>
      simp only [Option.map_some']
      unfold ThemePackage.setToPackageSlots
      rw [List.map_flatMap]
      apply List.flatMap_congr
      intro t1 _
      by_cases ht : t1 = t
      · subst ht
        simp only [if_true]
        cases package.types t1 with
        | none => rfl
        | some type =>
          simp only [Option.map_some', enum_set, List.map_map]
          apply List.map_congr_left
          intro x _
          simp only [Function.comp, SetToSlot.unsetAt, and_self, if_true]
          by_cases hx : x.1 = e
          · simp only [hx, if_true]
          · simp only [hx, if_false]
      · simp only [ht, if_false]
        cases package.types t1 with
        | none => rfl
        | some type =>
          simp only [List.map_map]
          symm
          apply List.map_congr_left
          intro x _
          simp only [Function.comp, SetToSlot.unsetAt, ht, and_false, if_false]
  · simp only [Theme.unsetSlot, hp, if_false]
    cases o.packages_ p1 with
    | none => rfl
    | some package =>
      simp only []
      unfold ThemePackage.setToPackageSlots
      rw [List.map_flatMap]
      apply List.flatMap_congr
      intro t1 _
      cases package.types t1 with
      | none => rfl
      | some type =>
        simp only [List.map_map]
        symm
        apply List.map_congr_left
        intro x _
        simp only [Function.comp, SetToSlot.unsetAt, hp, false_and, if_false]

/-- Once the slot `e` of the type `t` of the destination package `q` has been written for
the slot `e` of the type `t` of the package `p`, the later iterations keep it, when no other
package of the source theme has a slot of type `t` sent to `q`. -/
theorem setToRun_keeps {κ : Type} (ops : ResTable_configOps κ) (src_am : AssetManager2 κ)
    (fuel : Nat) (uninit : Nat → Nat → Nat) (maps : CookieMaps) (o : Theme)
    (hdisj : DestinationsDisjoint ops src_am fuel maps o = true)
    (p t e q c d : Nat) (package : ThemePackage) (type : ThemeType) (entry : ThemeEntry)
    (hp : p < kPackageCount) (ht : t < kTypeCount)
    (hpk : o.packages_ p = some package) (hty : package.types t = some type)
    (he : type.entries.get? e = some entry)
    (hq : destPackage ops src_am fuel maps p t e = some (some q))
    (hd : attributeData maps entry = some d) (hc : dataDestCookie maps entry = some c) :
    ∀ (l : List SetToSlot), (∀ s ∈ l, s ∈ o.setToSlots) →
      ∀ (st st1 : Theme × Resolution κ), setToRun ops src_am fuel uninit maps l st = some st1 →
      (∃ ty, st.1.typeAt q t = some ty ∧ type.entries.length ≤ ty.entries.length ∧
        ty.entries.get? e = some ⟨c, entry.type_spec_flags, ⟨entry.value.dataType, d⟩⟩) →
      ∃ ty, st1.1.typeAt q t = some ty ∧ type.entries.length ≤ ty.entries.length ∧
        ty.entries.get? e = some ⟨c, entry.type_spec_flags, ⟨entry.value.dataType, d⟩⟩ := by
  have hs0 : (⟨p, t, type, e, entry⟩ : SetToSlot) ∈ o.setToSlots :=
    (mem_setToSlots o _).2 ⟨hp, ht, package, hpk, hty, he⟩
  have helt : e < type.entries.length := by
    rw [List.get?_eq_getElem?] at he
    exact getElem?_some_lt he
  intro l
  induction l with
  | nil =>
    intro _ st st1 h hJ
    simp only [setToRun, Option.some.injEq] at h
    subst h
    exact hJ
  | cons s rest ih =>
    intro hmem st st1 h hJ
    simp only [setToRun] at h
    cases hstep : setToEntry ops src_am fuel uninit maps s.p s.t s.type s.e s.entry st with
    | none => rw [hstep] at h; simp at h
    | some st2 =>
      rw [hstep] at h
      simp only [] at h
      refine ih (fun s' hs' => hmem s' (List.mem_cons_of_mem _ hs')) st2 st1 h ?_
      have hs := hmem s (List.mem_cons_self _ _)
      rcases setToEntry_cases ops src_am fuel uninit maps s.p s.t s.type s.e s.entry st st2
        hstep with hsame | ⟨q1, c1, d1, hq1, hd1, hc1, hw⟩
      · rw [hsame]
        exact hJ
      · rw [hw]
        obtain ⟨ty, hty1, hlen, hget⟩ := hJ
        by_cases hqt : q1 = q ∧ s.t = t
        · obtain ⟨hq1q, hst⟩ := hqt
          subst hq1q
          have hsp : s.p = p := by
            have := DestinationsDisjoint_spec ops src_am fuel maps o hdisj s hs _ hs0 hst q1
              hq1 (by simpa using hq)
            exact this
          obtain ⟨-, -, package1, hpk1, hty2, he1⟩ := (mem_setToSlots o s).1 hs
          rw [hsp, hpk] at hpk1
          simp only [Option.some.injEq] at hpk1
          subst hpk1
          rw [hst, hty] at hty2
          simp only [Option.some.injEq] at hty2
          rw [hst, writeEntry_typeAt_same, hty1]
          have hn : ¬ ty.entries.length < s.type.entries.length := by
            rw [← hty2]
            omega
          simp only [hn, if_false]
          refine ⟨_, rfl, ?_, ?_⟩
          · simp only [List.length_set]
            exact hlen
          · by_cases hee : s.e = e
            · have hentry : s.entry = entry := by
                rw [← hty2, hee, he] at he1
                simp only [Option.some.injEq] at he1
                exact he1.symm
              rw [hentry, hd] at hd1
              rw [hentry, hc] at hc1
              simp only [Option.some.injEq] at hd1 hc1
              rw [hee, hentry, ← hd1, ← hc1]
              simp only [List.get?_eq_getElem?]
              apply List.getElem?_set_eq_of_lt
              omega
            · simp only [List.get?_eq_getElem?] at hget ⊢
              rw [List.getElem?_set_ne hee]
              exact hget
        · rw [writeEntry_typeAt_other uninit st.1 q1 s.t s.e s.type _ q t hqt]
          exact ⟨ty, hty1, hlen, hget⟩

theorem exists_of_map_fst {α β : Type} {x : Option (α × β)} {a : α}
    (h : x.map Prod.fst = some a) : ∃ b, x = some (a, b) := by
  cases x with
  | none => simp at h
  | some y =>
    obtain ⟨a1, b1⟩ := y
    simp only [Option.map_some', Option.some.injEq] at h
    subst h
    exact ⟨b1, rfl⟩

/-- When the loop body leaves the theme for the slot `e` of the type `t` of the package `p`,
and no other package of the source theme has a slot of type `t` sent to a destination package
of the slots of that type, the loop leaves the same theme for the source theme in which the
slot is unset. -/
theorem setToRun_unset {κ : Type} (ops : ResTable_configOps κ) (src_am : AssetManager2 κ)
    (fuel : Nat) (uninit : Nat → Nat → Nat) (maps : CookieMaps) (o : Theme)
    (hdisj : DestinationsDisjoint ops src_am fuel maps o = true)
    (p t e : Nat) (package : ThemePackage) (type : ThemeType) (entry : ThemeEntry)
    (hpk : o.packages_ p = some package) (hty : package.types t = some type)
    (he : type.entries.get? e = some entry)
    (hskip : ∀ st st1, setToEntry ops src_am fuel uninit maps p t type e entry st = some st1 →
      st1.1 = st.1) :
    ∀ (l : List SetToSlot), (∀ s ∈ l, s ∈ o.setToSlots) →
      ∀ (th : Theme) (lg lg1 : Resolution κ) (st1 : Theme × Resolution κ),
      (∀ q, (∃ s ∈ o.setToSlots, s.p = p ∧ s.t = t ∧
          destPackage ops src_am fuel maps s.p s.t s.e = some (some q)) →
        ∀ ty, th.typeAt q t = some ty → type.entries.length ≤ ty.entries.length) →
      setToRun ops src_am fuel uninit maps l (th, lg) = some st1 →
      (setToRun ops src_am fuel uninit maps (l.map (SetToSlot.unsetAt p t e)) (th, lg1)).map
        Prod.fst = some st1.1 := by
  intro l
  induction l with
  | nil =>
    intro _ th lg lg1 st1 _ h
    simp only [setToRun, Option.some.injEq] at h
    subst h
    rfl
  | cons s rest ih =>
    intro hmem th lg lg1 st1 hI h
    have hs := hmem s (List.mem_cons_self _ _)
    obtain ⟨-, -, package1, hpk1, hty1, he1⟩ := (mem_setToSlots o s).1 hs
    simp only [setToRun] at h
    cases hstep : setToEntry ops src_am fuel uninit maps s.p s.t s.type s.e s.entry
        (th, lg) with
    | none => rw [hstep] at h; simp at h
    | some st2 =>
      rw [hstep] at h
      simp only [] at h
      -- the step for the slot of the other theme leaves the same theme
      have hlog : (setToEntry ops src_am fuel uninit maps s.p s.t s.type s.e s.entry
          (th, lg1)).map Prod.fst = some st2.1 := by
        rw [setToEntry_log ops src_am fuel uninit maps s.p s.t s.type s.e s.entry th lg1 lg,
          hstep]
        rfl
      have hX : ∃ lg2, setToEntry ops src_am fuel uninit maps (SetToSlot.unsetAt p t e s).p
          (SetToSlot.unsetAt p t e s).t (SetToSlot.unsetAt p t e s).type
          (SetToSlot.unsetAt p t e s).e (SetToSlot.unsetAt p t e s).entry (th, lg1) =
            some (st2.1, lg2) := by
        by_cases hpt : s.p = p ∧ s.t = t
        · obtain ⟨hsp, hst⟩ := hpt
          rw [hsp, hpk] at hpk1
          simp only [Option.some.injEq] at hpk1
          subst hpk1
          rw [hst, hty] at hty1
          simp only [Option.some.injEq] at hty1
          simp only [SetToSlot.unsetAt, hsp, hst, and_self, if_true]
          by_cases hee : s.e = e
          · simp only [hee, if_true]
            have hentry : s.entry = entry := by
              rw [← hty1, hee, he] at he1
              simp only [Option.some.injEq] at he1
              exact he1.symm
            have hth : st2.1 = th := by
              have := hskip (th, lg) st2
                (by rw [← hstep, hsp, hst, ← hty1, hee, hentry])
              exact this
            rw [hth]
            exact ⟨lg1, by
              unfold setToEntry
              have : (ThemeEntry.zero.value.dataType == TYPE_NULL &&
                  ThemeEntry.zero.value.data != DATA_NULL_EMPTY) = true := by decide
              rw [if_pos this]⟩
          · simp only [hee, if_false]
            have hcongr := setToEntry_congr_type ops src_am fuel uninit maps p t type
              ⟨s.type.entries.set e ThemeEntry.zero⟩ s.e s.entry (th, lg1)
              (by simp only [List.length_set]; rw [← hty1])
              (fun q hq ty hty2 => hI q ⟨s, hs, hsp, hst, by rw [hsp, hst]; exact hq⟩ ty hty2)
            rw [hcongr]
            rw [hsp, hst, ← hty1] at hlog
            exact exists_of_map_fst hlog
        · simp only [SetToSlot.unsetAt, hpt, if_false]
          exact exists_of_map_fst hlog
      obtain ⟨lg2, hX⟩ := hX
      -- the bound on the destination types is kept
      have hY : ∀ q, (∃ s ∈ o.setToSlots, s.p = p ∧ s.t = t ∧
            destPackage ops src_am fuel maps s.p s.t s.e = some (some q)) →
          ∀ ty, st2.1.typeAt q t = some ty → type.entries.length ≤ ty.entries.length := by
        intro q hq ty hty2
        rcases setToEntry_cases ops src_am fuel uninit maps s.p s.t s.type s.e s.entry
          (th, lg) st2 hstep with hsame | ⟨q1, c1, d1, hq1, -, -, hw⟩
        · rw [hsame] at hty2
          exact hI q hq ty hty2
        · rw [hw] at hty2
          by_cases hqt : q1 = q ∧ s.t = t
          · obtain ⟨hq1q, hst⟩ := hqt
            subst hq1q
            obtain ⟨s', hs', hsp', hst', hq'⟩ := hq
            have hsp : s.p = p := by
              have := DestinationsDisjoint_spec ops src_am fuel maps o hdisj s hs s' hs'
                (by rw [hst, hst']) q1 hq1 hq'
              rw [this, hsp']
            rw [hsp, hpk] at hpk1
            simp only [Option.some.injEq] at hpk1
            subst hpk1
            rw [hst, hty] at hty1
            simp only [Option.some.injEq] at hty1
            rw [hst, writeEntry_typeAt_same] at hty2
            simp only [Option.some.injEq] at hty2
            rw [← hty2]
            simp only [List.length_set]
            cases hold : (th, lg).1.typeAt q1 t with
            | none =>
              simp only [zeroedBlock_length]
              rw [← hty1]
            | some dty =>
              have hb := hI q1 ⟨s', hs', hsp', hst', hq'⟩ dty hold
              have hn : ¬ dty.entries.length < s.type.entries.length := by
                rw [← hty1]
                omega
              simp only [hn, if_false]
              exact hb
          · rw [writeEntry_typeAt_other uninit _ q1 s.t s.e s.type _ q t hqt] at hty2
            exact hI q hq ty hty2
      have hrest := ih (fun s' hs' => hmem s' (List.mem_cons_of_mem _ hs')) st2.1 st2.2 lg2
        st1 hY h
      simp only [List.map_cons, setToRun, hX]
      exact hrest

/-- C23, amended (cross-engine `SetTo`, missing owner).  Let `SetTo` copy the theme `o` of the
engine `src_am` into a theme of the engine `am` and return the theme `dst1`; let `maps` be the
maps it builds, and let no two packages of `o` have slots of one type index whose attributes
are sent to the same destination package.  Let `entry`, the slot `e` of the type `t` of the
package `p` of `o`, be set and owned by a bundle (its cookie) for which `am` holds no bundle of
the same path.  If the value is a reference or a string, the entry is not copied: `SetTo`
returns the same theme `dst1` for the source theme in which the slot is unset.  For any other
value: if the attribute of the slot has the destination package `q` (which is `0x01` when `p`
is `0x01`, and else the id to which the package map of the bundle in which `FindEntry` of the
source engine finds the attribute sends `p`), the slot `e` of the type `t` of the package `q`
of `dst1` holds the cookie 0, the flags and the value of the entry; if the attribute has no
destination package, the entry is not copied.  The last part describes the maps by the two
bundle lists. -/
theorem SetTo_missing_owner_theme {κ : Type} [DecidableEq κ] (ops : ResTable_configOps κ)
    (fuel : Nat) (uninit : Nat → Nat → Nat) (am src_am : AssetManager2 κ) (theme o : Theme)
    (maps : CookieMaps) (p t e : Nat) (package : ThemePackage) (type : ThemeType)
    (entry : ThemeEntry) (dst1 : Theme) (log1 : Resolution κ)
    (hmaps : matchBundles src_am am src_am.apk_assets_ 0 ⟨[], []⟩ = some maps)
    (hdisj : DestinationsDisjoint ops src_am fuel maps o = true)
    (hp : p < kPackageCount) (ht : t < kTypeCount)
    (hpk : o.packages_ p = some package) (hty : package.types t = some type)
    (he : type.entries.get? e = some entry)
    (hset : ¬ (entry.value.dataType = TYPE_NULL ∧ entry.value.data ≠ DATA_NULL_EMPTY))
    (hown : ∀ a, src_am.apk_assets_[entry.cookie]? = some a →
      ∀ d ∈ am.apk_assets_, d.path ≠ a.path)
    (h : SetTo ops fuel uninit am theme (ThemeRef.other_asset_manager o src_am) =
      some (dst1, log1)) :
    ((is_reference entry.value = true ∨ entry.value.dataType = TYPE_STRING) →
      (SetTo ops fuel uninit am theme
        (ThemeRef.other_asset_manager (o.unsetSlot p t e) src_am)).map Prod.fst = some dst1) ∧
    (is_reference entry.value = false → entry.value.dataType ≠ TYPE_STRING →
      (∀ q, destPackage ops src_am fuel maps p t e = some (some q) →
        dst1.entryAt q t e = some ⟨0, entry.type_spec_flags, entry.value⟩) ∧
      (destPackage ops src_am fuel maps p t e = some none →
        (SetTo ops fuel uninit am theme
          (ThemeRef.other_asset_manager (o.unsetSlot p t e) src_am)).map Prod.fst =
            some dst1)) ∧
    (p = 1 → destPackage ops src_am fuel maps p t e = some (some 1)) ∧
    (p ≠ 1 → destPackage ops src_am fuel maps p t e =
      (FindEntry ops src_am fuel (make_resid p t e) 0 true src_am.last_resolution_).map
        (fun r => (r.2.bind (fun x => maps.src_asset_cookie_id_map.lookup x.1)).bind
          (fun m => m.lookup p))) ∧
    (∀ c, maps.src_to_dest_asset_cookies.lookup c =
        src_am.apk_assets_[c]?.bind (fun a =>
          (findSamePath a.path am.apk_assets_ 0).map (fun jd => jd.1)) ∧
      maps.src_asset_cookie_id_map.lookup c =
        src_am.apk_assets_[c]?.bind (fun a =>
          (findSamePath a.path am.apk_assets_ 0).bind
            (fun jd => buildPackageMap src_am am a jd.2))) := by
  have hch := matchBundles_maps src_am am maps hmaps
  have hnone : ∀ a, src_am.apk_assets_[entry.cookie]? = some a →
      findSamePath a.path am.apk_assets_ 0 = none :=
    fun a ha => (findSamePath_none a.path am.apk_assets_ 0).2 (hown a ha)
  have hc1 : maps.src_to_dest_asset_cookies.lookup entry.cookie = none := by
    rw [(hch entry.cookie).1]
    cases ha : src_am.apk_assets_[entry.cookie]? with
    | none => rfl
    | some a => simp only [Option.some_bind, hnone a ha, Option.map_none']
  have hc2 : maps.src_asset_cookie_id_map.lookup entry.cookie = none := by
    rw [(hch entry.cookie).2]
    cases ha : src_am.apk_assets_[entry.cookie]? with
    | none => rfl
    | some a => simp only [Option.some_bind, hnone a ha, Option.none_bind]
  have hset1 : (entry.value.dataType == TYPE_NULL && entry.value.data != DATA_NULL_EMPTY) =
      false := by
    rw [Bool.eq_false_iff]
    intro hc
    simp only [Bool.and_eq_true, beq_iff_eq, bne_iff_ne, ne_eq] at hc
    exact hset hc
  have hrun := SetTo_eq_run ops fuel uninit am src_am theme o maps hmaps
  rw [h] at hrun
  -- the run for the theme in which the slot is unset
  have hunset : (∀ st st1, setToEntry ops src_am fuel uninit maps p t type e entry st =
        some st1 → st1.1 = st.1) →
      (SetTo ops fuel uninit am theme
        (ThemeRef.other_asset_manager (o.unsetSlot p t e) src_am)).map Prod.fst =
          some dst1 := by
    intro hskip
    rw [SetTo_eq_run ops fuel uninit am src_am theme (o.unsetSlot p t e) maps hmaps,
      unsetSlot_setToSlots]
    have := setToRun_unset ops src_am fuel uninit maps o hdisj p t e package type entry hpk
      hty he hskip o.setToSlots (fun s hs => hs)
      { type_spec_flags_ := o.type_spec_flags_
        packages_ := fun p => if p < kPackageCount then none else theme.packages_ p }
      src_am.last_resolution_ src_am.last_resolution_ (dst1, log1)
      (by
        intro q hq ty hty2
        obtain ⟨s, hs, hsp, hst, hdq⟩ := hq
        have hlt := destPackage_lt ops src_am am fuel maps hmaps s.p s.t s.e q
          ((mem_setToSlots o s).1 hs).1 hdq
        simp only [Theme.typeAt, hlt, if_true, Option.none_bind] at hty2
        exact absurd hty2 (by simp))
      hrun.symm
    exact this
  refine ⟨?_, ?_, ?_, ?_, hch⟩
  · intro hrs
    apply hunset
    intro st st1 hst
    unfold setToEntry at hst
    rw [hset1] at hst
    simp only [Bool.false_eq_true, if_false] at hst
    cases hr : is_reference entry.value with
    | true =>
      simp only [attributeData, hr, if_true, hc2, Option.some.injEq] at hst
      rw [← hst]
    | false =>
      have hs : entry.value.dataType = TYPE_STRING := by
        rcases hrs with h1 | h1
        · rw [hr] at h1; exact absurd h1 (by simp)
        · exact h1
      simp only [attributeData, hr, Bool.false_eq_true, if_false, dataDestCookie, hc1, hs,
        beq_self_eq_true, Bool.or_true, if_true, Option.some.injEq] at hst
      rw [← hst]
  · intro hr hs
    have hs1 : (entry.value.dataType == TYPE_STRING) = false := by simpa using hs
    have hd : attributeData maps entry = some entry.value.data := by
      simp only [attributeData, hr, Bool.false_eq_true, if_false]
    have hc : dataDestCookie maps entry = some 0 := by
      simp only [dataDestCookie, hc1, hr, hs1, Bool.or_false, Bool.false_eq_true, if_false]
    refine ⟨?_, ?_⟩
    · intro q hq
      have hs0 : (⟨p, t, type, e, entry⟩ : SetToSlot) ∈ o.setToSlots :=
        (mem_setToSlots o _).2 ⟨hp, ht, package, hpk, hty, he⟩
      obtain ⟨pre, post, hsplit⟩ := List.append_of_mem hs0
      have hmem : ∀ s ∈ post, s ∈ o.setToSlots := by
        intro s hs'
        rw [hsplit]
        exact List.mem_append_right _ (List.mem_cons_of_mem _ hs')
      rw [hsplit, setToRun_append] at hrun
      cases hpre : setToRun ops src_am fuel uninit maps pre
          ({ type_spec_flags_ := o.type_spec_flags_
             packages_ := fun p => if p < kPackageCount then none else theme.packages_ p },
            src_am.last_resolution_) with
      | none => rw [hpre] at hrun; simp at hrun
      | some st1 =>
        rw [hpre] at hrun
        simp only [Option.some_bind, setToRun] at hrun
        have hw := setToEntry_write ops src_am fuel uninit maps p t type e entry st1 q 0
          entry.value.data hset1 hd hc hq
        cases hstep : setToEntry ops src_am fuel uninit maps p t type e entry st1 with
        | none => rw [hstep] at hrun; simp at hrun
        | some st2 =>
          rw [hstep] at hrun hw
          simp only [Option.map_some', Option.some.injEq] at hw
          simp only [] at hrun
          have helt : e < type.entries.length := by
            rw [List.get?_eq_getElem?] at he
            exact getElem?_some_lt he
          have hJ : ∃ ty, st2.1.typeAt q t = some ty ∧
              type.entries.length ≤ ty.entries.length ∧
              ty.entries.get? e =
                some ⟨0, entry.type_spec_flags, ⟨entry.value.dataType, entry.value.data⟩⟩ := by
            rw [hw, writeEntry_typeAt_same]
            refine ⟨_, rfl, ?_, ?_⟩
            · simp only [List.length_set]
              cases st1.1.typeAt q t with
              | none => simp only [zeroedBlock_length]; exact le_refl _
              | some dty =>
                simp only []
                split
                · simp only [List.length_append, List.length_take, List.length_drop,
                    zeroedBlock_length]
                  omega
                · omega
            · simp only [List.get?_eq_getElem?]
              apply List.getElem?_set_eq_of_lt
              cases st1.1.typeAt q t with
              | none => simp only [zeroedBlock_length]; exact helt
              | some dty =>
                simp only []
                split
                · simp only [List.length_append, List.length_take, List.length_drop,
                    zeroedBlock_length]
                  omega
                · omega
          obtain ⟨ty, hty1, -, hget⟩ := setToRun_keeps ops src_am fuel uninit maps o hdisj p t
            e q 0 entry.value.data package type entry hp ht hpk hty he hq hd hc post hmem st2
            (dst1, log1) hrun.symm hJ
          rw [entryAt_eq_typeAt, hty1]
          exact hget
    · intro hq
      apply hunset
      intro st st1 hst
      rcases setToEntry_cases ops src_am fuel uninit maps p t type e entry st st1 hst with
        h1 | ⟨q, c, d, hq1, -, -, -⟩
      · exact h1
      · rw [hq] at hq1
        simp at hq1
  · intro hp1
    subst hp1
    rfl
  · intro hp1
    have hp2 : (p != 0x01) = true := by simpa using hp1
    unfold destPackage attributeDestPackageId
    simp only [hp2, if_true]
    cases FindEntry ops src_am fuel (make_resid p t e) 0 true src_am.last_resolution_ with
    | none => rfl
    | some x =>
      obtain ⟨log, r⟩ := x
      cases r with
      | none => rfl
      | some cr =>
        obtain ⟨c, res⟩ := cr
        simp only [Option.map_some', Option.some_bind]
        cases maps.src_asset_cookie_id_map.lookup c with
        | none => rfl
        | some m =>
          simp only [Option.some_bind]
          cases m.lookup p <;> rfl

set_option maxRecDepth 8000 in
/-- Witness of the amended C23 on `sampleSourceTheme`, copied from `sampleSourceEngine` into a new
theme of `sampleLibraryEngine`, which does not hold the helper (the bundle 0 of the source).
No two packages of the theme are sent to one destination package.  The integer 42 (slot 2 of
type 1 of package `0x01`) is owned by the helper: its attribute has the destination package
`0x01`, and after `SetTo` the slot holds it with the cookie 0.  The string of slot 1 is owned
by the helper too: `SetTo` returns the same theme when the slot is unset in the source. -/
theorem SetTo_missing_owner_theme_witness :
    DestinationsDisjoint sampleOps sampleSourceEngine 2 sampleMaps sampleSourceTheme = true ∧
    destPackage sampleOps sampleSourceEngine 2 sampleMaps 1 1 2 = some (some 1) ∧
    (SetTo sampleOps 2 (fun _ _ => 0) sampleLibraryEngine Theme.new
        (ThemeRef.other_asset_manager sampleSourceTheme sampleSourceEngine)).map
      (fun r => r.1.entryAt 1 1 2) = some (some ⟨0, 0, ⟨16, 42⟩⟩) ∧
    (SetTo sampleOps 2 (fun _ _ => 0) sampleLibraryEngine Theme.new
        (ThemeRef.other_asset_manager (sampleSourceTheme.unsetSlot 1 1 1)
          sampleSourceEngine)).map Prod.fst =
      (SetTo sampleOps 2 (fun _ _ => 0) sampleLibraryEngine Theme.new
        (ThemeRef.other_asset_manager sampleSourceTheme sampleSourceEngine)).map Prod.fst := by
  have hsome : (SetTo sampleOps 2 (fun _ _ => 0) sampleLibraryEngine Theme.new
      (ThemeRef.other_asset_manager sampleSourceTheme sampleSourceEngine)).isSome = true := by
    rfl
  have hown : ∀ a, sampleSourceEngine.apk_assets_[0]? = some a →
      ∀ d ∈ sampleLibraryEngine.apk_assets_, d.path ≠ a.path := by
    intro a ha d hd
    have h1 : sampleSourceEngine.apk_assets_ = [sampleHelperApk, sampleLibraryApk] := rfl
    have h2 : sampleLibraryEngine.apk_assets_ = [sampleLibraryApk] := rfl
    rw [h1] at ha
    rw [h2] at hd
    simp only [List.getElem?_cons_zero, Option.some.injEq] at ha
    simp only [List.mem_singleton] at hd
    rw [← ha, hd]
    decide
  cases h : SetTo sampleOps 2 (fun _ _ => 0) sampleLibraryEngine Theme.new
      (ThemeRef.other_asset_manager sampleSourceTheme sampleSourceEngine) with
  | none =>
    rw [h] at hsome
    exact absurd hsome (by decide)
  | some r =>
    obtain ⟨dst1, log1⟩ := r
    have h42 := SetTo_missing_owner_theme sampleOps 2 (fun _ _ => 0) sampleLibraryEngine
      sampleSourceEngine Theme.new sampleSourceTheme sampleMaps 1 1 2
      ⟨fun t => if t = 1 then some ⟨sampleSourceSlots⟩ else none⟩ ⟨sampleSourceSlots⟩
      ⟨0, 0, ⟨16, 42⟩⟩ dst1 log1 (by rfl) (by rfl) (by decide) (by decide) (by rfl) (by rfl)
      (by rfl) (by decide) hown h
    have hstr := SetTo_missing_owner_theme sampleOps 2 (fun _ _ => 0) sampleLibraryEngine
      sampleSourceEngine Theme.new sampleSourceTheme sampleMaps 1 1 1
      ⟨fun t => if t = 1 then some ⟨sampleSourceSlots⟩ else none⟩ ⟨sampleSourceSlots⟩
      ⟨0, 0, ⟨TYPE_STRING, 7⟩⟩ dst1 log1 (by rfl) (by rfl) (by decide) (by decide) (by rfl)
      (by rfl) (by rfl) (by decide) hown h
    refine ⟨by rfl, h42.2.2.1 rfl, ?_, ?_⟩
    · simp only [Option.map_some']
      rw [(h42.2.1 (by rfl) (by decide)).1 1 (h42.2.2.1 rfl)]
    · rw [hstr.1 (Or.inr rfl)]
      rfl

/-! ## C24: the resize of a destination type -/

set_option maxRecDepth 8000 in
/-- C24 (cross-engine `SetTo`, value remap), failing input.  `sampleEngine` holds the bundle
`/data/base.apk` with one package of the assigned id `0x7f`; `sampleRenumberedEngine` holds a
bundle of the same path whose package has the assigned id `0x01`, so the maps send the cookie 0
to 0 and the package id `0x7f` to `0x01`.  In `sampleCollidingTheme` the slot 1 of type 1 of
package `0x01` is a reference to `0x7f010000` owned by the bundle 0; copied alone (the theme
without its package `0x7f`) it is stored in the slot 1 of type 1 of package `0x01` of the
destination as a reference to `0x01010000`.  The slot 1 of type 1 of package `0x7f` is a
reference to `0x02010000`, and `0x02` is not the assigned id of a package of the bundle: its
iteration leaves the destination theme as it is.  Both packages are sent to the destination
package `0x01`, and the type of package `0x7f` has three slots where the type of package `0x01`
has two.  After `SetTo` of the whole theme the slot 1 of type 1 of package `0x01` of the
destination holds the reference to `0x02010000` of the source package `0x7f`: the value
written for the first reference is gone and the entry that is not copied is there. -/
theorem SetTo_resize_counterexample (uninit : Nat → Nat → Nat) :
    matchBundles sampleEngine sampleRenumberedEngine sampleEngine.apk_assets_ 0 ⟨[], []⟩ =
      some ⟨[(0, 0)], [(0, [(0x7f, 0x01)])]⟩ ∧
    sampleEngine.apk_assets_ = [sampleApk] ∧
    sampleRenumberedEngine.apk_assets_ = [sampleRenumberedApk] ∧
    sampleApk.path = sampleRenumberedApk.path ∧
    sampleApk.packages = [samplePackage] ∧
    sampleRenumberedApk.packages = [sampleRenumberedPackage] ∧
    GetAssignedPackageId sampleEngine samplePackage = 0x7f ∧
    GetAssignedPackageId sampleRenumberedEngine sampleRenumberedPackage = 0x01 ∧
    sampleCollidingTheme.entryAt 0x01 1 1 = some ⟨0, 0x0004, ⟨TYPE_REFERENCE, 0x7f010000⟩⟩ ∧
    sampleCollidingTheme.entryAt 0x7f 1 1 = some ⟨0, 0, ⟨TYPE_REFERENCE, 0x02010000⟩⟩ ∧
    destPackage sampleOps sampleEngine 1 ⟨[(0, 0)], [(0, [(0x7f, 0x01)])]⟩ 0x01 1 1 =
      some (some 0x01) ∧
    destPackage sampleOps sampleEngine 1 ⟨[(0, 0)], [(0, [(0x7f, 0x01)])]⟩ 0x7f 1 0 =
      some (some 0x01) ∧
    (SetTo sampleOps 1 uninit sampleRenumberedEngine Theme.new
        (ThemeRef.other_asset_manager sampleFrameworkTheme sampleEngine)).map
      (fun r => r.1.entryAt 0x01 1 1) =
        some (some ⟨0, 0x0004, ⟨TYPE_REFERENCE, 0x01010000⟩⟩) ∧
    (∀ st, setToEntry sampleOps sampleEngine 1 uninit ⟨[(0, 0)], [(0, [(0x7f, 0x01)])]⟩ 0x7f 1
        ⟨sampleAppSlots⟩ 1 ⟨0, 0, ⟨TYPE_REFERENCE, 0x02010000⟩⟩ st = some st) ∧
    (SetTo sampleOps 1 uninit sampleRenumberedEngine Theme.new
        (ThemeRef.other_asset_manager sampleCollidingTheme sampleEngine)).map
      (fun r => (r.1.entryAt 0x01 1 0, r.1.entryAt 0x01 1 1)) =
        some (some ⟨0, 0, ⟨16, 7⟩⟩, some ⟨0, 0, ⟨TYPE_REFERENCE, 0x02010000⟩⟩) :=
  ⟨by rfl, by rfl, by rfl, by rfl, by rfl, by rfl, by rfl, by rfl, by rfl, by rfl, by rfl,
    by rfl, by rfl, fun _ => by rfl, by rfl⟩

end android
